import Mathlib

/-!
Verification of sse2neon: shuffle, movemask, carry-less multiply, the AES
round, integer compares and shifts, and the float-to-integer conversions.

A shallow embedding of the algorithmic core of `sse2neon.h`
(`src/soxr/src/sse2neon.h`).

A 128-bit vector register (a NEON Q register) and a 64-bit half register
(a NEON D register) are natural numbers holding the register's bits, lane 0 in
the least significant position (the little-endian layout of the target).  A
typed view of a register is a choice of lane width: `lane w x i` reads lane `i`
of width `w`, `pack w f n` builds a register from `n` lanes of width `w`.
Reinterpretation casts (`vreinterpretq_*`) do not change the bits, so they are
the identity on this representation.

The NEON intrinsics the header is written against (`vget_low_f32`,
`vcombine_f32`, `vextq_f32`, `vmull_p8`, ...) are not part of the header; they
are embedded here after their definition in the Arm architecture reference
(per-lane pseudocode).  Every operation reads only the bits of its operands
that belong to the register width and always returns a value that fits the
result register.

Single-precision lanes are bit patterns; their values are decoded exactly (a
sign and a magnitude in units of `2^-149`) and every rounding step of the
arithmetic is explicit.
-/

namespace Sse2neon

/-! ## Registers as lanes -/

/-- Lane `i` of the `w`-bit-lane view of the register value `x`. -/
def lane (w x i : Nat) : Nat := x / 2 ^ (w * i) % 2 ^ w

/-- The register whose `w`-bit lanes `0 .. n-1` are `f 0 .. f (n-1)`, each
truncated to `w` bits. -/
def pack (w : Nat) (f : Nat → Nat) : Nat → Nat
  | 0 => 0
  | n + 1 => pack w f n + f n % 2 ^ w * 2 ^ (w * n)

/-! ## NEON primitives on four 32-bit lanes (`float32x4_t`, `int32x4_t`) and
on two 32-bit lanes (`float32x2_t`, `int32x2_t`) -/

/-- Low half of a Q register, as a D register of two 32-bit lanes. -/
def vget_low_f32 (a : Nat) : Nat := pack 32 (fun i => lane 32 a i) 2

/-- High half of a Q register, as a D register of two 32-bit lanes. -/
def vget_high_f32 (a : Nat) : Nat := pack 32 (fun i => lane 32 a (i + 2)) 2

/-- Q register whose low half is `lo` and high half is `hi`. -/
def vcombine_f32 (lo hi : Nat) : Nat :=
  pack 32 (fun i => if i < 2 then lane 32 lo i else lane 32 hi (i - 2)) 4

/-- Reverse the two 32-bit lanes of a D register. -/
def vrev64_f32 (d : Nat) : Nat := pack 32 (fun i => lane 32 d (1 - i)) 2

/-- Extract four consecutive lanes, starting at lane `n` of `a`, from the pair
`a` (low) and `b` (high). -/
def vextq_f32 (a b n : Nat) : Nat :=
  pack 32 (fun i => if i + n < 4 then lane 32 a (i + n) else lane 32 b (i + n - 4)) 4

/-- Broadcast lane `k` of a D register to both lanes of a D register. -/
def vdup_lane_f32 (d k : Nat) : Nat := pack 32 (fun _ => lane 32 d k) 2

/-- Read lane `k` of a Q register. -/
def vgetq_lane_f32 (a k : Nat) : Nat := lane 32 a k

/-- Replace lane `k` of the D register `d` by `v`. -/
def vset_lane_f32 (v d k : Nat) : Nat :=
  pack 32 (fun i => if i = k then v else lane 32 d i) 2

/-- Replace lane `k` of the Q register `q` by `v`. -/
def vsetq_lane_f32 (v q k : Nat) : Nat :=
  pack 32 (fun i => if i = k then v else lane 32 q i) 4

/-- Broadcast the scalar `v` to the four lanes of a Q register. -/
def vmovq_n_f32 (v : Nat) : Nat := pack 32 (fun _ => v) 4

/-- Signed-integer view of `vget_low_f32`: same bits. -/
def vget_low_s32 (a : Nat) : Nat := pack 32 (fun i => lane 32 a i) 2

/-- Signed-integer view of `vget_high_f32`: same bits. -/
def vget_high_s32 (a : Nat) : Nat := pack 32 (fun i => lane 32 a (i + 2)) 2

/-- Signed-integer view of `vcombine_f32`. -/
def vcombine_s32 (lo hi : Nat) : Nat :=
  pack 32 (fun i => if i < 2 then lane 32 lo i else lane 32 hi (i - 2)) 4

/-- Signed-integer view of `vrev64_f32`. -/
def vrev64_s32 (d : Nat) : Nat := pack 32 (fun i => lane 32 d (1 - i)) 2

/-- Signed-integer view of `vextq_f32`. -/
def vextq_s32 (a b n : Nat) : Nat :=
  pack 32 (fun i => if i + n < 4 then lane 32 a (i + n) else lane 32 b (i + n - 4)) 4

/-- Signed-integer view of `vdup_lane_f32`. -/
def vdup_lane_s32 (d k : Nat) : Nat := pack 32 (fun _ => lane 32 d k) 2

/-- Read lane `k` of a Q register of 32-bit integers. -/
def vgetq_lane_s32 (a k : Nat) : Nat := lane 32 a k

/-- Replace lane `k` of the Q register `q` of 32-bit integers by `v`. -/
def vsetq_lane_s32 (v q k : Nat) : Nat :=
  pack 32 (fun i => if i = k then v else lane 32 q i) 4

/-- Broadcast the 32-bit integer `v` to the four lanes of a Q register. -/
def vmovq_n_s32 (v : Nat) : Nat := pack 32 (fun _ => v) 4

/-- Broadcast the 32-bit integer `v` to the four lanes of a Q register. -/
def vdupq_n_s32 (v : Nat) : Nat := pack 32 (fun _ => v) 4

/-- Broadcast lane `k` of a Q register to the four lanes of a Q register. -/
def vdupq_laneq_s32 (a k : Nat) : Nat := pack 32 (fun _ => lane 32 a k) 4

/-! ## The permutation dispatcher (`_mm_shuffle_ps`, `_mm_shuffle_epi32`) -/

/-- The compiler builtin `__builtin_shufflevector(v1, v2, i0, i1, i2, i3)` on
vectors of four 32-bit lanes: result lane `k` is lane `ik` of the
concatenation of `v1` (indices 0..3) and `v2` (indices 4..7). -/
def __builtin_shufflevector (v1 v2 i0 i1 i2 i3 : Nat) : Nat :=
  pack 32 (fun k =>
    let idx := if k = 0 then i0 else if k = 1 then i1 else if k = 2 then i2 else i3
    if idx < 4 then lane 32 v1 idx else lane 32 v2 (idx - 4)) 4

/-- The macro `_MM_SHUFFLE(fp3, fp2, fp1, fp0)`. -/
def _MM_SHUFFLE (fp3 fp2 fp1 fp0 : Nat) : Nat :=
  (fp3 <<< 6) ||| (fp2 <<< 4) ||| (fp1 <<< 2) ||| fp0

/-- `_mm_movehl_ps(__A, __B)`. -/
def _mm_movehl_ps (A B : Nat) : Nat :=
  let a32 := vget_high_f32 A
  let b32 := vget_high_f32 B
  vcombine_f32 b32 a32

/-- `_mm_movelh_ps(__A, __B)`. -/
def _mm_movelh_ps (A B : Nat) : Nat :=
  let a10 := vget_low_f32 A
  let b10 := vget_low_f32 B
  vcombine_f32 a10 b10

/-- `_mm_shuffle_ps_1032(a, b)`. -/
def _mm_shuffle_ps_1032 (a b : Nat) : Nat :=
  let a32 := vget_high_f32 a
  let b10 := vget_low_f32 b
  vcombine_f32 a32 b10

/-- `_mm_shuffle_ps_2301(a, b)`. -/
def _mm_shuffle_ps_2301 (a b : Nat) : Nat :=
  let a01 := vrev64_f32 (vget_low_f32 a)
  let b23 := vrev64_f32 (vget_high_f32 b)
  vcombine_f32 a01 b23

/-- `_mm_shuffle_ps_0321(a, b)`. -/
def _mm_shuffle_ps_0321 (a b : Nat) : Nat :=
  let a21 := vget_high_f32 (vextq_f32 a a 3)
  let b03 := vget_low_f32 (vextq_f32 b b 3)
  vcombine_f32 a21 b03

/-- `_mm_shuffle_ps_2103(a, b)`. -/
def _mm_shuffle_ps_2103 (a b : Nat) : Nat :=
  let a03 := vget_low_f32 (vextq_f32 a a 3)
  let b21 := vget_high_f32 (vextq_f32 b b 3)
  vcombine_f32 a03 b21

/-- `_mm_shuffle_ps_1010(a, b)`. -/
def _mm_shuffle_ps_1010 (a b : Nat) : Nat :=
  let a10 := vget_low_f32 a
  let b10 := vget_low_f32 b
  vcombine_f32 a10 b10

/-- `_mm_shuffle_ps_1001(a, b)`. -/
def _mm_shuffle_ps_1001 (a b : Nat) : Nat :=
  let a01 := vrev64_f32 (vget_low_f32 a)
  let b10 := vget_low_f32 b
  vcombine_f32 a01 b10

/-- `_mm_shuffle_ps_0101(a, b)`. -/
def _mm_shuffle_ps_0101 (a b : Nat) : Nat :=
  let a01 := vrev64_f32 (vget_low_f32 a)
  let b01 := vrev64_f32 (vget_low_f32 b)
  vcombine_f32 a01 b01

/-- `_mm_shuffle_ps_3210(a, b)`. -/
def _mm_shuffle_ps_3210 (a b : Nat) : Nat :=
  let a10 := vget_low_f32 a
  let b32 := vget_high_f32 b
  vcombine_f32 a10 b32

/-- `_mm_shuffle_ps_0011(a, b)`. -/
def _mm_shuffle_ps_0011 (a b : Nat) : Nat :=
  let a11 := vdup_lane_f32 (vget_low_f32 a) 1
  let b00 := vdup_lane_f32 (vget_low_f32 b) 0
  vcombine_f32 a11 b00

/-- `_mm_shuffle_ps_0022(a, b)`. -/
def _mm_shuffle_ps_0022 (a b : Nat) : Nat :=
  let a22 := vdup_lane_f32 (vget_high_f32 a) 0
  let b00 := vdup_lane_f32 (vget_low_f32 b) 0
  vcombine_f32 a22 b00

/-- `_mm_shuffle_ps_2200(a, b)`. -/
def _mm_shuffle_ps_2200 (a b : Nat) : Nat :=
  let a00 := vdup_lane_f32 (vget_low_f32 a) 0
  let b22 := vdup_lane_f32 (vget_high_f32 b) 0
  vcombine_f32 a00 b22

/-- `_mm_shuffle_ps_3202(a, b)`. -/
def _mm_shuffle_ps_3202 (a b : Nat) : Nat :=
  let a0 := vgetq_lane_f32 a 0
  let a22 := vdup_lane_f32 (vget_high_f32 a) 0
  let a02 := vset_lane_f32 a0 a22 1
  let b32 := vget_high_f32 b
  vcombine_f32 a02 b32

/-- `_mm_shuffle_ps_1133(a, b)`. -/
def _mm_shuffle_ps_1133 (a b : Nat) : Nat :=
  let a33 := vdup_lane_f32 (vget_high_f32 a) 1
  let b11 := vdup_lane_f32 (vget_low_f32 b) 1
  vcombine_f32 a33 b11

/-- `_mm_shuffle_ps_2010(a, b)`. -/
def _mm_shuffle_ps_2010 (a b : Nat) : Nat :=
  let a10 := vget_low_f32 a
  let b2 := vgetq_lane_f32 b 2
  let b00 := vdup_lane_f32 (vget_low_f32 b) 0
  let b20 := vset_lane_f32 b2 b00 1
  vcombine_f32 a10 b20

/-- `_mm_shuffle_ps_2001(a, b)`. -/
def _mm_shuffle_ps_2001 (a b : Nat) : Nat :=
  let a01 := vrev64_f32 (vget_low_f32 a)
  let b2 := vgetq_lane_f32 b 2
  let b00 := vdup_lane_f32 (vget_low_f32 b) 0
  let b20 := vset_lane_f32 b2 b00 1
  vcombine_f32 a01 b20

/-- `_mm_shuffle_ps_2032(a, b)`. -/
def _mm_shuffle_ps_2032 (a b : Nat) : Nat :=
  let a32 := vget_high_f32 a
  let b2 := vgetq_lane_f32 b 2
  let b00 := vdup_lane_f32 (vget_low_f32 b) 0
  let b20 := vset_lane_f32 b2 b00 1
  vcombine_f32 a32 b20

/-- The macro `_mm_shuffle_ps_default(a, b, imm)`: one broadcast and three
indexed lane writes. -/
def _mm_shuffle_ps_default (a b imm : Nat) : Nat :=
  let ret := vmovq_n_f32 (vgetq_lane_f32 a (imm &&& 0x3))
  let ret := vsetq_lane_f32 (vgetq_lane_f32 a ((imm >>> 2) &&& 0x3)) ret 1
  let ret := vsetq_lane_f32 (vgetq_lane_f32 b ((imm >>> 4) &&& 0x3)) ret 2
  let ret := vsetq_lane_f32 (vgetq_lane_f32 b ((imm >>> 6) &&& 0x3)) ret 3
  ret

/-- The macro `_mm_shuffle_ps(a, b, imm)`.  `has_builtin` selects the
`#if __has_builtin(__builtin_shufflevector)` variant, which lowers to the
builtin with statically computed indices; otherwise the generic variant is
used: a `switch` over the catalogued codes with `_mm_shuffle_ps_default` as
the default case. -/
def _mm_shuffle_ps (has_builtin : Bool) (a b imm : Nat) : Nat :=
  if has_builtin then
    let _input1 := a
    let _input2 := b
    let _shuf := __builtin_shufflevector _input1 _input2 (imm &&& 0x3) ((imm >>> 2) &&& 0x3)
      (((imm >>> 4) &&& 0x3) + 4) (((imm >>> 6) &&& 0x3) + 4)
    _shuf
  else if imm = _MM_SHUFFLE 1 0 3 2 then _mm_shuffle_ps_1032 a b
  else if imm = _MM_SHUFFLE 2 3 0 1 then _mm_shuffle_ps_2301 a b
  else if imm = _MM_SHUFFLE 0 3 2 1 then _mm_shuffle_ps_0321 a b
  else if imm = _MM_SHUFFLE 2 1 0 3 then _mm_shuffle_ps_2103 a b
  else if imm = _MM_SHUFFLE 1 0 1 0 then _mm_movelh_ps a b
  else if imm = _MM_SHUFFLE 1 0 0 1 then _mm_shuffle_ps_1001 a b
  else if imm = _MM_SHUFFLE 0 1 0 1 then _mm_shuffle_ps_0101 a b
  else if imm = _MM_SHUFFLE 3 2 1 0 then _mm_shuffle_ps_3210 a b
  else if imm = _MM_SHUFFLE 0 0 1 1 then _mm_shuffle_ps_0011 a b
  else if imm = _MM_SHUFFLE 0 0 2 2 then _mm_shuffle_ps_0022 a b
  else if imm = _MM_SHUFFLE 2 2 0 0 then _mm_shuffle_ps_2200 a b
  else if imm = _MM_SHUFFLE 3 2 0 2 then _mm_shuffle_ps_3202 a b
  else if imm = _MM_SHUFFLE 3 2 3 2 then _mm_movehl_ps b a
  else if imm = _MM_SHUFFLE 1 1 3 3 then _mm_shuffle_ps_1133 a b
  else if imm = _MM_SHUFFLE 2 0 1 0 then _mm_shuffle_ps_2010 a b
  else if imm = _MM_SHUFFLE 2 0 0 1 then _mm_shuffle_ps_2001 a b
  else if imm = _MM_SHUFFLE 2 0 3 2 then _mm_shuffle_ps_2032 a b
  else _mm_shuffle_ps_default a b imm

/-- `_mm_shuffle_epi_1032(a)`. -/
def _mm_shuffle_epi_1032 (a : Nat) : Nat :=
  let a32 := vget_high_s32 a
  let a10 := vget_low_s32 a
  vcombine_s32 a32 a10

/-- `_mm_shuffle_epi_2301(a)`. -/
def _mm_shuffle_epi_2301 (a : Nat) : Nat :=
  let a01 := vrev64_s32 (vget_low_s32 a)
  let a23 := vrev64_s32 (vget_high_s32 a)
  vcombine_s32 a01 a23

/-- `_mm_shuffle_epi_0321(a)`. -/
def _mm_shuffle_epi_0321 (a : Nat) : Nat := vextq_s32 a a 1

/-- `_mm_shuffle_epi_2103(a)`. -/
def _mm_shuffle_epi_2103 (a : Nat) : Nat := vextq_s32 a a 3

/-- `_mm_shuffle_epi_1010(a)`. -/
def _mm_shuffle_epi_1010 (a : Nat) : Nat :=
  let a10 := vget_low_s32 a
  vcombine_s32 a10 a10

/-- `_mm_shuffle_epi_1001(a)`. -/
def _mm_shuffle_epi_1001 (a : Nat) : Nat :=
  let a01 := vrev64_s32 (vget_low_s32 a)
  let a10 := vget_low_s32 a
  vcombine_s32 a01 a10

/-- `_mm_shuffle_epi_0101(a)`. -/
def _mm_shuffle_epi_0101 (a : Nat) : Nat :=
  let a01 := vrev64_s32 (vget_low_s32 a)
  vcombine_s32 a01 a01

/-- `_mm_shuffle_epi_2211(a)`. -/
def _mm_shuffle_epi_2211 (a : Nat) : Nat :=
  let a11 := vdup_lane_s32 (vget_low_s32 a) 1
  let a22 := vdup_lane_s32 (vget_high_s32 a) 0
  vcombine_s32 a11 a22

/-- `_mm_shuffle_epi_0122(a)`. -/
def _mm_shuffle_epi_0122 (a : Nat) : Nat :=
  let a22 := vdup_lane_s32 (vget_high_s32 a) 0
  let a01 := vrev64_s32 (vget_low_s32 a)
  vcombine_s32 a22 a01

/-- `_mm_shuffle_epi_3332(a)`. -/
def _mm_shuffle_epi_3332 (a : Nat) : Nat :=
  let a32 := vget_high_s32 a
  let a33 := vdup_lane_s32 (vget_high_s32 a) 1
  vcombine_s32 a32 a33

/-- The macro `_mm_shuffle_epi32_default(a, imm)`. -/
def _mm_shuffle_epi32_default (a imm : Nat) : Nat :=
  let ret := vmovq_n_s32 (vgetq_lane_s32 a (imm &&& 0x3))
  let ret := vsetq_lane_s32 (vgetq_lane_s32 a ((imm >>> 2) &&& 0x3)) ret 1
  let ret := vsetq_lane_s32 (vgetq_lane_s32 a ((imm >>> 4) &&& 0x3)) ret 2
  let ret := vsetq_lane_s32 (vgetq_lane_s32 a ((imm >>> 6) &&& 0x3)) ret 3
  ret

/-- The macro `_mm_shuffle_epi32_splat(a, imm)`; `aarch64` selects between its
two definitions (`vdupq_laneq_s32` on aarch64, `vdupq_n_s32` of the extracted
lane otherwise). -/
def _mm_shuffle_epi32_splat (aarch64 : Bool) (a imm : Nat) : Nat :=
  if aarch64 then vdupq_laneq_s32 a imm
  else vdupq_n_s32 (vgetq_lane_s32 a imm)

/-- The macro `_mm_shuffle_epi32(a, imm)`.  `has_builtin` selects the
`#if __has_builtin(__builtin_shufflevector)` variant; otherwise the generic
variant (a `switch` over the catalogued codes) is used. -/
def _mm_shuffle_epi32 (has_builtin aarch64 : Bool) (a imm : Nat) : Nat :=
  if has_builtin then
    let _input := a
    let _shuf := __builtin_shufflevector _input _input (imm &&& 0x3) ((imm >>> 2) &&& 0x3)
      ((imm >>> 4) &&& 0x3) ((imm >>> 6) &&& 0x3)
    _shuf
  else if imm = _MM_SHUFFLE 1 0 3 2 then _mm_shuffle_epi_1032 a
  else if imm = _MM_SHUFFLE 2 3 0 1 then _mm_shuffle_epi_2301 a
  else if imm = _MM_SHUFFLE 0 3 2 1 then _mm_shuffle_epi_0321 a
  else if imm = _MM_SHUFFLE 2 1 0 3 then _mm_shuffle_epi_2103 a
  else if imm = _MM_SHUFFLE 1 0 1 0 then _mm_shuffle_epi_1010 a
  else if imm = _MM_SHUFFLE 1 0 0 1 then _mm_shuffle_epi_1001 a
  else if imm = _MM_SHUFFLE 0 1 0 1 then _mm_shuffle_epi_0101 a
  else if imm = _MM_SHUFFLE 2 2 1 1 then _mm_shuffle_epi_2211 a
  else if imm = _MM_SHUFFLE 0 1 2 2 then _mm_shuffle_epi_0122 a
  else if imm = _MM_SHUFFLE 3 3 3 2 then _mm_shuffle_epi_3332 a
  else if imm = _MM_SHUFFLE 0 0 0 0 then _mm_shuffle_epi32_splat aarch64 a 0
  else if imm = _MM_SHUFFLE 1 1 1 1 then _mm_shuffle_epi32_splat aarch64 a 1
  else if imm = _MM_SHUFFLE 2 2 2 2 then _mm_shuffle_epi32_splat aarch64 a 2
  else if imm = _MM_SHUFFLE 3 3 3 3 then _mm_shuffle_epi32_splat aarch64 a 3
  else _mm_shuffle_epi32_default a imm


/-! ## The mask extractor (`_mm_movemask_epi8`, `_mm_movemask_ps`) -/

/-- Value of a `w`-bit lane read as a signed (two's complement) integer. -/
def sint (w v : Nat) : Int :=
  if v % 2 ^ w < 2 ^ (w - 1) then (v % 2 ^ w : Nat) else (v % 2 ^ w : Nat) - 2 ^ w

/-- Sixteen 8-bit lanes, each shifted right (logical) by `n`. -/
def vshrq_n_u8 (a n : Nat) : Nat := pack 8 (fun i => lane 8 a i >>> n) 16

/-- Four 32-bit lanes, each shifted right (logical) by `n`. -/
def vshrq_n_u32 (a n : Nat) : Nat := pack 32 (fun i => lane 32 a i >>> n) 4

/-- Shift right and accumulate on eight 16-bit lanes: lane `i` is
`a[i] + (b[i] >> n)` modulo `2^16`. -/
def vsraq_n_u16 (a b n : Nat) : Nat :=
  pack 16 (fun i => lane 16 a i + (lane 16 b i >>> n)) 8

/-- Shift right and accumulate on four 32-bit lanes. -/
def vsraq_n_u32 (a b n : Nat) : Nat :=
  pack 32 (fun i => lane 32 a i + (lane 32 b i >>> n)) 4

/-- Shift right and accumulate on two 64-bit lanes. -/
def vsraq_n_u64 (a b n : Nat) : Nat :=
  pack 64 (fun i => lane 64 a i + (lane 64 b i >>> n)) 2

/-- Read byte lane `k` of a Q register. -/
def vgetq_lane_u8 (a k : Nat) : Nat := lane 8 a k

/-- Broadcast the byte `v` to the sixteen lanes of a Q register. -/
def vdupq_n_u8 (v : Nat) : Nat := pack 8 (fun _ => v) 16

/-- Bitwise AND of two Q registers. -/
def vandq_u8 (a b : Nat) : Nat := pack 8 (fun i => lane 8 a i &&& lane 8 b i) 16

/-- Load sixteen signed bytes from memory into a Q register. -/
def vld1q_s8 (xs : List Int) : Nat := pack 8 (fun i => (xs.getD i 0 % 256).toNat) 16

/-- Q register of four signed 32-bit lanes given by an initialiser list. -/
def int32x4_lit (xs : List Int) : Nat := pack 32 (fun i => (xs.getD i 0 % 2 ^ 32).toNat) 4

/-- Shift of one `w`-bit lane by a signed amount: left when the amount is
non-negative, right (logical, truncating) when it is negative. -/
def ushl (w v : Nat) (s : Int) : Nat :=
  if 0 ≤ s then (v <<< s.toNat) % 2 ^ w else v >>> (-s).toNat

/-- Sixteen 8-bit lanes of `a`, each shifted by the signed low byte of the
matching lane of `b`. -/
def vshlq_u8 (a b : Nat) : Nat :=
  pack 8 (fun i => ushl 8 (lane 8 a i) (sint 8 (lane 8 b i))) 16

/-- Four 32-bit lanes of `a`, each shifted by the signed low byte of the
matching lane of `b`. -/
def vshlq_u32 (a b : Nat) : Nat :=
  pack 32 (fun i => ushl 32 (lane 32 a i) (sint 8 (lane 32 b i))) 4

/-- Low half of a Q register, as a D register of eight bytes. -/
def vget_low_u8 (a : Nat) : Nat := pack 8 (fun i => lane 8 a i) 8

/-- High half of a Q register, as a D register of eight bytes. -/
def vget_high_u8 (a : Nat) : Nat := pack 8 (fun i => lane 8 a (i + 8)) 8

/-- Sum of the lanes `0 .. n-1` of width `w`. -/
def laneSum (w x : Nat) : Nat → Nat
  | 0 => 0
  | n + 1 => laneSum w x n + lane w x n

/-- Sum of the eight bytes of a D register, as a `uint8_t`. -/
def vaddv_u8 (d : Nat) : Nat := laneSum 8 d 8 % 2 ^ 8

/-- Sum of the four 32-bit lanes of a Q register, as a `uint32_t`. -/
def vaddvq_u32 (q : Nat) : Nat := laneSum 32 q 4 % 2 ^ 32

/-- `_mm_movemask_epi8(a)`.  `aarch64` selects the `#if defined(__aarch64__)`
branch (mask, per-lane shift, horizontal add); otherwise the shift/add
reduction tree is used. -/
def _mm_movemask_epi8 (aarch64 : Bool) (a : Nat) : Nat :=
  if aarch64 then
    let input := a
    let xr : List Int := [-7, -6, -5, -4, -3, -2, -1, 0, -7, -6, -5, -4, -3, -2, -1, 0]
    let mask_and := vdupq_n_u8 0x80
    let mask_shift := vld1q_s8 xr
    let mask_result := vshlq_u8 (vandq_u8 input mask_and) mask_shift
    let lo := vget_low_u8 mask_result
    let hi := vget_high_u8 mask_result
    vaddv_u8 lo + (vaddv_u8 hi <<< 8)
  else
    let input := a
    let high_bits := vshrq_n_u8 input 7
    let paired16 := vsraq_n_u16 high_bits high_bits 7
    let paired32 := vsraq_n_u32 paired16 paired16 14
    let paired64 := vsraq_n_u64 paired32 paired32 28
    vgetq_lane_u8 paired64 0 ||| (vgetq_lane_u8 paired64 8 <<< 8)

/-- `_mm_movemask_ps(a)`.  `aarch64` selects the `#if defined(__aarch64__)`
branch; otherwise the shift/add reduction is used. -/
def _mm_movemask_ps (aarch64 : Bool) (a : Nat) : Nat :=
  let input := a
  if aarch64 then
    let shift := int32x4_lit [0, 1, 2, 3]
    let tmp := vshrq_n_u32 input 31
    vaddvq_u32 (vshlq_u32 tmp shift)
  else
    let high_bits := vshrq_n_u32 input 31
    let paired := vsraq_n_u64 high_bits high_bits 31
    vgetq_lane_u8 paired 0 ||| (vgetq_lane_u8 paired 8 <<< 2)

/-- The reduction tree of `_mm_movemask_epi8` seen on one 64-bit lane `h` of
`high_bits`: the three shift-and-accumulate steps followed by the extraction of
byte 0.  Used to reason about the two halves of the register separately. -/
def movemaskTree64 (h : Nat) : Nat :=
  let p16 := pack 16 (fun i => lane 16 h i + (lane 16 h i >>> 7)) 4
  let p32 := pack 32 (fun i => lane 32 p16 i + (lane 32 p16 i >>> 14)) 2
  let p64 := pack 64 (fun i => lane 64 p32 i + (lane 64 p32 i >>> 28)) 1
  lane 8 p64 0

/-- The reduction of `_mm_movemask_ps` seen on one 64-bit lane `h` of
`high_bits`. -/
def movemaskPs64 (h : Nat) : Nat :=
  lane 8 (pack 64 (fun i => lane 64 h i + (lane 64 h i >>> 31)) 1) 0

/-! ## The carry-less multiplier (`_sse2neon_vmull_p64`, `_mm_clmulepi64_si128`) -/

/-- XOR of `f 0, ..., f (n-1)`. -/
def xorSum (f : Nat → Nat) : Nat → Nat
  | 0 => 0
  | n + 1 => xorSum f n ^^^ f n

/-- Polynomial (carry-less) product of two 8-bit values, as in the
architecture's `PolynomialMult`: for each set bit `i` of `op1`, the second
operand shifted left by `i` is XORed into the result. -/
def PolynomialMult (op1 op2 : Nat) : Nat :=
  xorSum (fun i => if op1.testBit i then op2 <<< i else 0) 8

/-- Eight 8x8 -> 16-bit polynomial multiplies, lane by lane. -/
def vmull_p8 (a b : Nat) : Nat :=
  pack 16 (fun i => PolynomialMult (lane 8 a i) (lane 8 b i)) 8

/-- Extract eight consecutive bytes, starting at byte `n` of `a`, from the pair
`a` (low) and `b` (high) of D registers. -/
def vext_p8 (a b n : Nat) : Nat :=
  pack 8 (fun i => if i + n < 8 then lane 8 a (i + n) else lane 8 b (i + n - 8)) 8

/-- Extract sixteen consecutive bytes, starting at byte `n` of `a`, from the
pair `a` (low) and `b` (high) of Q registers. -/
def vextq_u8 (a b n : Nat) : Nat :=
  pack 8 (fun i => if i + n < 16 then lane 8 a (i + n) else lane 8 b (i + n - 16)) 16

/-- D register holding the 64-bit constant `c`. -/
def vcreate_u8 (c : Nat) : Nat := pack 8 (fun i => lane 8 c i) 8

/-- Q register whose low half is `lo` and high half is `hi`, as bytes. -/
def vcombine_u8 (lo hi : Nat) : Nat :=
  pack 8 (fun i => if i < 8 then lane 8 lo i else lane 8 hi (i - 8)) 16

/-- Bitwise XOR of two Q registers. -/
def veorq_u8 (a b : Nat) : Nat := pack 8 (fun i => lane 8 a i ^^^ lane 8 b i) 16

/-- 64-bit lanes `(a[0], b[0])`. -/
def vzip1q_u64 (a b : Nat) : Nat :=
  pack 64 (fun i => if i = 0 then lane 64 a 0 else lane 64 b 0) 2

/-- 64-bit lanes `(a[1], b[1])`. -/
def vzip2q_u64 (a b : Nat) : Nat :=
  pack 64 (fun i => if i = 0 then lane 64 a 1 else lane 64 b 1) 2

/-- 64-bit lanes `(a[0], b[0])`: the even-indexed lanes of the pair. -/
def vuzp1q_u64 (a b : Nat) : Nat :=
  pack 64 (fun i => if i = 0 then lane 64 a 0 else lane 64 b 0) 2

/-- 64-bit lanes `(a[1], b[1])`: the odd-indexed lanes of the pair. -/
def vuzp2q_u64 (a b : Nat) : Nat :=
  pack 64 (fun i => if i = 0 then lane 64 a 1 else lane 64 b 1) 2

/-- Low 64-bit lane of a Q register. -/
def vget_low_u64 (a : Nat) : Nat := pack 64 (fun i => lane 64 a i) 1

/-- High 64-bit lane of a Q register. -/
def vget_high_u64 (a : Nat) : Nat := pack 64 (fun i => lane 64 a (i + 1)) 1

/-- `_sse2neon_vmull_p64(_a, _b)`, the polyfill built on `vmull_p8` (compiled
when `__ARM_FEATURE_CRYPTO` is not defined).  `aarch64` selects between the two
definitions of the interleave and de-interleave steps. -/
def _sse2neon_vmull_p64 (aarch64 : Bool) (_a _b : Nat) : Nat :=
  let a := _a
  let b := _b
  let k48_32 := vcombine_u8 (vcreate_u8 0x0000ffffffffffff) (vcreate_u8 0x00000000ffffffff)
  let k16_00 := vcombine_u8 (vcreate_u8 0x000000000000ffff) (vcreate_u8 0x0000000000000000)
  let d := vmull_p8 a b
  let e := vmull_p8 a (vext_p8 b b 1)
  let f := vmull_p8 (vext_p8 a a 1) b
  let g := vmull_p8 a (vext_p8 b b 2)
  let h := vmull_p8 (vext_p8 a a 2) b
  let i := vmull_p8 a (vext_p8 b b 3)
  let j := vmull_p8 (vext_p8 a a 3) b
  let k := vmull_p8 a (vext_p8 b b 4)
  let l := veorq_u8 e f
  let m := veorq_u8 g h
  let n := veorq_u8 i j
  let lm_p0 := if aarch64 then vzip1q_u64 l m else vcombine_u8 (vget_low_u8 l) (vget_low_u8 m)
  let lm_p1 := if aarch64 then vzip2q_u64 l m else vcombine_u8 (vget_high_u8 l) (vget_high_u8 m)
  let nk_p0 := if aarch64 then vzip1q_u64 n k else vcombine_u8 (vget_low_u8 n) (vget_low_u8 k)
  let nk_p1 := if aarch64 then vzip2q_u64 n k else vcombine_u8 (vget_high_u8 n) (vget_high_u8 k)
  let t0t1_tmp := veorq_u8 lm_p0 lm_p1
  let t0t1_h := vandq_u8 lm_p1 k48_32
  let t0t1_l := veorq_u8 t0t1_tmp t0t1_h
  let t2t3_tmp := veorq_u8 nk_p0 nk_p1
  let t2t3_h := vandq_u8 nk_p1 k16_00
  let t2t3_l := veorq_u8 t2t3_tmp t2t3_h
  let t0 := if aarch64 then vuzp1q_u64 t0t1_l t0t1_h
    else vcombine_u8 (vget_low_u8 t0t1_l) (vget_low_u8 t0t1_h)
  let t1 := if aarch64 then vuzp2q_u64 t0t1_l t0t1_h
    else vcombine_u8 (vget_high_u8 t0t1_l) (vget_high_u8 t0t1_h)
  let t2 := if aarch64 then vuzp1q_u64 t2t3_l t2t3_h
    else vcombine_u8 (vget_low_u8 t2t3_l) (vget_low_u8 t2t3_h)
  let t3 := if aarch64 then vuzp2q_u64 t2t3_l t2t3_h
    else vcombine_u8 (vget_high_u8 t2t3_l) (vget_high_u8 t2t3_h)
  let t0_shift := vextq_u8 t0 t0 15
  let t1_shift := vextq_u8 t1 t1 14
  let t2_shift := vextq_u8 t2 t2 13
  let t3_shift := vextq_u8 t3 t3 12
  let cross1 := veorq_u8 t0_shift t1_shift
  let cross2 := veorq_u8 t2_shift t3_shift
  let mix := veorq_u8 d cross1
  let r := veorq_u8 mix cross2
  r

/-- Bitwise AND of two C `int` values (32-bit two's complement). -/
def intAnd (x y : Int) : Int :=
  let r : Nat := (x % 2 ^ 32).toNat &&& (y % 2 ^ 32).toNat
  if r < 2 ^ 31 then (r : Int) else (r : Int) - 2 ^ 32

/-- `_mm_clmulepi64_si128(_a, _b, imm)`; `none` stands for the `abort()` of
the `default` branch of the `switch`. -/
def _mm_clmulepi64_si128 (aarch64 : Bool) (_a _b : Nat) (imm : Int) : Option Nat :=
  let a := _a
  let b := _b
  let sel := intAnd imm 0x11
  if sel = 0x00 then some (_sse2neon_vmull_p64 aarch64 (vget_low_u64 a) (vget_low_u64 b))
  else if sel = 0x01 then some (_sse2neon_vmull_p64 aarch64 (vget_high_u64 a) (vget_low_u64 b))
  else if sel = 0x10 then some (_sse2neon_vmull_p64 aarch64 (vget_low_u64 a) (vget_high_u64 b))
  else if sel = 0x11 then some (_sse2neon_vmull_p64 aarch64 (vget_high_u64 a) (vget_high_u64 b))
  else none

/-- XOR of the Boolean values `f 0, ..., f (n-1)`. -/
def xorAll (f : Nat → Bool) : Nat → Bool
  | 0 => false
  | n + 1 => xor (xorAll f n) (f n)

/-- Bit `k` of the bit-by-bit XOR-convolution reference of the specification:
the XOR, over all `i + j = k` with `0 <= i, j < 64`, of
`(bit i of x) AND (bit j of y)`. -/
def clmulRefBit (x y k : Nat) : Bool :=
  xorAll (fun i => xorAll (fun j => decide (i + j = k) && (x.testBit i && y.testBit j)) 64) 64

/-- The 64 byte-by-byte polynomial products of two 64-bit operands, each placed
at its weight: the product of byte `p` of `x` and byte `q` of `y` is shifted
left by `8 * (p + q)` bits.  This is the value the polyfill assembles. -/
def clmulBytes (x y : Nat) : Nat :=
  xorSum (fun p => xorSum (fun q =>
    PolynomialMult (lane 8 x p) (lane 8 y q) <<< (8 * (p + q))) 8) 8

/-! ## The block-cipher round emulator (`_mm_aesenc_si128`,
`_mm_aesenclast_si128`, `_mm_aeskeygenassist_si128`)

Values of the C types `int` and `uint32_t` are represented by their 32-bit
pattern (a natural number below `2^32`), bytes by a natural number below 256.
An array in memory is a list; reading it at index `i` is `List.getD _ i 0`. -/

/-- The X macro `SSE2NEON_AES_DATA(w)`: the 256 entries of the S-box, each
passed through `w`. -/
def SSE2NEON_AES_DATA (w : Nat → Nat) : List Nat :=
  [
   w 0x63, w 0x7c, w 0x77, w 0x7b, w 0xf2, w 0x6b, w 0x6f, w 0xc5,
   w 0x30, w 0x01, w 0x67, w 0x2b, w 0xfe, w 0xd7, w 0xab, w 0x76,
   w 0xca, w 0x82, w 0xc9, w 0x7d, w 0xfa, w 0x59, w 0x47, w 0xf0,
   w 0xad, w 0xd4, w 0xa2, w 0xaf, w 0x9c, w 0xa4, w 0x72, w 0xc0,
   w 0xb7, w 0xfd, w 0x93, w 0x26, w 0x36, w 0x3f, w 0xf7, w 0xcc,
   w 0x34, w 0xa5, w 0xe5, w 0xf1, w 0x71, w 0xd8, w 0x31, w 0x15,
   w 0x04, w 0xc7, w 0x23, w 0xc3, w 0x18, w 0x96, w 0x05, w 0x9a,
   w 0x07, w 0x12, w 0x80, w 0xe2, w 0xeb, w 0x27, w 0xb2, w 0x75,
   w 0x09, w 0x83, w 0x2c, w 0x1a, w 0x1b, w 0x6e, w 0x5a, w 0xa0,
   w 0x52, w 0x3b, w 0xd6, w 0xb3, w 0x29, w 0xe3, w 0x2f, w 0x84,
   w 0x53, w 0xd1, w 0x00, w 0xed, w 0x20, w 0xfc, w 0xb1, w 0x5b,
   w 0x6a, w 0xcb, w 0xbe, w 0x39, w 0x4a, w 0x4c, w 0x58, w 0xcf,
   w 0xd0, w 0xef, w 0xaa, w 0xfb, w 0x43, w 0x4d, w 0x33, w 0x85,
   w 0x45, w 0xf9, w 0x02, w 0x7f, w 0x50, w 0x3c, w 0x9f, w 0xa8,
   w 0x51, w 0xa3, w 0x40, w 0x8f, w 0x92, w 0x9d, w 0x38, w 0xf5,
   w 0xbc, w 0xb6, w 0xda, w 0x21, w 0x10, w 0xff, w 0xf3, w 0xd2,
   w 0xcd, w 0x0c, w 0x13, w 0xec, w 0x5f, w 0x97, w 0x44, w 0x17,
   w 0xc4, w 0xa7, w 0x7e, w 0x3d, w 0x64, w 0x5d, w 0x19, w 0x73,
   w 0x60, w 0x81, w 0x4f, w 0xdc, w 0x22, w 0x2a, w 0x90, w 0x88,
   w 0x46, w 0xee, w 0xb8, w 0x14, w 0xde, w 0x5e, w 0x0b, w 0xdb,
   w 0xe0, w 0x32, w 0x3a, w 0x0a, w 0x49, w 0x06, w 0x24, w 0x5c,
   w 0xc2, w 0xd3, w 0xac, w 0x62, w 0x91, w 0x95, w 0xe4, w 0x79,
   w 0xe7, w 0xc8, w 0x37, w 0x6d, w 0x8d, w 0xd5, w 0x4e, w 0xa9,
   w 0x6c, w 0x56, w 0xf4, w 0xea, w 0x65, w 0x7a, w 0xae, w 0x08,
   w 0xba, w 0x78, w 0x25, w 0x2e, w 0x1c, w 0xa6, w 0xb4, w 0xc6,
   w 0xe8, w 0xdd, w 0x74, w 0x1f, w 0x4b, w 0xbd, w 0x8b, w 0x8a,
   w 0x70, w 0x3e, w 0xb5, w 0x66, w 0x48, w 0x03, w 0xf6, w 0x0e,
   w 0x61, w 0x35, w 0x57, w 0xb9, w 0x86, w 0xc1, w 0x1d, w 0x9e,
   w 0xe1, w 0xf8, w 0x98, w 0x11, w 0x69, w 0xd9, w 0x8e, w 0x94,
   w 0x9b, w 0x1e, w 0x87, w 0xe9, w 0xce, w 0x55, w 0x28, w 0xdf,
   w 0x8c, w 0xa1, w 0x89, w 0x0d, w 0xbf, w 0xe6, w 0x42, w 0x68,
   w 0x41, w 0x99, w 0x2d, w 0x0f, w 0xb0, w 0x54, w 0xbb, w 0x16
  ]

/-- The macro `SSE2NEON_AES_H0(x)`. -/
def SSE2NEON_AES_H0 (x : Nat) : Nat := x

/-- The table `SSE2NEON_sbox[256]`. -/
def SSE2NEON_sbox : List Nat := SSE2NEON_AES_DATA SSE2NEON_AES_H0

/-- The macro `SSE2NEON_AES_B2W(b0, b1, b2, b3)`: four values packed into a
`uint32_t`, `b0` lowest. -/
def SSE2NEON_AES_B2W (b0 b1 b2 b3 : Nat) : Nat :=
  ((((b3 % 2 ^ 32) <<< 24) % 2 ^ 32) ||| (((b2 % 2 ^ 32) <<< 16) % 2 ^ 32)
    ||| (((b1 % 2 ^ 32) <<< 8) % 2 ^ 32) ||| (b0 % 2 ^ 32))

/-- The macro `SSE2NEON_AES_F2(x)`, in `int` arithmetic. -/
def SSE2NEON_AES_F2 (x : Nat) : Nat := (x <<< 1) ^^^ (((x >>> 7) &&& 1) * 0x011b)

/-- The macro `SSE2NEON_AES_F3(x)`. -/
def SSE2NEON_AES_F3 (x : Nat) : Nat := SSE2NEON_AES_F2 x ^^^ x

/-- The macro `SSE2NEON_AES_U0(p)`. -/
def SSE2NEON_AES_U0 (p : Nat) : Nat :=
  SSE2NEON_AES_B2W (SSE2NEON_AES_F2 p) p p (SSE2NEON_AES_F3 p)

/-- The macro `SSE2NEON_AES_U1(p)`. -/
def SSE2NEON_AES_U1 (p : Nat) : Nat :=
  SSE2NEON_AES_B2W (SSE2NEON_AES_F3 p) (SSE2NEON_AES_F2 p) p p

/-- The macro `SSE2NEON_AES_U2(p)`. -/
def SSE2NEON_AES_U2 (p : Nat) : Nat :=
  SSE2NEON_AES_B2W p (SSE2NEON_AES_F3 p) (SSE2NEON_AES_F2 p) p

/-- The macro `SSE2NEON_AES_U3(p)`. -/
def SSE2NEON_AES_U3 (p : Nat) : Nat :=
  SSE2NEON_AES_B2W p p (SSE2NEON_AES_F3 p) (SSE2NEON_AES_F2 p)

/-- The tables `aes_table[4][256]` of the ARMv7 path; `aes_table k` is row
`k`. -/
def aes_table (k : Nat) : List Nat :=
  if k = 0 then SSE2NEON_AES_DATA SSE2NEON_AES_U0
  else if k = 1 then SSE2NEON_AES_DATA SSE2NEON_AES_U1
  else if k = 2 then SSE2NEON_AES_DATA SSE2NEON_AES_U2
  else SSE2NEON_AES_DATA SSE2NEON_AES_U3

/-- Load sixteen bytes from memory into a Q register. -/
def vld1q_u8 (p : List Nat) : Nat := pack 8 (fun i => p.getD i 0) 16

/-- Load 64 consecutive bytes from memory into four Q registers
(`uint8x16x4_t`), kept as one value of 64 byte lanes. -/
def vld1q_u8_x4 (p : List Nat) : Nat := pack 8 (fun i => p.getD i 0) 64

/-- Load four 32-bit integers from memory into a Q register. -/
def vld1q_s32 (p : List Nat) : Nat := pack 32 (fun i => p.getD i 0) 4

/-- Table lookup in one Q register: byte `i` of the result is byte `idx[i]` of
`t`, or 0 when `idx[i]` is out of range. -/
def vqtbl1q_u8 (t idx : Nat) : Nat :=
  pack 8 (fun i => if lane 8 idx i < 16 then lane 8 t (lane 8 idx i) else 0) 16

/-- Table lookup in four Q registers: byte `i` of the result is byte `idx[i]`
of the 64-byte table `t`, or 0 when `idx[i]` is out of range. -/
def vqtbl4q_u8 (t idx : Nat) : Nat :=
  pack 8 (fun i => if lane 8 idx i < 64 then lane 8 t (lane 8 idx i) else 0) 16

/-- Table lookup extension in four Q registers: as `vqtbl4q_u8`, but byte `i`
of `a` is kept when `idx[i]` is out of range. -/
def vqtbx4q_u8 (a t idx : Nat) : Nat :=
  pack 8 (fun i => if lane 8 idx i < 64 then lane 8 t (lane 8 idx i) else lane 8 a i) 16

/-- Reverse the two 16-bit elements of every 32-bit word. -/
def vrev32q_u16 (v : Nat) : Nat :=
  pack 16 (fun i => lane 16 v (if i % 2 = 0 then i + 1 else i - 1)) 8

/-- Bitwise XOR of two Q registers of 32-bit lanes. -/
def veorq_s32 (a b : Nat) : Nat := pack 32 (fun i => lane 32 a i ^^^ lane 32 b i) 4

/-- The C operator `v - c` on a `uint8x16_t` and a scalar (vector extension):
every byte minus `c`, modulo 256. -/
def u8x16_sub_scalar (v c : Nat) : Nat :=
  pack 8 (fun i => lane 8 v i + (256 - c % 256)) 16

/-- The C operator `v << n` on a `uint8x16_t`: every byte shifted left,
truncated to 8 bits. -/
def u8x16_shl (v n : Nat) : Nat := pack 8 (fun i => lane 8 v i <<< n) 16

/-- The C operator `v >> n` on an `int8x16_t`: arithmetic shift right of every
signed byte. -/
def s8x16_shr (v n : Nat) : Nat :=
  pack 8 (fun i => ((sint 8 (lane 8 v i) >>> n) % 256).toNat) 16

/-- The C operator `v & c` on a 16-byte vector and a scalar. -/
def s8x16_and_scalar (v c : Nat) : Nat := pack 8 (fun i => lane 8 v i &&& c) 16

/-- The C operator `a ^ b` on two 128-bit vectors. -/
def v128_xor (a b : Nat) : Nat := pack 8 (fun i => lane 8 a i ^^^ lane 8 b i) 16

/-- `_mm_cvtsi128_si32(a)`. -/
def _mm_cvtsi128_si32 (a : Nat) : Nat := vgetq_lane_s32 a 0

/-- `_mm_set_epi32(i3, i2, i1, i0)`. -/
def _mm_set_epi32 (i3 i2 i1 i0 : Nat) : Nat :=
  let data := [i0, i1, i2, i3]
  vld1q_s32 data

/-- `_mm_xor_si128(a, b)`. -/
def _mm_xor_si128 (a b : Nat) : Nat := veorq_s32 a b

/-- Multiplication by `{02}` in GF(2^8) modulo `x^8 + x^4 + x^3 + x + 1`
(`FFmul02` of the architecture's AES pseudocode). -/
def FFmul02 (b : Nat) : Nat :=
  if (b % 256).testBit 7 then (((b % 256) <<< 1) ^^^ 0x11b) else ((b % 256) <<< 1)

/-- Multiplication by `{03}` in GF(2^8) (`FFmul03`). -/
def FFmul03 (b : Nat) : Nat := FFmul02 b ^^^ (b % 256)

/-- Product of two elements of GF(2^8) modulo `x^8 + x^4 + x^3 + x + 1`:
for each set bit `i` of `b`, `a` times `x^i` is added. -/
def gfMul (a b : Nat) : Nat :=
  ((List.range 8).foldl
    (fun (st : Nat × Nat) i => (if b.testBit i then st.1 ^^^ st.2 else st.1, FFmul02 st.2))
    (0, a % 256)).1

/-- The element `x^254` of GF(2^8): the multiplicative inverse of `x` when
`x` is not 0, and 0 when `x` is 0. -/
def gfInv (x : Nat) : Nat :=
  let x2 := gfMul x x
  let x4 := gfMul x2 x2
  let x8 := gfMul x4 x4
  let x16 := gfMul x8 x8
  let x32 := gfMul x16 x16
  let x64 := gfMul x32 x32
  let x128 := gfMul x64 x64
  gfMul x2 (gfMul x4 (gfMul x8 (gfMul x16 (gfMul x32 (gfMul x64 x128)))))

/-- Bit `i` of `y`, as 0 or 1. -/
def bitOf (y i : Nat) : Nat := (y >>> i) % 2

/-- The AES S-box as the standard (FIPS-197) defines it: the multiplicative
inverse `y` of `x` in GF(2^8), then the affine map
`b_i = y_i + y_(i+4) + y_(i+5) + y_(i+6) + y_(i+7) + c_i` (indices modulo 8,
sum modulo 2) with `c = 0x63`. -/
def AES_Sbox (x : Nat) : Nat :=
  let y := gfInv x
  pack 1 (fun i => bitOf y i + bitOf y ((i + 4) % 8) + bitOf y ((i + 5) % 8)
    + bitOf y ((i + 6) % 8) + bitOf y ((i + 7) % 8) + bitOf 0x63 i) 8

/-- The architecture's `AESShiftRows`: byte `i` of the result is byte
`5 i mod 16` of the operand. -/
def AESShiftRows (op : Nat) : Nat :=
  pack 8 (fun i => lane 8 op ([0, 5, 10, 15, 4, 9, 14, 3, 8, 13, 2, 7, 12, 1, 6, 11].getD i 0)) 16

/-- The architecture's `AESSubBytes`: the S-box applied to every byte. -/
def AESSubBytes (op : Nat) : Nat := pack 8 (fun i => AES_Sbox (lane 8 op i)) 16

/-- The architecture's `AESMixColumns`: every 4-byte column is multiplied by
the fixed matrix with rows `(02 03 01 01)`, `(01 02 03 01)`, `(01 01 02 03)`,
`(03 01 01 02)` over GF(2^8). -/
def AESMixColumns (op : Nat) : Nat :=
  pack 8 (fun i =>
    let c := i / 4
    let in0 := lane 8 op (4 * c)
    let in1 := lane 8 op (4 * c + 1)
    let in2 := lane 8 op (4 * c + 2)
    let in3 := lane 8 op (4 * c + 3)
    if i % 4 = 0 then FFmul02 in0 ^^^ FFmul03 in1 ^^^ in2 ^^^ in3
    else if i % 4 = 1 then in0 ^^^ FFmul02 in1 ^^^ FFmul03 in2 ^^^ in3
    else if i % 4 = 2 then in0 ^^^ in1 ^^^ FFmul02 in2 ^^^ FFmul03 in3
    else FFmul03 in0 ^^^ in1 ^^^ in2 ^^^ FFmul02 in3) 16

/-- The instruction AESE behind `vaeseq_u8(data, key)`: XOR with the key,
shift-rows, S-box substitution. -/
def vaeseq_u8 (data key : Nat) : Nat := AESSubBytes (AESShiftRows (v128_xor data key))

/-- The instruction AESMC behind `vaesmcq_u8(data)`: column mixing. -/
def vaesmcq_u8 (data : Nat) : Nat := AESMixColumns data

/-- `_mm_aesenc_si128(EncBlock, RoundKey)`.  `crypto` selects the build with
`__ARM_FEATURE_CRYPTO` (AESE and AESMC, then the key XOR); without it
`aarch64` selects the byte-table path, and otherwise the ARMv7 path with the
four 32-bit tables is used.  `has_builtin` is the variant of
`_mm_shuffle_epi32` compiled in the same build. -/
def _mm_aesenc_si128 (crypto aarch64 has_builtin : Bool) (EncBlock RoundKey : Nat) : Nat :=
  if crypto then
    let a := EncBlock
    let b := RoundKey
    v128_xor (vaesmcq_u8 (vaeseq_u8 a (vdupq_n_u8 0))) b
  else if aarch64 then
    let shift_rows := [0x0, 0x5, 0xa, 0xf, 0x4, 0x9, 0xe, 0x3, 0x8, 0xd, 0x2, 0x7, 0xc, 0x1, 0x6, 0xb]
    let ror32by8 := [0x1, 0x2, 0x3, 0x0, 0x5, 0x6, 0x7, 0x4, 0x9, 0xa, 0xb, 0x8, 0xd, 0xe, 0xf, 0xc]
    let w := EncBlock
    let w := vqtbl1q_u8 w (vld1q_u8 shift_rows)
    let v := vqtbl4q_u8 (vld1q_u8_x4 SSE2NEON_sbox) w
    let v := vqtbx4q_u8 v (vld1q_u8_x4 (SSE2NEON_sbox.drop 0x40)) (u8x16_sub_scalar w 0x40)
    let v := vqtbx4q_u8 v (vld1q_u8_x4 (SSE2NEON_sbox.drop 0x80)) (u8x16_sub_scalar w 0x80)
    let v := vqtbx4q_u8 v (vld1q_u8_x4 (SSE2NEON_sbox.drop 0xc0)) (u8x16_sub_scalar w 0xc0)
    let w := v128_xor (u8x16_shl v 1) (s8x16_and_scalar (s8x16_shr v 7) 0x1b)
    let w := v128_xor w (vrev32q_u16 v)
    let w := v128_xor w (vqtbl1q_u8 (v128_xor v w) (vld1q_u8 ror32by8))
    v128_xor w RoundKey
  else
    let x0 := _mm_cvtsi128_si32 EncBlock
    let x1 := _mm_cvtsi128_si32 (_mm_shuffle_epi32 has_builtin aarch64 EncBlock 0x55)
    let x2 := _mm_cvtsi128_si32 (_mm_shuffle_epi32 has_builtin aarch64 EncBlock 0xAA)
    let x3 := _mm_cvtsi128_si32 (_mm_shuffle_epi32 has_builtin aarch64 EncBlock 0xFF)
    let out := _mm_set_epi32
      ((aes_table 0).getD (x3 &&& 0xff) 0 ^^^ (aes_table 1).getD ((x0 >>> 8) &&& 0xff) 0 ^^^
        (aes_table 2).getD ((x1 >>> 16) &&& 0xff) 0 ^^^ (aes_table 3).getD (x2 >>> 24) 0)
      ((aes_table 0).getD (x2 &&& 0xff) 0 ^^^ (aes_table 1).getD ((x3 >>> 8) &&& 0xff) 0 ^^^
        (aes_table 2).getD ((x0 >>> 16) &&& 0xff) 0 ^^^ (aes_table 3).getD (x1 >>> 24) 0)
      ((aes_table 0).getD (x1 &&& 0xff) 0 ^^^ (aes_table 1).getD ((x2 >>> 8) &&& 0xff) 0 ^^^
        (aes_table 2).getD ((x3 >>> 16) &&& 0xff) 0 ^^^ (aes_table 3).getD (x0 >>> 24) 0)
      ((aes_table 0).getD (x0 &&& 0xff) 0 ^^^ (aes_table 1).getD ((x1 >>> 8) &&& 0xff) 0 ^^^
        (aes_table 2).getD ((x2 >>> 16) &&& 0xff) 0 ^^^ (aes_table 3).getD (x3 >>> 24) 0)
    _mm_xor_si128 out RoundKey

/-- The macro `vreinterpretq_nth_u8_m128i(x, n)` read: byte `n` of `x`. -/
def vreinterpretq_nth_u8_m128i (x n : Nat) : Nat := lane 8 x n

/-- The macro `vreinterpretq_nth_u8_m128i(x, n) = v` written: `x` with byte `n`
replaced by the low 8 bits of `v`. -/
def set_nth_u8_m128i (x n v : Nat) : Nat :=
  pack 8 (fun i => if i = n then v else lane 8 x i) 16

/-- `_mm_aesenclast_si128(a, RoundKey)`.  `crypto` selects the build with
`__ARM_FEATURE_CRYPTO`; otherwise the S-box is read per byte into `v[4][4]`
and a loop over the 16 bytes writes `v[i / 4][i % 4] ^ RoundKey[i]` back into
`a`. -/
def _mm_aesenclast_si128 (crypto : Bool) (a RoundKey : Nat) : Nat :=
  if crypto then
    _mm_xor_si128 (vaeseq_u8 a (vdupq_n_u8 0)) RoundKey
  else
    let v : List (List Nat) := [
      [SSE2NEON_sbox.getD (vreinterpretq_nth_u8_m128i a 0) 0,
       SSE2NEON_sbox.getD (vreinterpretq_nth_u8_m128i a 5) 0,
       SSE2NEON_sbox.getD (vreinterpretq_nth_u8_m128i a 10) 0,
       SSE2NEON_sbox.getD (vreinterpretq_nth_u8_m128i a 15) 0],
      [SSE2NEON_sbox.getD (vreinterpretq_nth_u8_m128i a 4) 0,
       SSE2NEON_sbox.getD (vreinterpretq_nth_u8_m128i a 9) 0,
       SSE2NEON_sbox.getD (vreinterpretq_nth_u8_m128i a 14) 0,
       SSE2NEON_sbox.getD (vreinterpretq_nth_u8_m128i a 3) 0],
      [SSE2NEON_sbox.getD (vreinterpretq_nth_u8_m128i a 8) 0,
       SSE2NEON_sbox.getD (vreinterpretq_nth_u8_m128i a 13) 0,
       SSE2NEON_sbox.getD (vreinterpretq_nth_u8_m128i a 2) 0,
       SSE2NEON_sbox.getD (vreinterpretq_nth_u8_m128i a 7) 0],
      [SSE2NEON_sbox.getD (vreinterpretq_nth_u8_m128i a 12) 0,
       SSE2NEON_sbox.getD (vreinterpretq_nth_u8_m128i a 1) 0,
       SSE2NEON_sbox.getD (vreinterpretq_nth_u8_m128i a 6) 0,
       SSE2NEON_sbox.getD (vreinterpretq_nth_u8_m128i a 11) 0]]
    (List.range 16).foldl
      (fun a i => set_nth_u8_m128i a i
        (((v.getD (i / 4) []).getD (i % 4) 0) ^^^ vreinterpretq_nth_u8_m128i RoundKey i))
      a

/-- Byte `i` of a `uint32_t` in memory (little-endian): `((uint8_t *) &X)[i]`. -/
def u32_byte (X i : Nat) : Nat := lane 8 X i

/-- The store `((uint8_t *) &X)[i] = v` into a `uint32_t`. -/
def u32_set_byte (X i v : Nat) : Nat :=
  pack 8 (fun j => if j = i then v else lane 8 X j) 4

/-- The 32-bit pattern of a C `int` seen as `unsigned`. -/
def intBits (x : Int) : Nat := (x % 2 ^ 32).toNat

/-- Q register of four `uint32_t` lanes given by an initialiser list. -/
def uint32x4_lit (xs : List Nat) : Nat := pack 32 (fun i => xs.getD i 0) 4

/-- `_mm_aeskeygenassist_si128(key, rcon)`.  `crypto` selects the build with
`__ARM_FEATURE_CRYPTO`; otherwise the two words are extracted, their bytes
substituted in a loop, and the result assembled by `_mm_set_epi32`. -/
def _mm_aeskeygenassist_si128 (crypto aarch64 has_builtin : Bool) (key : Nat) (rcon : Int) :
    Nat :=
  if crypto then
    let a := key
    let u8 := vaeseq_u8 a (vdupq_n_u8 0)
    let dest := vld1q_u8 [
      lane 8 u8 0x4, lane 8 u8 0x1, lane 8 u8 0xE, lane 8 u8 0xB,
      lane 8 u8 0x1, lane 8 u8 0xE, lane 8 u8 0xB, lane 8 u8 0x4,
      lane 8 u8 0xC, lane 8 u8 0x9, lane 8 u8 0x6, lane 8 u8 0x3,
      lane 8 u8 0x9, lane 8 u8 0x6, lane 8 u8 0x3, lane 8 u8 0xC]
    let r := uint32x4_lit [0, intBits rcon, 0, intBits rcon]
    v128_xor dest r
  else
    let X1 := _mm_cvtsi128_si32 (_mm_shuffle_epi32 has_builtin aarch64 key 0x55)
    let X3 := _mm_cvtsi128_si32 (_mm_shuffle_epi32 has_builtin aarch64 key 0xFF)
    let st := (List.range 4).foldl
      (fun (st : Nat × Nat) i =>
        let X1 := u32_set_byte st.1 i (SSE2NEON_sbox.getD (u32_byte st.1 i) 0)
        let X3 := u32_set_byte st.2 i (SSE2NEON_sbox.getD (u32_byte st.2 i) 0)
        (X1, X3))
      (X1, X3)
    let X1 := st.1
    let X3 := st.2
    _mm_set_epi32 (((X3 >>> 8) ||| ((X3 <<< 24) % 2 ^ 32)) ^^^ intBits rcon) X3
      (((X1 >>> 8) ||| ((X1 <<< 24) % 2 ^ 32)) ^^^ intBits rcon) X1

/-- The function `xtime` of the claims: doubling in GF(2^8),
`((x << 1) mod 256) XOR (0x1b if x >= 0x80 else 0)`. -/
def xtime (x : Nat) : Nat := ((x <<< 1) % 256) ^^^ (if x ≥ 0x80 then 0x1b else 0)

/-- Byte `i` of one cipher round before the key is added, as the specification
states it: with `s[j] = SSE2NEON_sbox[a[5 j mod 16]]`, column `c = i / 4` and
row `r = i % 4`, the value
`xtime(s[4c+r]) ^ xtime(s[4c+(r+1)%4]) ^ s[4c+(r+1)%4] ^ s[4c+(r+2)%4] ^ s[4c+(r+3)%4]`. -/
def aesRoundByte (a i : Nat) : Nat :=
  let c := i / 4
  let r := i % 4
  let s := fun j => SSE2NEON_sbox.getD (lane 8 a ((5 * j) % 16)) 0
  xtime (s (4 * c + r)) ^^^ xtime (s (4 * c + (r + 1) % 4)) ^^^ s (4 * c + (r + 1) % 4)
    ^^^ s (4 * c + (r + 2) % 4) ^^^ s (4 * c + (r + 3) % 4)

/-- The macro applied to the S-box entries in row `k` of `aes_table`
(`SSE2NEON_AES_U0` .. `SSE2NEON_AES_U3`). -/
def aesU (k : Nat) : Nat → Nat :=
  if k = 0 then SSE2NEON_AES_U0 else if k = 1 then SSE2NEON_AES_U1
  else if k = 2 then SSE2NEON_AES_U2 else SSE2NEON_AES_U3

/-- The word substitution of the claims on the key-generation helper:
`SSE2NEON_sbox` applied to each of the four bytes of a 32-bit word. -/
def SubWord (w : Nat) : Nat := pack 8 (fun i => SSE2NEON_sbox.getD (lane 8 w i) 0) 4

/-- The word rotation of the claims on the key-generation helper:
`(w >> 8) | (w << 24)` on 32 bits. -/
def RotWord (w : Nat) : Nat := (w >>> 8) ||| ((w <<< 24) % 2 ^ 32)

/-! ## Reinterpretation casts (`_mm_castps_si128` and friends) -/

/-- Any of the NEON casts `vreinterpretq_T_S` between views of a Q register:
the architecture defines them to leave the bits of the register unchanged. -/
def vreinterpretq (x : Nat) : Nat := x

/-- The macro `vreinterpretq_s32_m128(x)`, that is `vreinterpretq_s32_f32(x)`. -/
def vreinterpretq_s32_m128 (x : Nat) : Nat := vreinterpretq x

/-- The macro `vreinterpretq_m128i_s32(x)`, that is `vreinterpretq_s64_s32(x)`. -/
def vreinterpretq_m128i_s32 (x : Nat) : Nat := vreinterpretq x

/-- The macro `vreinterpretq_m128_s32(x)`, that is `vreinterpretq_f32_s32(x)`. -/
def vreinterpretq_m128_s32 (x : Nat) : Nat := vreinterpretq x

/-- The macro `vreinterpretq_s32_m128i(x)`, that is `vreinterpretq_s32_s64(x)`. -/
def vreinterpretq_s32_m128i (x : Nat) : Nat := vreinterpretq x

/-- The macro `vreinterpretq_m128d_s32(x)`: `vreinterpretq_f64_s32(x)` on
aarch64, where `__m128d` is `float64x2_t`, and `vreinterpretq_f32_s32(x)`
otherwise, where `__m128d` is `float32x4_t`. -/
def vreinterpretq_m128d_s32 (aarch64 : Bool) (x : Nat) : Nat :=
  if aarch64 then vreinterpretq x else vreinterpretq x

/-- The macro `vreinterpretq_s64_m128d(x)`: `vreinterpretq_s64_f64(x)` on
aarch64 and `vreinterpretq_s64_f32(x)` otherwise. -/
def vreinterpretq_s64_m128d (aarch64 : Bool) (x : Nat) : Nat :=
  if aarch64 then vreinterpretq x else vreinterpretq x

/-- The macro `vreinterpretq_m128_s64(x)`, that is `vreinterpretq_f32_s64(x)`. -/
def vreinterpretq_m128_s64 (x : Nat) : Nat := vreinterpretq x

/-- The macro `vreinterpretq_m128i_s64(x)`, that is `(x)`. -/
def vreinterpretq_m128i_s64 (x : Nat) : Nat := x

/-- `_mm_castps_pd(a)`. -/
def _mm_castps_pd (aarch64 : Bool) (a : Nat) : Nat :=
  vreinterpretq_m128d_s32 aarch64 (vreinterpretq_s32_m128 a)

/-- `_mm_castps_si128(a)`. -/
def _mm_castps_si128 (a : Nat) : Nat := vreinterpretq_m128i_s32 (vreinterpretq_s32_m128 a)

/-- `_mm_castsi128_ps(a)`. -/
def _mm_castsi128_ps (a : Nat) : Nat := vreinterpretq_m128_s32 (vreinterpretq_s32_m128i a)

/-- `_mm_castpd_si128(a)`. -/
def _mm_castpd_si128 (aarch64 : Bool) (a : Nat) : Nat :=
  vreinterpretq_m128i_s64 (vreinterpretq_s64_m128d aarch64 a)

/-- `_mm_castpd_ps(a)`. -/
def _mm_castpd_ps (aarch64 : Bool) (a : Nat) : Nat :=
  vreinterpretq_m128_s64 (vreinterpretq_s64_m128d aarch64 a)

/-! ## Byte shuffle (`_mm_shuffle_epi8`) and the low-half 16-bit shuffle -/

/-- Load eight signed 16-bit integers from memory into a Q register. -/
def vld1q_s16 (xs : List Int) : Nat := pack 16 (fun i => (xs.getD i 0 % 2 ^ 16).toNat) 8

/-- `_mm_setr_epi16(w0, .., w7)`. -/
def _mm_setr_epi16 (w0 w1 w2 w3 w4 w5 w6 w7 : Int) : Nat :=
  let data := [w0, w1, w2, w3, w4, w5, w6, w7]
  vld1q_s16 data

/-- `_mm_setr_epi8(b0, .., b15)`. -/
def _mm_setr_epi8 (b0 b1 b2 b3 b4 b5 b6 b7 b8 b9 b10 b11 b12 b13 b14 b15 : Int) : Nat :=
  let data := [b0, b1, b2, b3, b4, b5, b6, b7, b8, b9, b10, b11, b12, b13, b14, b15]
  vld1q_s8 data

/-- Table lookup in one Q register of signed bytes (`TBL`): byte `i` of the
result is byte `idx[i]` of `t`, or 0 when `idx[i]` is 16 or more. -/
def vqtbl1q_s8 (t idx : Nat) : Nat :=
  pack 8 (fun i => if lane 8 idx i < 16 then lane 8 t (lane 8 idx i) else 0) 16

/-- Low half of a Q register of signed bytes, as a D register. -/
def vget_low_s8 (a : Nat) : Nat := pack 8 (fun i => lane 8 a i) 8

/-- High half of a Q register of signed bytes, as a D register. -/
def vget_high_s8 (a : Nat) : Nat := pack 8 (fun i => lane 8 a (i + 8)) 8

/-- Q register of signed bytes whose low half is `lo` and high half is `hi`. -/
def vcombine_s8 (lo hi : Nat) : Nat :=
  pack 8 (fun i => if i < 8 then lane 8 lo i else lane 8 hi (i - 8)) 16

/-- Table lookup in a pair of D registers (`VTBL` with a two-register list):
byte `i` of the result is byte `idx[i]` of the 16-byte table `(t0, t1)`, or 0
when `idx[i]` is 16 or more. -/
def vtbl2_s8 (t : Nat × Nat) (idx : Nat) : Nat :=
  pack 8 (fun i =>
    if lane 8 idx i < 8 then lane 8 t.1 (lane 8 idx i)
    else if lane 8 idx i < 16 then lane 8 t.2 (lane 8 idx i - 8)
    else 0) 8

/-- `_mm_shuffle_epi8(a, b)`.  `aarch64` selects the `vqtbl1q_s8` variant;
otherwise `gnuc` selects the inline assembly (two `vtbl.8` instructions on the
even and odd D registers of the table and of the index) and the last variant
is the one written with `vtbl2_s8`. -/
def _mm_shuffle_epi8 (aarch64 gnuc : Bool) (a b : Nat) : Nat :=
  let tbl := a
  let idx := b
  let idx_masked := vandq_u8 idx (vdupq_n_u8 0x8F)
  if aarch64 then
    vqtbl1q_s8 tbl idx_masked
  else if gnuc then
    let ret_e := vtbl2_s8 (vget_low_s8 tbl, vget_high_s8 tbl) (vget_low_u8 idx_masked)
    let ret_f := vtbl2_s8 (vget_low_s8 tbl, vget_high_s8 tbl) (vget_high_u8 idx_masked)
    vcombine_s8 ret_e ret_f
  else
    let a_split := (vget_low_s8 tbl, vget_high_s8 tbl)
    vcombine_s8 (vtbl2_s8 a_split (vget_low_u8 idx_masked))
      (vtbl2_s8 a_split (vget_high_u8 idx_masked))

/-- Low half of a Q register of 16-bit lanes, as a D register. -/
def vget_low_s16 (a : Nat) : Nat := pack 16 (fun i => lane 16 a i) 4

/-- Read lane `k` of a D register of 16-bit lanes. -/
def vget_lane_s16 (d k : Nat) : Nat := lane 16 d k

/-- Replace lane `k` of the Q register `q` of 16-bit lanes by `v`. -/
def vsetq_lane_s16 (v q k : Nat) : Nat :=
  pack 16 (fun i => if i = k then v else lane 16 q i) 8

/-- The macro `_mm_shufflelo_epi16_function(a, imm)`. -/
def _mm_shufflelo_epi16_function (a imm : Nat) : Nat :=
  let ret := a
  let lowBits := vget_low_s16 ret
  let ret := vsetq_lane_s16 (vget_lane_s16 lowBits (imm &&& 0x3)) ret 0
  let ret := vsetq_lane_s16 (vget_lane_s16 lowBits ((imm >>> 2) &&& 0x3)) ret 1
  let ret := vsetq_lane_s16 (vget_lane_s16 lowBits ((imm >>> 4) &&& 0x3)) ret 2
  let ret := vsetq_lane_s16 (vget_lane_s16 lowBits ((imm >>> 6) &&& 0x3)) ret 3
  ret

/-! ## Shifts by a count register (`_mm_sra_epi16`, `_mm_srl_epi16`) -/

/-- Low half of a Q register, as a D register of one 64-bit lane. -/
def vget_low_s64 (a : Nat) : Nat := pack 64 (fun i => lane 64 a i) 1

/-- `_mm_setzero_si128()`. -/
def _mm_setzero_si128 : Nat := vdupq_n_s32 0

/-- Signed less-than on eight 16-bit lanes: all ones where `a[i] < b[i]`. -/
def vcltq_s16 (a b : Nat) : Nat :=
  pack 16 (fun i => if sint 16 (lane 16 a i) < sint 16 (lane 16 b i) then 0xFFFF else 0) 8

/-- `_mm_cmplt_epi16(a, b)`. -/
def _mm_cmplt_epi16 (a b : Nat) : Nat := vcltq_s16 a b

/-- Broadcast the C integer `v`, converted to `int16_t`, to the eight lanes of
a Q register. -/
def vdupq_n_s16 (v : Int) : Nat := pack 16 (fun _ => (v % 2 ^ 16).toNat) 8

/-- Shift of one signed `w`-bit lane by a signed amount (`SSHL`): left when
the amount is non-negative, arithmetic right (rounding toward minus infinity)
when it is negative. -/
def sshl (w v : Nat) (s : Int) : Nat :=
  if 0 ≤ s then (v <<< s.toNat) % 2 ^ w else ((sint w v >>> (-s).toNat) % 2 ^ w).toNat

/-- Eight signed 16-bit lanes of `a`, each shifted by the signed low byte of
the matching lane of `b`. -/
def vshlq_s16 (a b : Nat) : Nat :=
  pack 16 (fun i => sshl 16 (lane 16 a i) (sint 8 (lane 16 b i))) 8

/-- Eight unsigned 16-bit lanes of `a`, each shifted by the signed low byte of
the matching lane of `b`. -/
def vshlq_u16 (a b : Nat) : Nat :=
  pack 16 (fun i => ushl 16 (lane 16 a i) (sint 8 (lane 16 b i))) 8

/-- `_mm_sra_epi16(a, count)`: the count is read as `int64_t c`, compared with
15 as a signed value, and `-c` is converted to `int16_t` for the shift
vector. -/
def _mm_sra_epi16 (a count : Nat) : Nat :=
  let c : Int := sint 64 (vget_low_s64 count)
  if c > 15 then
    _mm_cmplt_epi16 a _mm_setzero_si128
  else
    vshlq_s16 a (vdupq_n_s16 (-c))

/-- The macro `vreinterpretq_nth_u64_m128i(x, n)`: 64-bit lane `n` of `x`. -/
def vreinterpretq_nth_u64_m128i (x n : Nat) : Nat := lane 64 x n

/-- `_mm_srl_epi16(a, count)`: the count is read as `uint64_t c`. -/
def _mm_srl_epi16 (a count : Nat) : Nat :=
  let c := vreinterpretq_nth_u64_m128i count 0
  if c > 15 then
    _mm_setzero_si128
  else
    let vc := vdupq_n_s16 (-(sint 16 c))
    vshlq_u16 a vc

/-- The result the documentation of `_mm_sra_epi16` describes: every signed
16-bit lane shifted right arithmetically by `min(c, 15)` bits, `c` being the
low 64 bits of the count register read as an unsigned integer. -/
def sra_epi16_documented (a count : Nat) : Nat :=
  pack 16 (fun i => ((sint 16 (lane 16 a i) >>> min (lane 64 count 0) 15) % 2 ^ 16).toNat) 8

/-! ## Signed 64-bit greater-than (`_mm_cmpgt_epi64`) -/

/-- Broadcast the 64-bit value `v` to the two lanes of a Q register. -/
def vdupq_n_s64 (v : Nat) : Nat := pack 64 (fun _ => v) 2

/-- Signed greater-than on four 32-bit lanes: all ones where `a[i] > b[i]`. -/
def vcgtq_s32 (a b : Nat) : Nat :=
  pack 32 (fun i => if sint 32 (lane 32 a i) > sint 32 (lane 32 b i) then 0xFFFFFFFF else 0) 4

/-- Equality on four 32-bit lanes: all ones where `a[i] = b[i]`. -/
def vceqq_s32 (a b : Nat) : Nat :=
  pack 32 (fun i => if lane 32 a i = lane 32 b i then 0xFFFFFFFF else 0) 4

/-- Signed greater-than on two 64-bit lanes: all ones where `a[i] > b[i]`. -/
def vcgtq_s64 (a b : Nat) : Nat :=
  pack 64 (fun i =>
    if sint 64 (lane 64 a i) > sint 64 (lane 64 b i) then 0xFFFFFFFFFFFFFFFF else 0) 2

/-- Two signed 64-bit lanes, each shifted right arithmetically by `n`. -/
def vshrq_n_s64 (a n : Nat) : Nat :=
  pack 64 (fun i => ((sint 64 (lane 64 a i) >>> n) % 2 ^ 64).toNat) 2

/-- Shift left and insert (`SLI`) on two 64-bit lanes: each lane of `b` is
shifted left by `n` and written over lane `i` of `a`, whose low `n` bits are
kept. -/
def vsliq_n_s64 (a b n : Nat) : Nat :=
  pack 64 (fun i => ((lane 64 b i <<< n) % 2 ^ 64) ||| (lane 64 a i % 2 ^ n)) 2

/-- Bitwise OR of two Q registers, as 64-bit lanes. -/
def vorrq_s64 (a b : Nat) : Nat := pack 64 (fun i => lane 64 a i ||| lane 64 b i) 2

/-- Bitwise AND of two Q registers, as 64-bit lanes. -/
def vandq_s64 (a b : Nat) : Nat := pack 64 (fun i => lane 64 a i &&& lane 64 b i) 2

/-- `_mm_cmpgt_epi64(a, b)`.  `aarch64` selects `vcgtq_s64`; otherwise the
polyfill on 32-bit compares is used. -/
def _mm_cmpgt_epi64 (aarch64 : Bool) (a b : Nat) : Nat :=
  if aarch64 then
    vcgtq_s64 a b
  else
    let mask := vdupq_n_s64 0x80000000
    let a_mask := veorq_s32 a mask
    let b_mask := veorq_s32 b mask
    let greater := vcgtq_s32 a_mask b_mask
    let gt_hi := vshrq_n_s64 greater 63
    let gt_lo := vsliq_n_s64 greater greater 32
    let equal := vceqq_s32 a_mask b_mask
    let eq_hi := vshrq_n_s64 equal 63
    let ret := vorrq_s64 gt_hi (vandq_s64 gt_lo eq_hi)
    ret

/-! ## Horizontal minimum with index (`_mm_minpos_epu16`) -/

/-- Minimum across the eight unsigned 16-bit lanes of a Q register. -/
def vminvq_u16 (a : Nat) : Nat :=
  (List.range 8).foldl (fun m i => min m (lane 16 a i)) (lane 16 a 0)

/-- Low half of a Q register of 16-bit lanes, as a D register. -/
def vget_low_u16 (a : Nat) : Nat := pack 16 (fun i => lane 16 a i) 4

/-- High half of a Q register of 16-bit lanes, as a D register. -/
def vget_high_u16 (a : Nat) : Nat := pack 16 (fun i => lane 16 a (i + 4)) 4

/-- Lane-wise unsigned minimum of two D registers of 16-bit lanes. -/
def vmin_u16 (a b : Nat) : Nat := pack 16 (fun i => min (lane 16 a i) (lane 16 b i)) 4

/-- Pairwise unsigned minimum (`VPMIN`): lanes 0 and 1 are the minima of the
adjacent pairs of `a`, lanes 2 and 3 those of `b`. -/
def vpmin_u16 (a b : Nat) : Nat :=
  pack 16 (fun i =>
    if i < 2 then min (lane 16 a (2 * i)) (lane 16 a (2 * i + 1))
    else min (lane 16 b (2 * (i - 2))) (lane 16 b (2 * (i - 2) + 1))) 4

/-- Read lane `k` of a D register of 16-bit lanes. -/
def vget_lane_u16 (d k : Nat) : Nat := lane 16 d k

/-- Read lane `k` of a Q register of 16-bit lanes. -/
def vgetq_lane_u16 (a k : Nat) : Nat := lane 16 a k

/-- Replace lane `k` of the Q register `q` of 16-bit lanes by `v`. -/
def vsetq_lane_u16 (v q k : Nat) : Nat :=
  pack 16 (fun i => if i = k then v else lane 16 q i) 8

/-- Broadcast the byte `v` to the sixteen lanes of a Q register. -/
def vdupq_n_s8 (v : Nat) : Nat := pack 8 (fun _ => v) 16

/-- Extract sixteen consecutive bytes, starting at byte `n` of `a`, from the
pair `a` (low) and `b` (high) of Q registers. -/
def vextq_s8 (a b n : Nat) : Nat :=
  pack 8 (fun i => if i + n < 16 then lane 8 a (i + n) else lane 8 b (i + n - 16)) 16

/-- The macro `_mm_srli_si128(a, imm)`. -/
def _mm_srli_si128 (a : Nat) (imm : Int) : Nat :=
  if imm ≤ 0 then a
  else if imm > 15 then _mm_setzero_si128
  else vextq_s8 a (vdupq_n_s8 0) imm.toNat

/-- The index search loop of `_mm_minpos_epu16`, with `n` iterations left at
counter `i`: `some i` when the `break` is taken at counter `i`, `none` when the
loop runs to its end. -/
def minpos_loop (min : Nat) : Nat → Nat → Nat → Option Nat
  | 0, _, _ => none
  | n + 1, i, a =>
    if min = vgetq_lane_u16 a 0 then some i
    else minpos_loop min n (i + 1) (_mm_srli_si128 a 2)

/-- `_mm_minpos_epu16(a)`.  `aarch64` selects `vminvq_u16` for the minimum;
otherwise it is reduced with `vmin_u16` and two `vpmin_u16`. -/
def _mm_minpos_epu16 (aarch64 : Bool) (a : Nat) : Nat :=
  let min :=
    if aarch64 then vminvq_u16 a
    else
      let tmp := vmin_u16 (vget_low_u16 a) (vget_high_u16 a)
      let tmp := vpmin_u16 tmp tmp
      let tmp := vpmin_u16 tmp tmp
      vget_lane_u16 tmp 0
  let idx := (minpos_loop min 8 0 a).getD 0
  let dst := _mm_setzero_si128
  let dst := vsetq_lane_u16 min dst 0
  let dst := vsetq_lane_u16 idx dst 1
  dst

/-! ## Single-precision values

The conversion and rounding intrinsics compute on IEEE-754 binary32 lanes.
A finite value is kept exactly, as a sign and a magnitude counted in units of
`2^-149` (the smallest positive binary32 value): every finite binary32 value
is such a multiple, and so is every binary64 value the scalar paths compute
(sums, differences, floors and ceilings of binary32 values, rounded to 53
bits).  Infinities and NaN have no representation; an operation whose operand
is one of them returns `none`. -/

/-- A finite floating-point value `(-1)^neg * mag * 2^-149`. -/
structure Fp where
  /-- The sign bit. -/
  neg : Bool
  /-- The magnitude in units of `2^-149`. -/
  mag : Nat

/-- The magnitude of `1.0`. -/
def Fp.one : Nat := 2 ^ 149

/-- The signed value of `x`, in units of `2^-149`. -/
def Fp.toInt (x : Fp) : Int := if x.neg then -(x.mag : Int) else (x.mag : Int)

/-- The value of a finite binary32 bit pattern; `none` for infinities and NaN. -/
def f32_decode (bits : Nat) : Option Fp :=
  let e := bits / 2 ^ 23 % 2 ^ 8
  let m := bits % 2 ^ 23
  if e = 255 then none
  else some ⟨bits / 2 ^ 31 % 2 = 1, if e = 0 then m else (2 ^ 23 + m) * 2 ^ (e - 1)⟩

/-- Position of the leading one bit of `n` (0 for `n < 2`), by halving at most
`fuel` times. -/
def ilog2Fuel : Nat → Nat → Nat
  | 0, _ => 0
  | fuel + 1, n => if n < 2 then 0 else ilog2Fuel fuel (n / 2) + 1

/-- Position of the leading one bit of `n`: the integer part of its binary
logarithm. -/
def ilog2 (n : Nat) : Nat := ilog2Fuel n n

/-- Round a magnitude to `p` significant bits, to nearest, ties to even. -/
def roundSig (p mag : Nat) : Nat :=
  if mag < 2 ^ p then mag
  else
    let sh := ilog2 mag + 1 - p
    let q := mag / 2 ^ sh
    let r := mag % 2 ^ sh
    let q := if r > 2 ^ (sh - 1) ∨ (r = 2 ^ (sh - 1) ∧ q % 2 = 1) then q + 1 else q
    q * 2 ^ sh

/-- Conversion of an exact value to binary64, as a value (53 significant bits;
no value computed here leaves the binary64 exponent range). -/
def f64_round (x : Fp) : Fp := ⟨x.neg, roundSig 53 x.mag⟩

/-- Conversion of an exact value to binary32, as a value (24 significant
bits, exponent range not yet applied). -/
def f32_round (x : Fp) : Fp := ⟨x.neg, roundSig 24 x.mag⟩

/-- The binary32 bit pattern of an exact value: rounded to nearest, ties to
even; the infinity of the same sign on overflow. -/
def f32_encode (x : Fp) : Nat :=
  let m := roundSig 24 x.mag
  let s := if x.neg then 2 ^ 31 else 0
  if m < 2 ^ 23 then s + m
  else
    let e := ilog2 m - 22
    if e ≥ 255 then s + 0x7F800000 else s + e * 2 ^ 23 + (m / 2 ^ (e - 1) - 2 ^ 23)

/-- Exact sum; a zero sum is `-0` only when both operands are negative. -/
def Fp.add (x y : Fp) : Fp :=
  let s := x.toInt + y.toInt
  if s = 0 then ⟨x.neg && y.neg, 0⟩ else ⟨decide (s < 0), s.natAbs⟩

/-- Negation. -/
def Fp.negate (x : Fp) : Fp := ⟨!x.neg, x.mag⟩

/-- Exact difference `x - y = x + (-y)`. -/
def Fp.sub (x y : Fp) : Fp := x.add y.negate

/-- Largest integral value not above `x` (`floor`); an integral `x`, a signed
zero included, is returned as it is. -/
def Fp.floor (x : Fp) : Fp :=
  if x.mag % Fp.one = 0 then x
  else if x.neg then ⟨true, (x.mag / Fp.one + 1) * Fp.one⟩
  else ⟨false, x.mag / Fp.one * Fp.one⟩

/-- Smallest integral value not below `x` (`ceil`); the result for `x` in
`(-1, 0)` is `-0`. -/
def Fp.ceil (x : Fp) : Fp :=
  if x.mag % Fp.one = 0 then x
  else if x.neg then ⟨true, x.mag / Fp.one * Fp.one⟩
  else ⟨false, (x.mag / Fp.one + 1) * Fp.one⟩

/-- Integral value nearest to `x` toward zero. -/
def Fp.trunc (x : Fp) : Fp := ⟨x.neg, x.mag / Fp.one * Fp.one⟩

/-- Integral value nearest to `x`, halfway cases away from zero (`round`). -/
def Fp.roundAway (x : Fp) : Fp := ⟨x.neg, (x.mag + Fp.one / 2) / Fp.one * Fp.one⟩

/-- Integral value nearest to `x`, halfway cases to the even integer. -/
def Fp.roundEven (x : Fp) : Fp :=
  let q := x.mag / Fp.one
  let r := x.mag % Fp.one
  let q := if r > Fp.one / 2 ∨ (r = Fp.one / 2 ∧ q % 2 = 1) then q + 1 else q
  ⟨x.neg, q * Fp.one⟩

/-- The integer an integral value stands for. -/
def Fp.intValue (x : Fp) : Int := x.toInt / (Fp.one : Int)

/-- The binary64 constant `0.5`. -/
def Fp.half : Fp := ⟨false, Fp.one / 2⟩

/-- The C conversion of a floating-point value to a signed integer type of
`w` bits: truncation toward zero; the behaviour is undefined (`none`) when the
truncated value does not fit. -/
def c_cast_int (w : Nat) (x : Fp) : Option Int :=
  let v := x.trunc.intValue
  if -(2 : Int) ^ (w - 1) ≤ v ∧ v < (2 : Int) ^ (w - 1) then some v else none

/-- The C conversion of a signed integer to `int` (32 bits): the value when it
fits, and otherwise (implementation-defined; GCC and Clang) the value reduced
modulo `2^32`. -/
def c_int_of (v : Int) : Int := sint 32 (v % 2 ^ 32).toNat

/-! ## NEON and C library primitives on single-precision lanes

The vector instructions are modelled on lanes that hold a zero or a normal
number and whose exact result is not subnormal: there the IEEE-754 result
(round to nearest, ties to even) is the result on every target, whether or not
the target flushes subnormal numbers to zero.  On other lanes they return
`none`. -/

/-- The value of a lane read by a vector floating-point instruction: `none`
for a subnormal number, an infinity or a NaN. -/
def neon_operand (bits : Nat) : Option Fp :=
  match f32_decode bits with
  | some x => if 0 < x.mag ∧ x.mag < 2 ^ 23 then none else some x
  | none => none

/-- The lane written by a vector floating-point instruction whose exact result
is `x`: `none` when `x` is subnormal. -/
def neon_result (x : Fp) : Option Nat :=
  if 0 < x.mag ∧ x.mag < 2 ^ 23 then none else some (f32_encode x)

/-- The Q register whose four 32-bit lanes are `f` of the lanes of `a`, when
all four are defined. -/
def lanes32_map (f : Nat → Option Nat) (a : Nat) : Option Nat := do
  let r0 ← f (lane 32 a 0)
  let r1 ← f (lane 32 a 1)
  let r2 ← f (lane 32 a 2)
  let r3 ← f (lane 32 a 3)
  some (pack 32 (fun i => [r0, r1, r2, r3].getD i 0) 4)

/-- The Q register whose four 32-bit lanes are `f` of the matching lanes of
`a` and `b`, when all four are defined. -/
def lanes32_zip (f : Nat → Nat → Option Nat) (a b : Nat) : Option Nat := do
  let r0 ← f (lane 32 a 0) (lane 32 b 0)
  let r1 ← f (lane 32 a 1) (lane 32 b 1)
  let r2 ← f (lane 32 a 2) (lane 32 b 2)
  let r3 ← f (lane 32 a 3) (lane 32 b 3)
  some (pack 32 (fun i => [r0, r1, r2, r3].getD i 0) 4)

/-- Lane-wise single-precision addition. -/
def vaddq_f32 (a b : Nat) : Option Nat :=
  lanes32_zip (fun x y => do
    let u ← neon_operand x
    let v ← neon_operand y
    neon_result (u.add v)) a b

/-- Lane-wise single-precision subtraction. -/
def vsubq_f32 (a b : Nat) : Option Nat :=
  lanes32_zip (fun x y => do
    let u ← neon_operand x
    let v ← neon_operand y
    neon_result (u.sub v)) a b

/-- A signed integer saturated to the range of `int32_t`. -/
def sat_s32 (v : Int) : Int := max (-(2 : Int) ^ 31) (min v ((2 : Int) ^ 31 - 1))

/-- Lane-wise conversion to `int32_t`, rounding toward zero, saturating. -/
def vcvtq_s32_f32 (a : Nat) : Option Nat :=
  lanes32_map (fun x => do
    let u ← neon_operand x
    some (intBits (sat_s32 u.trunc.intValue))) a

/-- Lane-wise conversion to `int32_t`, rounding to nearest with ties to even,
saturating. -/
def vcvtnq_s32_f32 (a : Nat) : Option Nat :=
  lanes32_map (fun x => do
    let u ← neon_operand x
    some (intBits (sat_s32 u.roundEven.intValue))) a

/-- Lane-wise conversion of `int32_t` to single precision (round to nearest,
ties to even). -/
def vcvtq_f32_s32 (a : Nat) : Nat :=
  pack 32 (fun i =>
    f32_encode ⟨decide (sint 32 (lane 32 a i) < 0), (sint 32 (lane 32 a i)).natAbs * Fp.one⟩) 4

/-- Lane-wise single-precision equality: all ones where the values are equal
(the two zeros are equal). -/
def vceqq_f32 (a b : Nat) : Option Nat :=
  lanes32_zip (fun x y => do
    let u ← neon_operand x
    let v ← neon_operand y
    some (if u.toInt = v.toInt then 0xFFFFFFFF else 0)) a b

/-- Lane-wise single-precision less-than-or-equal: all ones where
`a[i] <= b[i]`. -/
def vcleq_f32 (a b : Nat) : Option Nat :=
  lanes32_zip (fun x y => do
    let u ← neon_operand x
    let v ← neon_operand y
    some (if u.toInt ≤ v.toInt then 0xFFFFFFFF else 0)) a b

/-- Bitwise select on four 32-bit lanes: each bit is taken from `a` where the
bit of `mask` is set and from `b` where it is clear. -/
def vbslq_f32 (mask a b : Nat) : Nat :=
  pack 32 (fun i =>
    (lane 32 a i &&& lane 32 mask i) ||| (lane 32 b i &&& (lane 32 mask i ^^^ 0xFFFFFFFF))) 4

/-- Bitwise select on four 32-bit integer lanes. -/
def vbslq_s32 (mask a b : Nat) : Nat :=
  pack 32 (fun i =>
    (lane 32 a i &&& lane 32 mask i) ||| (lane 32 b i &&& (lane 32 mask i ^^^ 0xFFFFFFFF))) 4

/-- Lane-wise negation of four `int32_t` lanes (two's complement). -/
def vnegq_s32 (a : Nat) : Nat := pack 32 (fun i => 2 ^ 32 - lane 32 a i) 4

/-- Lane-wise addition of four `int32_t` lanes (modulo `2^32`). -/
def vaddq_s32 (a b : Nat) : Nat := pack 32 (fun i => lane 32 a i + lane 32 b i) 4

/-- Bit clear on four 32-bit lanes: `a & ~b`. -/
def vbicq_s32 (a b : Nat) : Nat :=
  pack 32 (fun i => lane 32 a i &&& (lane 32 b i ^^^ 0xFFFFFFFF)) 4

/-- Broadcast the 32-bit value `v` to the four lanes of a Q register. -/
def vdupq_n_u32 (v : Nat) : Nat := pack 32 (fun _ => v) 4

/-- Broadcast the single-precision value with bit pattern `v` to the four lanes
of a Q register. -/
def vdupq_n_f32 (v : Nat) : Nat := pack 32 (fun _ => v) 4

/-- Load four single-precision values (bit patterns) into a Q register. -/
def vld1q_f32 (p : List Nat) : Nat := pack 32 (fun i => p.getD i 0) 4

/-- Read the 64-bit lane `k` of a Q register. -/
def vgetq_lane_s64 (a k : Nat) : Nat := lane 64 a k

/-- The bit pattern of the constant `0.5f`. -/
def f32_half : Nat := 0x3F000000

/-- The bit pattern of the constant `0.0f`. -/
def f32_zero : Nat := 0

/-- The C library function `floorf`, on a finite argument. -/
def floorf (x : Nat) : Option Nat := (f32_decode x).map (fun u => f32_encode u.floor)

/-- The C library function `ceilf`, on a finite argument. -/
def ceilf (x : Nat) : Option Nat := (f32_decode x).map (fun u => f32_encode u.ceil)

/-- The C library function `roundf`, on a finite argument. -/
def roundf (x : Nat) : Option Nat := (f32_decode x).map (fun u => f32_encode u.roundAway)

/-- Lane-wise rounding to an integral value, to nearest with ties to even. -/
def vrndnq_f32 (a : Nat) : Option Nat :=
  lanes32_map (fun x => (neon_operand x).map (fun u => f32_encode u.roundEven)) a

/-- Lane-wise rounding to an integral value toward minus infinity. -/
def vrndmq_f32 (a : Nat) : Option Nat :=
  lanes32_map (fun x => (neon_operand x).map (fun u => f32_encode u.floor)) a

/-- Lane-wise rounding to an integral value toward plus infinity. -/
def vrndpq_f32 (a : Nat) : Option Nat :=
  lanes32_map (fun x => (neon_operand x).map (fun u => f32_encode u.ceil)) a

/-- Lane-wise rounding to an integral value toward zero. -/
def vrndq_f32 (a : Nat) : Option Nat :=
  lanes32_map (fun x => (neon_operand x).map (fun u => f32_encode u.trunc)) a

/-- Lane-wise rounding to an integral value in the current rounding mode,
which is round to nearest, ties to even, unless the program changes it. -/
def vrndiq_f32 (a : Nat) : Option Nat :=
  lanes32_map (fun x => (neon_operand x).map (fun u => f32_encode u.roundEven)) a

/-! ## Conversion and rounding intrinsics -/

/-- `_mm_cvt_ss2si(a)`.  `aarch64` selects `vcvtnq_s32_f32`; otherwise the
scalar path on `floor`, `ceil` and `diff` is used, where `data - floor(data)`
is computed in binary64 and stored to the `float32_t` variable `diff`, and
`c & 1` is the low bit of the two's complement `c`. -/
def _mm_cvt_ss2si (aarch64 : Bool) (a : Nat) : Option Int :=
  if aarch64 then do
    let r ← vcvtnq_s32_f32 a
    some (sint 32 (vgetq_lane_s32 r 0))
  else do
    let data ← f32_decode (vgetq_lane_f32 a 0)
    let diff := f32_round (f64_round (data.sub data.floor))
    if diff.toInt > Fp.half.toInt then
      c_cast_int 32 data.ceil
    else if diff.toInt = Fp.half.toInt then do
      let f ← c_cast_int 32 data.floor
      let c ← c_cast_int 32 data.ceil
      some (if c % 2 ≠ 0 then f else c)
    else
      c_cast_int 32 data.floor

/-- `_mm_cvtss_si64(a)`, declared with return type `int`: on both paths the
64-bit value is converted to `int` by the `return`. -/
def _mm_cvtss_si64 (aarch64 : Bool) (a : Nat) : Option Int :=
  if aarch64 then do
    let r ← vcvtnq_s32_f32 a
    some (c_int_of (sint 64 (vgetq_lane_s64 r 0)))
  else do
    let data ← f32_decode (vgetq_lane_f32 a 0)
    let diff := f32_round (f64_round (data.sub data.floor))
    if diff.toInt > Fp.half.toInt then
      (c_cast_int 64 data.ceil).map c_int_of
    else if diff.toInt = Fp.half.toInt then do
      let f ← c_cast_int 64 data.floor
      let c ← c_cast_int 64 data.ceil
      some (c_int_of (if c % 2 ≠ 0 then f else c))
    else
      (c_cast_int 64 data.floor).map c_int_of

/-- `_mm_cvtps_epi32(a)`.  `aarch64` selects `vcvtnq_s32_f32`; otherwise the
result is selected between `[a + 0.5]` and the even neighbour. -/
def _mm_cvtps_epi32 (aarch64 : Bool) (a : Nat) : Option Nat :=
  if aarch64 then
    vcvtnq_s32_f32 a
  else do
    let signmask := vdupq_n_u32 0x80000000
    let half := vbslq_f32 signmask a (vdupq_n_f32 f32_half)
    let r_normal ← (vaddq_f32 a half).bind vcvtq_s32_f32
    let r_trunc ← vcvtq_s32_f32 a
    let plusone := vshrq_n_u32 (vnegq_s32 r_trunc) 31
    let r_even := vbicq_s32 (vaddq_s32 r_trunc plusone) (vdupq_n_s32 1)
    let delta ← vsubq_f32 a (vcvtq_f32_s32 r_trunc)
    let is_delta_half ← vceqq_f32 delta half
    some (vbslq_s32 is_delta_half r_even r_normal)

/-- `_mm_cvtepi32_ps(a)`. -/
def _mm_cvtepi32_ps (a : Nat) : Nat := vcvtq_f32_s32 a

/-- `_mm_set_ps(w, z, y, x)`: the array `{x, y, z, w}` loaded into a register. -/
def _mm_set_ps (w z y x : Nat) : Nat :=
  let data := [x, y, z, w]
  vld1q_f32 data

/-- `_mm_cmple_ps(a, b)`. -/
def _mm_cmple_ps (a b : Nat) : Option Nat := vcleq_f32 a b

/-- `_mm_blendv_ps(a, b, mask)`. -/
def _mm_blendv_ps (a b mask : Nat) : Nat := vbslq_f32 mask b a

/-- The constant `_MM_FROUND_TO_NEAREST_INT`. -/
def _MM_FROUND_TO_NEAREST_INT : Nat := 0x00

/-- The constant `_MM_FROUND_TO_NEG_INF`. -/
def _MM_FROUND_TO_NEG_INF : Nat := 0x01

/-- The constant `_MM_FROUND_TO_POS_INF`. -/
def _MM_FROUND_TO_POS_INF : Nat := 0x02

/-- The constant `_MM_FROUND_TO_ZERO`. -/
def _MM_FROUND_TO_ZERO : Nat := 0x03

/-- The constant `_MM_FROUND_NO_EXC`. -/
def _MM_FROUND_NO_EXC : Nat := 0x08

set_option linter.constructorNameAsVariable false in
/-- `_mm_round_ps(a, rounding)`.  `aarch64` selects the `vrnd*` instructions;
otherwise the lanes are read through `v_float` and each case of the `switch`
builds its result from `floorf`, `ceilf`, `roundf` or the integer
conversions. -/
def _mm_round_ps (aarch64 : Bool) (a : Nat) (rounding : Int) : Option Nat :=
  if aarch64 then
    if rounding = ((_MM_FROUND_TO_NEAREST_INT ||| _MM_FROUND_NO_EXC : Nat) : Int) then
      vrndnq_f32 a
    else if rounding = ((_MM_FROUND_TO_NEG_INF ||| _MM_FROUND_NO_EXC : Nat) : Int) then
      vrndmq_f32 a
    else if rounding = ((_MM_FROUND_TO_POS_INF ||| _MM_FROUND_NO_EXC : Nat) : Int) then
      vrndpq_f32 a
    else if rounding = ((_MM_FROUND_TO_ZERO ||| _MM_FROUND_NO_EXC : Nat) : Int) then
      vrndq_f32 a
    else
      vrndiq_f32 a
  else
    let v_float := fun i => lane 32 a i
    if rounding = ((_MM_FROUND_TO_NEAREST_INT ||| _MM_FROUND_NO_EXC : Nat) : Int) then
      (_mm_cvtps_epi32 aarch64 a).map _mm_cvtepi32_ps
    else if rounding = ((_MM_FROUND_TO_NEG_INF ||| _MM_FROUND_NO_EXC : Nat) : Int) then do
      let r0 ← floorf (v_float 0)
      let r1 ← floorf (v_float 1)
      let r2 ← floorf (v_float 2)
      let r3 ← floorf (v_float 3)
      some (vld1q_f32 [r0, r1, r2, r3])
    else if rounding = ((_MM_FROUND_TO_POS_INF ||| _MM_FROUND_NO_EXC : Nat) : Int) then do
      let r0 ← ceilf (v_float 0)
      let r1 ← ceilf (v_float 1)
      let r2 ← ceilf (v_float 2)
      let r3 ← ceilf (v_float 3)
      some (vld1q_f32 [r0, r1, r2, r3])
    else if rounding = ((_MM_FROUND_TO_ZERO ||| _MM_FROUND_NO_EXC : Nat) : Int) then do
      let zero := _mm_set_ps f32_zero f32_zero f32_zero f32_zero
      let neg_inf := _mm_set_ps (← floorf (v_float 0)) (← floorf (v_float 1))
        (← floorf (v_float 2)) (← floorf (v_float 3))
      let pos_inf := _mm_set_ps (← ceilf (v_float 0)) (← ceilf (v_float 1))
        (← ceilf (v_float 2)) (← ceilf (v_float 3))
      let le_zero ← _mm_cmple_ps a zero
      some (_mm_blendv_ps pos_inf neg_inf le_zero)
    else do
      let r0 ← roundf (v_float 0)
      let r1 ← roundf (v_float 1)
      let r2 ← roundf (v_float 2)
      let r3 ← roundf (v_float 3)
      some (vld1q_f32 [r0, r1, r2, r3])

/-- The result the documentation of `_mm_round_ps` describes for rounding
toward zero: in every lane `floor(a[i])` when `a[i] >= 0` and `ceil(a[i])` when
`a[i] < 0`. -/
def round_ps_toward_zero_documented (a : Nat) : Option Nat :=
  lanes32_map (fun x =>
    (f32_decode x).map (fun u => f32_encode (if 0 ≤ u.toInt then u.floor else u.ceil))) a

/-! ## CRC-32C accumulation (`_mm_crc32_u8` .. `_mm_crc32_u64`), software path -/

/-- `_mm_crc32_u8(crc, v)`, the path compiled without `__ARM_FEATURE_CRC32`:
`crc ^= v`, then eight rounds of the shift-and-conditional-XOR loop.  The
arguments are converted to `uint32_t` and `uint8_t` by the call. -/
def _mm_crc32_u8 (crc v : Nat) : Nat :=
  let crc := crc % 2 ^ 32
  let v := v % 2 ^ 8
  let crc := crc ^^^ v
  (List.range 8).foldl
    (fun crc _ => if crc &&& 1 ≠ 0 then (crc >>> 1) ^^^ 0x82f63b78 else crc >>> 1)
    crc

/-- `_mm_crc32_u16(crc, v)`, software path. -/
def _mm_crc32_u16 (crc v : Nat) : Nat :=
  let crc := crc % 2 ^ 32
  let v := v % 2 ^ 16
  let crc := _mm_crc32_u8 crc (v &&& 0xff)
  let crc := _mm_crc32_u8 crc ((v >>> 8) &&& 0xff)
  crc

/-- `_mm_crc32_u32(crc, v)`, software path. -/
def _mm_crc32_u32 (crc v : Nat) : Nat :=
  let crc := crc % 2 ^ 32
  let v := v % 2 ^ 32
  let crc := _mm_crc32_u16 crc (v &&& 0xffff)
  let crc := _mm_crc32_u16 crc ((v >>> 16) &&& 0xffff)
  crc

/-- `_mm_crc32_u64(crc, v)`, software path: `crc` is a `uint64_t` that is
converted to `uint32_t` at each call of `_mm_crc32_u32`. -/
def _mm_crc32_u64 (crc v : Nat) : Nat :=
  let crc := crc % 2 ^ 64
  let v := v % 2 ^ 64
  let crc := _mm_crc32_u32 (crc % 2 ^ 32) (v &&& 0xffffffff)
  let crc := _mm_crc32_u32 (crc % 2 ^ 32) ((v >>> 32) &&& 0xffffffff)
  crc

/-- One step of the reflected CRC-32C (Castagnoli) division, as the claims
state it: `R := (R >> 1) XOR (0x82F63B78 if R is odd, else 0)`. -/
def crc32c_step (R : Nat) : Nat := (R >>> 1) ^^^ (if R % 2 = 1 then 0x82F63B78 else 0)

/-- The CRC-32C update of `crc` by the byte `v`: eight steps from
`crc XOR v`. -/
def crc32c_byte (crc v : Nat) : Nat := crc32c_step^[8] (crc ^^^ v)

/-! ## Multiply unsigned by signed bytes and add pairs (`_mm_maddubs_epi16`) -/

/-- Widen eight unsigned bytes to eight 16-bit lanes (zero extension). -/
def vmovl_u8 (d : Nat) : Nat := pack 16 (fun i => lane 8 d i) 8

/-- Widen eight signed bytes to eight 16-bit lanes (sign extension). -/
def vmovl_s8 (d : Nat) : Nat := pack 16 (fun i => (sint 8 (lane 8 d i) % 2 ^ 16).toNat) 8

/-- Lane-wise product of eight 16-bit lanes, low 16 bits. -/
def vmulq_s16 (a b : Nat) : Nat := pack 16 (fun i => lane 16 a i * lane 16 b i) 8

/-- The even-numbered 16-bit lanes of the pair `a`, `b`. -/
def vuzp1q_s16 (a b : Nat) : Nat :=
  pack 16 (fun i => if i < 4 then lane 16 a (2 * i) else lane 16 b (2 * (i - 4))) 8

/-- The odd-numbered 16-bit lanes of the pair `a`, `b`. -/
def vuzp2q_s16 (a b : Nat) : Nat :=
  pack 16 (fun i => if i < 4 then lane 16 a (2 * i + 1) else lane 16 b (2 * (i - 4) + 1)) 8

/-- A signed integer saturated to the range of `int16_t`. -/
def sat_s16 (v : Int) : Int := max (-32768) (min v 32767)

/-- Lane-wise saturating addition of eight signed 16-bit lanes. -/
def vqaddq_s16 (a b : Nat) : Nat :=
  pack 16 (fun i => (sat_s16 (sint 16 (lane 16 a i) + sint 16 (lane 16 b i)) % 2 ^ 16).toNat) 8

/-- Eight unsigned 16-bit lanes, each shifted right (logical) by `n`. -/
def vshrq_n_u16 (a n : Nat) : Nat := pack 16 (fun i => lane 16 a i >>> n) 8

/-- Bit clear on eight 16-bit lanes: `a & ~b`. -/
def vbicq_u16 (a b : Nat) : Nat := pack 16 (fun i => lane 16 a i &&& (lane 16 b i ^^^ 0xFFFF)) 8

/-- Broadcast the 16-bit value `v` to the eight lanes of a Q register. -/
def vdupq_n_u16 (v : Nat) : Nat := pack 16 (fun _ => v) 8

/-- Eight 16-bit lanes, each shifted left by `n` (low 16 bits). -/
def vshlq_n_s16 (a n : Nat) : Nat := pack 16 (fun i => lane 16 a i <<< n) 8

/-- Eight signed 16-bit lanes, each shifted right arithmetically by `n`. -/
def vshrq_n_s16 (a n : Nat) : Nat :=
  pack 16 (fun i => ((sint 16 (lane 16 a i) >>> n) % 2 ^ 16).toNat) 8

/-- `_mm_maddubs_epi16(_a, _b)`.  `aarch64` selects the widening variant;
otherwise the bytes are separated inside the 16-bit lanes. -/
def _mm_maddubs_epi16 (aarch64 : Bool) (_a _b : Nat) : Nat :=
  if aarch64 then
    let a := _a
    let b := _b
    let tl := vmulq_s16 (vmovl_u8 (vget_low_u8 a)) (vmovl_s8 (vget_low_s8 b))
    let th := vmulq_s16 (vmovl_u8 (vget_high_u8 a)) (vmovl_s8 (vget_high_s8 b))
    vqaddq_s16 (vuzp1q_s16 tl th) (vuzp2q_s16 tl th)
  else
    let a := _a
    let b := _b
    let a_odd := vshrq_n_u16 a 8
    let a_even := vbicq_u16 a (vdupq_n_u16 0xff00)
    let b_even := vshrq_n_s16 (vshlq_n_s16 b 8) 8
    let b_odd := vshrq_n_s16 b 8
    let prod1 := vmulq_s16 a_even b_even
    let prod2 := vmulq_s16 a_odd b_odd
    vqaddq_s16 prod1 prod2

/-! ## Rotation of a 32-bit word -/

/-- A 32-bit word rotated left by `n` bits (`0 < n < 32`). -/
def rotl32 (w n : Nat) : Nat := ((w <<< n) % 2 ^ 32) ||| ((w % 2 ^ 32) >>> (32 - n))

/-- The rounding rule of the specification for a conversion to an integer, in
its words: with `f = floor(x)`, `c = ceil(x)` and the exact `diff = x - f`,
the result is `c` if `diff > 0.5`, `f` if `diff < 0.5`, and whichever of `f`
and `c` is even if `diff = 0.5`.  Nothing is rounded here and the integers are
unbounded. -/
def toNearestEvenInt (x : Fp) : Int :=
  let f := x.floor.intValue
  let c := x.ceil.intValue
  let diff := (x.sub x.floor).toInt
  if diff > Fp.half.toInt then c
  else if diff < Fp.half.toInt then f
  else if f % 2 = 0 then f else c

/-! ## Lanes and packing: basic facts -/

theorem ite_eq_both {α : Type} (c : Prop) [Decidable c] {x y z : α}
    (h1 : c → x = z) (h2 : ¬ c → y = z) : (if c then x else y) = z := by
  by_cases h : c
  · rw [if_pos h]; exact h1 h
  · rw [if_neg h]; exact h2 h

theorem pack_lt (w : Nat) (f : Nat → Nat) (n : Nat) : pack w f n < 2 ^ (w * n) := by
  induction n with
  | zero => simp [pack]
  | succ n ih =>
    have h1 : f n % 2 ^ w < 2 ^ w := Nat.mod_lt _ (Nat.two_pow_pos w)
    have h2 : 2 ^ (w * (n + 1)) = 2 ^ w * 2 ^ (w * n) := by
      rw [← Nat.pow_add]; congr 1; ring
    rw [pack, h2]
    have h3 : (f n % 2 ^ w + 1) * 2 ^ (w * n) ≤ 2 ^ w * 2 ^ (w * n) :=
      Nat.mul_le_mul_right _ h1
    have h4 : (f n % 2 ^ w + 1) * 2 ^ (w * n)
        = f n % 2 ^ w * 2 ^ (w * n) + 2 ^ (w * n) := by ring
    omega

theorem testBit_lane (w x i k : Nat) :
    (lane w x i).testBit k = (decide (k < w) && x.testBit (w * i + k)) := by
  rw [lane, Nat.testBit_mod_two_pow, ← Nat.shiftRight_eq_div_pow, Nat.testBit_shiftRight]

theorem testBit_pack (w : Nat) (hw : 0 < w) (f : Nat → Nat) (n k : Nat) :
    (pack w f n).testBit k = (decide (k < w * n) && (f (k / w)).testBit (k % w)) := by
  induction n with
  | zero => simp [pack]
  | succ n ih =>
    have hlt := pack_lt w f n
    rw [pack, Nat.add_comm, Nat.mul_comm (f n % 2 ^ w), Nat.mul_add_lt_is_or hlt,
      Nat.testBit_or, Nat.testBit_mul_pow_two, Nat.testBit_mod_two_pow, ih]
    by_cases h1 : k < w * n
    · have h2 : k < w * (n + 1) := by rw [Nat.mul_succ]; omega
      have h3 : ¬ k ≥ w * n := by omega
      simp [h1, h2, h3]
    · by_cases h2 : k < w * (n + 1)
      · have h3 : k ≥ w * n := by omega
        have h4 : k - w * n < w := by rw [Nat.mul_succ] at h2; omega
        have h5 : k / w = n := by
          apply Nat.div_eq_of_lt_le
          · rw [Nat.mul_comm]; omega
          · rw [Nat.mul_comm]; exact h2
        have h6 : k % w = k - w * n := by
          have := Nat.div_add_mod k w
          rw [h5] at this; omega
        simp [h1, h2, h3, h4, h5, h6]
      · have h3 : ¬ k - w * n < w := by rw [Nat.mul_succ] at h2; omega
        simp [h1, h2, h3]

theorem lane_lt (w x i : Nat) : lane w x i < 2 ^ w :=
  Nat.mod_lt _ (Nat.two_pow_pos w)

theorem lane_mod (w x i : Nat) : lane w x i % 2 ^ w = lane w x i :=
  Nat.mod_eq_of_lt (lane_lt w x i)

theorem lane32_lt (x i : Nat) : lane 32 x i < 4294967296 := lane_lt 32 x i

theorem lane_pack (w : Nat) (hw : 0 < w) (f : Nat → Nat) (n i : Nat) (hi : i < n) :
    lane w (pack w f n) i = f i % 2 ^ w := by
  apply Nat.eq_of_testBit_eq
  intro k
  rw [testBit_lane, testBit_pack w hw, Nat.testBit_mod_two_pow]
  by_cases hk : k < w
  · have h1 : w * i + k < w * n := by
      have : w * (i + 1) ≤ w * n := Nat.mul_le_mul_left w hi
      rw [Nat.mul_succ] at this; omega
    have h2 : (w * i + k) / w = i := by
      rw [Nat.mul_add_div hw, Nat.div_eq_of_lt hk]; rfl
    have h3 : (w * i + k) % w = k := by
      rw [Nat.mul_add_mod, Nat.mod_eq_of_lt hk]
    simp [hk, h1, h2, h3]
  · simp [hk]

theorem pack_congr (w : Nat) (f g : Nat → Nat) (n : Nat)
    (h : ∀ i, i < n → f i % 2 ^ w = g i % 2 ^ w) : pack w f n = pack w g n := by
  induction n with
  | zero => rfl
  | succ n ih =>
    rw [pack, pack, ih (fun i hi => h i (Nat.lt_succ_of_lt hi)), h n (Nat.lt_succ_self n)]


theorem pack_lane (w : Nat) (hw : 0 < w) (x n : Nat) :
    pack w (fun i => lane w x i) n = x % 2 ^ (w * n) := by
  apply Nat.eq_of_testBit_eq
  intro k
  rw [testBit_pack w hw, testBit_lane, Nat.testBit_mod_two_pow]
  have h1 : k % w < w := Nat.mod_lt _ hw
  have h2 : w * (k / w) + k % w = k := Nat.div_add_mod k w
  simp [h1, h2]

theorem lane_lane (w m x j r : Nat) (hr : r < m) :
    lane w (lane (w * m) x j) r = lane w x (m * j + r) := by
  apply Nat.eq_of_testBit_eq
  intro k
  rw [testBit_lane, testBit_lane, testBit_lane]
  by_cases hk : k < w
  · have h1 : w * r + k < w * m := by
      have : w * (r + 1) ≤ w * m := Nat.mul_le_mul_left w hr
      rw [Nat.mul_succ] at this; omega
    have h2 : w * m * j + (w * r + k) = w * (m * j + r) + k := by ring
    simp [hk, h1, h2]
  · simp [hk]

theorem lane_eq_pack (w : Nat) (hw : 0 < w) (m x j : Nat) :
    lane (w * m) x j = pack w (fun r => lane w x (m * j + r)) m := by
  have h := pack_lane w hw (lane (w * m) x j) m
  rw [lane_mod] at h
  rw [← h]
  apply pack_congr
  intro r hr
  rw [lane_lane w m x j r hr]

/-- Coarse lane `j` of a register packed from fine lanes. -/
theorem lane_pack_coarse (w : Nat) (hw : 0 < w) (m n : Nat) (G : Nat → Nat) (j : Nat)
    (hj : j < n) :
    lane (w * m) (pack w G (m * n)) j = pack w (fun r => G (m * j + r)) m := by
  rw [lane_eq_pack w hw]
  apply pack_congr
  intro r hr
  have h1 : m * j + r < m * n := by
    have : m * (j + 1) ≤ m * n := Nat.mul_le_mul_left m hj
    rw [Nat.mul_succ] at this; omega
  rw [lane_pack w hw G (m * n) (m * j + r) h1, Nat.mod_mod]

/-- Coarse lane `j` of a lane-wise map. -/
theorem lane_map_coarse (w : Nat) (hw : 0 < w) (m n : Nat) (g : Nat → Nat) (X j : Nat)
    (hj : j < n) :
    lane (w * m) (pack w (fun i => g (lane w X i)) (m * n)) j
      = pack w (fun r => g (lane w (lane (w * m) X j) r)) m := by
  rw [lane_pack_coarse w hw m n _ j hj]
  apply pack_congr
  intro r hr
  rw [lane_lane w m X j r hr]

/-! ## The permutation dispatcher -/

/-- The four lanes of the generic two-source permute. -/
theorem lane_shuffle_ps_default (a b imm i : Nat) (hi : i < 4) :
    lane 32 (_mm_shuffle_ps_default a b imm) i =
      if i = 0 then lane 32 a (imm &&& 3)
      else if i = 1 then lane 32 a ((imm >>> 2) &&& 3)
      else if i = 2 then lane 32 b ((imm >>> 4) &&& 3)
      else lane 32 b ((imm >>> 6) &&& 3) := by
  interval_cases i <;>
    simp [_mm_shuffle_ps_default, vsetq_lane_f32, vmovq_n_f32, vgetq_lane_f32, lane_pack,
      lane32_lt]

/-- C1: for all registers `a`, `b` and every code `imm` (in particular every
code in 0..255), `_mm_shuffle_ps_default(a, b, imm)` is a 128-bit register
whose lane 0 is `a.lane[imm & 3]`, lane 1 is `a.lane[(imm >> 2) & 3]`, lane 2
is `b.lane[(imm >> 4) & 3]` and lane 3 is `b.lane[(imm >> 6) & 3]`. -/
theorem shuffle_ps_default_lanes (a b imm : Nat) :
    _mm_shuffle_ps_default a b imm < 2 ^ 128 ∧
    lane 32 (_mm_shuffle_ps_default a b imm) 0 = lane 32 a (imm &&& 3) ∧
    lane 32 (_mm_shuffle_ps_default a b imm) 1 = lane 32 a ((imm >>> 2) &&& 3) ∧
    lane 32 (_mm_shuffle_ps_default a b imm) 2 = lane 32 b ((imm >>> 4) &&& 3) ∧
    lane 32 (_mm_shuffle_ps_default a b imm) 3 = lane 32 b ((imm >>> 6) &&& 3) := by
  refine ⟨?_, ?_, ?_, ?_, ?_⟩
  · exact pack_lt 32 _ 4
  · simpa using lane_shuffle_ps_default a b imm 0 (by decide)
  · simpa using lane_shuffle_ps_default a b imm 1 (by decide)
  · simpa using lane_shuffle_ps_default a b imm 2 (by decide)
  · simpa using lane_shuffle_ps_default a b imm 3 (by decide)

/-! Each catalogued two-source case agrees with the generic fallback at its code. -/

theorem shuffle_ps_1032_eq_default (a b : Nat) :
    _mm_shuffle_ps_1032 a b = _mm_shuffle_ps_default a b (_MM_SHUFFLE 1 0 3 2) := by
  show pack 32 _ 4 = pack 32 _ 4
  apply pack_congr
  intro i hi
  interval_cases i
  all_goals simp [_MM_SHUFFLE, vsetq_lane_f32, vmovq_n_f32, vgetq_lane_f32, vget_low_f32,
    vget_high_f32, vrev64_f32, vextq_f32, vdup_lane_f32, vset_lane_f32, lane_pack, lane32_lt]
  all_goals rfl

theorem shuffle_ps_2301_eq_default (a b : Nat) :
    _mm_shuffle_ps_2301 a b = _mm_shuffle_ps_default a b (_MM_SHUFFLE 2 3 0 1) := by
  show pack 32 _ 4 = pack 32 _ 4
  apply pack_congr
  intro i hi
  interval_cases i
  all_goals simp [_MM_SHUFFLE, vsetq_lane_f32, vmovq_n_f32, vgetq_lane_f32, vget_low_f32,
    vget_high_f32, vrev64_f32, vextq_f32, vdup_lane_f32, vset_lane_f32, lane_pack, lane32_lt]
  all_goals rfl

theorem shuffle_ps_0321_eq_default (a b : Nat) :
    _mm_shuffle_ps_0321 a b = _mm_shuffle_ps_default a b (_MM_SHUFFLE 0 3 2 1) := by
  show pack 32 _ 4 = pack 32 _ 4
  apply pack_congr
  intro i hi
  interval_cases i
  all_goals simp [_MM_SHUFFLE, vsetq_lane_f32, vmovq_n_f32, vgetq_lane_f32, vget_low_f32,
    vget_high_f32, vrev64_f32, vextq_f32, vdup_lane_f32, vset_lane_f32, lane_pack, lane32_lt]
  all_goals rfl

theorem shuffle_ps_2103_eq_default (a b : Nat) :
    _mm_shuffle_ps_2103 a b = _mm_shuffle_ps_default a b (_MM_SHUFFLE 2 1 0 3) := by
  show pack 32 _ 4 = pack 32 _ 4
  apply pack_congr
  intro i hi
  interval_cases i
  all_goals simp [_MM_SHUFFLE, vsetq_lane_f32, vmovq_n_f32, vgetq_lane_f32, vget_low_f32,
    vget_high_f32, vrev64_f32, vextq_f32, vdup_lane_f32, vset_lane_f32, lane_pack, lane32_lt]
  all_goals rfl

theorem movelh_ps_eq_default (a b : Nat) :
    _mm_movelh_ps a b = _mm_shuffle_ps_default a b (_MM_SHUFFLE 1 0 1 0) := by
  show pack 32 _ 4 = pack 32 _ 4
  apply pack_congr
  intro i hi
  interval_cases i
  all_goals simp [_MM_SHUFFLE, vsetq_lane_f32, vmovq_n_f32, vgetq_lane_f32, vget_low_f32,
    vget_high_f32, vrev64_f32, vextq_f32, vdup_lane_f32, vset_lane_f32, lane_pack, lane32_lt]
  all_goals rfl

theorem shuffle_ps_1001_eq_default (a b : Nat) :
    _mm_shuffle_ps_1001 a b = _mm_shuffle_ps_default a b (_MM_SHUFFLE 1 0 0 1) := by
  show pack 32 _ 4 = pack 32 _ 4
  apply pack_congr
  intro i hi
  interval_cases i
  all_goals simp [_MM_SHUFFLE, vsetq_lane_f32, vmovq_n_f32, vgetq_lane_f32, vget_low_f32,
    vget_high_f32, vrev64_f32, vextq_f32, vdup_lane_f32, vset_lane_f32, lane_pack, lane32_lt]
  all_goals rfl

theorem shuffle_ps_0101_eq_default (a b : Nat) :
    _mm_shuffle_ps_0101 a b = _mm_shuffle_ps_default a b (_MM_SHUFFLE 0 1 0 1) := by
  show pack 32 _ 4 = pack 32 _ 4
  apply pack_congr
  intro i hi
  interval_cases i
  all_goals simp [_MM_SHUFFLE, vsetq_lane_f32, vmovq_n_f32, vgetq_lane_f32, vget_low_f32,
    vget_high_f32, vrev64_f32, vextq_f32, vdup_lane_f32, vset_lane_f32, lane_pack, lane32_lt]
  all_goals rfl

theorem shuffle_ps_3210_eq_default (a b : Nat) :
    _mm_shuffle_ps_3210 a b = _mm_shuffle_ps_default a b (_MM_SHUFFLE 3 2 1 0) := by
  show pack 32 _ 4 = pack 32 _ 4
  apply pack_congr
  intro i hi
  interval_cases i
  all_goals simp [_MM_SHUFFLE, vsetq_lane_f32, vmovq_n_f32, vgetq_lane_f32, vget_low_f32,
    vget_high_f32, vrev64_f32, vextq_f32, vdup_lane_f32, vset_lane_f32, lane_pack, lane32_lt]
  all_goals rfl

theorem shuffle_ps_0011_eq_default (a b : Nat) :
    _mm_shuffle_ps_0011 a b = _mm_shuffle_ps_default a b (_MM_SHUFFLE 0 0 1 1) := by
  show pack 32 _ 4 = pack 32 _ 4
  apply pack_congr
  intro i hi
  interval_cases i
  all_goals simp [_MM_SHUFFLE, vsetq_lane_f32, vmovq_n_f32, vgetq_lane_f32, vget_low_f32,
    vget_high_f32, vrev64_f32, vextq_f32, vdup_lane_f32, vset_lane_f32, lane_pack, lane32_lt]
  all_goals rfl

theorem shuffle_ps_0022_eq_default (a b : Nat) :
    _mm_shuffle_ps_0022 a b = _mm_shuffle_ps_default a b (_MM_SHUFFLE 0 0 2 2) := by
  show pack 32 _ 4 = pack 32 _ 4
  apply pack_congr
  intro i hi
  interval_cases i
  all_goals simp [_MM_SHUFFLE, vsetq_lane_f32, vmovq_n_f32, vgetq_lane_f32, vget_low_f32,
    vget_high_f32, vrev64_f32, vextq_f32, vdup_lane_f32, vset_lane_f32, lane_pack, lane32_lt]
  all_goals rfl

theorem shuffle_ps_2200_eq_default (a b : Nat) :
    _mm_shuffle_ps_2200 a b = _mm_shuffle_ps_default a b (_MM_SHUFFLE 2 2 0 0) := by
  show pack 32 _ 4 = pack 32 _ 4
  apply pack_congr
  intro i hi
  interval_cases i
  all_goals simp [_MM_SHUFFLE, vsetq_lane_f32, vmovq_n_f32, vgetq_lane_f32, vget_low_f32,
    vget_high_f32, vrev64_f32, vextq_f32, vdup_lane_f32, vset_lane_f32, lane_pack, lane32_lt]
  all_goals rfl

theorem shuffle_ps_3202_eq_default (a b : Nat) :
    _mm_shuffle_ps_3202 a b = _mm_shuffle_ps_default a b (_MM_SHUFFLE 3 2 0 2) := by
  show pack 32 _ 4 = pack 32 _ 4
  apply pack_congr
  intro i hi
  interval_cases i
  all_goals simp [_MM_SHUFFLE, vsetq_lane_f32, vmovq_n_f32, vgetq_lane_f32, vget_low_f32,
    vget_high_f32, vrev64_f32, vextq_f32, vdup_lane_f32, vset_lane_f32, lane_pack, lane32_lt]
  all_goals rfl

theorem movehl_ps_eq_default (a b : Nat) :
    _mm_movehl_ps b a = _mm_shuffle_ps_default a b (_MM_SHUFFLE 3 2 3 2) := by
  show pack 32 _ 4 = pack 32 _ 4
  apply pack_congr
  intro i hi
  interval_cases i
  all_goals simp [_MM_SHUFFLE, vsetq_lane_f32, vmovq_n_f32, vgetq_lane_f32, vget_low_f32,
    vget_high_f32, vrev64_f32, vextq_f32, vdup_lane_f32, vset_lane_f32, lane_pack, lane32_lt]
  all_goals rfl

theorem shuffle_ps_1133_eq_default (a b : Nat) :
    _mm_shuffle_ps_1133 a b = _mm_shuffle_ps_default a b (_MM_SHUFFLE 1 1 3 3) := by
  show pack 32 _ 4 = pack 32 _ 4
  apply pack_congr
  intro i hi
  interval_cases i
  all_goals simp [_MM_SHUFFLE, vsetq_lane_f32, vmovq_n_f32, vgetq_lane_f32, vget_low_f32,
    vget_high_f32, vrev64_f32, vextq_f32, vdup_lane_f32, vset_lane_f32, lane_pack, lane32_lt]
  all_goals rfl

theorem shuffle_ps_2010_eq_default (a b : Nat) :
    _mm_shuffle_ps_2010 a b = _mm_shuffle_ps_default a b (_MM_SHUFFLE 2 0 1 0) := by
  show pack 32 _ 4 = pack 32 _ 4
  apply pack_congr
  intro i hi
  interval_cases i
  all_goals simp [_MM_SHUFFLE, vsetq_lane_f32, vmovq_n_f32, vgetq_lane_f32, vget_low_f32,
    vget_high_f32, vrev64_f32, vextq_f32, vdup_lane_f32, vset_lane_f32, lane_pack, lane32_lt]
  all_goals rfl

theorem shuffle_ps_2001_eq_default (a b : Nat) :
    _mm_shuffle_ps_2001 a b = _mm_shuffle_ps_default a b (_MM_SHUFFLE 2 0 0 1) := by
  show pack 32 _ 4 = pack 32 _ 4
  apply pack_congr
  intro i hi
  interval_cases i
  all_goals simp [_MM_SHUFFLE, vsetq_lane_f32, vmovq_n_f32, vgetq_lane_f32, vget_low_f32,
    vget_high_f32, vrev64_f32, vextq_f32, vdup_lane_f32, vset_lane_f32, lane_pack, lane32_lt]
  all_goals rfl

theorem shuffle_ps_2032_eq_default (a b : Nat) :
    _mm_shuffle_ps_2032 a b = _mm_shuffle_ps_default a b (_MM_SHUFFLE 2 0 3 2) := by
  show pack 32 _ 4 = pack 32 _ 4
  apply pack_congr
  intro i hi
  interval_cases i
  all_goals simp [_MM_SHUFFLE, vsetq_lane_f32, vmovq_n_f32, vgetq_lane_f32, vget_low_f32,
    vget_high_f32, vrev64_f32, vextq_f32, vdup_lane_f32, vset_lane_f32, lane_pack, lane32_lt]
  all_goals rfl

/-- The switch of `_mm_shuffle_ps` never changes the result of the generic
fallback. -/
theorem shuffle_ps_dispatch (a b imm : Nat) :
    _mm_shuffle_ps false a b imm = _mm_shuffle_ps_default a b imm := by
  unfold _mm_shuffle_ps
  rw [if_neg Bool.false_ne_true]
  refine ite_eq_both _ (fun h => by subst h; exact shuffle_ps_1032_eq_default a b) (fun _ => ?_)
  refine ite_eq_both _ (fun h => by subst h; exact shuffle_ps_2301_eq_default a b) (fun _ => ?_)
  refine ite_eq_both _ (fun h => by subst h; exact shuffle_ps_0321_eq_default a b) (fun _ => ?_)
  refine ite_eq_both _ (fun h => by subst h; exact shuffle_ps_2103_eq_default a b) (fun _ => ?_)
  refine ite_eq_both _ (fun h => by subst h; exact movelh_ps_eq_default a b) (fun _ => ?_)
  refine ite_eq_both _ (fun h => by subst h; exact shuffle_ps_1001_eq_default a b) (fun _ => ?_)
  refine ite_eq_both _ (fun h => by subst h; exact shuffle_ps_0101_eq_default a b) (fun _ => ?_)
  refine ite_eq_both _ (fun h => by subst h; exact shuffle_ps_3210_eq_default a b) (fun _ => ?_)
  refine ite_eq_both _ (fun h => by subst h; exact shuffle_ps_0011_eq_default a b) (fun _ => ?_)
  refine ite_eq_both _ (fun h => by subst h; exact shuffle_ps_0022_eq_default a b) (fun _ => ?_)
  refine ite_eq_both _ (fun h => by subst h; exact shuffle_ps_2200_eq_default a b) (fun _ => ?_)
  refine ite_eq_both _ (fun h => by subst h; exact shuffle_ps_3202_eq_default a b) (fun _ => ?_)
  refine ite_eq_both _ (fun h => by subst h; exact movehl_ps_eq_default a b) (fun _ => ?_)
  refine ite_eq_both _ (fun h => by subst h; exact shuffle_ps_1133_eq_default a b) (fun _ => ?_)
  refine ite_eq_both _ (fun h => by subst h; exact shuffle_ps_2010_eq_default a b) (fun _ => ?_)
  refine ite_eq_both _ (fun h => by subst h; exact shuffle_ps_2001_eq_default a b) (fun _ => ?_)
  refine ite_eq_both _ (fun h => by subst h; exact shuffle_ps_2032_eq_default a b) (fun _ => ?_)
  rfl

/-- C2: for all registers `a`, `b` and every code `imm` (in particular every
code in 0..255), the switch-based dispatcher `_mm_shuffle_ps`, through each of
its 17 catalogued cases and through its default case, returns exactly the same
128-bit register as the generic per-lane fallback `_mm_shuffle_ps_default`. -/
theorem shuffle_ps_switch_eq_default (a b imm : Nat) :
    _mm_shuffle_ps false a b imm = _mm_shuffle_ps_default a b imm :=
  shuffle_ps_dispatch a b imm

/-! Each catalogued single-source case agrees with the generic fallback at its code. -/

theorem shuffle_epi_1032_eq_default (a : Nat) :
    _mm_shuffle_epi_1032 a = _mm_shuffle_epi32_default a (_MM_SHUFFLE 1 0 3 2) := by
  show pack 32 _ 4 = pack 32 _ 4
  apply pack_congr
  intro i hi
  interval_cases i
  all_goals simp [_MM_SHUFFLE, vsetq_lane_s32, vmovq_n_s32, vgetq_lane_s32, vget_low_s32,
    vget_high_s32, vrev64_s32, vextq_s32, vdup_lane_s32, vcombine_s32, lane_pack, lane32_lt]
  all_goals rfl

theorem shuffle_epi_2301_eq_default (a : Nat) :
    _mm_shuffle_epi_2301 a = _mm_shuffle_epi32_default a (_MM_SHUFFLE 2 3 0 1) := by
  show pack 32 _ 4 = pack 32 _ 4
  apply pack_congr
  intro i hi
  interval_cases i
  all_goals simp [_MM_SHUFFLE, vsetq_lane_s32, vmovq_n_s32, vgetq_lane_s32, vget_low_s32,
    vget_high_s32, vrev64_s32, vextq_s32, vdup_lane_s32, vcombine_s32, lane_pack, lane32_lt]
  all_goals rfl

theorem shuffle_epi_0321_eq_default (a : Nat) :
    _mm_shuffle_epi_0321 a = _mm_shuffle_epi32_default a (_MM_SHUFFLE 0 3 2 1) := by
  show pack 32 _ 4 = pack 32 _ 4
  apply pack_congr
  intro i hi
  interval_cases i
  all_goals simp [_MM_SHUFFLE, vsetq_lane_s32, vmovq_n_s32, vgetq_lane_s32, vget_low_s32,
    vget_high_s32, vrev64_s32, vextq_s32, vdup_lane_s32, vcombine_s32, lane_pack, lane32_lt]
  all_goals rfl

theorem shuffle_epi_2103_eq_default (a : Nat) :
    _mm_shuffle_epi_2103 a = _mm_shuffle_epi32_default a (_MM_SHUFFLE 2 1 0 3) := by
  show pack 32 _ 4 = pack 32 _ 4
  apply pack_congr
  intro i hi
  interval_cases i
  all_goals simp [_MM_SHUFFLE, vsetq_lane_s32, vmovq_n_s32, vgetq_lane_s32, vget_low_s32,
    vget_high_s32, vrev64_s32, vextq_s32, vdup_lane_s32, vcombine_s32, lane_pack, lane32_lt]
  all_goals rfl

theorem shuffle_epi_1010_eq_default (a : Nat) :
    _mm_shuffle_epi_1010 a = _mm_shuffle_epi32_default a (_MM_SHUFFLE 1 0 1 0) := by
  show pack 32 _ 4 = pack 32 _ 4
  apply pack_congr
  intro i hi
  interval_cases i
  all_goals simp [_MM_SHUFFLE, vsetq_lane_s32, vmovq_n_s32, vgetq_lane_s32, vget_low_s32,
    vget_high_s32, vrev64_s32, vextq_s32, vdup_lane_s32, vcombine_s32, lane_pack, lane32_lt]
  all_goals rfl

theorem shuffle_epi_1001_eq_default (a : Nat) :
    _mm_shuffle_epi_1001 a = _mm_shuffle_epi32_default a (_MM_SHUFFLE 1 0 0 1) := by
  show pack 32 _ 4 = pack 32 _ 4
  apply pack_congr
  intro i hi
  interval_cases i
  all_goals simp [_MM_SHUFFLE, vsetq_lane_s32, vmovq_n_s32, vgetq_lane_s32, vget_low_s32,
    vget_high_s32, vrev64_s32, vextq_s32, vdup_lane_s32, vcombine_s32, lane_pack, lane32_lt]
  all_goals rfl

theorem shuffle_epi_0101_eq_default (a : Nat) :
    _mm_shuffle_epi_0101 a = _mm_shuffle_epi32_default a (_MM_SHUFFLE 0 1 0 1) := by
  show pack 32 _ 4 = pack 32 _ 4
  apply pack_congr
  intro i hi
  interval_cases i
  all_goals simp [_MM_SHUFFLE, vsetq_lane_s32, vmovq_n_s32, vgetq_lane_s32, vget_low_s32,
    vget_high_s32, vrev64_s32, vextq_s32, vdup_lane_s32, vcombine_s32, lane_pack, lane32_lt]
  all_goals rfl

theorem shuffle_epi_2211_eq_default (a : Nat) :
    _mm_shuffle_epi_2211 a = _mm_shuffle_epi32_default a (_MM_SHUFFLE 2 2 1 1) := by
  show pack 32 _ 4 = pack 32 _ 4
  apply pack_congr
  intro i hi
  interval_cases i
  all_goals simp [_MM_SHUFFLE, vsetq_lane_s32, vmovq_n_s32, vgetq_lane_s32, vget_low_s32,
    vget_high_s32, vrev64_s32, vextq_s32, vdup_lane_s32, vcombine_s32, lane_pack, lane32_lt]
  all_goals rfl

theorem shuffle_epi_0122_eq_default (a : Nat) :
    _mm_shuffle_epi_0122 a = _mm_shuffle_epi32_default a (_MM_SHUFFLE 0 1 2 2) := by
  show pack 32 _ 4 = pack 32 _ 4
  apply pack_congr
  intro i hi
  interval_cases i
  all_goals simp [_MM_SHUFFLE, vsetq_lane_s32, vmovq_n_s32, vgetq_lane_s32, vget_low_s32,
    vget_high_s32, vrev64_s32, vextq_s32, vdup_lane_s32, vcombine_s32, lane_pack, lane32_lt]
  all_goals rfl

theorem shuffle_epi_3332_eq_default (a : Nat) :
    _mm_shuffle_epi_3332 a = _mm_shuffle_epi32_default a (_MM_SHUFFLE 3 3 3 2) := by
  show pack 32 _ 4 = pack 32 _ 4
  apply pack_congr
  intro i hi
  interval_cases i
  all_goals simp [_MM_SHUFFLE, vsetq_lane_s32, vmovq_n_s32, vgetq_lane_s32, vget_low_s32,
    vget_high_s32, vrev64_s32, vextq_s32, vdup_lane_s32, vcombine_s32, lane_pack, lane32_lt]
  all_goals rfl

theorem shuffle_epi32_splat_eq_default (aarch64 : Bool) (a k : Nat) (hk : k < 4) :
    _mm_shuffle_epi32_splat aarch64 a k = _mm_shuffle_epi32_default a (_MM_SHUFFLE k k k k) := by
  have h : ∀ c : Bool, (if c = true then vdupq_laneq_s32 a k else vdupq_n_s32 (vgetq_lane_s32 a k))
      = pack 32 (fun _ => lane 32 a k) 4 := by
    intro c; cases c <;> rfl
  rw [_mm_shuffle_epi32_splat, h]
  show pack 32 _ 4 = pack 32 _ 4
  apply pack_congr
  intro i hi
  interval_cases k <;> interval_cases i
  all_goals simp [_MM_SHUFFLE, vsetq_lane_s32, vmovq_n_s32, vgetq_lane_s32, lane_pack, lane32_lt]
  all_goals rfl

/-- The switch of `_mm_shuffle_epi32` never changes the result of the generic
fallback. -/
theorem shuffle_epi32_dispatch (aarch64 : Bool) (a imm : Nat) :
    _mm_shuffle_epi32 false aarch64 a imm = _mm_shuffle_epi32_default a imm := by
  unfold _mm_shuffle_epi32
  rw [if_neg Bool.false_ne_true]
  refine ite_eq_both _ (fun h => by subst h; exact shuffle_epi_1032_eq_default a) (fun _ => ?_)
  refine ite_eq_both _ (fun h => by subst h; exact shuffle_epi_2301_eq_default a) (fun _ => ?_)
  refine ite_eq_both _ (fun h => by subst h; exact shuffle_epi_0321_eq_default a) (fun _ => ?_)
  refine ite_eq_both _ (fun h => by subst h; exact shuffle_epi_2103_eq_default a) (fun _ => ?_)
  refine ite_eq_both _ (fun h => by subst h; exact shuffle_epi_1010_eq_default a) (fun _ => ?_)
  refine ite_eq_both _ (fun h => by subst h; exact shuffle_epi_1001_eq_default a) (fun _ => ?_)
  refine ite_eq_both _ (fun h => by subst h; exact shuffle_epi_0101_eq_default a) (fun _ => ?_)
  refine ite_eq_both _ (fun h => by subst h; exact shuffle_epi_2211_eq_default a) (fun _ => ?_)
  refine ite_eq_both _ (fun h => by subst h; exact shuffle_epi_0122_eq_default a) (fun _ => ?_)
  refine ite_eq_both _ (fun h => by subst h; exact shuffle_epi_3332_eq_default a) (fun _ => ?_)
  refine ite_eq_both _ (fun h => by
    subst h; exact shuffle_epi32_splat_eq_default aarch64 a 0 (by decide)) (fun _ => ?_)
  refine ite_eq_both _ (fun h => by
    subst h; exact shuffle_epi32_splat_eq_default aarch64 a 1 (by decide)) (fun _ => ?_)
  refine ite_eq_both _ (fun h => by
    subst h; exact shuffle_epi32_splat_eq_default aarch64 a 2 (by decide)) (fun _ => ?_)
  refine ite_eq_both _ (fun h => by
    subst h; exact shuffle_epi32_splat_eq_default aarch64 a 3 (by decide)) (fun _ => ?_)
  rfl

/-- The four lanes of the generic single-source permute. -/
theorem lane_shuffle_epi32_default (a imm i : Nat) (hi : i < 4) :
    lane 32 (_mm_shuffle_epi32_default a imm) i = lane 32 a ((imm >>> (2 * i)) &&& 3) := by
  interval_cases i <;>
    simp [_mm_shuffle_epi32_default, vsetq_lane_s32, vmovq_n_s32, vgetq_lane_s32, lane_pack,
      lane32_lt]

/-- The single-source fallback is the two-source fallback with `b = a`. -/
theorem shuffle_epi32_default_eq_ps_default (a imm : Nat) :
    _mm_shuffle_epi32_default a imm = _mm_shuffle_ps_default a a imm := rfl

/-- C3: for every register `a` and every code `imm` (in particular every code
in 0..255), on both definitions of the splat helper, the switch-based
single-source dispatcher `_mm_shuffle_epi32`, through each of its 14
catalogued cases and its default case, returns exactly the same register as
`_mm_shuffle_epi32_default(a, imm)`, a 128-bit register whose lane `i` is
`a.lane[(imm >> 2i) & 3]` for `i = 0..3`. -/
theorem shuffle_epi32_switch_eq_default (aarch64 : Bool) (a imm : Nat) :
    _mm_shuffle_epi32 false aarch64 a imm = _mm_shuffle_epi32_default a imm ∧
    _mm_shuffle_epi32_default a imm < 2 ^ 128 ∧
    lane 32 (_mm_shuffle_epi32 false aarch64 a imm) 0 = lane 32 a ((imm >>> (2 * 0)) &&& 3) ∧
    lane 32 (_mm_shuffle_epi32 false aarch64 a imm) 1 = lane 32 a ((imm >>> (2 * 1)) &&& 3) ∧
    lane 32 (_mm_shuffle_epi32 false aarch64 a imm) 2 = lane 32 a ((imm >>> (2 * 2)) &&& 3) ∧
    lane 32 (_mm_shuffle_epi32 false aarch64 a imm) 3 = lane 32 a ((imm >>> (2 * 3)) &&& 3) := by
  rw [shuffle_epi32_dispatch]
  exact ⟨rfl, pack_lt 32 _ 4, lane_shuffle_epi32_default a imm 0 (by decide),
    lane_shuffle_epi32_default a imm 1 (by decide), lane_shuffle_epi32_default a imm 2 (by decide),
    lane_shuffle_epi32_default a imm 3 (by decide)⟩

/-- The builtin lowering selects lanes `i0, i1` of the first vector and
`i2, i3` of the second when the last two indices are offset by 4. -/
theorem builtin_shufflevector_two_source (a b imm : Nat) :
    __builtin_shufflevector a b (imm &&& 0x3) ((imm >>> 2) &&& 0x3)
      (((imm >>> 4) &&& 0x3) + 4) (((imm >>> 6) &&& 0x3) + 4) = _mm_shuffle_ps_default a b imm := by
  show pack 32 _ 4 = pack 32 _ 4
  apply pack_congr
  intro i hi
  have h0 : imm &&& 3 < 4 := Nat.lt_succ_of_le Nat.and_le_right
  have h1 : (imm >>> 2) &&& 3 < 4 := Nat.lt_succ_of_le Nat.and_le_right
  interval_cases i
  all_goals simp [vsetq_lane_f32, vmovq_n_f32, vgetq_lane_f32, lane_pack, lane32_lt, h0, h1]

/-- The builtin lowering of the single-source permute selects lanes of the
one source vector. -/
theorem builtin_shufflevector_one_source (a imm : Nat) :
    __builtin_shufflevector a a (imm &&& 0x3) ((imm >>> 2) &&& 0x3)
      ((imm >>> 4) &&& 0x3) ((imm >>> 6) &&& 0x3) = _mm_shuffle_epi32_default a imm := by
  show pack 32 _ 4 = pack 32 _ 4
  apply pack_congr
  intro i hi
  have h0 : imm &&& 3 < 4 := Nat.lt_succ_of_le Nat.and_le_right
  have h1 : (imm >>> 2) &&& 3 < 4 := Nat.lt_succ_of_le Nat.and_le_right
  have h2 : (imm >>> 4) &&& 3 < 4 := Nat.lt_succ_of_le Nat.and_le_right
  have h3 : (imm >>> 6) &&& 3 < 4 := Nat.lt_succ_of_le Nat.and_le_right
  interval_cases i
  all_goals simp [vsetq_lane_s32, vmovq_n_s32, vgetq_lane_s32, lane_pack, lane32_lt, h0, h1, h2, h3]

/-- Every variant of `_mm_shuffle_ps` computes the generic fallback. -/
theorem shuffle_ps_any_variant (has_builtin : Bool) (a b imm : Nat) :
    _mm_shuffle_ps has_builtin a b imm = _mm_shuffle_ps_default a b imm := by
  cases has_builtin
  · exact shuffle_ps_dispatch a b imm
  · exact builtin_shufflevector_two_source a b imm

/-- Every variant of `_mm_shuffle_epi32` computes the generic fallback. -/
theorem shuffle_epi32_any_variant (has_builtin aarch64 : Bool) (a imm : Nat) :
    _mm_shuffle_epi32 has_builtin aarch64 a imm = _mm_shuffle_epi32_default a imm := by
  cases has_builtin
  · exact shuffle_epi32_dispatch aarch64 a imm
  · exact builtin_shufflevector_one_source a imm

/-- C4: for every register `a` and every code `imm` (in particular every code
in 0..255), the single-source permute `_mm_shuffle_epi32(a, imm)` returns the
same 128 bits as the two-source permute `_mm_shuffle_ps(a, a, imm)`, whichever
variant of each macro is compiled (`hb1`, `hb2`: with or without the
shufflevector builtin); the same holds between the two generic fallbacks,
whose definitions coincide when `b = a`. -/
theorem shuffle_epi32_eq_shuffle_ps_same (hb1 hb2 aarch64 : Bool) (a imm : Nat) :
    _mm_shuffle_epi32 hb1 aarch64 a imm = _mm_shuffle_ps hb2 a a imm ∧
    _mm_shuffle_epi32_default a imm = _mm_shuffle_ps_default a a imm := by
  rw [shuffle_epi32_any_variant, shuffle_ps_any_variant]
  exact ⟨rfl, rfl⟩

/-! ## The mask extractor -/

/-- On a 64-bit lane holding one bit per byte, the reduction tree gathers the
eight bits into byte 0. -/
theorem movemaskTree64_spread : ∀ n, n < 256 →
    movemaskTree64 (pack 8 (fun i => lane 1 n i) 8) = n := by
  set_option maxRecDepth 100000 in decide

theorem movemask_epi8_byte (a j : Nat) (hj : j < 2) :
    lane 8 (vsraq_n_u64 (vsraq_n_u32 (vsraq_n_u16 (vshrq_n_u8 a 7) (vshrq_n_u8 a 7) 7)
        (vsraq_n_u16 (vshrq_n_u8 a 7) (vshrq_n_u8 a 7) 7) 14)
      (vsraq_n_u32 (vsraq_n_u16 (vshrq_n_u8 a 7) (vshrq_n_u8 a 7) 7)
        (vsraq_n_u16 (vshrq_n_u8 a 7) (vshrq_n_u8 a 7) 7) 14) 28) (8 * j)
      = pack 1 (fun r => lane 8 a (8 * j + r) >>> 7) 8 := by
  generalize hb : vshrq_n_u8 a 7 = X
  have h16 : lane 64 (vsraq_n_u16 X X 7) j
      = pack 16 (fun r => lane 16 (lane 64 X j) r + (lane 16 (lane 64 X j) r >>> 7)) 4 :=
    lane_map_coarse 16 (by decide) 4 2 (fun v => v + (v >>> 7)) X j hj
  generalize h16' : vsraq_n_u16 X X 7 = P16 at h16 ⊢
  have h32 : lane 64 (vsraq_n_u32 P16 P16 14)  j
      = pack 32 (fun r => lane 32 (lane 64 P16 j) r + (lane 32 (lane 64 P16 j) r >>> 14)) 2 :=
    lane_map_coarse 32 (by decide) 2 2 (fun v => v + (v >>> 14)) P16 j hj
  generalize h32' : vsraq_n_u32 P16 P16 14 = P32 at h32 ⊢
  have h64 : lane 64 (vsraq_n_u64 P32 P32 28)  j
      = pack 64 (fun r => lane 64 (lane 64 P32 j) r + (lane 64 (lane 64 P32 j) r >>> 28)) 1 :=
    lane_map_coarse 64 (by decide) 1 2 (fun v => v + (v >>> 28)) P32 j hj
  generalize h64' : vsraq_n_u64 P32 P32 28 = P64 at h64 ⊢
  have h8 : lane 8 P64 (8 * j) = lane 8 (lane 64 P64 j) 0 :=
    (lane_lane 8 8 P64 j 0 (by decide)).symm
  have hX : lane 64 X j = pack 8 (fun r => lane 8 a (8 * j + r) >>> 7) 8 := by
    rw [← hb]
    exact lane_pack_coarse 8 (by decide) 8 2 (fun i => lane 8 a i >>> 7) j hj
  have hbit : ∀ k, lane 8 a k >>> 7 < 2 := by
    intro k
    have := lane_lt 8 a k
    rw [Nat.shiftRight_eq_div_pow]
    omega
  have hn : pack 1 (fun r => lane 8 a (8 * j + r) >>> 7) 8 < 256 := pack_lt 1 _ 8
  have hspread : lane 64 X j
      = pack 8 (fun i => lane 1 (pack 1 (fun r => lane 8 a (8 * j + r) >>> 7) 8) i) 8 := by
    rw [hX]
    apply pack_congr
    intro r hr
    rw [lane_pack 1 (by decide) _ 8 r hr]
    have := hbit (8 * j + r)
    omega
  rw [h8, h64, h32, h16, hspread]
  exact movemaskTree64_spread _ hn

theorem testBit_msb_pack (f : Nat → Nat) (s n k : Nat) :
    (pack 1 (fun r => f r >>> s) n).testBit k = (decide (k < n) && (f k).testBit s) := by
  rw [testBit_pack 1 (by decide), Nat.one_mul, Nat.div_one, Nat.mod_one, Nat.testBit_shiftRight]
  rfl

theorem movemask_epi8_tree_eq (a : Nat) :
    _mm_movemask_epi8 false a
      = pack 1 (fun r => lane 8 a (8 * 0 + r) >>> 7) 8
        ||| (pack 1 (fun r => lane 8 a (8 * 1 + r) >>> 7) 8 <<< 8) := by
  have h0 := movemask_epi8_byte a 0 (by decide)
  have h1 := movemask_epi8_byte a 1 (by decide)
  rw [← h0, ← h1]
  rfl

theorem movemask_epi8_tree_testBit (a i : Nat) :
    (_mm_movemask_epi8 false a).testBit i = (decide (i < 16) && (lane 8 a i).testBit 7) := by
  rw [movemask_epi8_tree_eq, Nat.testBit_or, Nat.testBit_shiftLeft,
    testBit_msb_pack (fun r => lane 8 a (8 * 0 + r)) 7 8 i,
    testBit_msb_pack (fun r => lane 8 a (8 * 1 + r)) 7 8 (i - 8)]
  by_cases h1 : i < 8
  · have h2 : ¬ i ≥ 8 := by omega
    have h3 : i < 16 := by omega
    simp [h1, h2, h3]
  · by_cases h3 : i < 16
    · have h2 : i ≥ 8 := by omega
      have h4 : i - 8 < 8 := by omega
      have h5 : 8 * 1 + (i - 8) = i := by omega
      simp only [h1, h2, h3, h4, h5, decide_True, decide_False, Bool.true_and, Bool.false_and,
        Bool.false_or]
    · have h2 : i ≥ 8 := by omega
      have h4 : ¬ i - 8 < 8 := by omega
      simp [h1, h2, h3, h4]

theorem movemaskPs64_spread : ∀ n, n < 4 →
    movemaskPs64 (pack 32 (fun i => lane 1 n i) 2) = n := by
  decide

theorem movemask_ps_byte (a j : Nat) (hj : j < 2) :
    lane 8 (vsraq_n_u64 (vshrq_n_u32 a 31) (vshrq_n_u32 a 31) 31) (8 * j)
      = pack 1 (fun r => lane 32 a (2 * j + r) >>> 31) 2 := by
  generalize hb : vshrq_n_u32 a 31 = X
  have h64 : lane 64 (vsraq_n_u64 X X 31) j
      = pack 64 (fun r => lane 64 (lane 64 X j) r + (lane 64 (lane 64 X j) r >>> 31)) 1 :=
    lane_map_coarse 64 (by decide) 1 2 (fun v => v + (v >>> 31)) X j hj
  generalize h64' : vsraq_n_u64 X X 31 = P64 at h64 ⊢
  have h8 : lane 8 P64 (8 * j) = lane 8 (lane 64 P64 j) 0 :=
    (lane_lane 8 8 P64 j 0 (by decide)).symm
  have hX : lane 64 X j = pack 32 (fun r => lane 32 a (2 * j + r) >>> 31) 2 := by
    rw [← hb]
    exact lane_pack_coarse 32 (by decide) 2 2 (fun i => lane 32 a i >>> 31) j hj
  have hbit : ∀ k, lane 32 a k >>> 31 < 2 := by
    intro k
    have := lane_lt 32 a k
    rw [Nat.shiftRight_eq_div_pow]
    omega
  have hn : pack 1 (fun r => lane 32 a (2 * j + r) >>> 31) 2 < 4 := pack_lt 1 _ 2
  have hspread : lane 64 X j
      = pack 32 (fun i => lane 1 (pack 1 (fun r => lane 32 a (2 * j + r) >>> 31) 2) i) 2 := by
    rw [hX]
    apply pack_congr
    intro r hr
    rw [lane_pack 1 (by decide) _ 2 r hr]
    have := hbit (2 * j + r)
    omega
  rw [h8, h64, hspread]
  exact movemaskPs64_spread _ hn

theorem movemask_ps_tree_eq (a : Nat) :
    _mm_movemask_ps false a
      = pack 1 (fun r => lane 32 a (2 * 0 + r) >>> 31) 2
        ||| (pack 1 (fun r => lane 32 a (2 * 1 + r) >>> 31) 2 <<< 2) := by
  have h0 := movemask_ps_byte a 0 (by decide)
  have h1 := movemask_ps_byte a 1 (by decide)
  rw [← h0, ← h1]
  rfl

theorem movemask_ps_tree_testBit (a i : Nat) :
    (_mm_movemask_ps false a).testBit i = (decide (i < 4) && (lane 32 a i).testBit 31) := by
  rw [movemask_ps_tree_eq, Nat.testBit_or, Nat.testBit_shiftLeft,
    testBit_msb_pack (fun r => lane 32 a (2 * 0 + r)) 31 2 i,
    testBit_msb_pack (fun r => lane 32 a (2 * 1 + r)) 31 2 (i - 2)]
  by_cases h1 : i < 2
  · have h2 : ¬ i ≥ 2 := by omega
    have h3 : i < 4 := by omega
    simp [h1, h2, h3]
  · by_cases h3 : i < 4
    · have h2 : i ≥ 2 := by omega
      have h4 : i - 2 < 2 := by omega
      have h5 : 2 * 1 + (i - 2) = i := by omega
      simp only [h1, h2, h3, h4, h5, decide_True, decide_False, Bool.true_and, Bool.false_and,
        Bool.false_or]
    · have h2 : i ≥ 2 := by omega
      have h4 : ¬ i - 2 < 2 := by omega
      simp [h1, h2, h3, h4]

theorem lt_two_pow_of_testBit_false (x n : Nat) (h : ∀ i, n ≤ i → x.testBit i = false) :
    x < 2 ^ n := by
  apply Nat.lt_pow_two_of_testBit
  intro i hi
  exact h i hi

/-- C5: for every 128-bit register `a`, the shift/add reduction-tree path of
`_mm_movemask_epi8` returns the integer whose bit `i`, for `0 <= i < 16`, is
the most significant bit of byte `i` of `a`, and whose bits 16 and above are
all zero (so the result is below `2^16`). -/
theorem movemask_epi8_tree_bits (a i : Nat) :
    (_mm_movemask_epi8 false a).testBit i = (decide (i < 16) && (lane 8 a i).testBit 7) ∧
    _mm_movemask_epi8 false a < 2 ^ 16 := by
  refine ⟨movemask_epi8_tree_testBit a i, lt_two_pow_of_testBit_false _ _ ?_⟩
  intro k hk
  have : ¬ k < 16 := by omega
  simp [movemask_epi8_tree_testBit, this]

/-- C6: for every 128-bit register `a` viewed as four 32-bit lanes, the
non-aarch64 path of `_mm_movemask_ps` returns the integer whose bit `i`, for
`0 <= i < 4`, is bit 31 (the sign bit) of lane `i`, and whose bits 4 and above
are zero, so the result is in `0..15`. -/
theorem movemask_ps_tree_bits (a i : Nat) :
    (_mm_movemask_ps false a).testBit i = (decide (i < 4) && (lane 32 a i).testBit 31) ∧
    _mm_movemask_ps false a < 16 := by
  refine ⟨movemask_ps_tree_testBit a i, lt_two_pow_of_testBit_false _ 4 ?_⟩
  intro k hk
  have : ¬ k < 4 := by omega
  simp [movemask_ps_tree_testBit, this]

/-! ## The carry-less multiplier: XOR-linearity -/

theorem lane_xor (w x y i : Nat) : lane w (x ^^^ y) i = lane w x i ^^^ lane w y i := by
  apply Nat.eq_of_testBit_eq
  intro k
  rw [testBit_lane, Nat.testBit_xor, Nat.testBit_xor, testBit_lane, testBit_lane]
  cases decide (k < w) <;> simp

theorem pack_xor (w : Nat) (hw : 0 < w) (f g : Nat → Nat) (n : Nat) :
    pack w (fun i => f i ^^^ g i) n = pack w f n ^^^ pack w g n := by
  apply Nat.eq_of_testBit_eq
  intro k
  rw [Nat.testBit_xor, testBit_pack w hw, testBit_pack w hw, testBit_pack w hw, Nat.testBit_xor]
  cases decide (k < w * n) <;> simp

theorem xor_xor_xor_comm (a b c d : Nat) : (a ^^^ b) ^^^ (c ^^^ d) = (a ^^^ c) ^^^ (b ^^^ d) := by
  apply Nat.eq_of_testBit_eq
  intro k
  simp only [Nat.testBit_xor]
  cases a.testBit k <;> cases b.testBit k <;> cases c.testBit k <;> cases d.testBit k <;> rfl

theorem shiftLeft_xor (a b i : Nat) : (a ^^^ b) <<< i = a <<< i ^^^ b <<< i := by
  apply Nat.eq_of_testBit_eq
  intro k
  simp only [Nat.testBit_xor, Nat.testBit_shiftLeft]
  cases decide (k ≥ i) <;> simp

theorem xorSum_xor (f g : Nat → Nat) (n : Nat) :
    xorSum (fun i => f i ^^^ g i) n = xorSum f n ^^^ xorSum g n := by
  induction n with
  | zero => simp [xorSum]
  | succ n ih => rw [xorSum, xorSum, xorSum, ih, xor_xor_xor_comm]

theorem xorSum_congr (f g : Nat → Nat) (n : Nat) (h : ∀ i, i < n → f i = g i) :
    xorSum f n = xorSum g n := by
  induction n with
  | zero => rfl
  | succ n ih =>
    rw [xorSum, xorSum, ih (fun i hi => h i (Nat.lt_succ_of_lt hi)), h n (Nat.lt_succ_self n)]

theorem PolynomialMult_xor_left (x x' y : Nat) :
    PolynomialMult (x ^^^ x') y = PolynomialMult x y ^^^ PolynomialMult x' y := by
  unfold PolynomialMult
  rw [← xorSum_xor]
  apply xorSum_congr
  intro i _
  rw [Nat.testBit_xor]
  cases x.testBit i <;> cases x'.testBit i <;> simp

theorem PolynomialMult_xor_right (x y y' : Nat) :
    PolynomialMult x (y ^^^ y') = PolynomialMult x y ^^^ PolynomialMult x y' := by
  unfold PolynomialMult
  rw [← xorSum_xor]
  apply xorSum_congr
  intro i _
  cases x.testBit i <;> simp [shiftLeft_xor]

theorem vmull_p8_xor_left (a a' b : Nat) :
    vmull_p8 (a ^^^ a') b = vmull_p8 a b ^^^ vmull_p8 a' b := by
  unfold vmull_p8
  rw [← pack_xor 16 (by decide)]
  apply pack_congr
  intro i _
  rw [lane_xor, PolynomialMult_xor_left]

theorem vmull_p8_xor_right (a b b' : Nat) :
    vmull_p8 a (b ^^^ b') = vmull_p8 a b ^^^ vmull_p8 a b' := by
  unfold vmull_p8
  rw [← pack_xor 16 (by decide)]
  apply pack_congr
  intro i _
  rw [lane_xor, PolynomialMult_xor_right]

theorem vext_p8_xor (a a' b b' n : Nat) :
    vext_p8 (a ^^^ a') (b ^^^ b') n = vext_p8 a b n ^^^ vext_p8 a' b' n := by
  unfold vext_p8
  rw [← pack_xor 8 (by decide)]
  apply pack_congr
  intro i _
  simp only [lane_xor]
  split_ifs <;> rfl

theorem vextq_u8_xor (a a' b b' n : Nat) :
    vextq_u8 (a ^^^ a') (b ^^^ b') n = vextq_u8 a b n ^^^ vextq_u8 a' b' n := by
  unfold vextq_u8
  rw [← pack_xor 8 (by decide)]
  apply pack_congr
  intro i _
  simp only [lane_xor]
  split_ifs <;> rfl

theorem vcombine_u8_xor (a a' b b' : Nat) :
    vcombine_u8 (a ^^^ a') (b ^^^ b') = vcombine_u8 a b ^^^ vcombine_u8 a' b' := by
  unfold vcombine_u8
  rw [← pack_xor 8 (by decide)]
  apply pack_congr
  intro i _
  simp only [lane_xor]
  split_ifs <;> rfl

theorem vget_low_u8_xor (a a' : Nat) :
    vget_low_u8 (a ^^^ a') = vget_low_u8 a ^^^ vget_low_u8 a' := by
  unfold vget_low_u8
  rw [← pack_xor 8 (by decide)]
  simp only [lane_xor]

theorem vget_high_u8_xor (a a' : Nat) :
    vget_high_u8 (a ^^^ a') = vget_high_u8 a ^^^ vget_high_u8 a' := by
  unfold vget_high_u8
  rw [← pack_xor 8 (by decide)]
  simp only [lane_xor]

theorem veorq_u8_xor (a a' b b' : Nat) :
    veorq_u8 (a ^^^ a') (b ^^^ b') = veorq_u8 a b ^^^ veorq_u8 a' b' := by
  unfold veorq_u8
  rw [← pack_xor 8 (by decide)]
  apply pack_congr
  intro i _
  rw [lane_xor, lane_xor, xor_xor_xor_comm]

theorem vandq_u8_xor (a a' m : Nat) :
    vandq_u8 (a ^^^ a') m = vandq_u8 a m ^^^ vandq_u8 a' m := by
  unfold vandq_u8
  rw [← pack_xor 8 (by decide)]
  apply pack_congr
  intro i _
  rw [lane_xor, Nat.and_xor_distrib_right]

theorem zip64_xor (k : Nat) (a a' b b' : Nat) :
    pack 64 (fun i => if i = 0 then lane 64 (a ^^^ a') k else lane 64 (b ^^^ b') k) 2
      = pack 64 (fun i => if i = 0 then lane 64 a k else lane 64 b k) 2
        ^^^ pack 64 (fun i => if i = 0 then lane 64 a' k else lane 64 b' k) 2 := by
  rw [← pack_xor 64 (by decide)]
  apply pack_congr
  intro i _
  simp only [lane_xor]
  split_ifs <;> rfl

theorem vzip1q_u64_xor (a a' b b' : Nat) :
    vzip1q_u64 (a ^^^ a') (b ^^^ b') = vzip1q_u64 a b ^^^ vzip1q_u64 a' b' := zip64_xor 0 a a' b b'

theorem vzip2q_u64_xor (a a' b b' : Nat) :
    vzip2q_u64 (a ^^^ a') (b ^^^ b') = vzip2q_u64 a b ^^^ vzip2q_u64 a' b' := zip64_xor 1 a a' b b'

theorem vuzp1q_u64_xor (a a' b b' : Nat) :
    vuzp1q_u64 (a ^^^ a') (b ^^^ b') = vuzp1q_u64 a b ^^^ vuzp1q_u64 a' b' := zip64_xor 0 a a' b b'

theorem vuzp2q_u64_xor (a a' b b' : Nat) :
    vuzp2q_u64 (a ^^^ a') (b ^^^ b') = vuzp2q_u64 a b ^^^ vuzp2q_u64 a' b' := zip64_xor 1 a a' b b'

/-- The polyfill is XOR-linear in its first operand. -/
theorem vmull_p64_xor_left (aarch64 : Bool) (x x' y : Nat) :
    _sse2neon_vmull_p64 aarch64 (x ^^^ x') y
      = _sse2neon_vmull_p64 aarch64 x y ^^^ _sse2neon_vmull_p64 aarch64 x' y := by
  cases aarch64 <;>
  simp only [_sse2neon_vmull_p64, vext_p8_xor, vmull_p8_xor_left, veorq_u8_xor, vget_low_u8_xor,
    vget_high_u8_xor, vcombine_u8_xor, vandq_u8_xor, vextq_u8_xor, vzip1q_u64_xor,
    vzip2q_u64_xor, vuzp1q_u64_xor, vuzp2q_u64_xor, if_true, if_false, Bool.false_eq_true]

/-- The polyfill is XOR-linear in its second operand. -/
theorem vmull_p64_xor_right (aarch64 : Bool) (x y y' : Nat) :
    _sse2neon_vmull_p64 aarch64 x (y ^^^ y')
      = _sse2neon_vmull_p64 aarch64 x y ^^^ _sse2neon_vmull_p64 aarch64 x y' := by
  cases aarch64 <;>
  simp only [_sse2neon_vmull_p64, vext_p8_xor, vmull_p8_xor_right, veorq_u8_xor, vget_low_u8_xor,
    vget_high_u8_xor, vcombine_u8_xor, vandq_u8_xor, vextq_u8_xor, vzip1q_u64_xor,
    vzip2q_u64_xor, vuzp1q_u64_xor, vuzp2q_u64_xor, if_true, if_false, Bool.false_eq_true]

/-! ## The carry-less multiplier: byte lanes of the primitives -/

theorem lane8_lt (x i : Nat) : lane 8 x i < 256 := lane_lt 8 x i

theorem lane8_veorq_u8 (a b i : Nat) (hi : i < 16) :
    lane 8 (veorq_u8 a b) i = lane 8 a i ^^^ lane 8 b i := by
  rw [veorq_u8, lane_pack 8 (by decide) _ 16 i hi]
  exact Nat.mod_eq_of_lt (Nat.xor_lt_two_pow (lane_lt 8 a i) (lane_lt 8 b i))

theorem lane8_vandq_u8 (a b i : Nat) (hi : i < 16) :
    lane 8 (vandq_u8 a b) i = lane 8 a i &&& lane 8 b i := by
  rw [vandq_u8, lane_pack 8 (by decide) _ 16 i hi]
  exact Nat.mod_eq_of_lt (Nat.and_lt_two_pow _ (lane_lt 8 b i))

theorem lane8_vcombine_u8 (lo hi i : Nat) (h : i < 16) :
    lane 8 (vcombine_u8 lo hi) i = if i < 8 then lane 8 lo i else lane 8 hi (i - 8) := by
  rw [vcombine_u8, lane_pack 8 (by decide) _ 16 i h]
  split_ifs <;> exact lane_mod 8 _ _

theorem lane8_vget_low_u8 (a i : Nat) (h : i < 8) :
    lane 8 (vget_low_u8 a) i = lane 8 a i := by
  rw [vget_low_u8, lane_pack 8 (by decide) _ 8 i h]
  exact lane_mod 8 _ _

theorem lane8_vget_high_u8 (a i : Nat) (h : i < 8) :
    lane 8 (vget_high_u8 a) i = lane 8 a (i + 8) := by
  rw [vget_high_u8, lane_pack 8 (by decide) _ 8 i h]
  exact lane_mod 8 _ _

theorem lane8_vextq_u8 (a b n i : Nat) (h : i < 16) :
    lane 8 (vextq_u8 a b n) i
      = if i + n < 16 then lane 8 a (i + n) else lane 8 b (i + n - 16) := by
  rw [vextq_u8, lane_pack 8 (by decide) _ 16 i h]
  split_ifs <;> exact lane_mod 8 _ _

theorem lane8_vext_p8 (a b n i : Nat) (h : i < 8) :
    lane 8 (vext_p8 a b n) i
      = if i + n < 8 then lane 8 a (i + n) else lane 8 b (i + n - 8) := by
  rw [vext_p8, lane_pack 8 (by decide) _ 8 i h]
  split_ifs <;> exact lane_mod 8 _ _

theorem lane8_vcreate_u8 (c i : Nat) (h : i < 8) :
    lane 8 (vcreate_u8 c) i = lane 8 c i := by
  rw [vcreate_u8, lane_pack 8 (by decide) _ 8 i h]
  exact lane_mod 8 _ _

/-- Byte `r` (0 or 1) of the 16-bit lane `j` of a product register. -/
theorem lane8_vmull_p8 (a b j r : Nat) (hj : j < 8) (hr : r < 2) :
    lane 8 (vmull_p8 a b) (2 * j + r)
      = lane 8 (PolynomialMult (lane 8 a j) (lane 8 b j)) r := by
  rw [← lane_lane 8 2 _ j r hr]
  show lane 8 (lane 16 (vmull_p8 a b) j) r = _
  rw [vmull_p8, lane_pack 16 (by decide) _ 8 j hj]
  have h := lane_lane 8 2 (PolynomialMult (lane 8 a j) (lane 8 b j)) 0 r hr
  simpa [lane] using h

theorem lane8_vmull_p8_idx (a b i : Nat) (hi : i < 16) :
    lane 8 (vmull_p8 a b) i
      = lane 8 (PolynomialMult (lane 8 a (i / 2)) (lane 8 b (i / 2))) (i % 2) := by
  have h := lane8_vmull_p8 a b (i / 2) (i % 2) (by omega) (Nat.mod_lt _ (by decide))
  rwa [Nat.div_add_mod] at h

theorem lane8_and_255 (x i : Nat) : lane 8 x i &&& 255 = lane 8 x i := by
  have h := Nat.and_pow_two_sub_one_eq_mod (lane 8 x i) 8
  rw [lane_mod] at h
  exact h

theorem lane_zero (w i : Nat) : lane w 0 i = 0 := by
  simp [lane]

theorem lane8_mask48 (i : Nat) (hi : i < 8) :
    lane 8 0x0000ffffffffffff i = if i < 6 then 255 else 0 := by
  interval_cases i <;> rfl

theorem lane8_mask32 (i : Nat) (hi : i < 8) :
    lane 8 0x00000000ffffffff i = if i < 4 then 255 else 0 := by
  interval_cases i <;> rfl

theorem lane8_mask16 (i : Nat) (hi : i < 8) :
    lane 8 0x000000000000ffff i = if i < 2 then 255 else 0 := by
  interval_cases i <;> rfl

theorem testBit_xorSum (f : Nat → Nat) (n k : Nat) :
    (xorSum f n).testBit k = xorAll (fun i => (f i).testBit k) n := by
  induction n with
  | zero => simp [xorSum, xorAll]
  | succ n ih => rw [xorSum, xorAll, Nat.testBit_xor, ih]

theorem xorAll_false (f : Nat → Bool) (n : Nat) (h : ∀ i, i < n → f i = false) :
    xorAll f n = false := by
  induction n with
  | zero => rfl
  | succ n ih =>
    rw [xorAll, ih (fun i hi => h i (Nat.lt_succ_of_lt hi)), h n (Nat.lt_succ_self n)]
    rfl

theorem xorSum_lt (f : Nat → Nat) (n m : Nat) (h : ∀ i, i < n → f i < 2 ^ m) :
    xorSum f n < 2 ^ m := by
  induction n with
  | zero => exact Nat.two_pow_pos m
  | succ n ih =>
    rw [xorSum]
    exact Nat.xor_lt_two_pow (ih (fun i hi => h i (Nat.lt_succ_of_lt hi))) (h n (Nat.lt_succ_self n))

theorem shiftLeft_lt (a s m : Nat) (h : a < 2 ^ m) : a <<< s < 2 ^ (m + s) := by
  rw [Nat.shiftLeft_eq, Nat.pow_add]
  exact Nat.mul_lt_mul_of_pos_right h (Nat.two_pow_pos s)

theorem PolynomialMult_lt (a b : Nat) (hb : b < 2 ^ 8) : PolynomialMult a b < 2 ^ 15 := by
  unfold PolynomialMult
  apply xorSum_lt
  intro i hi
  split_ifs
  · have h1 := shiftLeft_lt b i 8 hb
    have h2 : 2 ^ (8 + i) ≤ 2 ^ 15 := Nat.pow_le_pow_right (by decide) (by omega)
    omega
  · exact Nat.two_pow_pos 15

theorem lane8_PolynomialMult_high (a b r : Nat) (hb : b < 2 ^ 8) (hr : 2 ≤ r) :
    lane 8 (PolynomialMult a b) r = 0 := by
  have h := PolynomialMult_lt a b hb
  have h2 : PolynomialMult a b < 2 ^ (8 * r) :=
    Nat.lt_of_lt_of_le h (Nat.pow_le_pow_right (by decide) (by omega))
  rw [lane, Nat.div_eq_of_lt h2]
  rfl

theorem lane8_shiftLeft (x n i : Nat) (h : n % 8 = 0) :
    lane 8 (x <<< n) i = if n / 8 ≤ i then lane 8 x (i - n / 8) else 0 := by
  apply Nat.eq_of_testBit_eq
  intro k
  split_ifs with h'
  · rw [testBit_lane, testBit_lane, Nat.testBit_shiftLeft]
    have h1 : 8 * i + k ≥ n := by omega
    have h2 : 8 * i + k - n = 8 * (i - n / 8) + k := by omega
    simp [h1, h2]
  · rw [testBit_lane, Nat.testBit_shiftLeft]
    by_cases hk : k < 8
    · have h1 : ¬ 8 * i + k ≥ n := by omega
      simp [h1]
    · simp [hk]

theorem reg_ext (w : Nat) (hw : 0 < w) (n x y : Nat) (hx : x < 2 ^ (w * n))
    (hy : y < 2 ^ (w * n)) (h : ∀ i, i < n → lane w x i = lane w y i) : x = y := by
  have h1 := pack_lane w hw x n
  have h2 := pack_lane w hw y n
  rw [Nat.mod_eq_of_lt hx] at h1
  rw [Nat.mod_eq_of_lt hy] at h2
  rw [← h1, ← h2]
  apply pack_congr
  intro i hi
  rw [h i hi]

theorem clmulBytes_lt (x y : Nat) : clmulBytes x y < 2 ^ 128 := by
  unfold clmulBytes
  apply xorSum_lt
  intro p hp
  apply xorSum_lt
  intro q hq
  have h1 := PolynomialMult_lt (lane 8 x p) (lane 8 y q) (lane_lt 8 y q)
  have h2 := shiftLeft_lt _ (8 * (p + q)) 15 h1
  have h3 : 2 ^ (15 + 8 * (p + q)) ≤ 2 ^ 128 := Nat.pow_le_pow_right (by decide) (by omega)
  omega

theorem lane8_vmull_p64_0 (x y : Nat) :
    lane 8 (_sse2neon_vmull_p64 false x y) 0 = lane 8 (clmulBytes x y) 0 := by
  simp [_sse2neon_vmull_p64, lane8_veorq_u8, lane8_vandq_u8, lane8_vcombine_u8,
    lane8_vget_low_u8, lane8_vget_high_u8, lane8_vextq_u8, lane8_vext_p8, lane8_vcreate_u8,
    lane8_vmull_p8_idx, lane8_mask48, lane8_mask32, lane8_mask16, lane_zero, lane8_and_255,
    Nat.and_xor_distrib_right, clmulBytes, xorSum, lane_xor, lane8_shiftLeft,
    lane8_PolynomialMult_high, lane8_lt, Nat.xor_cancel_right]
  try ac_rfl

theorem lane8_vmull_p64_1 (x y : Nat) :
    lane 8 (_sse2neon_vmull_p64 false x y) 1 = lane 8 (clmulBytes x y) 1 := by
  simp [_sse2neon_vmull_p64, lane8_veorq_u8, lane8_vandq_u8, lane8_vcombine_u8,
    lane8_vget_low_u8, lane8_vget_high_u8, lane8_vextq_u8, lane8_vext_p8, lane8_vcreate_u8,
    lane8_vmull_p8_idx, lane8_mask48, lane8_mask32, lane8_mask16, lane_zero, lane8_and_255,
    Nat.and_xor_distrib_right, clmulBytes, xorSum, lane_xor, lane8_shiftLeft,
    lane8_PolynomialMult_high, lane8_lt, Nat.xor_cancel_right]
  try ac_rfl

theorem lane8_vmull_p64_2 (x y : Nat) :
    lane 8 (_sse2neon_vmull_p64 false x y) 2 = lane 8 (clmulBytes x y) 2 := by
  simp [_sse2neon_vmull_p64, lane8_veorq_u8, lane8_vandq_u8, lane8_vcombine_u8,
    lane8_vget_low_u8, lane8_vget_high_u8, lane8_vextq_u8, lane8_vext_p8, lane8_vcreate_u8,
    lane8_vmull_p8_idx, lane8_mask48, lane8_mask32, lane8_mask16, lane_zero, lane8_and_255,
    Nat.and_xor_distrib_right, clmulBytes, xorSum, lane_xor, lane8_shiftLeft,
    lane8_PolynomialMult_high, lane8_lt, Nat.xor_cancel_right]
  try ac_rfl

theorem lane8_vmull_p64_3 (x y : Nat) :
    lane 8 (_sse2neon_vmull_p64 false x y) 3 = lane 8 (clmulBytes x y) 3 := by
  simp [_sse2neon_vmull_p64, lane8_veorq_u8, lane8_vandq_u8, lane8_vcombine_u8,
    lane8_vget_low_u8, lane8_vget_high_u8, lane8_vextq_u8, lane8_vext_p8, lane8_vcreate_u8,
    lane8_vmull_p8_idx, lane8_mask48, lane8_mask32, lane8_mask16, lane_zero, lane8_and_255,
    Nat.and_xor_distrib_right, clmulBytes, xorSum, lane_xor, lane8_shiftLeft,
    lane8_PolynomialMult_high, lane8_lt, Nat.xor_cancel_right]
  try ac_rfl

theorem lane8_vmull_p64_4 (x y : Nat) :
    lane 8 (_sse2neon_vmull_p64 false x y) 4 = lane 8 (clmulBytes x y) 4 := by
  simp [_sse2neon_vmull_p64, lane8_veorq_u8, lane8_vandq_u8, lane8_vcombine_u8,
    lane8_vget_low_u8, lane8_vget_high_u8, lane8_vextq_u8, lane8_vext_p8, lane8_vcreate_u8,
    lane8_vmull_p8_idx, lane8_mask48, lane8_mask32, lane8_mask16, lane_zero, lane8_and_255,
    Nat.and_xor_distrib_right, clmulBytes, xorSum, lane_xor, lane8_shiftLeft,
    lane8_PolynomialMult_high, lane8_lt, Nat.xor_cancel_right]
  try ac_rfl

theorem lane8_vmull_p64_5 (x y : Nat) :
    lane 8 (_sse2neon_vmull_p64 false x y) 5 = lane 8 (clmulBytes x y) 5 := by
  simp [_sse2neon_vmull_p64, lane8_veorq_u8, lane8_vandq_u8, lane8_vcombine_u8,
    lane8_vget_low_u8, lane8_vget_high_u8, lane8_vextq_u8, lane8_vext_p8, lane8_vcreate_u8,
    lane8_vmull_p8_idx, lane8_mask48, lane8_mask32, lane8_mask16, lane_zero, lane8_and_255,
    Nat.and_xor_distrib_right, clmulBytes, xorSum, lane_xor, lane8_shiftLeft,
    lane8_PolynomialMult_high, lane8_lt, Nat.xor_cancel_right]
  try ac_rfl

theorem lane8_vmull_p64_6 (x y : Nat) :
    lane 8 (_sse2neon_vmull_p64 false x y) 6 = lane 8 (clmulBytes x y) 6 := by
  simp [_sse2neon_vmull_p64, lane8_veorq_u8, lane8_vandq_u8, lane8_vcombine_u8,
    lane8_vget_low_u8, lane8_vget_high_u8, lane8_vextq_u8, lane8_vext_p8, lane8_vcreate_u8,
    lane8_vmull_p8_idx, lane8_mask48, lane8_mask32, lane8_mask16, lane_zero, lane8_and_255,
    Nat.and_xor_distrib_right, clmulBytes, xorSum, lane_xor, lane8_shiftLeft,
    lane8_PolynomialMult_high, lane8_lt, Nat.xor_cancel_right]
  try ac_rfl

theorem lane8_vmull_p64_7 (x y : Nat) :
    lane 8 (_sse2neon_vmull_p64 false x y) 7 = lane 8 (clmulBytes x y) 7 := by
  simp [_sse2neon_vmull_p64, lane8_veorq_u8, lane8_vandq_u8, lane8_vcombine_u8,
    lane8_vget_low_u8, lane8_vget_high_u8, lane8_vextq_u8, lane8_vext_p8, lane8_vcreate_u8,
    lane8_vmull_p8_idx, lane8_mask48, lane8_mask32, lane8_mask16, lane_zero, lane8_and_255,
    Nat.and_xor_distrib_right, clmulBytes, xorSum, lane_xor, lane8_shiftLeft,
    lane8_PolynomialMult_high, lane8_lt, Nat.xor_cancel_right]
  try ac_rfl

theorem lane8_vmull_p64_8 (x y : Nat) :
    lane 8 (_sse2neon_vmull_p64 false x y) 8 = lane 8 (clmulBytes x y) 8 := by
  simp [_sse2neon_vmull_p64, lane8_veorq_u8, lane8_vandq_u8, lane8_vcombine_u8,
    lane8_vget_low_u8, lane8_vget_high_u8, lane8_vextq_u8, lane8_vext_p8, lane8_vcreate_u8,
    lane8_vmull_p8_idx, lane8_mask48, lane8_mask32, lane8_mask16, lane_zero, lane8_and_255,
    Nat.and_xor_distrib_right, clmulBytes, xorSum, lane_xor, lane8_shiftLeft,
    lane8_PolynomialMult_high, lane8_lt, Nat.xor_cancel_right]
  try ac_rfl

theorem lane8_vmull_p64_9 (x y : Nat) :
    lane 8 (_sse2neon_vmull_p64 false x y) 9 = lane 8 (clmulBytes x y) 9 := by
  simp [_sse2neon_vmull_p64, lane8_veorq_u8, lane8_vandq_u8, lane8_vcombine_u8,
    lane8_vget_low_u8, lane8_vget_high_u8, lane8_vextq_u8, lane8_vext_p8, lane8_vcreate_u8,
    lane8_vmull_p8_idx, lane8_mask48, lane8_mask32, lane8_mask16, lane_zero, lane8_and_255,
    Nat.and_xor_distrib_right, clmulBytes, xorSum, lane_xor, lane8_shiftLeft,
    lane8_PolynomialMult_high, lane8_lt, Nat.xor_cancel_right]
  try ac_rfl

theorem lane8_vmull_p64_10 (x y : Nat) :
    lane 8 (_sse2neon_vmull_p64 false x y) 10 = lane 8 (clmulBytes x y) 10 := by
  simp [_sse2neon_vmull_p64, lane8_veorq_u8, lane8_vandq_u8, lane8_vcombine_u8,
    lane8_vget_low_u8, lane8_vget_high_u8, lane8_vextq_u8, lane8_vext_p8, lane8_vcreate_u8,
    lane8_vmull_p8_idx, lane8_mask48, lane8_mask32, lane8_mask16, lane_zero, lane8_and_255,
    Nat.and_xor_distrib_right, clmulBytes, xorSum, lane_xor, lane8_shiftLeft,
    lane8_PolynomialMult_high, lane8_lt, Nat.xor_cancel_right]
  try ac_rfl

theorem lane8_vmull_p64_11 (x y : Nat) :
    lane 8 (_sse2neon_vmull_p64 false x y) 11 = lane 8 (clmulBytes x y) 11 := by
  simp [_sse2neon_vmull_p64, lane8_veorq_u8, lane8_vandq_u8, lane8_vcombine_u8,
    lane8_vget_low_u8, lane8_vget_high_u8, lane8_vextq_u8, lane8_vext_p8, lane8_vcreate_u8,
    lane8_vmull_p8_idx, lane8_mask48, lane8_mask32, lane8_mask16, lane_zero, lane8_and_255,
    Nat.and_xor_distrib_right, clmulBytes, xorSum, lane_xor, lane8_shiftLeft,
    lane8_PolynomialMult_high, lane8_lt, Nat.xor_cancel_right]
  try ac_rfl

theorem lane8_vmull_p64_12 (x y : Nat) :
    lane 8 (_sse2neon_vmull_p64 false x y) 12 = lane 8 (clmulBytes x y) 12 := by
  simp [_sse2neon_vmull_p64, lane8_veorq_u8, lane8_vandq_u8, lane8_vcombine_u8,
    lane8_vget_low_u8, lane8_vget_high_u8, lane8_vextq_u8, lane8_vext_p8, lane8_vcreate_u8,
    lane8_vmull_p8_idx, lane8_mask48, lane8_mask32, lane8_mask16, lane_zero, lane8_and_255,
    Nat.and_xor_distrib_right, clmulBytes, xorSum, lane_xor, lane8_shiftLeft,
    lane8_PolynomialMult_high, lane8_lt, Nat.xor_cancel_right]
  try ac_rfl

theorem lane8_vmull_p64_13 (x y : Nat) :
    lane 8 (_sse2neon_vmull_p64 false x y) 13 = lane 8 (clmulBytes x y) 13 := by
  simp [_sse2neon_vmull_p64, lane8_veorq_u8, lane8_vandq_u8, lane8_vcombine_u8,
    lane8_vget_low_u8, lane8_vget_high_u8, lane8_vextq_u8, lane8_vext_p8, lane8_vcreate_u8,
    lane8_vmull_p8_idx, lane8_mask48, lane8_mask32, lane8_mask16, lane_zero, lane8_and_255,
    Nat.and_xor_distrib_right, clmulBytes, xorSum, lane_xor, lane8_shiftLeft,
    lane8_PolynomialMult_high, lane8_lt, Nat.xor_cancel_right]
  try ac_rfl

theorem lane8_vmull_p64_14 (x y : Nat) :
    lane 8 (_sse2neon_vmull_p64 false x y) 14 = lane 8 (clmulBytes x y) 14 := by
  simp [_sse2neon_vmull_p64, lane8_veorq_u8, lane8_vandq_u8, lane8_vcombine_u8,
    lane8_vget_low_u8, lane8_vget_high_u8, lane8_vextq_u8, lane8_vext_p8, lane8_vcreate_u8,
    lane8_vmull_p8_idx, lane8_mask48, lane8_mask32, lane8_mask16, lane_zero, lane8_and_255,
    Nat.and_xor_distrib_right, clmulBytes, xorSum, lane_xor, lane8_shiftLeft,
    lane8_PolynomialMult_high, lane8_lt, Nat.xor_cancel_right]
  try ac_rfl

theorem lane8_vmull_p64_15 (x y : Nat) :
    lane 8 (_sse2neon_vmull_p64 false x y) 15 = lane 8 (clmulBytes x y) 15 := by
  simp [_sse2neon_vmull_p64, lane8_veorq_u8, lane8_vandq_u8, lane8_vcombine_u8,
    lane8_vget_low_u8, lane8_vget_high_u8, lane8_vextq_u8, lane8_vext_p8, lane8_vcreate_u8,
    lane8_vmull_p8_idx, lane8_mask48, lane8_mask32, lane8_mask16, lane_zero, lane8_and_255,
    Nat.and_xor_distrib_right, clmulBytes, xorSum, lane_xor, lane8_shiftLeft,
    lane8_PolynomialMult_high, lane8_lt, Nat.xor_cancel_right]
  try ac_rfl

/-- Byte by byte, the polyfill (interleaving by `vcombine`/`vget`) assembles the
64 byte products at their weights. -/
theorem lane8_vmull_p64 (x y i : Nat) (hi : i < 16) :
    lane 8 (_sse2neon_vmull_p64 false x y) i = lane 8 (clmulBytes x y) i := by
  interval_cases i
  · exact lane8_vmull_p64_0 x y
  · exact lane8_vmull_p64_1 x y
  · exact lane8_vmull_p64_2 x y
  · exact lane8_vmull_p64_3 x y
  · exact lane8_vmull_p64_4 x y
  · exact lane8_vmull_p64_5 x y
  · exact lane8_vmull_p64_6 x y
  · exact lane8_vmull_p64_7 x y
  · exact lane8_vmull_p64_8 x y
  · exact lane8_vmull_p64_9 x y
  · exact lane8_vmull_p64_10 x y
  · exact lane8_vmull_p64_11 x y
  · exact lane8_vmull_p64_12 x y
  · exact lane8_vmull_p64_13 x y
  · exact lane8_vmull_p64_14 x y
  · exact lane8_vmull_p64_15 x y

theorem vmull_p64_eq_clmulBytes_generic (x y : Nat) :
    _sse2neon_vmull_p64 false x y = clmulBytes x y :=
  reg_ext 8 (by decide) 16 _ _ (pack_lt 8 _ 16) (clmulBytes_lt x y) (lane8_vmull_p64 x y)

/-! The aarch64 interleave and de-interleave steps build the same registers. -/

theorem vget_low_u8_eq (a : Nat) : vget_low_u8 a = lane 64 a 0 := by
  rw [vget_low_u8, pack_lane 8 (by decide)]
  simp [lane]

theorem vget_high_u8_eq (a : Nat) : vget_high_u8 a = lane 64 a 1 := by
  rw [vget_high_u8, lane_eq_pack 8 (by decide) 8 a 1]
  apply pack_congr
  intro r _
  rw [Nat.add_comm]

theorem vcombine_u8_eq (lo hi : Nat) :
    vcombine_u8 lo hi = pack 64 (fun i => if i = 0 then lane 64 lo 0 else lane 64 hi 0) 2 := by
  apply reg_ext 64 (by decide) 2 _ _ (pack_lt 8 _ 16) (pack_lt 64 _ 2)
  intro j hj
  rw [lane_pack 64 (by decide) _ 2 j hj]
  have h := lane_pack_coarse 8 (by decide) 8 2
    (fun i => if i < 8 then lane 8 lo i else lane 8 hi (i - 8)) j hj
  show lane (8 * 8) (pack 8 (fun i => if i < 8 then lane 8 lo i else lane 8 hi (i - 8)) (8 * 2)) j
    = _
  rw [h]
  interval_cases j
  · rw [if_pos rfl, lane_mod, lane_eq_pack 8 (by decide) 8 lo 0]
    apply pack_congr
    intro r hr
    simp [hr]
  · rw [if_neg (by decide), lane_mod, lane_eq_pack 8 (by decide) 8 hi 0]
    apply pack_congr
    intro r hr
    simp

theorem lane64_lane64_zero (a k : Nat) : lane 64 (lane 64 a k) 0 = lane 64 a k := by
  simp [lane]

theorem vzip1q_u64_eq (a b : Nat) :
    vzip1q_u64 a b = vcombine_u8 (vget_low_u8 a) (vget_low_u8 b) := by
  rw [vcombine_u8_eq, vget_low_u8_eq, vget_low_u8_eq, lane64_lane64_zero, lane64_lane64_zero]
  rfl

theorem vzip2q_u64_eq (a b : Nat) :
    vzip2q_u64 a b = vcombine_u8 (vget_high_u8 a) (vget_high_u8 b) := by
  rw [vcombine_u8_eq, vget_high_u8_eq, vget_high_u8_eq, lane64_lane64_zero, lane64_lane64_zero]
  rfl

theorem vuzp1q_u64_eq (a b : Nat) :
    vuzp1q_u64 a b = vcombine_u8 (vget_low_u8 a) (vget_low_u8 b) := vzip1q_u64_eq a b

theorem vuzp2q_u64_eq (a b : Nat) :
    vuzp2q_u64 a b = vcombine_u8 (vget_high_u8 a) (vget_high_u8 b) := vzip2q_u64_eq a b

/-- Both definitions of the interleave steps give the same polyfill. -/
theorem vmull_p64_aarch64_eq (aarch64 : Bool) (x y : Nat) :
    _sse2neon_vmull_p64 aarch64 x y = _sse2neon_vmull_p64 false x y := by
  cases aarch64
  · rfl
  · simp only [_sse2neon_vmull_p64, vzip1q_u64_eq, vzip2q_u64_eq, vuzp1q_u64_eq, vuzp2q_u64_eq,
      if_true, if_false, Bool.false_eq_true]

/-- The polyfill assembles the 64 byte products at their weights. -/
theorem vmull_p64_eq_clmulBytes (aarch64 : Bool) (x y : Nat) :
    _sse2neon_vmull_p64 aarch64 x y = clmulBytes x y := by
  rw [vmull_p64_aarch64_eq, vmull_p64_eq_clmulBytes_generic]

/-! ## The carry-less multiplier: bits of the product -/

theorem xorSum_zero (n : Nat) : xorSum (fun _ => 0) n = 0 := by
  induction n with
  | zero => rfl
  | succ n ih => rw [xorSum, ih]; rfl

theorem xorSum_single (f : Nat → Nat) (n k : Nat) (hk : k < n)
    (h : ∀ i, i < n → i ≠ k → f i = 0) : xorSum f n = f k := by
  induction n with
  | zero => omega
  | succ n ih =>
    rw [xorSum]
    by_cases hkn : k = n
    · subst hkn
      have h0 : xorSum f k = xorSum (fun _ => 0) k :=
        xorSum_congr f _ k (fun i hi => h i (Nat.lt_succ_of_lt hi) (by omega))
      rw [h0, xorSum_zero, Nat.zero_xor]
    · rw [ih (by omega) (fun i hi hne => h i (Nat.lt_succ_of_lt hi) hne),
        h n (Nat.lt_succ_self n) (fun hh => hkn hh.symm), Nat.xor_zero]

theorem xorSum_comm (F : Nat → Nat → Nat) (n m : Nat) :
    xorSum (fun i => xorSum (fun j => F i j) m) n
      = xorSum (fun j => xorSum (fun i => F i j) n) m := by
  induction n with
  | zero => simp [xorSum, xorSum_zero]
  | succ n ih =>
    rw [xorSum, ih, ← xorSum_xor]
    rfl

theorem xorAll_single (f : Nat → Bool) (n k : Nat) :
    xorAll (fun i => f i && decide (i = k)) n = (decide (k < n) && f k) := by
  induction n with
  | zero => simp [xorAll]
  | succ n ih =>
    rw [xorAll, ih]
    by_cases h1 : k < n
    · have h2 : n ≠ k := by omega
      have h3 : k < n + 1 := by omega
      simp [h1, h2, h3]
    · by_cases h2 : n = k
      · subst h2
        simp
      · have h3 : ¬ k < n + 1 := by omega
        simp [h1, h2, h3]

theorem testBit_ite_two_pow (c : Bool) (i k : Nat) :
    (if c = true then 2 ^ i else 0).testBit k = (c && decide (i = k)) := by
  cases c <;> simp [Nat.testBit_two_pow]

/-- A number below `2^n` is the XOR of its bits. -/
theorem mod_two_pow_eq_xorSum (x n : Nat) :
    x % 2 ^ n = xorSum (fun i => if x.testBit i = true then 2 ^ i else 0) n := by
  apply Nat.eq_of_testBit_eq
  intro k
  rw [Nat.testBit_mod_two_pow, testBit_xorSum]
  have h : (fun i => (if x.testBit i = true then 2 ^ i else 0).testBit k)
      = (fun i => x.testBit i && decide (i = k)) := by
    funext i
    exact testBit_ite_two_pow _ i k
  rw [h, xorAll_single]

theorem linear_zero (f : Nat → Nat) (hf : ∀ a b, f (a ^^^ b) = f a ^^^ f b) : f 0 = 0 := by
  have h := hf 0 0
  rw [Nat.xor_self] at h
  have h2 : f 0 ^^^ f 0 = 0 := Nat.xor_self _
  rw [h2] at h
  exact h

theorem linear_xorSum (f : Nat → Nat) (hf : ∀ a b, f (a ^^^ b) = f a ^^^ f b)
    (g : Nat → Nat) (n : Nat) : f (xorSum g n) = xorSum (fun i => f (g i)) n := by
  induction n with
  | zero => exact linear_zero f hf
  | succ n ih => rw [xorSum, xorSum, hf, ih]

/-- Expansion of a bilinear map over the bits of its operands. -/
theorem bilinear_expand (B : Nat → Nat → Nat)
    (hl : ∀ a a' b, B (a ^^^ a') b = B a b ^^^ B a' b)
    (hr : ∀ a b b', B a (b ^^^ b') = B a b ^^^ B a b') (n x y : Nat) :
    B (x % 2 ^ n) (y % 2 ^ n)
      = xorSum (fun i => xorSum (fun j =>
          if (x.testBit i && y.testBit j) = true then B (2 ^ i) (2 ^ j) else 0) n) n := by
  rw [mod_two_pow_eq_xorSum x n, linear_xorSum (fun a => B a _) (fun a a' => hl a a' _)]
  apply xorSum_congr
  intro i _
  show B (if x.testBit i = true then 2 ^ i else 0) (y % 2 ^ n) = _
  rw [mod_two_pow_eq_xorSum y n, linear_xorSum (fun b => B _ b) (fun b b' => hr _ b b')]
  apply xorSum_congr
  intro j _
  show B (if x.testBit i = true then 2 ^ i else 0) (if y.testBit j = true then 2 ^ j else 0) = _
  have hz1 : ∀ b, B 0 b = 0 := fun b => linear_zero (fun a => B a b) (fun a a' => hl a a' b)
  have hz2 : ∀ a, B a 0 = 0 := fun a => linear_zero (fun b => B a b) (fun b b' => hr a b b')
  cases x.testBit i <;> cases y.testBit j <;> simp [hz1, hz2]

theorem lane8_two_pow (i p : Nat) :
    lane 8 (2 ^ i) p = if i / 8 = p then 2 ^ (i % 8) else 0 := by
  apply Nat.eq_of_testBit_eq
  intro k
  rw [testBit_lane, Nat.testBit_two_pow]
  split_ifs with h
  · rw [Nat.testBit_two_pow]
    by_cases hk : k < 8
    · have : (i = 8 * p + k) ↔ (i % 8 = k) := by omega
      simp [hk, this]
    · have : ¬ i % 8 = k := by omega
      simp [hk, this]
  · have : ¬ i = 8 * p + k ∨ ¬ k < 8 := by omega
    rcases this with h1 | h1 <;> simp [h1]

theorem PolynomialMult_zero_left (b : Nat) : PolynomialMult 0 b = 0 := by
  simp [PolynomialMult, xorSum]

theorem PolynomialMult_zero_right (a : Nat) : PolynomialMult a 0 = 0 := by
  simp [PolynomialMult, xorSum]

theorem PolynomialMult_two_pow : ∀ s, s < 8 → ∀ t, t < 8 →
    PolynomialMult (2 ^ s) (2 ^ t) = 2 ^ (s + t) := by
  decide

/-- On single bits the byte products reduce to one term. -/
theorem clmulBytes_two_pow (i j : Nat) (hi : i < 64) (hj : j < 64) :
    clmulBytes (2 ^ i) (2 ^ j) = 2 ^ (i + j) := by
  unfold clmulBytes
  rw [xorSum_single _ 8 (i / 8) (by omega), xorSum_single _ 8 (j / 8) (by omega)]
  · rw [lane8_two_pow, lane8_two_pow, if_pos rfl, if_pos rfl,
      PolynomialMult_two_pow _ (Nat.mod_lt _ (by decide)) _ (Nat.mod_lt _ (by decide)),
      Nat.shiftLeft_eq, ← Nat.pow_add]
    congr 1
    omega
  · intro q _ hq
    rw [lane8_two_pow j q, if_neg (fun h => hq h.symm), PolynomialMult_zero_right,
      Nat.zero_shiftLeft]
  · intro p _ hp
    rw [← xorSum_zero 8]
    apply xorSum_congr
    intro q _
    rw [lane8_two_pow i p, if_neg (fun h => hp h.symm), PolynomialMult_zero_left,
      Nat.zero_shiftLeft]

theorem lane8_mod_two_pow_64 (x p : Nat) (hp : p < 8) : lane 8 (x % 2 ^ 64) p = lane 8 x p := by
  apply Nat.eq_of_testBit_eq
  intro k
  rw [testBit_lane, testBit_lane, Nat.testBit_mod_two_pow]
  by_cases hk : k < 8
  · have : 8 * p + k < 64 := by omega
    simp [hk, this]
  · simp [hk]

/-- The polyfill reads only the low 64 bits of each operand. -/
theorem vmull_p64_mod (aarch64 : Bool) (x y : Nat) :
    _sse2neon_vmull_p64 aarch64 (x % 2 ^ 64) (y % 2 ^ 64) = _sse2neon_vmull_p64 aarch64 x y := by
  rw [vmull_p64_eq_clmulBytes, vmull_p64_eq_clmulBytes]
  unfold clmulBytes
  apply xorSum_congr
  intro p hp
  apply xorSum_congr
  intro q hq
  rw [lane8_mod_two_pow_64 x p hp, lane8_mod_two_pow_64 y q hq]

/-- The polyfill as the XOR of `2^(i+j)` over the set bits `i` of `x` and `j`
of `y`. -/
theorem vmull_p64_expand (aarch64 : Bool) (x y : Nat) :
    _sse2neon_vmull_p64 aarch64 x y
      = xorSum (fun i => xorSum (fun j =>
          if (x.testBit i && y.testBit j) = true then 2 ^ (i + j) else 0) 64) 64 := by
  rw [← vmull_p64_mod, bilinear_expand (_sse2neon_vmull_p64 aarch64)
    (vmull_p64_xor_left aarch64) (vmull_p64_xor_right aarch64) 64 x y]
  apply xorSum_congr
  intro i hi
  apply xorSum_congr
  intro j hj
  rw [vmull_p64_eq_clmulBytes, clmulBytes_two_pow i j hi hj]

theorem xorAll_congr (f g : Nat → Bool) (n : Nat) (h : ∀ i, f i = g i) :
    xorAll f n = xorAll g n := by
  have : f = g := funext h
  rw [this]

/-- Bit `k` of the polyfill is the XOR-convolution of the bits of its operands. -/
theorem vmull_p64_testBit (aarch64 : Bool) (x y k : Nat) :
    (_sse2neon_vmull_p64 aarch64 x y).testBit k = clmulRefBit x y k := by
  rw [vmull_p64_expand, testBit_xorSum]
  unfold clmulRefBit
  apply xorAll_congr
  intro i
  rw [testBit_xorSum]
  apply xorAll_congr
  intro j
  rw [testBit_ite_two_pow, Bool.and_comm]

theorem vmull_p64_lt (aarch64 : Bool) (x y : Nat) : _sse2neon_vmull_p64 aarch64 x y < 2 ^ 128 := by
  rw [vmull_p64_eq_clmulBytes]
  exact clmulBytes_lt x y

theorem vmull_p64_comm (aarch64 : Bool) (x y : Nat) :
    _sse2neon_vmull_p64 aarch64 x y = _sse2neon_vmull_p64 aarch64 y x := by
  rw [vmull_p64_expand, vmull_p64_expand, xorSum_comm]
  apply xorSum_congr
  intro i _
  apply xorSum_congr
  intro j _
  rw [Bool.and_comm, Nat.add_comm]

theorem vmull_p64_zero_right (aarch64 : Bool) (x : Nat) : _sse2neon_vmull_p64 aarch64 x 0 = 0 :=
  linear_zero (fun b => _sse2neon_vmull_p64 aarch64 x b) (fun b b' => vmull_p64_xor_right aarch64 x b b')

theorem vmull_p64_zero_left (aarch64 : Bool) (x : Nat) : _sse2neon_vmull_p64 aarch64 0 x = 0 :=
  linear_zero (fun a => _sse2neon_vmull_p64 aarch64 a x) (fun a a' => vmull_p64_xor_left aarch64 a a' x)

theorem vget_low_u64_eq (a : Nat) : vget_low_u64 a = lane 64 a 0 := by
  simp [vget_low_u64, pack, lane]

theorem vget_high_u64_eq (a : Nat) : vget_high_u64 a = lane 64 a 1 := by
  simp [vget_high_u64, pack, lane]

theorem intAnd_0x11_eq (imm : Int) :
    intAnd imm 0x11 = (((imm % 2 ^ 32).toNat &&& 17 : Nat) : Int) := by
  have h17 : ((0x11 : Int) % 2 ^ 32).toNat = 17 := by decide
  have hr : (imm % 2 ^ 32).toNat &&& 17 ≤ 17 := Nat.and_le_right
  unfold intAnd
  simp only [h17]
  rw [if_pos (by omega)]

theorem intAnd_0x11_idem (imm : Int) : intAnd (intAnd imm 0x11) 0x11 = intAnd imm 0x11 := by
  have hr : (imm % 2 ^ 32).toNat &&& 17 ≤ 17 := Nat.and_le_right
  rw [intAnd_0x11_eq (intAnd imm 0x11), intAnd_0x11_eq imm]
  have h1 : ((((imm % 2 ^ 32).toNat &&& 17 : Nat) : Int) % 2 ^ 32).toNat
      = (imm % 2 ^ 32).toNat &&& 17 := by
    rw [Int.emod_eq_of_lt (Int.natCast_nonneg _) (by omega), Int.toNat_natCast]
  rw [h1, Nat.and_assoc, Nat.and_self]

theorem clmulepi64_si128_imm (aarch64 : Bool) (a b : Nat) (imm : Int) :
    _mm_clmulepi64_si128 aarch64 a b imm = _mm_clmulepi64_si128 aarch64 a b (intAnd imm 0x11) := by
  unfold _mm_clmulepi64_si128
  simp only [intAnd_0x11_idem]

/-- C7: for every pair of 128-bit registers `a`, `b` and each immediate `imm`
in `{0x00, 0x01, 0x10, 0x11}`, `_mm_clmulepi64_si128(a, b, imm)` built on the
8x8-bit polyfill returns (it does not abort) a 128-bit value whose bit `k` is
the XOR, over all `i + j = k` with `0 <= i, j < 64`, of `(bit i of x) AND
(bit j of y)`, where `x` is the low 64-bit half of `a` when bit 0 of `imm` is
clear and the high half when it is set, and `y` is the low 64-bit half of `b`
when bit 4 of `imm` is clear and the high half when it is set. -/
theorem clmulepi64_si128_bits (aarch64 : Bool) (a b : Nat) (imm : Int)
    (himm : imm = 0x00 ∨ imm = 0x01 ∨ imm = 0x10 ∨ imm = 0x11) (k : Nat) :
    ∃ r, _mm_clmulepi64_si128 aarch64 a b imm = some r ∧ r < 2 ^ 128 ∧
      r.testBit k = clmulRefBit (lane 64 a (if imm.toNat.testBit 0 = true then 1 else 0))
        (lane 64 b (if imm.toNat.testBit 4 = true then 1 else 0)) k := by
  rcases himm with h | h | h | h <;> subst h
  · exact ⟨_sse2neon_vmull_p64 aarch64 (vget_low_u64 a) (vget_low_u64 b), rfl,
      vmull_p64_lt _ _ _, by rw [vmull_p64_testBit, vget_low_u64_eq, vget_low_u64_eq]; rfl⟩
  · exact ⟨_sse2neon_vmull_p64 aarch64 (vget_high_u64 a) (vget_low_u64 b), rfl,
      vmull_p64_lt _ _ _, by rw [vmull_p64_testBit, vget_high_u64_eq, vget_low_u64_eq]; rfl⟩
  · exact ⟨_sse2neon_vmull_p64 aarch64 (vget_low_u64 a) (vget_high_u64 b), rfl,
      vmull_p64_lt _ _ _, by rw [vmull_p64_testBit, vget_low_u64_eq, vget_high_u64_eq]; rfl⟩
  · exact ⟨_sse2neon_vmull_p64 aarch64 (vget_high_u64 a) (vget_high_u64 b), rfl,
      vmull_p64_lt _ _ _, by rw [vmull_p64_testBit, vget_high_u64_eq, vget_high_u64_eq]; rfl⟩

/-- Instance of `clmulepi64_si128_bits` at `imm = 0x11`, bit 3. -/
theorem clmulepi64_si128_bits_witness :
    ((0x11 : Int) = 0x00 ∨ (0x11 : Int) = 0x01 ∨ (0x11 : Int) = 0x10 ∨ (0x11 : Int) = 0x11) ∧
    ∃ r, _mm_clmulepi64_si128 false (2 ^ 64 * 5 + 3) (2 ^ 64 * 7 + 9) 0x11 = some r ∧ r < 2 ^ 128 ∧
      r.testBit 3 = clmulRefBit
        (lane 64 (2 ^ 64 * 5 + 3) (if (0x11 : Int).toNat.testBit 0 = true then 1 else 0))
        (lane 64 (2 ^ 64 * 7 + 9) (if (0x11 : Int).toNat.testBit 4 = true then 1 else 0)) 3 :=
  ⟨by decide, clmulepi64_si128_bits false (2 ^ 64 * 5 + 3) (2 ^ 64 * 7 + 9) 0x11 (by decide) 3⟩

/-- C8: for every pair of 64-bit operands `x`, `y` (and on both definitions of
the interleave steps), the polyfill `_sse2neon_vmull_p64` is commutative:
`_sse2neon_vmull_p64(x, y) = _sse2neon_vmull_p64(y, x)` as 128-bit values. -/
theorem vmull_p64_commutative (aarch64 : Bool) (x y : Nat) :
    _sse2neon_vmull_p64 aarch64 x y = _sse2neon_vmull_p64 aarch64 y x :=
  vmull_p64_comm aarch64 x y

/-- C9: for every 64-bit operand `x`, the polyfill satisfies the
zero-absorption law: `_sse2neon_vmull_p64(x, 0) = 0` and
`_sse2neon_vmull_p64(0, x) = 0`. -/
theorem vmull_p64_zero_absorption (aarch64 : Bool) (x : Nat) :
    _sse2neon_vmull_p64 aarch64 x 0 = 0 ∧ _sse2neon_vmull_p64 aarch64 0 x = 0 :=
  ⟨vmull_p64_zero_right aarch64 x, vmull_p64_zero_left aarch64 x⟩

/-- C10: for every `a`, `b` and every integer immediate `imm`,
`_mm_clmulepi64_si128(a, b, imm)` equals
`_mm_clmulepi64_si128(a, b, imm & 0x11)`: only bit 0 and bit 4 of the
immediate influence the result. -/
theorem clmulepi64_si128_imm_masked (aarch64 : Bool) (a b : Nat) (imm : Int) :
    _mm_clmulepi64_si128 aarch64 a b imm = _mm_clmulepi64_si128 aarch64 a b (intAnd imm 0x11) :=
  clmulepi64_si128_imm aarch64 a b imm

/-! ## The carry-less multiplier: the switch is exhaustive -/

theorem and_0x11_cases : ∀ r, r ≤ 17 → r &&& 17 = r → r = 0 ∨ r = 1 ∨ r = 16 ∨ r = 17 := by
  decide

theorem intAnd_0x11_cases (imm : Int) :
    intAnd imm 0x11 = 0x00 ∨ intAnd imm 0x11 = 0x01 ∨ intAnd imm 0x11 = 0x10
      ∨ intAnd imm 0x11 = 0x11 := by
  rw [intAnd_0x11_eq]
  have hr : (imm % 2 ^ 32).toNat &&& 17 ≤ 17 := Nat.and_le_right
  have hi : ((imm % 2 ^ 32).toNat &&& 17) &&& 17 = (imm % 2 ^ 32).toNat &&& 17 := by
    rw [Nat.and_assoc, Nat.and_self]
  rcases and_0x11_cases _ hr hi with h | h | h | h <;> rw [h] <;> simp

theorem clmulepi64_si128_isSome (aarch64 : Bool) (a b : Nat) (imm : Int) :
    ∃ r, _mm_clmulepi64_si128 aarch64 a b imm = some r := by
  unfold _mm_clmulepi64_si128
  rcases intAnd_0x11_cases imm with h | h | h | h <;> simp [h]

/-- C11: for every `a`, `b` and every integer immediate `imm`, the value
`imm & 0x11` switched on in `_mm_clmulepi64_si128` is one of `0x00`, `0x01`,
`0x10`, `0x11`, so the `default` branch that calls `abort()` is never taken:
the operation returns a register on every input. -/
theorem clmulepi64_si128_total (aarch64 : Bool) (a b : Nat) (imm : Int) :
    (intAnd imm 0x11 = 0x00 ∨ intAnd imm 0x11 = 0x01 ∨ intAnd imm 0x11 = 0x10
      ∨ intAnd imm 0x11 = 0x11) ∧
    (∃ r, _mm_clmulepi64_si128 aarch64 a b imm = some r) ∧
    _mm_clmulepi64_si128 aarch64 a b imm ≠ none := by
  refine ⟨intAnd_0x11_cases imm, clmulepi64_si128_isSome aarch64 a b imm, ?_⟩
  obtain ⟨r, hr⟩ := clmulepi64_si128_isSome aarch64 a b imm
  rw [hr]
  exact Option.some_ne_none r

/-! ## The cipher round: byte lanes of the primitives -/

theorem lane_pack_ge (w : Nat) (f : Nat → Nat) (n i : Nat) (hi : n ≤ i) :
    lane w (pack w f n) i = 0 := by
  have h := pack_lt w f n
  have h2 : pack w f n < 2 ^ (w * i) :=
    Nat.lt_of_lt_of_le h (Nat.pow_le_pow_right (by decide) (Nat.mul_le_mul_left w hi))
  rw [lane, Nat.div_eq_of_lt h2, Nat.zero_mod]

theorem lane8_v128_xor (a b i : Nat) (hi : i < 16) :
    lane 8 (v128_xor a b) i = lane 8 a i ^^^ lane 8 b i := by
  rw [v128_xor, lane_pack 8 (by decide) _ 16 i hi]
  exact Nat.mod_eq_of_lt (Nat.xor_lt_two_pow (lane_lt 8 a i) (lane_lt 8 b i))

theorem lane8_vqtbl1q_u8 (t idx i : Nat) (hi : i < 16) :
    lane 8 (vqtbl1q_u8 t idx) i = if lane 8 idx i < 16 then lane 8 t (lane 8 idx i) else 0 := by
  rw [vqtbl1q_u8, lane_pack 8 (by decide) _ 16 i hi]
  split_ifs
  · exact lane_mod 8 _ _
  · rfl

theorem lane8_vqtbl4q_u8 (t idx i : Nat) (hi : i < 16) :
    lane 8 (vqtbl4q_u8 t idx) i = if lane 8 idx i < 64 then lane 8 t (lane 8 idx i) else 0 := by
  rw [vqtbl4q_u8, lane_pack 8 (by decide) _ 16 i hi]
  split_ifs
  · exact lane_mod 8 _ _
  · rfl

theorem lane8_vqtbx4q_u8 (a t idx i : Nat) (hi : i < 16) :
    lane 8 (vqtbx4q_u8 a t idx) i
      = if lane 8 idx i < 64 then lane 8 t (lane 8 idx i) else lane 8 a i := by
  rw [vqtbx4q_u8, lane_pack 8 (by decide) _ 16 i hi]
  split_ifs <;> exact lane_mod 8 _ _

theorem lane8_u8x16_sub_scalar (v c i : Nat) (hi : i < 16) :
    lane 8 (u8x16_sub_scalar v c) i = (lane 8 v i + (256 - c % 256)) % 256 := by
  rw [u8x16_sub_scalar, lane_pack 8 (by decide) _ 16 i hi]
  rfl

theorem lane8_vld1q_u8 (p : List Nat) (i : Nat) (hi : i < 16) :
    lane 8 (vld1q_u8 p) i = p.getD i 0 % 256 := by
  rw [vld1q_u8, lane_pack 8 (by decide) _ 16 i hi]
  rfl

theorem lane8_vld1q_u8_x4 (p : List Nat) (i : Nat) :
    lane 8 (vld1q_u8_x4 p) i = if i < 64 then p.getD i 0 % 256 else 0 := by
  split_ifs with h
  · rw [vld1q_u8_x4, lane_pack 8 (by decide) _ 64 i h]
    rfl
  · rw [vld1q_u8_x4, lane_pack_ge 8 _ 64 i (by omega)]

/-- The four table lookups of the byte-table path, on one index byte. -/
theorem subBytes_byte : ∀ x, x < 256 →
    (if (x + (256 - 0xc0 % 256)) % 256 < 64 then
        (if (x + (256 - 0xc0 % 256)) % 256 < 64 then
          (SSE2NEON_sbox.drop 0xc0).getD ((x + (256 - 0xc0 % 256)) % 256) 0 % 256 else 0)
      else if (x + (256 - 0x80 % 256)) % 256 < 64 then
        (if (x + (256 - 0x80 % 256)) % 256 < 64 then
          (SSE2NEON_sbox.drop 0x80).getD ((x + (256 - 0x80 % 256)) % 256) 0 % 256 else 0)
      else if (x + (256 - 0x40 % 256)) % 256 < 64 then
        (if (x + (256 - 0x40 % 256)) % 256 < 64 then
          (SSE2NEON_sbox.drop 0x40).getD ((x + (256 - 0x40 % 256)) % 256) 0 % 256 else 0)
      else if x < 64 then (if x < 64 then SSE2NEON_sbox.getD x 0 % 256 else 0) else 0)
      = SSE2NEON_sbox.getD x 0 := by
  set_option maxRecDepth 100000 in decide

/-- Sub-bytes of the byte-table path: every byte is replaced by its S-box
entry. -/
theorem lane8_subBytes (w i : Nat) (hi : i < 16) :
    lane 8 (vqtbx4q_u8 (vqtbx4q_u8 (vqtbx4q_u8 (vqtbl4q_u8 (vld1q_u8_x4 SSE2NEON_sbox) w)
        (vld1q_u8_x4 (SSE2NEON_sbox.drop 0x40)) (u8x16_sub_scalar w 0x40))
        (vld1q_u8_x4 (SSE2NEON_sbox.drop 0x80)) (u8x16_sub_scalar w 0x80))
        (vld1q_u8_x4 (SSE2NEON_sbox.drop 0xc0)) (u8x16_sub_scalar w 0xc0)) i
      = SSE2NEON_sbox.getD (lane 8 w i) 0 := by
  rw [lane8_vqtbx4q_u8 _ _ _ i hi, lane8_vqtbx4q_u8 _ _ _ i hi, lane8_vqtbx4q_u8 _ _ _ i hi,
    lane8_vqtbl4q_u8 _ _ i hi, lane8_u8x16_sub_scalar _ _ i hi, lane8_u8x16_sub_scalar _ _ i hi,
    lane8_u8x16_sub_scalar _ _ i hi, lane8_vld1q_u8_x4, lane8_vld1q_u8_x4, lane8_vld1q_u8_x4,
    lane8_vld1q_u8_x4]
  exact subBytes_byte (lane 8 w i) (lane_lt 8 w i)

theorem lane8_u8x16_shl (v n i : Nat) (hi : i < 16) :
    lane 8 (u8x16_shl v n) i = (lane 8 v i <<< n) % 256 := by
  rw [u8x16_shl, lane_pack 8 (by decide) _ 16 i hi]
  rfl

theorem lane8_s8x16_shr (v n i : Nat) (hi : i < 16) :
    lane 8 (s8x16_shr v n) i = ((sint 8 (lane 8 v i) >>> n) % 256).toNat % 256 := by
  rw [s8x16_shr, lane_pack 8 (by decide) _ 16 i hi]
  rfl

theorem lane8_s8x16_and_scalar (v c i : Nat) (hi : i < 16) :
    lane 8 (s8x16_and_scalar v c) i = (lane 8 v i &&& c) % 256 := by
  rw [s8x16_and_scalar, lane_pack 8 (by decide) _ 16 i hi]
  rfl

theorem xtime_byte : ∀ x, x < 256 →
    ((x <<< 1) % 256) ^^^ ((((sint 8 x >>> (7 : Nat)) % 256).toNat % 256 &&& 0x1b) % 256)
      = xtime x := by
  set_option maxRecDepth 100000 in decide

/-- The doubling step of the byte-table path. -/
theorem lane8_xtime (v i : Nat) (hi : i < 16) :
    lane 8 (v128_xor (u8x16_shl v 1) (s8x16_and_scalar (s8x16_shr v 7) 0x1b)) i
      = xtime (lane 8 v i) := by
  rw [lane8_v128_xor _ _ i hi, lane8_u8x16_shl _ _ i hi, lane8_s8x16_and_scalar _ _ i hi,
    lane8_s8x16_shr _ _ i hi]
  exact xtime_byte (lane 8 v i) (lane_lt 8 v i)

/-- Byte `r` (0 or 1) of the 16-bit lane `j` after `vrev32q_u16`. -/
theorem lane8_vrev32q_u16 (v i : Nat) (hi : i < 16) :
    lane 8 (vrev32q_u16 v) i
      = lane 8 v (2 * (if (i / 2) % 2 = 0 then i / 2 + 1 else i / 2 - 1) + i % 2) := by
  have hr : i % 2 < 2 := Nat.mod_lt _ (by decide)
  have h1 := lane_lane 8 2 (vrev32q_u16 v) (i / 2) (i % 2) hr
  rw [Nat.div_add_mod] at h1
  rw [← h1]
  show lane 8 (lane 16 (vrev32q_u16 v) (i / 2)) (i % 2) = _
  rw [vrev32q_u16, lane_pack 16 (by decide) _ 8 (i / 2) (by omega), lane_mod]
  exact lane_lane 8 2 v _ (i % 2) hr

theorem lane8_shift_rows (i : Nat) (hi : i < 16) :
    lane 8 (vld1q_u8 [0x0, 0x5, 0xa, 0xf, 0x4, 0x9, 0xe, 0x3, 0x8, 0xd, 0x2, 0x7, 0xc, 0x1, 0x6,
      0xb]) i = (5 * i) % 16 := by
  interval_cases i <;> rfl

theorem lane8_ror32by8 (i : Nat) (hi : i < 16) :
    lane 8 (vld1q_u8 [0x1, 0x2, 0x3, 0x0, 0x5, 0x6, 0x7, 0x4, 0x9, 0xa, 0xb, 0x8, 0xd, 0xe, 0xf,
      0xc]) i = 4 * (i / 4) + (i + 1) % 4 := by
  interval_cases i <;> rfl

/-- Shift-rows of the byte-table path. -/
theorem lane8_shiftRows (a i : Nat) (hi : i < 16) :
    lane 8 (vqtbl1q_u8 a (vld1q_u8 [0x0, 0x5, 0xa, 0xf, 0x4, 0x9, 0xe, 0x3, 0x8, 0xd, 0x2, 0x7,
      0xc, 0x1, 0x6, 0xb])) i = lane 8 a ((5 * i) % 16) := by
  rw [lane8_vqtbl1q_u8 _ _ i hi, lane8_shift_rows i hi, if_pos (Nat.mod_lt _ (by decide))]

/-- Column mixing of the byte-table path, byte by byte. -/
theorem lane8_mixColumns (v i : Nat) (hi : i < 16) :
    lane 8 (v128_xor (v128_xor (v128_xor (u8x16_shl v 1) (s8x16_and_scalar (s8x16_shr v 7) 0x1b))
        (vrev32q_u16 v))
      (vqtbl1q_u8 (v128_xor v (v128_xor (v128_xor (u8x16_shl v 1)
          (s8x16_and_scalar (s8x16_shr v 7) 0x1b)) (vrev32q_u16 v)))
        (vld1q_u8 [0x1, 0x2, 0x3, 0x0, 0x5, 0x6, 0x7, 0x4, 0x9, 0xa, 0xb, 0x8, 0xd, 0xe, 0xf,
          0xc]))) i
      = xtime (lane 8 v (4 * (i / 4) + i % 4))
        ^^^ xtime (lane 8 v (4 * (i / 4) + (i % 4 + 1) % 4))
        ^^^ lane 8 v (4 * (i / 4) + (i % 4 + 1) % 4)
        ^^^ lane 8 v (4 * (i / 4) + (i % 4 + 2) % 4)
        ^^^ lane 8 v (4 * (i / 4) + (i % 4 + 3) % 4) := by
  have hx := lane8_xtime v
  generalize v128_xor (u8x16_shl v 1) (s8x16_and_scalar (s8x16_shr v 7) 0x1b) = w1 at hx ⊢
  interval_cases i
  all_goals
    simp [lane8_v128_xor, hx, lane8_vrev32q_u16, lane8_vqtbl1q_u8, lane8_ror32by8]
  all_goals ac_rfl

/-! ## The cipher round: the four 32-bit tables -/

set_option maxRecDepth 100000 in
theorem AES_DATA_eq_map (w : Nat → Nat) : SSE2NEON_AES_DATA w = SSE2NEON_sbox.map w := rfl

theorem sbox_lt : ∀ y ∈ SSE2NEON_sbox, y < 256 := by
  set_option maxRecDepth 100000 in decide

theorem sbox_getD_lt (x : Nat) : SSE2NEON_sbox.getD x 0 < 256 := by
  by_cases h : x < SSE2NEON_sbox.length
  · rw [List.getD_eq_getElem _ _ h]
    exact sbox_lt _ (List.getElem_mem _)
  · rw [List.getD_eq_default _ _ (by omega)]
    decide

theorem aes_table_getD (k x : Nat) :
    (aes_table k).getD x 0 = aesU k (SSE2NEON_sbox.getD x 0) := by
  have h0 : ∀ w : Nat → Nat, w 0 = 0 → 
      (SSE2NEON_AES_DATA w).getD x 0 = w (SSE2NEON_sbox.getD x 0) := by
    intro w hw
    rw [AES_DATA_eq_map]
    conv_lhs => rw [← hw]
    exact List.getD_map SSE2NEON_sbox 0 w
  unfold aes_table aesU
  split_ifs <;> exact h0 _ (by decide)

theorem aesU_bytes : ∀ p, p < 256 → ∀ k, k < 4 → ∀ r, r < 4 →
    lane 8 (aesU k p) r
      = if (r + 4 - k) % 4 = 0 then xtime p
        else if (r + 4 - k) % 4 = 3 then xtime p ^^^ p else p := by
  set_option maxRecDepth 1000000 in decide

/-! ## The cipher round: the three paths byte by byte -/

/-- The byte-table (aarch64) path, byte by byte. -/
theorem lane8_aesenc_aarch64 (hb : Bool) (a k i : Nat) (hi : i < 16) :
    lane 8 (_mm_aesenc_si128 false true hb a k) i = aesRoundByte a i ^^^ lane 8 k i := by
  have h0 : 4 * (i / 4) + i % 4 < 16 := by omega
  have h1 : 4 * (i / 4) + (i % 4 + 1) % 4 < 16 := by omega
  have h2 : 4 * (i / 4) + (i % 4 + 2) % 4 < 16 := by omega
  have h3 : 4 * (i / 4) + (i % 4 + 3) % 4 < 16 := by omega
  show lane 8 (v128_xor _ k) i = _
  rw [lane8_v128_xor _ _ i hi, lane8_mixColumns _ i hi, lane8_subBytes _ _ h0,
    lane8_subBytes _ _ h1, lane8_subBytes _ _ h2, lane8_subBytes _ _ h3,
    lane8_shiftRows _ _ h0, lane8_shiftRows _ _ h1, lane8_shiftRows _ _ h2,
    lane8_shiftRows _ _ h3]
  rfl

theorem lane8_mod_two_pow_32 (x r : Nat) (hr : r < 4) : lane 8 (x % 2 ^ 32) r = lane 8 x r := by
  apply Nat.eq_of_testBit_eq
  intro k
  rw [testBit_lane, testBit_lane, Nat.testBit_mod_two_pow]
  by_cases hk : k < 8
  · have : 8 * r + k < 32 := by omega
    simp [hk, this]
  · simp [hk]

/-- Byte `i` of a register packed from four 32-bit values. -/
theorem lane8_pack32 (G : Nat → Nat) (i : Nat) (hi : i < 16) :
    lane 8 (pack 32 G 4) i = lane 8 (G (i / 4)) (i % 4) := by
  have hr : i % 4 < 4 := Nat.mod_lt _ (by decide)
  have h1 := lane_lane 8 4 (pack 32 G 4) (i / 4) (i % 4) hr
  rw [Nat.div_add_mod] at h1
  rw [← h1]
  show lane 8 (lane 32 (pack 32 G 4) (i / 4)) (i % 4) = _
  rw [lane_pack 32 (by decide) _ 4 (i / 4) (by omega), lane8_mod_two_pow_32 _ _ hr]

theorem lane8_lane32 (a j r : Nat) (hr : r < 4) : lane 8 (lane 32 a j) r = lane 8 a (4 * j + r) :=
  lane_lane 8 4 a j r hr

theorem lane8_veorq_s32 (a b i : Nat) (hi : i < 16) :
    lane 8 (veorq_s32 a b) i = lane 8 a i ^^^ lane 8 b i := by
  have hr : i % 4 < 4 := Nat.mod_lt _ (by decide)
  rw [veorq_s32, lane8_pack32 _ i hi, lane_xor, lane8_lane32 _ _ _ hr, lane8_lane32 _ _ _ hr,
    Nat.div_add_mod]

theorem lane8_set_epi32 (i3 i2 i1 i0 i : Nat) (hi : i < 16) :
    lane 8 (_mm_set_epi32 i3 i2 i1 i0) i = lane 8 ([i0, i1, i2, i3].getD (i / 4) 0) (i % 4) := by
  rw [_mm_set_epi32, vld1q_s32, lane8_pack32 _ i hi]

/-- The word read by `_mm_cvtsi128_si32(_mm_shuffle_epi32(a, code))` for a
broadcast code. -/
theorem cvtsi128_shuffle (hb aarch64 : Bool) (a imm : Nat) :
    _mm_cvtsi128_si32 (_mm_shuffle_epi32 hb aarch64 a imm) = lane 32 a (imm &&& 3) := by
  rw [shuffle_epi32_any_variant, _mm_cvtsi128_si32, vgetq_lane_s32,
    lane_shuffle_epi32_default a imm 0 (by decide)]
  rfl

theorem byte0_of_lane32 (a j : Nat) : lane 32 a j &&& 0xff = lane 8 a (4 * j) := by
  have h0 := lane8_lane32 a j 0 (by decide)
  rw [Nat.add_zero] at h0
  rw [← h0]
  have h := Nat.and_pow_two_sub_one_eq_mod (lane 32 a j) 8
  simpa [lane] using h

theorem byte1_of_lane32 (a j : Nat) : (lane 32 a j >>> 8) &&& 0xff = lane 8 a (4 * j + 1) := by
  rw [← lane8_lane32 a j 1 (by decide)]
  have h := Nat.and_pow_two_sub_one_eq_mod (lane 32 a j >>> 8) 8
  simpa [lane, Nat.shiftRight_eq_div_pow] using h

theorem byte2_of_lane32 (a j : Nat) : (lane 32 a j >>> 16) &&& 0xff = lane 8 a (4 * j + 2) := by
  rw [← lane8_lane32 a j 2 (by decide)]
  have h := Nat.and_pow_two_sub_one_eq_mod (lane 32 a j >>> 16) 8
  simpa [lane, Nat.shiftRight_eq_div_pow] using h

theorem byte3_of_lane32 (a j : Nat) : lane 32 a j >>> 24 = lane 8 a (4 * j + 3) := by
  rw [← lane8_lane32 a j 3 (by decide)]
  have h := lane_lt 32 a j
  rw [lane, Nat.shiftRight_eq_div_pow]
  have h2 : lane 32 a j / 2 ^ 24 < 2 ^ 8 := by
    rw [Nat.div_lt_iff_lt_mul (Nat.two_pow_pos 24)]
    exact h
  exact (Nat.mod_eq_of_lt h2).symm

/-- Byte `r` of entry `x` of row `k` of `aes_table`. -/
theorem lane8_aes_table (k x r : Nat) (hk : k < 4) (hr : r < 4) :
    lane 8 ((aes_table k).getD x 0) r
      = if (r + 4 - k) % 4 = 0 then xtime (SSE2NEON_sbox.getD x 0)
        else if (r + 4 - k) % 4 = 3 then
          xtime (SSE2NEON_sbox.getD x 0) ^^^ SSE2NEON_sbox.getD x 0
        else SSE2NEON_sbox.getD x 0 := by
  rw [aes_table_getD]
  exact aesU_bytes _ (sbox_getD_lt x) k hk r hr

theorem lane8_aes_table_0_0 (x : Nat) :
    lane 8 ((aes_table 0).getD x 0) 0 = xtime (SSE2NEON_sbox.getD x 0) :=
  lane8_aes_table 0 x 0 (by decide) (by decide)

theorem lane8_aes_table_0_1 (x : Nat) :
    lane 8 ((aes_table 0).getD x 0) 1 = SSE2NEON_sbox.getD x 0 :=
  lane8_aes_table 0 x 1 (by decide) (by decide)

theorem lane8_aes_table_0_2 (x : Nat) :
    lane 8 ((aes_table 0).getD x 0) 2 = SSE2NEON_sbox.getD x 0 :=
  lane8_aes_table 0 x 2 (by decide) (by decide)

theorem lane8_aes_table_0_3 (x : Nat) :
    lane 8 ((aes_table 0).getD x 0) 3 = xtime (SSE2NEON_sbox.getD x 0) ^^^ SSE2NEON_sbox.getD x 0 :=
  lane8_aes_table 0 x 3 (by decide) (by decide)

theorem lane8_aes_table_1_0 (x : Nat) :
    lane 8 ((aes_table 1).getD x 0) 0 = xtime (SSE2NEON_sbox.getD x 0) ^^^ SSE2NEON_sbox.getD x 0 :=
  lane8_aes_table 1 x 0 (by decide) (by decide)

theorem lane8_aes_table_1_1 (x : Nat) :
    lane 8 ((aes_table 1).getD x 0) 1 = xtime (SSE2NEON_sbox.getD x 0) :=
  lane8_aes_table 1 x 1 (by decide) (by decide)

theorem lane8_aes_table_1_2 (x : Nat) :
    lane 8 ((aes_table 1).getD x 0) 2 = SSE2NEON_sbox.getD x 0 :=
  lane8_aes_table 1 x 2 (by decide) (by decide)

theorem lane8_aes_table_1_3 (x : Nat) :
    lane 8 ((aes_table 1).getD x 0) 3 = SSE2NEON_sbox.getD x 0 :=
  lane8_aes_table 1 x 3 (by decide) (by decide)

theorem lane8_aes_table_2_0 (x : Nat) :
    lane 8 ((aes_table 2).getD x 0) 0 = SSE2NEON_sbox.getD x 0 :=
  lane8_aes_table 2 x 0 (by decide) (by decide)

theorem lane8_aes_table_2_1 (x : Nat) :
    lane 8 ((aes_table 2).getD x 0) 1 = xtime (SSE2NEON_sbox.getD x 0) ^^^ SSE2NEON_sbox.getD x 0 :=
  lane8_aes_table 2 x 1 (by decide) (by decide)

theorem lane8_aes_table_2_2 (x : Nat) :
    lane 8 ((aes_table 2).getD x 0) 2 = xtime (SSE2NEON_sbox.getD x 0) :=
  lane8_aes_table 2 x 2 (by decide) (by decide)

theorem lane8_aes_table_2_3 (x : Nat) :
    lane 8 ((aes_table 2).getD x 0) 3 = SSE2NEON_sbox.getD x 0 :=
  lane8_aes_table 2 x 3 (by decide) (by decide)

theorem lane8_aes_table_3_0 (x : Nat) :
    lane 8 ((aes_table 3).getD x 0) 0 = SSE2NEON_sbox.getD x 0 :=
  lane8_aes_table 3 x 0 (by decide) (by decide)

theorem lane8_aes_table_3_1 (x : Nat) :
    lane 8 ((aes_table 3).getD x 0) 1 = SSE2NEON_sbox.getD x 0 :=
  lane8_aes_table 3 x 1 (by decide) (by decide)

theorem lane8_aes_table_3_2 (x : Nat) :
    lane 8 ((aes_table 3).getD x 0) 2 = xtime (SSE2NEON_sbox.getD x 0) ^^^ SSE2NEON_sbox.getD x 0 :=
  lane8_aes_table 3 x 2 (by decide) (by decide)

theorem lane8_aes_table_3_3 (x : Nat) :
    lane 8 ((aes_table 3).getD x 0) 3 = xtime (SSE2NEON_sbox.getD x 0) :=
  lane8_aes_table 3 x 3 (by decide) (by decide)

theorem cvtsi128_eq (a : Nat) : _mm_cvtsi128_si32 a = lane 32 a 0 := rfl

/-- The ARMv7 path with the four 32-bit tables, byte by byte. -/
theorem lane8_aesenc_armv7 (hb : Bool) (a k i : Nat) (hi : i < 16) :
    lane 8 (_mm_aesenc_si128 false false hb a k) i = aesRoundByte a i ^^^ lane 8 k i := by
  show lane 8 (_mm_xor_si128 (_mm_set_epi32 _ _ _ _) k) i = _
  rw [_mm_xor_si128, lane8_veorq_s32 _ _ i hi, lane8_set_epi32 _ _ _ _ i hi]
  simp only [cvtsi128_shuffle]
  simp only [cvtsi128_eq, show 0x55 &&& 3 = 1 from rfl,
    show 0xAA &&& 3 = 2 from rfl, show 0xFF &&& 3 = 3 from rfl, byte0_of_lane32,
    byte1_of_lane32, byte2_of_lane32, byte3_of_lane32]
  interval_cases i
  all_goals
    simp only [List.getD_cons_zero, List.getD_cons_succ, lane_xor, aesRoundByte,
      Nat.reduceDiv, Nat.reduceMod, Nat.reduceMul, Nat.reduceAdd, lane8_aes_table_0_0, lane8_aes_table_0_1, lane8_aes_table_0_2, lane8_aes_table_0_3, lane8_aes_table_1_0, lane8_aes_table_1_1, lane8_aes_table_1_2, lane8_aes_table_1_3, lane8_aes_table_2_0, lane8_aes_table_2_1, lane8_aes_table_2_2, lane8_aes_table_2_3, lane8_aes_table_3_0, lane8_aes_table_3_1, lane8_aes_table_3_2, lane8_aes_table_3_3]
  all_goals ac_rfl

/-! ## The cipher round: the AESE / AESMC path -/

/-- The table `SSE2NEON_sbox` holds the S-box of the standard. -/
theorem sbox_eq_AES_Sbox : ∀ x, x < 256 → AES_Sbox x = SSE2NEON_sbox.getD x 0 := by
  decide!

theorem FFmul02_eq_xtime : ∀ x, x < 256 → FFmul02 x = xtime x := by
  set_option maxRecDepth 100000 in decide

theorem AES_Sbox_lt (x : Nat) : AES_Sbox x < 2 ^ 8 := pack_lt 1 _ 8

theorem xtime_lt : ∀ x, x < 256 → xtime x < 256 := by
  set_option maxRecDepth 100000 in decide

theorem lane8_AESShiftRows (op i : Nat) (hi : i < 16) :
    lane 8 (AESShiftRows op) i = lane 8 op ((5 * i) % 16) := by
  rw [AESShiftRows, lane_pack 8 (by decide) _ 16 i hi, lane_mod]
  interval_cases i <;> rfl

theorem lane8_AESSubBytes (op i : Nat) (hi : i < 16) :
    lane 8 (AESSubBytes op) i = SSE2NEON_sbox.getD (lane 8 op i) 0 := by
  rw [AESSubBytes, lane_pack 8 (by decide) _ 16 i hi, Nat.mod_eq_of_lt (AES_Sbox_lt _),
    sbox_eq_AES_Sbox _ (lane_lt 8 op i)]

theorem lane8_xor_zero (a i : Nat) (hi : i < 16) :
    lane 8 (v128_xor a (vdupq_n_u8 0)) i = lane 8 a i := by
  rw [lane8_v128_xor _ _ i hi, vdupq_n_u8, lane_pack 8 (by decide) _ 16 i hi]
  simp

theorem xor_lt_256 (a b : Nat) (ha : a < 256) (hb : b < 256) : a ^^^ b < 256 :=
  Nat.xor_lt_two_pow (n := 8) ha hb

/-- The architecture's column mixing, byte by byte, in terms of `xtime`. -/
theorem lane8_AESMixColumns (op i : Nat) (hi : i < 16) :
    lane 8 (AESMixColumns op) i
      = xtime (lane 8 op (4 * (i / 4) + i % 4))
        ^^^ xtime (lane 8 op (4 * (i / 4) + (i % 4 + 1) % 4))
        ^^^ lane 8 op (4 * (i / 4) + (i % 4 + 1) % 4)
        ^^^ lane 8 op (4 * (i / 4) + (i % 4 + 2) % 4)
        ^^^ lane 8 op (4 * (i / 4) + (i % 4 + 3) % 4) := by
  have hx : ∀ j, FFmul02 (lane 8 op j) = xtime (lane 8 op j) :=
    fun j => FFmul02_eq_xtime _ (lane_lt 8 op j)
  have hl : ∀ j, lane 8 op j % 256 = lane 8 op j := fun j => lane_mod 8 op j
  have hlt : ∀ j, lane 8 op j < 256 := fun j => lane_lt 8 op j
  have hxl : ∀ j, xtime (lane 8 op j) < 256 := fun j => xtime_lt _ (hlt j)
  rw [AESMixColumns, lane_pack 8 (by decide) _ 16 i hi]
  simp only [FFmul03, hx, hl]
  have hmod : ∀ a b c d e : Nat, a < 256 → b < 256 → c < 256 → d < 256 → e < 256 →
      (a ^^^ b ^^^ c ^^^ d ^^^ e) % 2 ^ 8 = a ^^^ b ^^^ c ^^^ d ^^^ e := by
    intro a b c d e ha hb hc hd he
    exact Nat.mod_eq_of_lt
      (xor_lt_256 _ _ (xor_lt_256 _ _ (xor_lt_256 _ _ (xor_lt_256 _ _ ha hb) hc) hd) he)
  rw [← hmod _ _ _ _ _ (hxl _) (hxl _) (hlt _) (hlt _) (hlt _)]
  congr 1
  interval_cases i
  all_goals simp only [Nat.reduceDiv, Nat.reduceMod, Nat.reduceMul, Nat.reduceAdd, if_true,
    if_false, OfNat.ofNat_ne_zero, OfNat.zero_ne_ofNat, Nat.reduceEqDiff, Nat.add_zero,
    Nat.mul_zero, Nat.zero_add]
  all_goals ac_rfl

/-- The AESE / AESMC path, byte by byte. -/
theorem lane8_aesenc_crypto (aarch64 hb : Bool) (a k i : Nat) (hi : i < 16) :
    lane 8 (_mm_aesenc_si128 true aarch64 hb a k) i = aesRoundByte a i ^^^ lane 8 k i := by
  have h0 : 4 * (i / 4) + i % 4 < 16 := by omega
  have h1 : 4 * (i / 4) + (i % 4 + 1) % 4 < 16 := by omega
  have h2 : 4 * (i / 4) + (i % 4 + 2) % 4 < 16 := by omega
  have h3 : 4 * (i / 4) + (i % 4 + 3) % 4 < 16 := by omega
  have hs : ∀ j, j < 16 → (5 * j) % 16 < 16 := fun j _ => Nat.mod_lt _ (by decide)
  show lane 8 (v128_xor (vaesmcq_u8 (vaeseq_u8 a (vdupq_n_u8 0))) k) i = _
  rw [lane8_v128_xor _ _ i hi, vaesmcq_u8, vaeseq_u8, lane8_AESMixColumns _ i hi,
    lane8_AESSubBytes _ _ h0, lane8_AESSubBytes _ _ h1, lane8_AESSubBytes _ _ h2,
    lane8_AESSubBytes _ _ h3, lane8_AESShiftRows _ _ h0, lane8_AESShiftRows _ _ h1,
    lane8_AESShiftRows _ _ h2, lane8_AESShiftRows _ _ h3, lane8_xor_zero _ _ (hs _ h0),
    lane8_xor_zero _ _ (hs _ h1), lane8_xor_zero _ _ (hs _ h2), lane8_xor_zero _ _ (hs _ h3)]
  rfl

theorem lane8_aesenc (crypto aarch64 hb : Bool) (a k i : Nat) (hi : i < 16) :
    lane 8 (_mm_aesenc_si128 crypto aarch64 hb a k) i = aesRoundByte a i ^^^ lane 8 k i := by
  cases crypto
  · cases aarch64
    · exact lane8_aesenc_armv7 hb a k i hi
    · exact lane8_aesenc_aarch64 hb a k i hi
  · exact lane8_aesenc_crypto aarch64 hb a k i hi

theorem aesenc_lt (crypto aarch64 hb : Bool) (a k : Nat) :
    _mm_aesenc_si128 crypto aarch64 hb a k < 2 ^ (8 * 16) := by
  cases crypto
  · cases aarch64
    · exact pack_lt 32 _ 4
    · exact pack_lt 8 _ 16
  · exact pack_lt 8 _ 16

theorem aesenc_paths_agree (c1 a1 h1 c2 a2 h2 : Bool) (a k : Nat) :
    _mm_aesenc_si128 c1 a1 h1 a k = _mm_aesenc_si128 c2 a2 h2 a k := by
  refine reg_ext 8 (by decide) 16 _ _ (aesenc_lt _ _ _ _ _) (aesenc_lt _ _ _ _ _) ?_
  intro i hi
  rw [lane8_aesenc _ _ _ _ _ i hi, lane8_aesenc _ _ _ _ _ i hi]

theorem aesRoundByte_col_row (a c r : Nat) (hr : r < 4) :
    aesRoundByte a (4 * c + r) =
      xtime (SSE2NEON_sbox.getD (lane 8 a ((5 * (4 * c + r)) % 16)) 0)
      ^^^ xtime (SSE2NEON_sbox.getD (lane 8 a ((5 * (4 * c + (r + 1) % 4)) % 16)) 0)
      ^^^ SSE2NEON_sbox.getD (lane 8 a ((5 * (4 * c + (r + 1) % 4)) % 16)) 0
      ^^^ SSE2NEON_sbox.getD (lane 8 a ((5 * (4 * c + (r + 2) % 4)) % 16)) 0
      ^^^ SSE2NEON_sbox.getD (lane 8 a ((5 * (4 * c + (r + 3) % 4)) % 16)) 0 := by
  have h1 : (4 * c + r) / 4 = c := by omega
  have h2 : (4 * c + r) % 4 = r := by omega
  simp only [aesRoundByte, h1, h2]

theorem lane8_set_nth (x n v j : Nat) (hj : j < 16) :
    lane 8 (set_nth_u8_m128i x n v) j = if j = n then v % 256 else lane 8 x j := by
  rw [set_nth_u8_m128i, lane_pack 8 (by decide) _ 16 j hj]
  by_cases h : j = n
  · simp only [h, if_true]; rfl
  · simp only [h, if_false]; exact lane_mod 8 x j

theorem lane8_foldl_set_nth (f : Nat → Nat) (a j : Nat) (hj : j < 16) (n : Nat) (hn : n ≤ 16) :
    lane 8 ((List.range n).foldl (fun a i => set_nth_u8_m128i a i (f i)) a) j
      = if j < n then f j % 256 else lane 8 a j := by
  induction n with
  | zero => simp
  | succ n ih =>
    rw [List.range_succ, List.foldl_append, List.foldl_cons, List.foldl_nil,
      lane8_set_nth _ _ _ _ hj, ih (by omega)]
    by_cases h1 : j = n
    · subst h1; simp
    · by_cases h2 : j < n
      · have : j < n + 1 := by omega
        simp [h1, h2, this]
      · have : ¬ j < n + 1 := by omega
        simp [h1, h2, this]

theorem foldl_set_nth_lt (f : Nat → Nat) (a : Nat) (n : Nat) (hn : 0 < n) :
    (List.range n).foldl (fun a i => set_nth_u8_m128i a i (f i)) a < 2 ^ (8 * 16) := by
  obtain ⟨m, rfl⟩ : ∃ m, n = m + 1 := ⟨n - 1, by omega⟩
  rw [List.range_succ, List.foldl_append, List.foldl_cons, List.foldl_nil]
  exact pack_lt 8 _ 16

set_option maxRecDepth 100000 in
theorem lane8_aesenclast_soft (a k i : Nat) (hi : i < 16) :
    lane 8 (_mm_aesenclast_si128 false a k) i
      = SSE2NEON_sbox.getD (lane 8 a ((5 * i) % 16)) 0 ^^^ lane 8 k i := by
  rw [_mm_aesenclast_si128, if_neg Bool.false_ne_true]
  simp only []
  rw [lane8_foldl_set_nth _ a i hi 16 (le_refl _), if_pos hi]
  simp only [vreinterpretq_nth_u8_m128i]
  rw [Nat.mod_eq_of_lt (xor_lt_256 _ _ _ (lane8_lt _ _))]
  · interval_cases i <;> rfl
  · interval_cases i <;> exact sbox_getD_lt _

theorem lane8_u32_set_byte (x n v j : Nat) (hj : j < 4) :
    lane 8 (u32_set_byte x n v) j = if j = n then v % 256 else lane 8 x j := by
  rw [u32_set_byte, lane_pack 8 (by decide) _ 4 j hj]
  by_cases h : j = n
  · simp only [h, if_true]; rfl
  · simp only [h, if_false]; exact lane_mod 8 x j

theorem u32_set_byte_lt (x n v : Nat) : u32_set_byte x n v < 2 ^ (8 * 4) := pack_lt 8 _ 4

theorem sbox_getD_mod (x : Nat) : SSE2NEON_sbox.getD x 0 % 256 = SSE2NEON_sbox.getD x 0 :=
  Nat.mod_eq_of_lt (sbox_getD_lt x)

theorem lane8_SubWord (w j : Nat) (hj : j < 4) :
    lane 8 (SubWord w) j = SSE2NEON_sbox.getD (lane 8 w j) 0 := by
  rw [SubWord, lane_pack 8 (by decide) _ 4 j hj]
  exact sbox_getD_mod _

theorem SubWord_lt (w : Nat) : SubWord w < 2 ^ 32 := pack_lt 8 _ 4

theorem RotWord_lt (w : Nat) (h : w < 2 ^ 32) : RotWord w < 2 ^ 32 := by
  apply Nat.or_lt_two_pow
  · rw [Nat.shiftRight_eq_div_pow]
    exact lt_of_le_of_lt (Nat.div_le_self _ _) h
  · exact Nat.mod_lt _ (by decide)

/-- The byte-substitution loop of the key-generation helper on one word. -/
theorem sub_loop_word (X : Nat) :
    u32_set_byte (u32_set_byte (u32_set_byte (u32_set_byte X 0
        (SSE2NEON_sbox.getD (u32_byte X 0) 0)) 1
        (SSE2NEON_sbox.getD (u32_byte (u32_set_byte X 0
          (SSE2NEON_sbox.getD (u32_byte X 0) 0)) 1) 0)) 2
        (SSE2NEON_sbox.getD (u32_byte (u32_set_byte (u32_set_byte X 0
          (SSE2NEON_sbox.getD (u32_byte X 0) 0)) 1
          (SSE2NEON_sbox.getD (u32_byte (u32_set_byte X 0
            (SSE2NEON_sbox.getD (u32_byte X 0) 0)) 1) 0)) 2) 0)) 3
        (SSE2NEON_sbox.getD (u32_byte (u32_set_byte (u32_set_byte (u32_set_byte X 0
          (SSE2NEON_sbox.getD (u32_byte X 0) 0)) 1
          (SSE2NEON_sbox.getD (u32_byte (u32_set_byte X 0
            (SSE2NEON_sbox.getD (u32_byte X 0) 0)) 1) 0)) 2
          (SSE2NEON_sbox.getD (u32_byte (u32_set_byte (u32_set_byte X 0
            (SSE2NEON_sbox.getD (u32_byte X 0) 0)) 1
            (SSE2NEON_sbox.getD (u32_byte (u32_set_byte X 0
              (SSE2NEON_sbox.getD (u32_byte X 0) 0)) 1) 0)) 2) 0)) 3) 0)
      = SubWord X := by
  refine reg_ext 8 (by decide) 4 _ _ (u32_set_byte_lt _ _ _) (pack_lt 8 _ 4) ?_
  intro j hj
  rw [lane8_SubWord _ _ hj]
  interval_cases j <;>
    simp only [u32_byte, lane8_u32_set_byte _ _ _ 0 (by decide),
      lane8_u32_set_byte _ _ _ 1 (by decide), lane8_u32_set_byte _ _ _ 2 (by decide),
      lane8_u32_set_byte _ _ _ 3 (by decide), sbox_getD_mod, Nat.reduceEqDiff, if_true,
      if_false, OfNat.ofNat_ne_zero, OfNat.zero_ne_ofNat, OfNat.ofNat_ne_one,
      OfNat.one_ne_ofNat, one_ne_zero, zero_ne_one, reduceIte]

theorem keygen_loop (X1 X3 : Nat) :
    (List.range 4).foldl
      (fun (st : Nat × Nat) i =>
        let X1 := u32_set_byte st.1 i (SSE2NEON_sbox.getD (u32_byte st.1 i) 0)
        let X3 := u32_set_byte st.2 i (SSE2NEON_sbox.getD (u32_byte st.2 i) 0)
        (X1, X3))
      (X1, X3) = (SubWord X1, SubWord X3) := by
  rw [show List.range 4 = [0, 1, 2, 3] from rfl]
  simp only [List.foldl]
  rw [sub_loop_word, sub_loop_word]

theorem intBits_natCast (n : Nat) (h : n < 2 ^ 32) : intBits (n : Int) = n := by
  unfold intBits
  omega

theorem lane32_set_epi32 (i3 i2 i1 i0 j : Nat) (hj : j < 4) :
    lane 32 (_mm_set_epi32 i3 i2 i1 i0) j = [i0, i1, i2, i3].getD j 0 % 2 ^ 32 := by
  rw [_mm_set_epi32, vld1q_s32, lane_pack 32 (by decide) _ 4 j hj]

theorem aeskeygenassist_soft (aarch64 hb : Bool) (key : Nat) (rcon : Int) :
    _mm_aeskeygenassist_si128 false aarch64 hb key rcon
      = _mm_set_epi32 (RotWord (SubWord (lane 32 key 3)) ^^^ intBits rcon) (SubWord (lane 32 key 3))
          (RotWord (SubWord (lane 32 key 1)) ^^^ intBits rcon) (SubWord (lane 32 key 1)) := by
  rw [_mm_aeskeygenassist_si128, if_neg Bool.false_ne_true]
  simp only [keygen_loop, cvtsi128_shuffle]
  rfl

/-! ## The AES round intrinsics: claims -/

/-- C12: on the aarch64 software path of `_mm_aesenc_si128` (no crypto
extension), for every state `a` and round key `k`, the output byte at column
`c < 4`, row `r < 4` is
`xtime(s[4c+r]) ^ xtime(s[4c+(r+1)%4]) ^ s[4c+(r+1)%4] ^ s[4c+(r+2)%4] ^ s[4c+(r+3)%4] ^ k[4c+r]`
with `s[i] = SSE2NEON_sbox[a[(5 i) mod 16]]`: shift-rows, then the S-box, then
column mixing, then the key XOR. -/
theorem aesenc_aarch64_round_bytes (hb : Bool) (a k c r : Nat) (hc : c < 4) (hr : r < 4) :
    lane 8 (_mm_aesenc_si128 false true hb a k) (4 * c + r)
      = xtime (SSE2NEON_sbox.getD (lane 8 a ((5 * (4 * c + r)) % 16)) 0)
        ^^^ xtime (SSE2NEON_sbox.getD (lane 8 a ((5 * (4 * c + (r + 1) % 4)) % 16)) 0)
        ^^^ SSE2NEON_sbox.getD (lane 8 a ((5 * (4 * c + (r + 1) % 4)) % 16)) 0
        ^^^ SSE2NEON_sbox.getD (lane 8 a ((5 * (4 * c + (r + 2) % 4)) % 16)) 0
        ^^^ SSE2NEON_sbox.getD (lane 8 a ((5 * (4 * c + (r + 3) % 4)) % 16)) 0
        ^^^ lane 8 k (4 * c + r) := by
  rw [lane8_aesenc false true hb a k (4 * c + r) (by omega), aesRoundByte_col_row a c r hr]

/-- Instance of `aesenc_aarch64_round_bytes` at column 2, row 3. -/
theorem aesenc_aarch64_round_bytes_witness :
    2 < 4 ∧ 3 < 4 ∧
    lane 8 (_mm_aesenc_si128 false true false (2 ^ 64 * 5 + 3) (2 ^ 64 * 7 + 9)) (4 * 2 + 3)
      = xtime (SSE2NEON_sbox.getD (lane 8 (2 ^ 64 * 5 + 3) ((5 * (4 * 2 + 3)) % 16)) 0)
        ^^^ xtime (SSE2NEON_sbox.getD (lane 8 (2 ^ 64 * 5 + 3) ((5 * (4 * 2 + (3 + 1) % 4)) % 16)) 0)
        ^^^ SSE2NEON_sbox.getD (lane 8 (2 ^ 64 * 5 + 3) ((5 * (4 * 2 + (3 + 1) % 4)) % 16)) 0
        ^^^ SSE2NEON_sbox.getD (lane 8 (2 ^ 64 * 5 + 3) ((5 * (4 * 2 + (3 + 2) % 4)) % 16)) 0
        ^^^ SSE2NEON_sbox.getD (lane 8 (2 ^ 64 * 5 + 3) ((5 * (4 * 2 + (3 + 3) % 4)) % 16)) 0
        ^^^ lane 8 (2 ^ 64 * 7 + 9) (4 * 2 + 3) :=
  ⟨by decide, by decide,
    aesenc_aarch64_round_bytes false (2 ^ 64 * 5 + 3) (2 ^ 64 * 7 + 9) 2 3 (by decide) (by decide)⟩

/-- C13: for every state `a` and round key `k`, the ARMv7 path of
`_mm_aesenc_si128` (the four 32-bit tables `aes_table[0..3]`, with either
variant of `_mm_shuffle_epi32`) returns the same register as the aarch64
software path (byte-table shift-rows, S-box and explicit column mixing). -/
theorem aesenc_armv7_eq_aarch64 (hb hb2 : Bool) (a k : Nat) :
    _mm_aesenc_si128 false false hb a k = _mm_aesenc_si128 false true hb2 a k :=
  aesenc_paths_agree false false hb false true hb2 a k

/-- C14: on the round-1 vector of FIPS-197 Appendix B (state
`19 3d e3 be a0 f4 e2 2b 9a c6 8d 2a e9 f8 48 08`, round key
`a0 fa fe 17 88 54 2c b1 23 a3 39 39 2a 6c 76 05`, byte 0 first) both software
paths of `_mm_aesenc_si128` return `a4 9c 7f f2 68 9f 35 2b 6b 5b ea 43 02 6a 50 49`. -/
theorem aesenc_fips197_round1 (hb : Bool) :
    _mm_aesenc_si128 false true hb
        (vld1q_u8 [0x19, 0x3d, 0xe3, 0xbe, 0xa0, 0xf4, 0xe2, 0x2b,
                   0x9a, 0xc6, 0x8d, 0x2a, 0xe9, 0xf8, 0x48, 0x08])
        (vld1q_u8 [0xa0, 0xfa, 0xfe, 0x17, 0x88, 0x54, 0x2c, 0xb1,
                   0x23, 0xa3, 0x39, 0x39, 0x2a, 0x6c, 0x76, 0x05])
      = vld1q_u8 [0xa4, 0x9c, 0x7f, 0xf2, 0x68, 0x9f, 0x35, 0x2b,
                  0x6b, 0x5b, 0xea, 0x43, 0x02, 0x6a, 0x50, 0x49]
    ∧ _mm_aesenc_si128 false false hb
        (vld1q_u8 [0x19, 0x3d, 0xe3, 0xbe, 0xa0, 0xf4, 0xe2, 0x2b,
                   0x9a, 0xc6, 0x8d, 0x2a, 0xe9, 0xf8, 0x48, 0x08])
        (vld1q_u8 [0xa0, 0xfa, 0xfe, 0x17, 0x88, 0x54, 0x2c, 0xb1,
                   0x23, 0xa3, 0x39, 0x39, 0x2a, 0x6c, 0x76, 0x05])
      = vld1q_u8 [0xa4, 0x9c, 0x7f, 0xf2, 0x68, 0x9f, 0x35, 0x2b,
                  0x6b, 0x5b, 0xea, 0x43, 0x02, 0x6a, 0x50, 0x49] := by
  cases hb <;> decide!

/-- C15: on the software path of `_mm_aesenclast_si128`, for every state `a`,
round key `k` and byte index `i` in 0..15, the output byte is
`SSE2NEON_sbox[a[(5 i) mod 16]] ^ k[i]`: shift-rows, S-box and key XOR, no
column mixing. -/
theorem aesenclast_soft_bytes (a k i : Nat) (hi : i < 16) :
    lane 8 (_mm_aesenclast_si128 false a k) i
      = SSE2NEON_sbox.getD (lane 8 a ((5 * i) % 16)) 0 ^^^ lane 8 k i :=
  lane8_aesenclast_soft a k i hi

/-- Instance of `aesenclast_soft_bytes` at byte 7. -/
theorem aesenclast_soft_bytes_witness :
    7 < 16 ∧
    lane 8 (_mm_aesenclast_si128 false (2 ^ 64 * 5 + 3) (2 ^ 64 * 7 + 9)) 7
      = SSE2NEON_sbox.getD (lane 8 (2 ^ 64 * 5 + 3) ((5 * 7) % 16)) 0
        ^^^ lane 8 (2 ^ 64 * 7 + 9) 7 :=
  ⟨by decide, aesenclast_soft_bytes (2 ^ 64 * 5 + 3) (2 ^ 64 * 7 + 9) 7 (by decide)⟩

/-- C16: on each software path of `_mm_aesenc_si128` (aarch64 byte tables or
ARMv7 word tables), for every state `s` and round key `k`, the result equals
the result for the zero key XORed with `k`: the key enters only through the
final XOR. -/
theorem aesenc_key_only_final_xor (aarch64 hb : Bool) (s k : Nat) :
    _mm_aesenc_si128 false aarch64 hb s k
      = _mm_xor_si128 (_mm_aesenc_si128 false aarch64 hb s 0) k := by
  refine reg_ext 8 (by decide) 16 _ _ (aesenc_lt _ _ _ _ _) (pack_lt 32 _ 4) ?_
  intro i hi
  rw [_mm_xor_si128, lane8_veorq_s32 _ _ i hi, lane8_aesenc _ _ _ _ _ i hi,
    lane8_aesenc _ _ _ _ _ i hi, lane_zero, Nat.xor_zero]

/-- C17: on the software path of `_mm_aeskeygenassist_si128`, for every key and
every round constant `rcon` in 0..255, with `X1`, `X3` the 32-bit lanes 1 and 3
of the key: lane 0 is `SubWord(X1)`, lane 1 is `RotWord(SubWord(X1)) ^ rcon`,
lane 2 is `SubWord(X3)` and lane 3 is `RotWord(SubWord(X3)) ^ rcon`. -/
theorem aeskeygenassist_soft_lanes (aarch64 hb : Bool) (key rcon : Nat) (hr : rcon < 256) :
    lane 32 (_mm_aeskeygenassist_si128 false aarch64 hb key (rcon : Int)) 0
        = SubWord (lane 32 key 1)
    ∧ lane 32 (_mm_aeskeygenassist_si128 false aarch64 hb key (rcon : Int)) 1
        = RotWord (SubWord (lane 32 key 1)) ^^^ rcon
    ∧ lane 32 (_mm_aeskeygenassist_si128 false aarch64 hb key (rcon : Int)) 2
        = SubWord (lane 32 key 3)
    ∧ lane 32 (_mm_aeskeygenassist_si128 false aarch64 hb key (rcon : Int)) 3
        = RotWord (SubWord (lane 32 key 3)) ^^^ rcon := by
  have hr32 : rcon < 2 ^ 32 := lt_of_lt_of_le hr (by decide)
  have hx : ∀ w, (RotWord (SubWord w) ^^^ rcon) % 2 ^ 32 = RotWord (SubWord w) ^^^ rcon :=
    fun w => Nat.mod_eq_of_lt (Nat.xor_lt_two_pow (RotWord_lt _ (SubWord_lt w)) hr32)
  have hs : ∀ w, SubWord w % 2 ^ 32 = SubWord w := fun w => Nat.mod_eq_of_lt (SubWord_lt w)
  rw [aeskeygenassist_soft, intBits_natCast rcon hr32]
  refine ⟨?_, ?_, ?_, ?_⟩
  · rw [lane32_set_epi32 _ _ _ _ 0 (by decide)]; exact hs _
  · rw [lane32_set_epi32 _ _ _ _ 1 (by decide)]; exact hx _
  · rw [lane32_set_epi32 _ _ _ _ 2 (by decide)]; exact hs _
  · rw [lane32_set_epi32 _ _ _ _ 3 (by decide)]; exact hx _

/-- Instance of `aeskeygenassist_soft_lanes` at round constant `0x1b`. -/
theorem aeskeygenassist_soft_lanes_witness :
    0x1b < 256 ∧
    (lane 32 (_mm_aeskeygenassist_si128 false false false
        0x3c4fcf098815f7aba6d2ae2816157e2b ((0x1b : Nat) : Int)) 0
        = SubWord (lane 32 0x3c4fcf098815f7aba6d2ae2816157e2b 1)
    ∧ lane 32 (_mm_aeskeygenassist_si128 false false false
        0x3c4fcf098815f7aba6d2ae2816157e2b ((0x1b : Nat) : Int)) 1
        = RotWord (SubWord (lane 32 0x3c4fcf098815f7aba6d2ae2816157e2b 1)) ^^^ 0x1b
    ∧ lane 32 (_mm_aeskeygenassist_si128 false false false
        0x3c4fcf098815f7aba6d2ae2816157e2b ((0x1b : Nat) : Int)) 2
        = SubWord (lane 32 0x3c4fcf098815f7aba6d2ae2816157e2b 3)
    ∧ lane 32 (_mm_aeskeygenassist_si128 false false false
        0x3c4fcf098815f7aba6d2ae2816157e2b ((0x1b : Nat) : Int)) 3
        = RotWord (SubWord (lane 32 0x3c4fcf098815f7aba6d2ae2816157e2b 3)) ^^^ 0x1b) :=
  ⟨by decide, aeskeygenassist_soft_lanes false false 0x3c4fcf098815f7aba6d2ae2816157e2b 0x1b
    (by decide)⟩

/-- C18: for every state `s` and round key `k`, the crypto-extension path of
`_mm_aesenc_si128`, that is `vaesmcq_u8(vaeseq_u8(s, 0)) ^ k` with AESE (key
XOR, shift-rows, S-box substitution) and AESMC (column mixing) as the
architecture defines them, returns the same register as each software path. -/
theorem aesenc_crypto_eq_software (aarch64 hb aarch64s hbs : Bool) (s k : Nat) :
    _mm_aesenc_si128 true aarch64 hb s k
        = v128_xor (vaesmcq_u8 (vaeseq_u8 s (vdupq_n_u8 0))) k
    ∧ _mm_aesenc_si128 true aarch64 hb s k = _mm_aesenc_si128 false aarch64s hbs s k :=
  ⟨rfl, aesenc_paths_agree true aarch64 hb false aarch64s hbs s k⟩

/-! ## Casts, the shuffle code and the byte and half-word shuffles -/

theorem MM_SHUFFLE_decode (fp3 fp2 fp1 fp0 : Nat) (h3 : fp3 < 4) (h2 : fp2 < 4) (h1 : fp1 < 4)
    (h0 : fp0 < 4) :
    _MM_SHUFFLE fp3 fp2 fp1 fp0 < 256 ∧
    (_MM_SHUFFLE fp3 fp2 fp1 fp0 >>> 6) &&& 3 = fp3 ∧
    (_MM_SHUFFLE fp3 fp2 fp1 fp0 >>> 4) &&& 3 = fp2 ∧
    (_MM_SHUFFLE fp3 fp2 fp1 fp0 >>> 2) &&& 3 = fp1 ∧
    _MM_SHUFFLE fp3 fp2 fp1 fp0 &&& 3 = fp0 := by
  interval_cases fp3 <;> interval_cases fp2 <;> interval_cases fp1 <;> interval_cases fp0 <;>
    decide

theorem lane_shuffle_ps (hb : Bool) (a b imm i : Nat) (hi : i < 4) :
    lane 32 (_mm_shuffle_ps hb a b imm) i =
      if i = 0 then lane 32 a (imm &&& 3)
      else if i = 1 then lane 32 a ((imm >>> 2) &&& 3)
      else if i = 2 then lane 32 b ((imm >>> 4) &&& 3)
      else lane 32 b ((imm >>> 6) &&& 3) := by
  rw [shuffle_ps_any_variant, lane_shuffle_ps_default a b imm i hi]

theorem byte_mask_8F : ∀ x, x < 256 →
    (if x &&& 0x8F < 16 then some (x &&& 0x8F) else none)
      = (if x.testBit 7 = true then none else some (x &&& 0x0F)) := by
  decide!

theorem shuffle_byte_select (a x : Nat) (hx : x < 256) :
    (if x &&& 0x8F < 16 then lane 8 a (x &&& 0x8F) else 0)
      = (if x.testBit 7 = true then 0 else lane 8 a (x &&& 0x0F)) := by
  have h := byte_mask_8F x hx
  by_cases h1 : x &&& 0x8F < 16 <;> by_cases h2 : x.testBit 7 = true <;>
    simp only [h1, h2, if_true, if_false, Bool.false_eq_true] at h ⊢
  · exact absurd h (by simp)
  · rw [Option.some.inj h]
  · exact absurd h (by simp)

theorem lane8_idx_masked (b i : Nat) (hi : i < 16) :
    lane 8 (vandq_u8 b (vdupq_n_u8 0x8F)) i = lane 8 b i &&& 0x8F := by
  rw [lane8_vandq_u8 _ _ i hi, vdupq_n_u8, lane_pack 8 (by decide) _ 16 i hi]
  rfl

theorem lane8_vqtbl1q_s8 (t idx i : Nat) (hi : i < 16) :
    lane 8 (vqtbl1q_s8 t idx) i = if lane 8 idx i < 16 then lane 8 t (lane 8 idx i) else 0 := by
  rw [vqtbl1q_s8, lane_pack 8 (by decide) _ 16 i hi]
  split_ifs
  · exact lane_mod 8 _ _
  · rfl

theorem lane8_vcombine_s8 (lo hi i : Nat) (h : i < 16) :
    lane 8 (vcombine_s8 lo hi) i = if i < 8 then lane 8 lo i else lane 8 hi (i - 8) := by
  rw [vcombine_s8, lane_pack 8 (by decide) _ 16 i h]
  split_ifs <;> exact lane_mod 8 _ _

theorem lane8_vget_low_s8 (a i : Nat) (h : i < 8) : lane 8 (vget_low_s8 a) i = lane 8 a i := by
  rw [vget_low_s8, lane_pack 8 (by decide) _ 8 i h]
  exact lane_mod 8 _ _

theorem lane8_vget_high_s8 (a i : Nat) (h : i < 8) :
    lane 8 (vget_high_s8 a) i = lane 8 a (i + 8) := by
  rw [vget_high_s8, lane_pack 8 (by decide) _ 8 i h]
  exact lane_mod 8 _ _

/-- The two-register table lookup on the halves of `t` is the lookup in `t`. -/
theorem lane8_vtbl2_halves (t idx i : Nat) (hi : i < 8) :
    lane 8 (vtbl2_s8 (vget_low_s8 t, vget_high_s8 t) idx) i
      = if lane 8 idx i < 16 then lane 8 t (lane 8 idx i) else 0 := by
  rw [vtbl2_s8, lane_pack 8 (by decide) _ 8 i hi]
  by_cases h1 : lane 8 idx i < 8
  · have h2 : lane 8 idx i < 16 := by omega
    simp only [h1, h2, if_true]
    rw [lane8_vget_low_s8 _ _ h1, lane_mod]
  · by_cases h2 : lane 8 idx i < 16
    · simp only [h1, h2, if_true, if_false]
      rw [lane8_vget_high_s8 _ _ (by omega), lane_mod]
      congr 1
      omega
    · simp only [h1, h2, if_false]
      rfl

theorem lane8_vtbl2_combined (t idx i : Nat) (hi : i < 16) :
    lane 8 (vcombine_s8 (vtbl2_s8 (vget_low_s8 t, vget_high_s8 t) (vget_low_u8 idx))
        (vtbl2_s8 (vget_low_s8 t, vget_high_s8 t) (vget_high_u8 idx))) i
      = if lane 8 idx i < 16 then lane 8 t (lane 8 idx i) else 0 := by
  rw [lane8_vcombine_s8 _ _ i hi]
  by_cases h : i < 8
  · simp only [h, if_true]
    rw [lane8_vtbl2_halves _ _ i h, lane8_vget_low_u8 _ _ h]
  · simp only [h, if_false]
    rw [lane8_vtbl2_halves _ _ (i - 8) (by omega), lane8_vget_high_u8 _ _ (by omega)]
    have : i - 8 + 8 = i := by omega
    rw [this]

/-- Byte `i` of the byte shuffle, on each of its three variants. -/
theorem lane8_shuffle_epi8 (aarch64 gnuc : Bool) (a b i : Nat) (hi : i < 16) :
    lane 8 (_mm_shuffle_epi8 aarch64 gnuc a b) i
      = if (lane 8 b i).testBit 7 = true then 0 else lane 8 a (lane 8 b i &&& 0x0F) := by
  rw [← shuffle_byte_select a (lane 8 b i) (lane8_lt b i), ← lane8_idx_masked b i hi]
  cases aarch64
  · cases gnuc
    · exact lane8_vtbl2_combined a _ i hi
    · exact lane8_vtbl2_combined a _ i hi
  · exact lane8_vqtbl1q_s8 a _ i hi

theorem shuffle_epi8_example (aarch64 gnuc : Bool) :
    (List.range 8).map (lane 16 (_mm_shuffle_epi8 aarch64 gnuc
        (_mm_setr_epi16 1 2 3 4 5 6 7 8)
        (_mm_setr_epi8 1 0 2 3 8 9 10 11 4 5 12 13 6 7 14 15)))
      = [256, 2, 5, 6, 3, 7, 4, 8] := by
  cases aarch64 <;> cases gnuc <;> decide!

theorem lane16_vsetq_lane_s16 (v q k i : Nat) (hi : i < 8) :
    lane 16 (vsetq_lane_s16 v q k) i = if i = k then v % 2 ^ 16 else lane 16 q i := by
  rw [vsetq_lane_s16, lane_pack 16 (by decide) _ 8 i hi]
  split_ifs
  · rfl
  · exact lane_mod 16 _ _

theorem lane16_lowBits (a k : Nat) (hk : k < 4) :
    vget_lane_s16 (vget_low_s16 a) k = lane 16 a k := by
  rw [vget_lane_s16, vget_low_s16, lane_pack 16 (by decide) _ 4 k hk]
  exact lane_mod 16 _ _

theorem and3_lt (x : Nat) : x &&& 3 < 4 := by
  exact Nat.and_lt_two_pow x (show 3 < 2 ^ 2 by decide)

theorem lane16_shufflelo (a imm i : Nat) (hi : i < 8) :
    lane 16 (_mm_shufflelo_epi16_function a imm) i
      = if i < 4 then lane 16 a ((imm >>> (2 * i)) &&& 3) else lane 16 a i := by
  unfold _mm_shufflelo_epi16_function
  simp only [lane16_vsetq_lane_s16 _ _ _ i hi, lane16_lowBits _ _ (and3_lt _), lane_mod]
  interval_cases i <;> simp

/-- C23: every reinterpretation cast leaves the bits of the register unchanged
(`_mm_castps_si128`, `_mm_castsi128_ps`, `_mm_castps_pd`, `_mm_castpd_ps`,
`_mm_castpd_si128`, on both definitions of `__m128d`), so the round trips
`_mm_castsi128_ps(_mm_castps_si128(a))`, `_mm_castps_si128(_mm_castsi128_ps(a))`
and `_mm_castpd_ps(_mm_castps_pd(a))` return the bits of `a`. -/
theorem cast_round_trips (aarch64 : Bool) (a : Nat) :
    _mm_castsi128_ps (_mm_castps_si128 a) = a ∧
    _mm_castps_si128 (_mm_castsi128_ps a) = a ∧
    _mm_castpd_ps aarch64 (_mm_castps_pd aarch64 a) = a ∧
    _mm_castps_si128 a = a ∧ _mm_castsi128_ps a = a ∧ _mm_castps_pd aarch64 a = a ∧
    _mm_castpd_ps aarch64 a = a ∧ _mm_castpd_si128 aarch64 a = a := by
  cases aarch64 <;> exact ⟨rfl, rfl, rfl, rfl, rfl, rfl, rfl, rfl⟩

/-- C24: for digits `fp3, fp2, fp1, fp0` in 0..3 the code
`m = _MM_SHUFFLE(fp3, fp2, fp1, fp0)` is below 256 and decodes back:
`(m >> 6) & 3 = fp3`, `(m >> 4) & 3 = fp2`, `(m >> 2) & 3 = fp1`, `m & 3 = fp0`;
and in `_mm_shuffle_ps(a, b, m)` (either variant) lanes 3 and 2 are lanes `fp3`
and `fp2` of `b`, lanes 1 and 0 are lanes `fp1` and `fp0` of `a`. -/
theorem MM_SHUFFLE_fields (hb : Bool) (a b fp3 fp2 fp1 fp0 : Nat) (h3 : fp3 < 4) (h2 : fp2 < 4)
    (h1 : fp1 < 4) (h0 : fp0 < 4) :
    _MM_SHUFFLE fp3 fp2 fp1 fp0 < 256 ∧
    (_MM_SHUFFLE fp3 fp2 fp1 fp0 >>> 6) &&& 3 = fp3 ∧
    (_MM_SHUFFLE fp3 fp2 fp1 fp0 >>> 4) &&& 3 = fp2 ∧
    (_MM_SHUFFLE fp3 fp2 fp1 fp0 >>> 2) &&& 3 = fp1 ∧
    _MM_SHUFFLE fp3 fp2 fp1 fp0 &&& 3 = fp0 ∧
    lane 32 (_mm_shuffle_ps hb a b (_MM_SHUFFLE fp3 fp2 fp1 fp0)) 3 = lane 32 b fp3 ∧
    lane 32 (_mm_shuffle_ps hb a b (_MM_SHUFFLE fp3 fp2 fp1 fp0)) 2 = lane 32 b fp2 ∧
    lane 32 (_mm_shuffle_ps hb a b (_MM_SHUFFLE fp3 fp2 fp1 fp0)) 1 = lane 32 a fp1 ∧
    lane 32 (_mm_shuffle_ps hb a b (_MM_SHUFFLE fp3 fp2 fp1 fp0)) 0 = lane 32 a fp0 := by
  obtain ⟨hlt, e3, e2, e1, e0⟩ := MM_SHUFFLE_decode fp3 fp2 fp1 fp0 h3 h2 h1 h0
  refine ⟨hlt, e3, e2, e1, e0, ?_, ?_, ?_, ?_⟩
  · rw [lane_shuffle_ps hb a b _ 3 (by decide), e3]; rfl
  · rw [lane_shuffle_ps hb a b _ 2 (by decide), e2]; rfl
  · rw [lane_shuffle_ps hb a b _ 1 (by decide), e1]; rfl
  · rw [lane_shuffle_ps hb a b _ 0 (by decide), e0]; rfl

/-- Instance of `MM_SHUFFLE_fields` at the digits 2, 0, 3, 1. -/
theorem MM_SHUFFLE_fields_witness :
    _MM_SHUFFLE 2 0 3 1 < 256 ∧
    (_MM_SHUFFLE 2 0 3 1 >>> 6) &&& 3 = 2 ∧
    (_MM_SHUFFLE 2 0 3 1 >>> 4) &&& 3 = 0 ∧
    (_MM_SHUFFLE 2 0 3 1 >>> 2) &&& 3 = 3 ∧
    _MM_SHUFFLE 2 0 3 1 &&& 3 = 1 ∧
    lane 32 (_mm_shuffle_ps false (2 ^ 64 * 5 + 3) (2 ^ 64 * 7 + 9) (_MM_SHUFFLE 2 0 3 1)) 3
      = lane 32 (2 ^ 64 * 7 + 9) 2 ∧
    lane 32 (_mm_shuffle_ps false (2 ^ 64 * 5 + 3) (2 ^ 64 * 7 + 9) (_MM_SHUFFLE 2 0 3 1)) 2
      = lane 32 (2 ^ 64 * 7 + 9) 0 ∧
    lane 32 (_mm_shuffle_ps false (2 ^ 64 * 5 + 3) (2 ^ 64 * 7 + 9) (_MM_SHUFFLE 2 0 3 1)) 1
      = lane 32 (2 ^ 64 * 5 + 3) 3 ∧
    lane 32 (_mm_shuffle_ps false (2 ^ 64 * 5 + 3) (2 ^ 64 * 7 + 9) (_MM_SHUFFLE 2 0 3 1)) 0
      = lane 32 (2 ^ 64 * 5 + 3) 1 :=
  MM_SHUFFLE_fields false (2 ^ 64 * 5 + 3) (2 ^ 64 * 7 + 9) 2 0 3 1 (by decide) (by decide)
    (by decide) (by decide)

/-- C25: for all registers `a` (data) and `b` (control), on each variant of
`_mm_shuffle_epi8`, byte `i < 16` of the result is 0 when bit 7 of `b[i]` is
set and `a[b[i] & 0x0F]` otherwise; and on the documented example
`a = _mm_setr_epi16(1, .., 8)`, `b = _mm_setr_epi8(1, 0, 2, 3, 8, 9, 10, 11, 4,
5, 12, 13, 6, 7, 14, 15)` the eight 16-bit lanes are 256, 2, 5, 6, 3, 7, 4, 8. -/
theorem shuffle_epi8_bytes (aarch64 gnuc : Bool) (a b i : Nat) (hi : i < 16) :
    lane 8 (_mm_shuffle_epi8 aarch64 gnuc a b) i
      = (if (lane 8 b i).testBit 7 = true then 0 else lane 8 a (lane 8 b i &&& 0x0F)) ∧
    (List.range 8).map (lane 16 (_mm_shuffle_epi8 aarch64 gnuc
        (_mm_setr_epi16 1 2 3 4 5 6 7 8)
        (_mm_setr_epi8 1 0 2 3 8 9 10 11 4 5 12 13 6 7 14 15)))
      = [256, 2, 5, 6, 3, 7, 4, 8] :=
  ⟨lane8_shuffle_epi8 aarch64 gnuc a b i hi, shuffle_epi8_example aarch64 gnuc⟩

/-- Instance of `shuffle_epi8_bytes` at byte 5 on the ARMv7 assembly variant. -/
theorem shuffle_epi8_bytes_witness :
    5 < 16 ∧
    (lane 8 (_mm_shuffle_epi8 false true (2 ^ 64 * 5 + 3) (2 ^ 40 * 0x83 + 9)) 5
      = (if (lane 8 (2 ^ 40 * 0x83 + 9) 5).testBit 7 = true then 0
         else lane 8 (2 ^ 64 * 5 + 3) (lane 8 (2 ^ 40 * 0x83 + 9) 5 &&& 0x0F)) ∧
    (List.range 8).map (lane 16 (_mm_shuffle_epi8 false true
        (_mm_setr_epi16 1 2 3 4 5 6 7 8)
        (_mm_setr_epi8 1 0 2 3 8 9 10 11 4 5 12 13 6 7 14 15)))
      = [256, 2, 5, 6, 3, 7, 4, 8]) :=
  ⟨by decide, shuffle_epi8_bytes false true (2 ^ 64 * 5 + 3) (2 ^ 40 * 0x83 + 9) 5 (by decide)⟩

/-- C26: for every register `a` and every code `imm` (in particular every code
in 0..255), `_mm_shufflelo_epi16_function(a, imm)` is a 128-bit register whose
16-bit lanes `j = 0..3` are the lanes `(imm >> 2j) & 3` of the input `a` and
whose lanes 4..7 are those of `a`. -/
theorem shufflelo_epi16_lanes (a imm : Nat) :
    _mm_shufflelo_epi16_function a imm < 2 ^ 128 ∧
    lane 16 (_mm_shufflelo_epi16_function a imm) 0 = lane 16 a (imm &&& 3) ∧
    lane 16 (_mm_shufflelo_epi16_function a imm) 1 = lane 16 a ((imm >>> 2) &&& 3) ∧
    lane 16 (_mm_shufflelo_epi16_function a imm) 2 = lane 16 a ((imm >>> 4) &&& 3) ∧
    lane 16 (_mm_shufflelo_epi16_function a imm) 3 = lane 16 a ((imm >>> 6) &&& 3) ∧
    lane 16 (_mm_shufflelo_epi16_function a imm) 4 = lane 16 a 4 ∧
    lane 16 (_mm_shufflelo_epi16_function a imm) 5 = lane 16 a 5 ∧
    lane 16 (_mm_shufflelo_epi16_function a imm) 6 = lane 16 a 6 ∧
    lane 16 (_mm_shufflelo_epi16_function a imm) 7 = lane 16 a 7 := by
  refine ⟨pack_lt 16 _ 8, ?_, ?_, ?_, ?_, ?_, ?_, ?_, ?_⟩
  · rw [lane16_shufflelo a imm 0 (by decide)]; rfl
  · rw [lane16_shufflelo a imm 1 (by decide)]; rfl
  · rw [lane16_shufflelo a imm 2 (by decide)]; rfl
  · rw [lane16_shufflelo a imm 3 (by decide)]; rfl
  · rw [lane16_shufflelo a imm 4 (by decide)]; rfl
  · rw [lane16_shufflelo a imm 5 (by decide)]; rfl
  · rw [lane16_shufflelo a imm 6 (by decide)]; rfl
  · rw [lane16_shufflelo a imm 7 (by decide)]; rfl

/-! ## Arithmetic shift right by a count register -/

theorem sint_emod (w v : Nat) : (sint w v % 2 ^ w).toNat = v % 2 ^ w := by
  unfold sint
  have hp : (0 : Int) < 2 ^ w := by positivity
  have hlt : ((v % 2 ^ w : Nat) : Int) < 2 ^ w := by
    have := Nat.mod_lt v (Nat.two_pow_pos w)
    exact_mod_cast this
  split_ifs
  · rw [Int.emod_eq_of_lt (by positivity) hlt, Int.toNat_ofNat]
  · rw [Int.sub_emod, Int.emod_self, sub_zero, Int.emod_emod, Int.emod_eq_of_lt (by positivity) hlt,
      Int.toNat_ofNat]

theorem sint_of_lt (w v : Nat) (h : v < 2 ^ (w - 1)) : sint w v = v := by
  have h2 : 2 ^ (w - 1) ≤ 2 ^ w := Nat.pow_le_pow_right (by decide) (Nat.sub_le w 1)
  have h3 : v % 2 ^ w = v := Nat.mod_eq_of_lt (lt_of_lt_of_le h h2)
  unfold sint
  rw [h3, if_pos h]

theorem lane64_vget_low_s64 (count : Nat) : vget_low_s64 count = lane 64 count 0 := by
  have h := lane_pack 64 (by decide) (fun i => lane 64 count i) 1 0 (by decide)
  rw [lane_mod] at h
  rw [vget_low_s64, ← h, lane, Nat.mul_zero, Nat.pow_zero, Nat.div_one]
  exact (Nat.mod_eq_of_lt (pack_lt 64 _ 1)).symm

theorem lane16_setzero (i : Nat) : lane 16 _mm_setzero_si128 i = 0 := by
  have : _mm_setzero_si128 = 0 := by decide
  rw [this, lane_zero]

theorem sint16_shr15 (v : Nat) :
    ((sint 16 v >>> (15 : Nat)) % 2 ^ 16).toNat = if sint 16 v < 0 then 0xFFFF else 0 := by
  have hv : v % 2 ^ 16 < 2 ^ 16 := Nat.mod_lt _ (by decide)
  rw [Int.shiftRight_eq_div_pow]
  unfold sint
  push_cast
  split_ifs <;> omega

theorem shift_byte_of_neg_count : ∀ c : Nat, c < 16 →
    sint 8 (((-(c : Int)) % 2 ^ 16).toNat % 2 ^ 16) = -(c : Int) := by
  decide

theorem lane16_sra_small (a count i : Nat) (hi : i < 8) (hc : lane 64 count 0 ≤ 15) :
    lane 16 (_mm_sra_epi16 a count) i
      = ((sint 16 (lane 16 a i) >>> lane 64 count 0) % 2 ^ 16).toNat := by
  have hs : sint 64 (vget_low_s64 count) = (lane 64 count 0 : Nat) := by
    rw [lane64_vget_low_s64]
    exact sint_of_lt 64 _ (lt_of_le_of_lt hc (by decide))
  have hng : ¬ ((lane 64 count 0 : Nat) : Int) > 15 := by omega
  rw [_mm_sra_epi16]
  simp only [hs, hng, if_false]
  rw [vshlq_s16, lane_pack 16 (by decide) _ 8 i hi, vdupq_n_s16,
    lane_pack 16 (by decide) _ 8 i hi, shift_byte_of_neg_count _ (by omega), sshl]
  by_cases h0 : lane 64 count 0 = 0
  · rw [h0]
    simp only [Nat.cast_zero, neg_zero, le_refl, if_true, Int.toNat_zero, Nat.shiftLeft_zero]
    rw [Int.shiftRight_eq_div_pow, pow_zero, Nat.cast_one, Int.ediv_one, sint_emod, Nat.mod_mod]
  · have hneg : ¬ (0 : Int) ≤ -((lane 64 count 0 : Nat) : Int) := by omega
    simp only [hneg, if_false, neg_neg, Int.toNat_ofNat]
    exact Nat.mod_eq_of_lt (by
      have h2 : (0 : Int) < 2 ^ 16 := by decide
      have := Int.emod_lt_of_pos (sint 16 (lane 16 a i) >>> lane 64 count 0) h2
      have h3 := Int.emod_nonneg (sint 16 (lane 16 a i) >>> lane 64 count 0) (ne_of_gt h2)
      omega)

theorem lane16_sra_large (a count i : Nat) (hi : i < 8) (hc : 15 < lane 64 count 0)
    (h63 : lane 64 count 0 < 2 ^ 63) :
    lane 16 (_mm_sra_epi16 a count) i
      = ((sint 16 (lane 16 a i) >>> (15 : Nat)) % 2 ^ 16).toNat := by
  have hs : sint 64 (vget_low_s64 count) = (lane 64 count 0 : Nat) := by
    rw [lane64_vget_low_s64]
    exact sint_of_lt 64 _ h63
  have hg : ((lane 64 count 0 : Nat) : Int) > 15 := by omega
  rw [_mm_sra_epi16]
  simp only [hs, hg, if_true]
  rw [_mm_cmplt_epi16, vcltq_s16, lane_pack 16 (by decide) _ 8 i hi, lane16_setzero, sint16_shr15]
  have hz : sint 16 0 = 0 := by decide
  rw [hz]
  split_ifs <;> rfl

/-- When bit 63 of the count is clear, `_mm_sra_epi16` is the documented
arithmetic shift by `min(c, 15)`. -/
theorem sra_epi16_documented_of_lt (a count : Nat) (h63 : lane 64 count 0 < 2 ^ 63) :
    _mm_sra_epi16 a count = sra_epi16_documented a count := by
  have hlt : _mm_sra_epi16 a count < 2 ^ (16 * 8) := by
    unfold _mm_sra_epi16
    simp only
    split_ifs
    · exact pack_lt 16 _ 8
    · exact pack_lt 16 _ 8
  refine reg_ext 16 (by decide) 8 _ _ hlt (pack_lt 16 _ 8) ?_
  intro i hi
  rw [sra_epi16_documented, lane_pack 16 (by decide) _ 8 i hi]
  have hmod : ∀ z : Int, (z % 2 ^ 16).toNat % 2 ^ 16 = (z % 2 ^ 16).toNat := by
    intro z
    apply Nat.mod_eq_of_lt
    have h2 : (0 : Int) < 2 ^ 16 := by decide
    have := Int.emod_lt_of_pos z h2
    have h3 := Int.emod_nonneg z (ne_of_gt h2)
    omega
  rw [hmod]
  by_cases hc : lane 64 count 0 ≤ 15
  · rw [lane16_sra_small a count i hi hc, Nat.min_eq_left hc]
  · rw [lane16_sra_large a count i hi (by omega) h63, Nat.min_eq_right (by omega)]

/-! ## Signed 64-bit greater-than from 32-bit compares -/

theorem pack32_two (f : Nat → Nat) : pack 32 f 2 = f 0 % 2 ^ 32 + f 1 % 2 ^ 32 * 2 ^ 32 := by
  simp [pack]

theorem lane64_split (x j : Nat) :
    lane 64 x j = lane 32 x (2 * j) + lane 32 x (2 * j + 1) * 2 ^ 32 := by
  have h := lane_eq_pack 32 (by decide) 2 x j
  rw [pack32_two, lane_mod, lane_mod] at h
  exact h

theorem lane64_pack32 (G : Nat → Nat) (j : Nat) (hj : j < 2) :
    lane 64 (pack 32 G 4) j = G (2 * j) % 2 ^ 32 + G (2 * j + 1) % 2 ^ 32 * 2 ^ 32 := by
  have h := lane_pack_coarse 32 (by decide) 2 2 G j hj
  rw [pack32_two] at h
  exact h

theorem xor_sign32 (x : Nat) (hx : x < 2 ^ 32) :
    x ^^^ 2 ^ 31 = if x < 2 ^ 31 then x + 2 ^ 31 else x - 2 ^ 31 := by
  have hy : x ^^^ 2 ^ 31 < 2 ^ 32 := Nat.xor_lt_two_pow hx (by decide)
  have h0 := lane_xor 31 x (2 ^ 31) 0
  have h1 := lane_xor 31 x (2 ^ 31) 1
  simp only [lane, Nat.mul_zero, Nat.pow_zero, Nat.div_one, Nat.mul_one, Nat.mod_self,
    Nat.xor_zero, Nat.div_self (Nat.two_pow_pos 31), Nat.one_mod_two_pow (by decide : 0 < 31)]
    at h0 h1
  have hq : x / 2 ^ 31 < 2 := by omega
  have hq2 : x / 2 ^ 31 % 2 ^ 31 = x / 2 ^ 31 := Nat.mod_eq_of_lt (by omega)
  rw [hq2] at h1
  have hx1 : x / 2 ^ 31 ^^^ 1 = 1 - x / 2 ^ 31 := by
    interval_cases (x / 2 ^ 31) <;> rfl
  rw [hx1] at h1
  have hyq : (x ^^^ 2 ^ 31) / 2 ^ 31 < 2 := by omega
  rw [Nat.mod_eq_of_lt (by omega : (x ^^^ 2 ^ 31) / 2 ^ 31 < 2 ^ 31)] at h1
  split_ifs <;> omega

theorem sint32_xor_sign (x : Nat) (hx : x < 2 ^ 32) :
    sint 32 (x ^^^ 2 ^ 31) = (x : Int) - 2 ^ 31 := by
  have hy : x ^^^ 2 ^ 31 < 2 ^ 32 := Nat.xor_lt_two_pow hx (by decide)
  have h := xor_sign32 x hx
  unfold sint
  rw [Nat.mod_eq_of_lt hy]
  split_ifs at h ⊢ <;> omega

theorem sint64_split (lo hi : Nat) (hlo : lo < 2 ^ 32) (hhi : hi < 2 ^ 32) :
    sint 64 (lo + hi * 2 ^ 32) = (lo : Int) + sint 32 hi * 2 ^ 32 := by
  unfold sint
  have h1 : (lo + hi * 2 ^ 32) % 2 ^ 64 = lo + hi * 2 ^ 32 := Nat.mod_eq_of_lt (by omega)
  have h2 : hi % 2 ^ 32 = hi := Nat.mod_eq_of_lt hhi
  rw [h1, h2]
  split_ifs <;> omega

/-- One 64-bit lane of the polyfill, from the two 32-bit compare results
`g = (gt_lo, gt_hi)` and the high equality `e`. -/
theorem cmpgt_combine (glo ghi elo ehi : Bool) :
    (((sint 64 ((if ghi then 0xFFFFFFFF else 0) * 2 ^ 32 + (if glo then 0xFFFFFFFF else 0))
          >>> (63 : Nat)) % 2 ^ 64).toNat
      ||| (((((if ghi then 0xFFFFFFFF else 0) * 2 ^ 32 + (if glo then 0xFFFFFFFF else 0)) <<< 32)
              % 2 ^ 64
            ||| ((if ghi then 0xFFFFFFFF else 0) * 2 ^ 32 + (if glo then 0xFFFFFFFF else 0))
              % 2 ^ 32)
          &&& ((sint 64 ((if ehi then 0xFFFFFFFF else 0) * 2 ^ 32
              + (if elo then 0xFFFFFFFF else 0)) >>> (63 : Nat)) % 2 ^ 64).toNat))
      = if ghi || (glo && ehi) then 0xFFFFFFFFFFFFFFFF else 0 := by
  cases glo <;> cases ghi <;> cases elo <;> cases ehi <;> decide

theorem toNat_emod_lt (z : Int) (n : Nat) : (z % 2 ^ n).toNat < 2 ^ n := by
  have h2 : (0 : Int) < 2 ^ n := by positivity
  have h1 := Int.emod_lt_of_pos z h2
  have h3 := Int.emod_nonneg z (ne_of_gt h2)
  have h4 : ((z % 2 ^ n).toNat : Int) = z % 2 ^ n := Int.toNat_of_nonneg h3
  have h5 : ((z % 2 ^ n).toNat : Int) < ((2 ^ n : Nat) : Int) := by
    rw [h4]; push_cast; exact h1
  exact_mod_cast h5

theorem lane64_vorrq_s64 (a b j : Nat) (hj : j < 2) :
    lane 64 (vorrq_s64 a b) j = lane 64 a j ||| lane 64 b j := by
  rw [vorrq_s64, lane_pack 64 (by decide) _ 2 j hj]
  exact Nat.mod_eq_of_lt (Nat.or_lt_two_pow (lane_lt 64 a j) (lane_lt 64 b j))

theorem lane64_vandq_s64 (a b j : Nat) (hj : j < 2) :
    lane 64 (vandq_s64 a b) j = lane 64 a j &&& lane 64 b j := by
  rw [vandq_s64, lane_pack 64 (by decide) _ 2 j hj]
  exact Nat.mod_eq_of_lt (Nat.and_lt_two_pow _ (lane_lt 64 b j))

theorem lane64_vshrq_n_s64 (a n j : Nat) (hj : j < 2) :
    lane 64 (vshrq_n_s64 a n) j = ((sint 64 (lane 64 a j) >>> n) % 2 ^ 64).toNat := by
  rw [vshrq_n_s64, lane_pack 64 (by decide) _ 2 j hj]
  exact Nat.mod_eq_of_lt (toNat_emod_lt _ 64)

theorem lane64_vsliq_n_s64 (a b j : Nat) (hj : j < 2) :
    lane 64 (vsliq_n_s64 a b 32) j
      = ((lane 64 b j <<< 32) % 2 ^ 64) ||| (lane 64 a j % 2 ^ 32) := by
  rw [vsliq_n_s64, lane_pack 64 (by decide) _ 2 j hj]
  refine Nat.mod_eq_of_lt (Nat.or_lt_two_pow (Nat.mod_lt _ (by decide)) ?_)
  exact lt_of_lt_of_le (Nat.mod_lt _ (by decide)) (by decide)

theorem ite_mask32_mod (p : Prop) [Decidable p] :
    (if p then 0xFFFFFFFF else 0) % 2 ^ 32 = if p then 0xFFFFFFFF else 0 := by
  split_ifs <;> rfl

theorem lane64_vcgtq_s32 (a b j : Nat) (hj : j < 2) :
    lane 64 (vcgtq_s32 a b) j
      = (if sint 32 (lane 32 a (2 * j)) > sint 32 (lane 32 b (2 * j)) then 0xFFFFFFFF else 0)
        + (if sint 32 (lane 32 a (2 * j + 1)) > sint 32 (lane 32 b (2 * j + 1))
            then 0xFFFFFFFF else 0) * 2 ^ 32 := by
  rw [vcgtq_s32, lane64_pack32 _ j hj, ite_mask32_mod, ite_mask32_mod]

theorem lane64_vceqq_s32 (a b j : Nat) (hj : j < 2) :
    lane 64 (vceqq_s32 a b) j
      = (if lane 32 a (2 * j) = lane 32 b (2 * j) then 0xFFFFFFFF else 0)
        + (if lane 32 a (2 * j + 1) = lane 32 b (2 * j + 1) then 0xFFFFFFFF else 0) * 2 ^ 32 := by
  rw [vceqq_s32, lane64_pack32 _ j hj, ite_mask32_mod, ite_mask32_mod]

theorem lane32_veorq_s32 (a b k : Nat) (hk : k < 4) :
    lane 32 (veorq_s32 a b) k = lane 32 a k ^^^ lane 32 b k := by
  rw [veorq_s32, lane_pack 32 (by decide) _ 4 k hk]
  exact Nat.mod_eq_of_lt (Nat.xor_lt_two_pow (lane_lt 32 a k) (lane_lt 32 b k))

theorem lane32_sign_mask_even (j : Nat) (hj : j < 2) :
    lane 32 (vdupq_n_s64 0x80000000) (2 * j) = 2 ^ 31 := by
  interval_cases j <;> decide

theorem lane32_sign_mask_odd (j : Nat) (hj : j < 2) :
    lane 32 (vdupq_n_s64 0x80000000) (2 * j + 1) = 0 := by
  interval_cases j <;> decide

/-- One 64-bit lane of the polyfill, from the two 32-bit compare results and
the two 32-bit equality results. -/
theorem cmpgt_lane_combine (P Q R S : Prop) [Decidable P] [Decidable Q] [Decidable R]
    [Decidable S] :
    (((sint 64 ((if P then 0xFFFFFFFF else 0) + (if Q then 0xFFFFFFFF else 0) * 2 ^ 32)
          >>> (63 : Nat)) % 2 ^ 64).toNat
      ||| (((((if P then 0xFFFFFFFF else 0) + (if Q then 0xFFFFFFFF else 0) * 2 ^ 32) <<< 32)
              % 2 ^ 64
            ||| ((if P then 0xFFFFFFFF else 0) + (if Q then 0xFFFFFFFF else 0) * 2 ^ 32)
              % 2 ^ 32)
          &&& ((sint 64 ((if R then 0xFFFFFFFF else 0) + (if S then 0xFFFFFFFF else 0) * 2 ^ 32)
              >>> (63 : Nat)) % 2 ^ 64).toNat))
      = if Q ∨ (P ∧ S) then 0xFFFFFFFFFFFFFFFF else 0 := by
  by_cases hP : P <;> by_cases hQ : Q <;> by_cases hR : R <;> by_cases hS : S <;>
    simp only [hP, hQ, hR, hS, if_true, if_false, true_or, or_true, false_or, or_false,
      true_and, and_true, false_and, and_false] <;>
    decide

theorem signed64_gt_iff (alo ahi blo bhi : Nat) (h1 : alo < 2 ^ 32) (h2 : ahi < 2 ^ 32)
    (h3 : blo < 2 ^ 32) (h4 : bhi < 2 ^ 32) :
    (sint 32 (ahi ^^^ 0) > sint 32 (bhi ^^^ 0)
        ∨ (sint 32 (alo ^^^ 2 ^ 31) > sint 32 (blo ^^^ 2 ^ 31) ∧ ahi ^^^ 0 = bhi ^^^ 0))
      ↔ sint 64 (alo + ahi * 2 ^ 32) > sint 64 (blo + bhi * 2 ^ 32) := by
  rw [sint32_xor_sign alo h1, sint32_xor_sign blo h3, Nat.xor_zero, Nat.xor_zero,
    sint64_split alo ahi h1 h2, sint64_split blo bhi h3 h4]
  unfold sint
  rw [Nat.mod_eq_of_lt h2, Nat.mod_eq_of_lt h4]
  split_ifs <;> omega

/-- Each 64-bit lane of the ARMv7 polyfill is the signed 64-bit comparison. -/
theorem lane64_cmpgt_polyfill (a b j : Nat) (hj : j < 2) :
    lane 64 (_mm_cmpgt_epi64 false a b) j
      = if sint 64 (lane 64 a j) > sint 64 (lane 64 b j) then 0xFFFFFFFFFFFFFFFF else 0 := by
  have he : 2 * j < 4 := by omega
  have ho : 2 * j + 1 < 4 := by omega
  rw [_mm_cmpgt_epi64, if_neg Bool.false_ne_true]
  simp only []
  rw [lane64_vorrq_s64 _ _ j hj, lane64_vandq_s64 _ _ j hj, lane64_vshrq_n_s64 _ _ j hj,
    lane64_vshrq_n_s64 _ _ j hj, lane64_vsliq_n_s64 _ _ j hj, lane64_vcgtq_s32 _ _ j hj,
    lane64_vceqq_s32 _ _ j hj, cmpgt_lane_combine]
  simp only [lane32_veorq_s32 _ _ _ he, lane32_veorq_s32 _ _ _ ho, lane32_sign_mask_even j hj,
    lane32_sign_mask_odd j hj]
  rw [lane64_split a j, lane64_split b j]
  have h := signed64_gt_iff (lane 32 a (2 * j)) (lane 32 a (2 * j + 1)) (lane 32 b (2 * j))
    (lane 32 b (2 * j + 1)) (lane_lt 32 _ _) (lane_lt 32 _ _) (lane_lt 32 _ _) (lane_lt 32 _ _)
  by_cases hc : sint 64 (lane 32 a (2 * j) + lane 32 a (2 * j + 1) * 2 ^ 32)
      > sint 64 (lane 32 b (2 * j) + lane 32 b (2 * j + 1) * 2 ^ 32)
  · rw [if_pos hc, if_pos (h.mpr hc)]
  · rw [if_neg hc, if_neg (fun h2 => hc (h.mp h2))]

theorem lane64_vcgtq_s64 (a b j : Nat) (hj : j < 2) :
    lane 64 (vcgtq_s64 a b) j
      = if sint 64 (lane 64 a j) > sint 64 (lane 64 b j) then 0xFFFFFFFFFFFFFFFF else 0 := by
  rw [vcgtq_s64, lane_pack 64 (by decide) _ 2 j hj]
  split_ifs <;> rfl

theorem cmpgt_epi64_lt (aarch64 : Bool) (a b : Nat) :
    _mm_cmpgt_epi64 aarch64 a b < 2 ^ (64 * 2) := by
  cases aarch64
  · exact pack_lt 64 _ 2
  · exact pack_lt 64 _ 2

theorem lane64_cmpgt_epi64 (aarch64 : Bool) (a b j : Nat) (hj : j < 2) :
    lane 64 (_mm_cmpgt_epi64 aarch64 a b) j
      = if sint 64 (lane 64 a j) > sint 64 (lane 64 b j) then 0xFFFFFFFFFFFFFFFF else 0 := by
  cases aarch64
  · exact lane64_cmpgt_polyfill a b j hj
  · exact lane64_vcgtq_s64 a b j hj

/-! ## Horizontal minimum with index -/

theorem lane16_pack (f : Nat → Nat) (n i : Nat) (hi : i < n) :
    lane 16 (pack 16 f n) i = f i % 2 ^ 16 := lane_pack 16 (by decide) f n i hi

theorem lane16_lt (x i : Nat) : lane 16 x i < 2 ^ 16 := lane_lt 16 x i

theorem min_mod16 (x y i j : Nat) :
    min (lane 16 x i) (lane 16 y j) % 2 ^ 16 = min (lane 16 x i) (lane 16 y j) := by
  have h1 := lane16_lt x i
  have h2 := lane16_lt y j
  exact Nat.mod_eq_of_lt (lt_of_le_of_lt (Nat.min_le_left _ _) h1)

/-- The minimum computed on the ARMv7 path, in terms of the eight lanes. -/
theorem minpos_min_armv7 (a : Nat) :
    vget_lane_u16 (vpmin_u16 (vpmin_u16 (vmin_u16 (vget_low_u16 a) (vget_high_u16 a))
        (vmin_u16 (vget_low_u16 a) (vget_high_u16 a)))
      (vpmin_u16 (vmin_u16 (vget_low_u16 a) (vget_high_u16 a))
        (vmin_u16 (vget_low_u16 a) (vget_high_u16 a)))) 0
      = min (min (min (lane 16 a 0) (lane 16 a 4)) (min (lane 16 a 1) (lane 16 a 5)))
          (min (min (lane 16 a 2) (lane 16 a 6)) (min (lane 16 a 3) (lane 16 a 7))) := by
  have hlow : ∀ i, i < 4 → lane 16 (vget_low_u16 a) i = lane 16 a i := by
    intro i hi
    rw [vget_low_u16, lane16_pack _ _ _ hi, lane_mod]
  have hhigh : ∀ i, i < 4 → lane 16 (vget_high_u16 a) i = lane 16 a (i + 4) := by
    intro i hi
    rw [vget_high_u16, lane16_pack _ _ _ hi, lane_mod]
  have hmin : ∀ i, i < 4 → lane 16 (vmin_u16 (vget_low_u16 a) (vget_high_u16 a)) i
      = min (lane 16 a i) (lane 16 a (i + 4)) := by
    intro i hi
    rw [vmin_u16, lane16_pack _ _ _ hi, min_mod16, hlow i hi, hhigh i hi]
  have hp : ∀ t i, i < 2 → lane 16 (vpmin_u16 t t) i
      = min (lane 16 t (2 * i)) (lane 16 t (2 * i + 1)) := by
    intro t i hi
    rw [vpmin_u16, lane16_pack _ _ _ (by omega), if_pos hi, min_mod16]
  rw [vget_lane_u16, hp _ 0 (by decide), hp _ 0 (by decide), hp _ 1 (by decide),
    hmin 0 (by decide), hmin 1 (by decide), hmin 2 (by decide), hmin 3 (by decide)]

theorem minpos_min_aarch64 (a : Nat) :
    vminvq_u16 a
      = min (min (min (min (min (min (min (min (lane 16 a 0) (lane 16 a 0)) (lane 16 a 1))
          (lane 16 a 2)) (lane 16 a 3)) (lane 16 a 4)) (lane 16 a 5)) (lane 16 a 6))
          (lane 16 a 7) := by
  rw [vminvq_u16, show List.range 8 = [0, 1, 2, 3, 4, 5, 6, 7] from rfl]
  simp only [List.foldl]

theorem laneMin_of_bounds (a m : Nat)
    (h0 : m ≤ lane 16 a 0) (h1 : m ≤ lane 16 a 1) (h2 : m ≤ lane 16 a 2) (h3 : m ≤ lane 16 a 3)
    (h4 : m ≤ lane 16 a 4) (h5 : m ≤ lane 16 a 5) (h6 : m ≤ lane 16 a 6) (h7 : m ≤ lane 16 a 7)
    (hex : m = lane 16 a 0 ∨ m = lane 16 a 1 ∨ m = lane 16 a 2 ∨ m = lane 16 a 3 ∨
      m = lane 16 a 4 ∨ m = lane 16 a 5 ∨ m = lane 16 a 6 ∨ m = lane 16 a 7) :
    (∀ k, k < 8 → m ≤ lane 16 a k) ∧ ∃ j, j < 8 ∧ lane 16 a j = m := by
  refine ⟨?_, ?_⟩
  · intro k hk
    interval_cases k <;> assumption
  · rcases hex with h | h | h | h | h | h | h | h
    exacts [⟨0, by decide, h.symm⟩, ⟨1, by decide, h.symm⟩, ⟨2, by decide, h.symm⟩,
      ⟨3, by decide, h.symm⟩, ⟨4, by decide, h.symm⟩, ⟨5, by decide, h.symm⟩,
      ⟨6, by decide, h.symm⟩, ⟨7, by decide, h.symm⟩]

theorem minpos_min_armv7_spec (a : Nat) :
    (∀ k, k < 8 → min (min (min (lane 16 a 0) (lane 16 a 4)) (min (lane 16 a 1) (lane 16 a 5)))
          (min (min (lane 16 a 2) (lane 16 a 6)) (min (lane 16 a 3) (lane 16 a 7)))
        ≤ lane 16 a k) ∧
    ∃ j, j < 8 ∧ lane 16 a j
      = min (min (min (lane 16 a 0) (lane 16 a 4)) (min (lane 16 a 1) (lane 16 a 5)))
          (min (min (lane 16 a 2) (lane 16 a 6)) (min (lane 16 a 3) (lane 16 a 7))) := by
  apply laneMin_of_bounds <;> omega

theorem minpos_min_aarch64_spec (a : Nat) :
    (∀ k, k < 8 → min (min (min (min (min (min (min (min (lane 16 a 0) (lane 16 a 0))
          (lane 16 a 1)) (lane 16 a 2)) (lane 16 a 3)) (lane 16 a 4)) (lane 16 a 5))
          (lane 16 a 6)) (lane 16 a 7) ≤ lane 16 a k) ∧
    ∃ j, j < 8 ∧ lane 16 a j
      = min (min (min (min (min (min (min (min (lane 16 a 0) (lane 16 a 0))
          (lane 16 a 1)) (lane 16 a 2)) (lane 16 a 3)) (lane 16 a 4)) (lane 16 a 5))
          (lane 16 a 6)) (lane 16 a 7) := by
  apply laneMin_of_bounds <;> omega

theorem lane16_bytes (x k : Nat) : lane 16 x k = lane 8 x (2 * k) + lane 8 x (2 * k + 1) * 2 ^ 8 := by
  have h := lane_eq_pack 8 (by decide) 2 x k
  simp only [pack] at h
  rw [lane_mod, lane_mod] at h
  simpa using h

/-- One step of the search loop moves every 16-bit lane down by one and clears
the top lane. -/
theorem lane16_srli2 (x k : Nat) (hk : k < 8) :
    lane 16 (_mm_srli_si128 x 2) k = if k < 7 then lane 16 x (k + 1) else 0 := by
  have hb : ∀ i, i < 16 → lane 8 (_mm_srli_si128 x 2) i
      = if i + 2 < 16 then lane 8 x (i + 2) else 0 := by
    intro i hi
    show lane 8 (vextq_s8 x (vdupq_n_s8 0) 2) i = _
    rw [vextq_s8, lane_pack 8 (by decide) _ 16 i hi]
    split_ifs
    · exact lane_mod 8 _ _
    · rw [vdupq_n_s8, lane_pack 8 (by decide) _ 16 _ (by omega)]
      rfl
  rw [lane16_bytes, hb _ (by omega), hb _ (by omega)]
  by_cases h : k < 7
  · rw [if_pos (by omega), if_pos (by omega), if_pos h, lane16_bytes x (k + 1)]
    have e1 : 2 * k + 2 = 2 * (k + 1) := by ring
    have e2 : 2 * k + 1 + 2 = 2 * (k + 1) + 1 := by ring
    rw [e1, e2]
  · rw [if_neg (by omega), if_neg (by omega), if_neg h]
    rfl

/-- The search loop started at counter `i` on the register shifted down by `i`
lanes finds the first lane at or after `i` that holds `m`. -/
theorem minpos_loop_finds (a m : Nat) : ∀ n i x, i + n = 8 →
    (∀ k, i + k < 8 → lane 16 x k = lane 16 a (i + k)) →
    (∃ j, i ≤ j ∧ j < 8 ∧ lane 16 a j = m) →
    ∃ j, i ≤ j ∧ j < 8 ∧ minpos_loop m n i x = some j ∧ lane 16 a j = m ∧
      ∀ k, i ≤ k → k < j → lane 16 a k ≠ m := by
  intro n
  induction n with
  | zero =>
    intro i x hin _ hex
    obtain ⟨j, h1, h2, _⟩ := hex
    omega
  | succ n ih =>
    intro i x hin hx hex
    have h0 : lane 16 x 0 = lane 16 a i := by
      have := hx 0 (by omega)
      simpa using this
    by_cases hm : m = lane 16 a i
    · refine ⟨i, le_refl _, by omega, ?_, hm.symm, ?_⟩
      · rw [minpos_loop, vgetq_lane_u16, h0, if_pos hm]
      · intro k hk1 hk2
        omega
    · obtain ⟨j, hj1, hj2, hj3⟩ := hex
      have hij : i ≠ j := by
        intro h
        rw [h] at hm
        exact hm hj3.symm
      have hx2 : ∀ k, i + 1 + k < 8 → lane 16 (_mm_srli_si128 x 2) k = lane 16 a (i + 1 + k) := by
        intro k hk
        rw [lane16_srli2 x k (by omega), if_pos (by omega), hx (k + 1) (by omega)]
        congr 1
        omega
      obtain ⟨j2, g1, g2, g3, g4, g5⟩ := ih (i + 1) (_mm_srli_si128 x 2) (by omega) hx2
        ⟨j, by omega, hj2, hj3⟩
      refine ⟨j2, by omega, g2, ?_, g4, ?_⟩
      · rw [minpos_loop, vgetq_lane_u16, h0, if_neg hm]
        exact g3
      · intro k hk1 hk2
        by_cases hki : k = i
        · rw [hki]
          exact fun h => hm h.symm
        · exact g5 k (by omega) hk2

theorem lane16_minpos_dst (m idx i : Nat) (hm : m < 2 ^ 16) (hidx : idx < 2 ^ 16) (hi : i < 8) :
    lane 16 (vsetq_lane_u16 idx (vsetq_lane_u16 m _mm_setzero_si128 0) 1) i
      = if i = 0 then m else if i = 1 then idx else 0 := by
  have hs : ∀ v q k, lane 16 (vsetq_lane_u16 v q k) i
      = if i = k then v % 2 ^ 16 else lane 16 q i := by
    intro v q k
    rw [vsetq_lane_u16, lane16_pack _ _ _ hi]
    split_ifs
    · rfl
    · exact lane_mod 16 _ _
  rw [hs, hs, lane16_setzero, Nat.mod_eq_of_lt hm, Nat.mod_eq_of_lt hidx]
  by_cases h1 : i = 1
  · subst h1; simp
  · simp [h1]

theorem minpos_core (a m : Nat) (hb : ∀ k, k < 8 → m ≤ lane 16 a k)
    (hex : ∃ j, j < 8 ∧ lane 16 a j = m) :
    ∃ j, j < 8 ∧
      (∀ k, k < 8 → lane 16 a j ≤ lane 16 a k) ∧
      (∀ k, k < j → lane 16 a k ≠ lane 16 a j) ∧
      minpos_loop (lane 16 a j) 8 0 a = some j ∧
      lane 16 (vsetq_lane_u16 ((minpos_loop m 8 0 a).getD 0)
        (vsetq_lane_u16 m _mm_setzero_si128 0) 1) 0 = lane 16 a j ∧
      lane 16 (vsetq_lane_u16 ((minpos_loop m 8 0 a).getD 0)
        (vsetq_lane_u16 m _mm_setzero_si128 0) 1) 1 = j ∧
      (∀ i, 2 ≤ i → lane 16 (vsetq_lane_u16 ((minpos_loop m 8 0 a).getD 0)
        (vsetq_lane_u16 m _mm_setzero_si128 0) 1) i = 0) := by
  obtain ⟨j0, hj0, hj0m⟩ := hex
  obtain ⟨j, _, hj, hloop, hjm, hfirst⟩ := minpos_loop_finds a m 8 0 a (by decide)
    (fun k _ => by rw [Nat.zero_add]) ⟨j0, Nat.zero_le _, hj0, hj0m⟩
  have hm16 : m < 2 ^ 16 := by rw [← hjm]; exact lane16_lt a j
  have hj16 : j < 2 ^ 16 := lt_trans hj (by decide)
  refine ⟨j, hj, ?_, ?_, ?_, ?_, ?_, ?_⟩
  · intro k hk
    rw [hjm]
    exact hb k hk
  · intro k hk
    rw [hjm]
    exact hfirst k (Nat.zero_le _) hk
  · rw [hjm]
    exact hloop
  · rw [hloop, Option.getD_some, lane16_minpos_dst m j 0 hm16 hj16 (by decide), hjm]
    rfl
  · rw [hloop, Option.getD_some, lane16_minpos_dst m j 1 hm16 hj16 (by decide)]
    rfl
  · intro i hi
    rw [hloop, Option.getD_some]
    by_cases h8 : i < 8
    · rw [lane16_minpos_dst m j i hm16 hj16 h8, if_neg (by omega), if_neg (by omega)]
    · exact lane_pack_ge 16 _ 8 i (by omega)

theorem minpos_unfold_armv7 (a : Nat) :
    _mm_minpos_epu16 false a
      = vsetq_lane_u16 ((minpos_loop
          (vget_lane_u16 (vpmin_u16 (vpmin_u16 (vmin_u16 (vget_low_u16 a) (vget_high_u16 a))
              (vmin_u16 (vget_low_u16 a) (vget_high_u16 a)))
            (vpmin_u16 (vmin_u16 (vget_low_u16 a) (vget_high_u16 a))
              (vmin_u16 (vget_low_u16 a) (vget_high_u16 a)))) 0) 8 0 a).getD 0)
        (vsetq_lane_u16
          (vget_lane_u16 (vpmin_u16 (vpmin_u16 (vmin_u16 (vget_low_u16 a) (vget_high_u16 a))
              (vmin_u16 (vget_low_u16 a) (vget_high_u16 a)))
            (vpmin_u16 (vmin_u16 (vget_low_u16 a) (vget_high_u16 a))
              (vmin_u16 (vget_low_u16 a) (vget_high_u16 a)))) 0) _mm_setzero_si128 0) 1 :=
  rfl

theorem minpos_unfold_aarch64 (a : Nat) :
    _mm_minpos_epu16 true a
      = vsetq_lane_u16 ((minpos_loop (vminvq_u16 a) 8 0 a).getD 0)
        (vsetq_lane_u16 (vminvq_u16 a) _mm_setzero_si128 0) 1 :=
  rfl

/-- C28 (the code at a count with bit 63 set): with the count register whose
low 64 bits are all ones (`c = 2^64 - 1 > 15` as an unsigned integer) and the
lanes `0x8001, 1, 1, 1, 1, 1, 1, 1`, `_mm_sra_epi16` reads `c` as the signed
value `-1`, skips the `c > 15` branch and shifts every lane LEFT by one
(`0x0002` in every lane), whereas the arithmetic shift by `min(c, 15) = 15`
gives `0xFFFF` in the negative lane 0 and 0 elsewhere; the sibling
`_mm_srl_epi16`, which reads the count as `uint64_t`, takes its `c > 15`
branch on the same count. -/
theorem sra_epi16_count_bit63 :
    _mm_sra_epi16 0x00010001000100010001000100018001 0xFFFFFFFFFFFFFFFF
      = 0x00020002000200020002000200020002 ∧
    sra_epi16_documented 0x00010001000100010001000100018001 0xFFFFFFFFFFFFFFFF
      = 0x0000000000000000000000000000FFFF ∧
    _mm_srl_epi16 0x00010001000100010001000100018001 0xFFFFFFFFFFFFFFFF = 0 := by
  decide!

/-- C29: for all registers `a`, `b`, the ARMv7 polyfill path of
`_mm_cmpgt_epi64` is a 128-bit register whose 64-bit lanes are all ones when
the signed 64-bit lane of `a` is strictly greater than that of `b` and zero
otherwise; it is the register `vcgtq_s64` returns on aarch64. -/
theorem cmpgt_epi64_polyfill (a b : Nat) :
    _mm_cmpgt_epi64 false a b < 2 ^ 128 ∧
    lane 64 (_mm_cmpgt_epi64 false a b) 0
      = (if sint 64 (lane 64 a 0) > sint 64 (lane 64 b 0) then 0xFFFFFFFFFFFFFFFF else 0) ∧
    lane 64 (_mm_cmpgt_epi64 false a b) 1
      = (if sint 64 (lane 64 a 1) > sint 64 (lane 64 b 1) then 0xFFFFFFFFFFFFFFFF else 0) ∧
    _mm_cmpgt_epi64 false a b = _mm_cmpgt_epi64 true a b := by
  refine ⟨cmpgt_epi64_lt false a b, lane64_cmpgt_epi64 false a b 0 (by decide),
    lane64_cmpgt_epi64 false a b 1 (by decide), ?_⟩
  refine reg_ext 64 (by decide) 2 _ _ (cmpgt_epi64_lt _ a b) (cmpgt_epi64_lt _ a b) ?_
  intro j hj
  rw [lane64_cmpgt_epi64 _ a b j hj, lane64_cmpgt_epi64 _ a b j hj]

/-- C30: for every register `a` of eight unsigned 16-bit lanes, on both paths
of the minimum, there is an index `j < 8` such that `a.lane[j]` is the minimum
of the eight lanes, no lane before `j` holds that minimum, the index search
loop takes its `break` at counter `j`, and `_mm_minpos_epu16(a)` has 16-bit
lane 0 equal to the minimum, lane 1 equal to `j` and every other lane zero. -/
theorem minpos_epu16_result (aarch64 : Bool) (a : Nat) :
    ∃ j, j < 8 ∧
      (∀ k, k < 8 → lane 16 a j ≤ lane 16 a k) ∧
      (∀ k, k < j → lane 16 a k ≠ lane 16 a j) ∧
      minpos_loop (lane 16 a j) 8 0 a = some j ∧
      lane 16 (_mm_minpos_epu16 aarch64 a) 0 = lane 16 a j ∧
      lane 16 (_mm_minpos_epu16 aarch64 a) 1 = j ∧
      (∀ i, 2 ≤ i → lane 16 (_mm_minpos_epu16 aarch64 a) i = 0) := by
  cases aarch64
  · rw [minpos_unfold_armv7, minpos_min_armv7]
    exact minpos_core a _ (minpos_min_armv7_spec a).1 (minpos_min_armv7_spec a).2
  · rw [minpos_unfold_aarch64, minpos_min_aarch64]
    exact minpos_core a _ (minpos_min_aarch64_spec a).1 (minpos_min_aarch64_spec a).2

/-! ## The conversion and rounding intrinsics at the inputs where they go wrong -/

/-- C21 (the code at inputs where the two software paths differ): on the
register whose lane 0 is `8388609.0f` (bit pattern `0x4B000001`, other lanes
zero), lane 0 of the non-aarch64 `_mm_cvtps_epi32` is 8388610, because
`a + 0.5` is halfway between two binary32 values and rounds to the even one,
while the non-aarch64 `_mm_cvt_ss2si` returns 8388609; on lane 0 equal to
`0.49999997f` (`0x3EFFFFFF`) the packed path gives 1 and the scalar path 0.
The aarch64 paths of both return 8388609 and 0. -/
theorem cvtps_epi32_cvt_ss2si_diverge :
    (_mm_cvtps_epi32 false 0x4B000001).map (fun r => sint 32 (lane 32 r 0)) = some 8388610 ∧
    _mm_cvt_ss2si false 0x4B000001 = some 8388609 ∧
    (_mm_cvtps_epi32 false 0x3EFFFFFF).map (fun r => sint 32 (lane 32 r 0)) = some 1 ∧
    _mm_cvt_ss2si false 0x3EFFFFFF = some 0 ∧
    (_mm_cvtps_epi32 true 0x4B000001).map (fun r => sint 32 (lane 32 r 0)) = some 8388609 ∧
    _mm_cvt_ss2si true 0x4B000001 = some 8388609 ∧
    (_mm_cvtps_epi32 true 0x3EFFFFFF).map (fun r => sint 32 (lane 32 r 0)) = some 0 ∧
    _mm_cvt_ss2si true 0x3EFFFFFF = some 0 ∧
    (f32_decode 0x4B000001).map Fp.toInt = some (8388609 * 2 ^ 149) := by
  decide!

/-- C22 (the code at inputs where it does not round toward zero): with
`rounding = _MM_FROUND_TO_ZERO | _MM_FROUND_NO_EXC`, the non-aarch64 path of
`_mm_round_ps` returns `2.0f` in every lane for four lanes `1.5f` and `-2.0f`
for four lanes `-1.5f`, where rounding toward zero gives `1.0f` and `-1.0f`;
and for the lanes `0.5f, 1.5f, 2.5f, 3.5f` it returns `4.0f, 3.0f, 2.0f, 1.0f`
(the ceilings in reversed lane order) where rounding toward zero gives
`0.0f, 1.0f, 2.0f, 3.0f`.  The aarch64 path returns the values rounded toward
zero. -/
theorem round_ps_toward_zero_wrong :
    _mm_round_ps false (vld1q_f32 [0x3FC00000, 0x3FC00000, 0x3FC00000, 0x3FC00000])
        ((_MM_FROUND_TO_ZERO ||| _MM_FROUND_NO_EXC : Nat) : Int)
      = some (vld1q_f32 [0x40000000, 0x40000000, 0x40000000, 0x40000000]) ∧
    round_ps_toward_zero_documented (vld1q_f32 [0x3FC00000, 0x3FC00000, 0x3FC00000, 0x3FC00000])
      = some (vld1q_f32 [0x3F800000, 0x3F800000, 0x3F800000, 0x3F800000]) ∧
    _mm_round_ps false (vld1q_f32 [0xBFC00000, 0xBFC00000, 0xBFC00000, 0xBFC00000])
        ((_MM_FROUND_TO_ZERO ||| _MM_FROUND_NO_EXC : Nat) : Int)
      = some (vld1q_f32 [0xC0000000, 0xC0000000, 0xC0000000, 0xC0000000]) ∧
    round_ps_toward_zero_documented (vld1q_f32 [0xBFC00000, 0xBFC00000, 0xBFC00000, 0xBFC00000])
      = some (vld1q_f32 [0xBF800000, 0xBF800000, 0xBF800000, 0xBF800000]) ∧
    _mm_round_ps false (vld1q_f32 [0x3F000000, 0x3FC00000, 0x40200000, 0x40600000])
        ((_MM_FROUND_TO_ZERO ||| _MM_FROUND_NO_EXC : Nat) : Int)
      = some (vld1q_f32 [0x40800000, 0x40400000, 0x40000000, 0x3F800000]) ∧
    round_ps_toward_zero_documented (vld1q_f32 [0x3F000000, 0x3FC00000, 0x40200000, 0x40600000])
      = some (vld1q_f32 [0x00000000, 0x3F800000, 0x40000000, 0x40400000]) ∧
    _mm_round_ps true (vld1q_f32 [0x3F000000, 0x3FC00000, 0x40200000, 0x40600000])
        ((_MM_FROUND_TO_ZERO ||| _MM_FROUND_NO_EXC : Nat) : Int)
      = some (vld1q_f32 [0x00000000, 0x3F800000, 0x40000000, 0x40400000]) := by
  decide!

/-- C27 (the code at an integer-valued input of magnitude `2^31`): on lane 0
equal to `2147483648.0f` (bit pattern `0x4F000000`), whose value is the integer
`2^31`, `_mm_cvtss_si64` does not return `2^31`: its return type is `int`, so
the non-aarch64 path returns the 64-bit value reduced to 32 bits,
`-2147483648`, and the aarch64 path, which converts with `vcvtnq_s32_f32`,
returns the saturated `2147483647`. -/
theorem cvtss_si64_returns_int :
    (f32_decode 0x4F000000).map Fp.intValue = some 2147483648 ∧
    _mm_cvtss_si64 false 0x4F000000 = some (-2147483648) ∧
    _mm_cvtss_si64 true 0x4F000000 = some 2147483647 := by
  decide!

/-! ## The S-box and the round tables as data -/

theorem sbox_length : SSE2NEON_sbox.length = 256 := by
  set_option maxRecDepth 100000 in decide

theorem sbox_nodup : SSE2NEON_sbox.Nodup := by
  decide!

theorem sbox_no_fixed_point : ∀ x, x < 256 → SSE2NEON_sbox.getD x 0 ≠ x := by
  decide!

theorem sbox_surjective : ∀ v, v < 256 → v ∈ SSE2NEON_sbox := by
  decide!

theorem sbox_injective (x y : Nat) (hx : x < 256) (hy : y < 256)
    (h : SSE2NEON_sbox.getD x 0 = SSE2NEON_sbox.getD y 0) : x = y := by
  have hx2 : x < SSE2NEON_sbox.length := by rw [sbox_length]; exact hx
  have hy2 : y < SSE2NEON_sbox.length := by rw [sbox_length]; exact hy
  rw [List.getD_eq_getElem _ _ hx2, List.getD_eq_getElem _ _ hy2] at h
  exact (List.Nodup.getElem_inj_iff sbox_nodup).mp h

theorem sbox_hits (v : Nat) (hv : v < 256) : ∃ x, x < 256 ∧ SSE2NEON_sbox.getD x 0 = v := by
  obtain ⟨x, hx, hxv⟩ := List.getElem_of_mem (sbox_surjective v hv)
  refine ⟨x, ?_, ?_⟩
  · rw [← sbox_length]; exact hx
  · rw [List.getD_eq_getElem _ _ hx]; exact hxv

theorem gfInv_inverse : ∀ x, x < 256 →
    gfInv x < 256 ∧ (x = 0 → gfInv x = 0) ∧ (x ≠ 0 → gfMul x (gfInv x) = 1) := by
  decide!

theorem bitOf_eq_toNat (y k : Nat) : bitOf y k = (y.testBit k).toNat := by
  unfold bitOf
  rw [Nat.testBit_to_div_mod, Nat.shiftRight_eq_div_pow]
  rcases Nat.mod_two_eq_zero_or_one (y / 2 ^ k) with h | h <;> simp [h]

theorem parity_of_six : ∀ a b c d e f : Bool,
    (a.toNat + b.toNat + c.toNat + d.toNat + e.toNat + f.toNat).testBit 0
      = Bool.xor (Bool.xor (Bool.xor (Bool.xor (Bool.xor a b) c) d) e) f := by
  decide

theorem sbox_affine_bits (x i : Nat) (hx : x < 256) (hi : i < 8) :
    (SSE2NEON_sbox.getD x 0).testBit i
      = Bool.xor (Bool.xor (Bool.xor (Bool.xor (Bool.xor ((gfInv x).testBit i)
          ((gfInv x).testBit ((i + 4) % 8))) ((gfInv x).testBit ((i + 5) % 8)))
          ((gfInv x).testBit ((i + 6) % 8))) ((gfInv x).testBit ((i + 7) % 8)))
          ((0x63).testBit i) := by
  rw [← sbox_eq_AES_Sbox x hx, AES_Sbox, testBit_pack 1 (by decide), Nat.div_one, Nat.mod_one,
    Nat.one_mul]
  simp only [bitOf_eq_toNat, parity_of_six, hi, decide_True, Bool.true_and]

theorem aes_F2_facts : ∀ s, s < 256 →
    SSE2NEON_AES_F2 s < 256 ∧ SSE2NEON_AES_F2 s = xtime s ∧ SSE2NEON_AES_F2 s = gfMul s 2 := by
  decide!

theorem aesU_facts : ∀ s, s < 256 →
    aesU 0 s < 2 ^ 32 ∧
    lane 8 (aesU 0 s) 0 = SSE2NEON_AES_F2 s ∧ lane 8 (aesU 0 s) 1 = s ∧
    lane 8 (aesU 0 s) 2 = s ∧ lane 8 (aesU 0 s) 3 = SSE2NEON_AES_F2 s ^^^ s ∧
    aesU 1 s = rotl32 (aesU 0 s) 8 ∧ aesU 2 s = rotl32 (aesU 0 s) 16 ∧
    aesU 3 s = rotl32 (aesU 0 s) 24 := by
  decide!

/-- C34: for all `a`, `b` and every code `imm` (in particular every code in
0..255), the variant of `_mm_shuffle_ps` lowered to `__builtin_shufflevector`
with the indices `imm & 3`, `(imm >> 2) & 3`, `((imm >> 4) & 3) + 4`,
`((imm >> 6) & 3) + 4` returns the register `_mm_shuffle_ps_default(a, b, imm)`
returns. -/
theorem shuffle_ps_builtin_eq_default (a b imm : Nat) :
    _mm_shuffle_ps true a b imm
      = __builtin_shufflevector a b (imm &&& 0x3) ((imm >>> 2) &&& 0x3)
          (((imm >>> 4) &&& 0x3) + 4) (((imm >>> 6) &&& 0x3) + 4) ∧
    _mm_shuffle_ps true a b imm = _mm_shuffle_ps_default a b imm :=
  ⟨rfl, builtin_shufflevector_two_source a b imm⟩

/-- C36: on both definitions of its interleave steps, the polyfill
`_sse2neon_vmull_p64` is linear over GF(2) in each argument:
`vmull(x ^ x', y) = vmull(x, y) ^ vmull(x', y)` and
`vmull(x, y ^ y') = vmull(x, y) ^ vmull(x, y')`; bit by bit, every bit of the
product of a XOR is the XOR of the matching bits of the two products. -/
theorem vmull_p64_linear (aarch64 : Bool) (x x' y y' k : Nat) :
    _sse2neon_vmull_p64 aarch64 (x ^^^ x') y
      = _sse2neon_vmull_p64 aarch64 x y ^^^ _sse2neon_vmull_p64 aarch64 x' y ∧
    _sse2neon_vmull_p64 aarch64 x (y ^^^ y')
      = _sse2neon_vmull_p64 aarch64 x y ^^^ _sse2neon_vmull_p64 aarch64 x y' ∧
    (_sse2neon_vmull_p64 aarch64 (x ^^^ x') y).testBit k
      = Bool.xor ((_sse2neon_vmull_p64 aarch64 x y).testBit k)
          ((_sse2neon_vmull_p64 aarch64 x' y).testBit k) ∧
    (_sse2neon_vmull_p64 aarch64 x (y ^^^ y')).testBit k
      = Bool.xor ((_sse2neon_vmull_p64 aarch64 x y).testBit k)
          ((_sse2neon_vmull_p64 aarch64 x y').testBit k) := by
  refine ⟨vmull_p64_xor_left aarch64 x x' y, vmull_p64_xor_right aarch64 x y y', ?_, ?_⟩
  · rw [vmull_p64_xor_left, Nat.testBit_xor]
  · rw [vmull_p64_xor_right, Nat.testBit_xor]

/-- C37: the table `SSE2NEON_sbox` has 256 entries, all below 256, and is a
permutation of the byte values: for `x`, `y` in 0..255, equal entries imply
`x = y`, every byte value `x` is the entry of some index, and no entry equals
its index. -/
theorem sbox_permutation (x y : Nat) (hx : x < 256) (hy : y < 256) :
    SSE2NEON_sbox.length = 256 ∧
    SSE2NEON_sbox.getD x 0 < 256 ∧
    (SSE2NEON_sbox.getD x 0 = SSE2NEON_sbox.getD y 0 → x = y) ∧
    (∃ z, z < 256 ∧ SSE2NEON_sbox.getD z 0 = x) ∧
    SSE2NEON_sbox.getD x 0 ≠ x :=
  ⟨sbox_length, sbox_getD_lt x, sbox_injective x y hx hy, sbox_hits x hx,
    sbox_no_fixed_point x hx⟩

/-- Instance of `sbox_permutation` at the indices `0x53` and `0x10`. -/
theorem sbox_permutation_witness :
    SSE2NEON_sbox.length = 256 ∧
    SSE2NEON_sbox.getD 0x53 0 < 256 ∧
    (SSE2NEON_sbox.getD 0x53 0 = SSE2NEON_sbox.getD 0x10 0 → 0x53 = 0x10) ∧
    (∃ z, z < 256 ∧ SSE2NEON_sbox.getD z 0 = 0x53) ∧
    SSE2NEON_sbox.getD 0x53 0 ≠ 0x53 :=
  sbox_permutation 0x53 0x10 (by decide) (by decide)

/-- C38: for every byte `x`, with `y = gfInv x` the multiplicative inverse of
`x` in GF(2^8) modulo `x^8 + x^4 + x^3 + x + 1` (`y` is a byte, the product of
`x` and `y` is 1 when `x` is not 0, and `y = 0` for `x = 0`), bit `i < 8` of
`SSE2NEON_sbox[x]` is
`y_i ^ y_((i+4) mod 8) ^ y_((i+5) mod 8) ^ y_((i+6) mod 8) ^ y_((i+7) mod 8)`
XOR bit `i` of `0x63`. -/
theorem sbox_arithmetic (x i : Nat) (hx : x < 256) (hi : i < 8) :
    gfInv x < 256 ∧ (x = 0 → gfInv x = 0) ∧ (x ≠ 0 → gfMul x (gfInv x) = 1) ∧
    (SSE2NEON_sbox.getD x 0).testBit i
      = Bool.xor (Bool.xor (Bool.xor (Bool.xor (Bool.xor ((gfInv x).testBit i)
          ((gfInv x).testBit ((i + 4) % 8))) ((gfInv x).testBit ((i + 5) % 8)))
          ((gfInv x).testBit ((i + 6) % 8))) ((gfInv x).testBit ((i + 7) % 8)))
          ((0x63).testBit i) :=
  ⟨(gfInv_inverse x hx).1, (gfInv_inverse x hx).2.1, (gfInv_inverse x hx).2.2,
    sbox_affine_bits x i hx hi⟩

/-- Instance of `sbox_arithmetic` at the byte `0x53`, bit 3. -/
theorem sbox_arithmetic_witness :
    gfInv 0x53 < 256 ∧ (0x53 = 0 → gfInv 0x53 = 0) ∧ (0x53 ≠ 0 → gfMul 0x53 (gfInv 0x53) = 1) ∧
    (SSE2NEON_sbox.getD 0x53 0).testBit 3
      = Bool.xor (Bool.xor (Bool.xor (Bool.xor (Bool.xor ((gfInv 0x53).testBit 3)
          ((gfInv 0x53).testBit ((3 + 4) % 8))) ((gfInv 0x53).testBit ((3 + 5) % 8)))
          ((gfInv 0x53).testBit ((3 + 6) % 8))) ((gfInv 0x53).testBit ((3 + 7) % 8)))
          ((0x63).testBit 3) :=
  sbox_arithmetic 0x53 3 (by decide) (by decide)

/-- C39: for every byte `p`, with `s = SSE2NEON_sbox[p]`: `SSE2NEON_AES_F2(s)`
is below 256 and is the GF(2^8) doubling of `s`; the entry `aes_table[0][p]` is
a 32-bit word with bytes (low to high) `F2(s)`, `s`, `s`, `F2(s) ^ s`; and for
`k = 1, 2, 3` the entry `aes_table[k][p]` is `aes_table[0][p]` rotated left by
`8 k` bits. -/
theorem aes_table_rows (p : Nat) (hp : p < 256) :
    SSE2NEON_AES_F2 (SSE2NEON_sbox.getD p 0) < 256 ∧
    SSE2NEON_AES_F2 (SSE2NEON_sbox.getD p 0) = xtime (SSE2NEON_sbox.getD p 0) ∧
    SSE2NEON_AES_F2 (SSE2NEON_sbox.getD p 0) = gfMul (SSE2NEON_sbox.getD p 0) 2 ∧
    (aes_table 0).getD p 0 < 2 ^ 32 ∧
    lane 8 ((aes_table 0).getD p 0) 0 = SSE2NEON_AES_F2 (SSE2NEON_sbox.getD p 0) ∧
    lane 8 ((aes_table 0).getD p 0) 1 = SSE2NEON_sbox.getD p 0 ∧
    lane 8 ((aes_table 0).getD p 0) 2 = SSE2NEON_sbox.getD p 0 ∧
    lane 8 ((aes_table 0).getD p 0) 3
      = SSE2NEON_AES_F2 (SSE2NEON_sbox.getD p 0) ^^^ SSE2NEON_sbox.getD p 0 ∧
    (aes_table 1).getD p 0 = rotl32 ((aes_table 0).getD p 0) 8 ∧
    (aes_table 2).getD p 0 = rotl32 ((aes_table 0).getD p 0) 16 ∧
    (aes_table 3).getD p 0 = rotl32 ((aes_table 0).getD p 0) 24 := by
  have _ := hp
  have hs := sbox_getD_lt p
  obtain ⟨f1, f2, f3⟩ := aes_F2_facts _ hs
  obtain ⟨u0, u1, u2, u3, u4, u5, u6, u7⟩ := aesU_facts _ hs
  simp only [aes_table_getD]
  exact ⟨f1, f2, f3, u0, u1, u2, u3, u4, u5, u6, u7⟩

/-- Instance of `aes_table_rows` at the index `0x53`. -/
theorem aes_table_rows_witness :
    SSE2NEON_AES_F2 (SSE2NEON_sbox.getD 0x53 0) < 256 ∧
    SSE2NEON_AES_F2 (SSE2NEON_sbox.getD 0x53 0) = xtime (SSE2NEON_sbox.getD 0x53 0) ∧
    SSE2NEON_AES_F2 (SSE2NEON_sbox.getD 0x53 0) = gfMul (SSE2NEON_sbox.getD 0x53 0) 2 ∧
    (aes_table 0).getD 0x53 0 < 2 ^ 32 ∧
    lane 8 ((aes_table 0).getD 0x53 0) 0 = SSE2NEON_AES_F2 (SSE2NEON_sbox.getD 0x53 0) ∧
    lane 8 ((aes_table 0).getD 0x53 0) 1 = SSE2NEON_sbox.getD 0x53 0 ∧
    lane 8 ((aes_table 0).getD 0x53 0) 2 = SSE2NEON_sbox.getD 0x53 0 ∧
    lane 8 ((aes_table 0).getD 0x53 0) 3
      = SSE2NEON_AES_F2 (SSE2NEON_sbox.getD 0x53 0) ^^^ SSE2NEON_sbox.getD 0x53 0 ∧
    (aes_table 1).getD 0x53 0 = rotl32 ((aes_table 0).getD 0x53 0) 8 ∧
    (aes_table 2).getD 0x53 0 = rotl32 ((aes_table 0).getD 0x53 0) 16 ∧
    (aes_table 3).getD 0x53 0 = rotl32 ((aes_table 0).getD 0x53 0) 24 :=
  aes_table_rows 0x53 (by decide)

/-- The four lanes of `_mm_shuffle_ps_2301`. -/
theorem lane_shuffle_ps_2301 (a b i : Nat) (hi : i < 4) :
    lane 32 (_mm_shuffle_ps_2301 a b) i
      = if i = 0 then lane 32 a 1 else if i = 1 then lane 32 a 0
        else if i = 2 then lane 32 b 3 else lane 32 b 2 := by
  rw [shuffle_ps_2301_eq_default, lane_shuffle_ps_default a b _ i hi]
  rfl

/-- C40, the claim as stated fails: for `a` with lanes 1, 2, 3, 4 and `b` with
lanes 5, 6, 7, 8, the result of `_mm_shuffle_ps_2301(a, b)` does not hold the
swapped low pair of `a` in its high end (lanes 2, 3) and the swapped high pair
of `b` in its low end (lanes 0, 1). -/
theorem shuffle_ps_2301_not_as_commented :
    ¬ (lane 32 (_mm_shuffle_ps_2301 0x00000004000000030000000200000001
          0x00000008000000070000000600000005) 2
        = lane 32 0x00000004000000030000000200000001 1 ∧
      lane 32 (_mm_shuffle_ps_2301 0x00000004000000030000000200000001
          0x00000008000000070000000600000005) 3
        = lane 32 0x00000004000000030000000200000001 0 ∧
      lane 32 (_mm_shuffle_ps_2301 0x00000004000000030000000200000001
          0x00000008000000070000000600000005) 0
        = lane 32 0x00000008000000070000000600000005 3 ∧
      lane 32 (_mm_shuffle_ps_2301 0x00000004000000030000000200000001
          0x00000008000000070000000600000005) 1
        = lane 32 0x00000008000000070000000600000005 2) := by
  decide

/-- C40, amended: for all `a`, `b`, `_mm_shuffle_ps_2301(a, b)` is a 128-bit
register that holds the lower two 32-bit values of `a`, swapped, in its low end
(lane 0 is `a[1]`, lane 1 is `a[0]`) and the higher two 32-bit values of `b`,
swapped, in its high end (lane 2 is `b[3]`, lane 3 is `b[2]`). -/
theorem shuffle_ps_2301_lanes (a b : Nat) :
    _mm_shuffle_ps_2301 a b < 2 ^ 128 ∧
    lane 32 (_mm_shuffle_ps_2301 a b) 0 = lane 32 a 1 ∧
    lane 32 (_mm_shuffle_ps_2301 a b) 1 = lane 32 a 0 ∧
    lane 32 (_mm_shuffle_ps_2301 a b) 2 = lane 32 b 3 ∧
    lane 32 (_mm_shuffle_ps_2301 a b) 3 = lane 32 b 2 := by
  refine ⟨pack_lt 32 _ 4, ?_, ?_, ?_, ?_⟩
  · rw [lane_shuffle_ps_2301 a b 0 (by decide)]; rfl
  · rw [lane_shuffle_ps_2301 a b 1 (by decide)]; rfl
  · rw [lane_shuffle_ps_2301 a b 2 (by decide)]; rfl
  · rw [lane_shuffle_ps_2301 a b 3 (by decide)]; rfl

/-! ## The byte mask: the aarch64 path against the reduction tree -/

theorem movemask_shift_lanes : ∀ i, i < 16 →
    sint 8 (lane 8 (vld1q_s8 [-7, -6, -5, -4, -3, -2, -1, 0, -7, -6, -5, -4, -3, -2, -1, 0]) i)
      = -((7 - i % 8 : Nat) : Int) := by
  decide!

theorem movemask_shifted_bit : ∀ x, x < 256 → ∀ r, r < 8 →
    ushl 8 (x &&& 0x80) (-((7 - r : Nat) : Int)) % 2 ^ 8 = (x >>> 7) % 2 ^ 1 * 2 ^ (1 * r) := by
  decide!

/-- Byte `i` of the masked and shifted register of the aarch64 path: the top
bit of byte `i` of the input, moved to bit `i mod 8`. -/
theorem lane8_movemask_shifted (a i : Nat) (hi : i < 16) :
    lane 8 (vshlq_u8 (vandq_u8 a (vdupq_n_u8 0x80))
        (vld1q_s8 [-7, -6, -5, -4, -3, -2, -1, 0, -7, -6, -5, -4, -3, -2, -1, 0])) i
      = (lane 8 a i >>> 7) % 2 ^ 1 * 2 ^ (1 * (i % 8)) := by
  rw [vshlq_u8, lane_pack 8 (by decide) _ 16 i hi, lane8_vandq_u8 _ _ i hi,
    movemask_shift_lanes i hi, vdupq_n_u8, lane_pack 8 (by decide) _ 16 i hi]
  exact movemask_shifted_bit _ (lane8_lt a i) _ (Nat.mod_lt _ (by decide))

theorem laneSum_eq_pack (d : Nat) (f : Nat → Nat) (n : Nat)
    (h : ∀ r, r < n → lane 8 d r = f r % 2 ^ 1 * 2 ^ (1 * r)) : laneSum 8 d n = pack 1 f n := by
  induction n with
  | zero => rfl
  | succ n ih =>
    rw [laneSum, pack, ih (fun r hr => h r (Nat.lt_succ_of_lt hr)), h n (Nat.lt_succ_self n)]

theorem vaddv_movemask_half (a j : Nat) (hj : j < 2) (half : Nat)
    (hhalf : ∀ r, r < 8 → lane 8 half r
      = lane 8 (vshlq_u8 (vandq_u8 a (vdupq_n_u8 0x80))
          (vld1q_s8 [-7, -6, -5, -4, -3, -2, -1, 0, -7, -6, -5, -4, -3, -2, -1, 0])) (8 * j + r)) :
    vaddv_u8 half = pack 1 (fun r => lane 8 a (8 * j + r) >>> 7) 8 := by
  rw [vaddv_u8, laneSum_eq_pack half (fun r => lane 8 a (8 * j + r) >>> 7) 8]
  · exact Nat.mod_eq_of_lt (pack_lt 1 _ 8)
  · intro r hr
    rw [hhalf r hr, lane8_movemask_shifted a (8 * j + r) (by omega)]
    have : (8 * j + r) % 8 = r := by omega
    rw [this]

/-- The aarch64 path computes the same integer as the reduction tree. -/
theorem movemask_epi8_paths_agree (a : Nat) :
    _mm_movemask_epi8 true a = _mm_movemask_epi8 false a := by
  rw [movemask_epi8_tree_eq]
  show vaddv_u8 (vget_low_u8 _) + (vaddv_u8 (vget_high_u8 _) <<< 8) = _
  rw [vaddv_movemask_half a 0 (by decide) _ (fun r hr => by
        rw [lane8_vget_low_u8 _ _ hr, Nat.mul_zero, Nat.zero_add]),
    vaddv_movemask_half a 1 (by decide) _ (fun r hr => by
        rw [lane8_vget_high_u8 _ _ hr, Nat.mul_one, Nat.add_comm])]
  have hlt : pack 1 (fun r => lane 8 a (8 * 0 + r) >>> 7) 8 < 2 ^ 8 := pack_lt 1 _ 8
  rw [Nat.add_comm, Nat.shiftLeft_eq, Nat.mul_comm _ (2 ^ 8), Nat.mul_add_lt_is_or hlt,
    Nat.lor_comm]

/-- C33: for every register `a`, the aarch64 path of `_mm_movemask_epi8` (mask
with `0x80`, shift byte `i` right by `7 - (i mod 8)`, add each 8-byte half
horizontally, combine as `lo + (hi << 8)`) returns the same integer as the
shift/add reduction tree of the ARMv7 path. -/
theorem movemask_epi8_aarch64_eq_tree (a : Nat) :
    _mm_movemask_epi8 true a = _mm_movemask_epi8 false a :=
  movemask_epi8_paths_agree a

/-! ## The key-generation helper: the crypto-extension path -/

/-- Rotating a word right by one byte moves byte `r + 1` to position `r`. -/
theorem RotWord_pack (f : Nat → Nat) :
    RotWord (pack 8 f 4) = pack 8 (fun r => f ((r + 1) % 4)) 4 := by
  have h0 : f 0 % 2 ^ 8 < 2 ^ 8 := Nat.mod_lt _ (by decide)
  have h1 : f 1 % 2 ^ 8 < 2 ^ 8 := Nat.mod_lt _ (by decide)
  have h2 : f 2 % 2 ^ 8 < 2 ^ 8 := Nat.mod_lt _ (by decide)
  have h3 : f 3 % 2 ^ 8 < 2 ^ 8 := Nat.mod_lt _ (by decide)
  simp only [pack, RotWord, Nat.shiftRight_eq_div_pow, Nat.shiftLeft_eq]
  generalize f 0 % 2 ^ 8 = b0 at h0 ⊢
  generalize f 1 % 2 ^ 8 = b1 at h1 ⊢
  generalize f 2 % 2 ^ 8 = b2 at h2 ⊢
  generalize f 3 % 2 ^ 8 = b3 at h3 ⊢
  have e1 : (0 + b0 * 2 ^ (8 * 0) + b1 * 2 ^ (8 * 1) + b2 * 2 ^ (8 * 2) + b3 * 2 ^ (8 * 3)) / 2 ^ 8
      = b1 + b2 * 2 ^ 8 + b3 * 2 ^ 16 := by omega
  have e2 : (0 + b0 * 2 ^ (8 * 0) + b1 * 2 ^ (8 * 1) + b2 * 2 ^ (8 * 2) + b3 * 2 ^ (8 * 3))
      * 2 ^ 24 % 2 ^ 32 = 2 ^ 24 * b0 := by omega
  have e3 : b1 + b2 * 2 ^ 8 + b3 * 2 ^ 16 < 2 ^ 24 := by omega
  rw [e1, e2, Nat.lor_comm, ← Nat.mul_add_lt_is_or e3]
  show _ = 0 + b1 * 2 ^ (8 * 0) + b2 * 2 ^ (8 * 1) + b3 * 2 ^ (8 * 2) + b0 * 2 ^ (8 * 3)
  omega

theorem lane8_RotWord_SubWord (w r : Nat) (hr : r < 4) :
    lane 8 (RotWord (SubWord w)) r = SSE2NEON_sbox.getD (lane 8 w ((r + 1) % 4)) 0 := by
  rw [SubWord, RotWord_pack, lane_pack 8 (by decide) _ 4 r hr]
  exact sbox_getD_mod _

/-- Byte `k` of `vaeseq_u8(key, 0)`: the S-box entry of byte `5 k mod 16`. -/
theorem lane8_vaeseq_zero (key k : Nat) (hk : k < 16) :
    lane 8 (vaeseq_u8 key (vdupq_n_u8 0)) k
      = SSE2NEON_sbox.getD (lane 8 key ((5 * k) % 16)) 0 := by
  rw [vaeseq_u8, lane8_AESSubBytes _ _ hk, lane8_AESShiftRows _ _ hk,
    lane8_xor_zero _ _ (Nat.mod_lt _ (by decide))]

theorem lane8_uint32x4_lit (xs : List Nat) (i : Nat) (hi : i < 16) :
    lane 8 (uint32x4_lit xs) i = lane 8 (xs.getD (i / 4) 0) (i % 4) := by
  rw [uint32x4_lit, lane8_pack32 _ i hi]

/-- The software path of the key-generation helper, byte by byte. -/
theorem lane8_keygen_soft (aarch64 hb : Bool) (key : Nat) (rcon : Int) (i : Nat) (hi : i < 16) :
    lane 8 (_mm_aeskeygenassist_si128 false aarch64 hb key rcon) i
      = lane 8 ([SubWord (lane 32 key 1), RotWord (SubWord (lane 32 key 1)) ^^^ intBits rcon,
          SubWord (lane 32 key 3), RotWord (SubWord (lane 32 key 3)) ^^^ intBits rcon].getD
            (i / 4) 0) (i % 4) := by
  rw [aeskeygenassist_soft, lane8_set_epi32 _ _ _ _ i hi]

/-- The crypto-extension path of the key-generation helper, byte by byte. -/
theorem lane8_keygen_crypto (aarch64 hb : Bool) (key : Nat) (rcon : Int) (i : Nat)
    (hi : i < 16) :
    lane 8 (_mm_aeskeygenassist_si128 true aarch64 hb key rcon) i
      = lane 8 ([SubWord (lane 32 key 1), RotWord (SubWord (lane 32 key 1)) ^^^ intBits rcon,
          SubWord (lane 32 key 3), RotWord (SubWord (lane 32 key 3)) ^^^ intBits rcon].getD
            (i / 4) 0) (i % 4) := by
  rw [_mm_aeskeygenassist_si128, if_pos rfl]
  simp only []
  rw [lane8_v128_xor _ _ i hi, lane8_vld1q_u8 _ i hi, lane8_uint32x4_lit _ i hi]
  interval_cases i <;>
    simp only [List.getD_cons_zero, List.getD_cons_succ, Nat.reduceDiv, Nat.reduceMod,
      lane_zero, Nat.xor_zero, lane_xor, lane8_SubWord _ _ (by decide : 0 < 4),
      lane8_SubWord _ _ (by decide : 1 < 4), lane8_SubWord _ _ (by decide : 2 < 4),
      lane8_SubWord _ _ (by decide : 3 < 4), lane8_RotWord_SubWord _ _ (by decide : 0 < 4),
      lane8_RotWord_SubWord _ _ (by decide : 1 < 4), lane8_RotWord_SubWord _ _ (by decide : 2 < 4),
      lane8_RotWord_SubWord _ _ (by decide : 3 < 4),
      lane8_lane32 _ _ _ (by decide : 0 < 4), lane8_lane32 _ _ _ (by decide : 1 < 4),
      lane8_lane32 _ _ _ (by decide : 2 < 4), lane8_lane32 _ _ _ (by decide : 3 < 4),
      lane8_vaeseq_zero _ _ (by decide : 0x4 < 16), lane8_vaeseq_zero _ _ (by decide : 0x1 < 16),
      lane8_vaeseq_zero _ _ (by decide : 0xE < 16), lane8_vaeseq_zero _ _ (by decide : 0xB < 16),
      lane8_vaeseq_zero _ _ (by decide : 0xC < 16), lane8_vaeseq_zero _ _ (by decide : 0x9 < 16),
      lane8_vaeseq_zero _ _ (by decide : 0x6 < 16), lane8_vaeseq_zero _ _ (by decide : 0x3 < 16),
      Nat.reduceMul, Nat.reduceAdd, sbox_getD_mod]

theorem keygen_lt (crypto aarch64 hb : Bool) (key : Nat) (rcon : Int) :
    _mm_aeskeygenassist_si128 crypto aarch64 hb key rcon < 2 ^ (8 * 16) := by
  cases crypto
  · rw [aeskeygenassist_soft]
    exact pack_lt 32 _ 4
  · exact pack_lt 8 _ 16

/-- C35: for every key and every round constant (in particular every `rcon`
in 0..255), the crypto-extension path of `_mm_aeskeygenassist_si128`, which
gathers bytes 4, 1, 14, 11 / 1, 14, 11, 4 / 12, 9, 6, 3 / 9, 6, 3, 12 of
`vaeseq_u8(key, 0)` and XORs `rcon` into the 32-bit lanes 1 and 3, returns the
register the software path returns. -/
theorem aeskeygenassist_crypto_eq_soft (aarch64 hb aarch64s hbs : Bool) (key : Nat)
    (rcon : Int) :
    _mm_aeskeygenassist_si128 true aarch64 hb key rcon
      = _mm_aeskeygenassist_si128 false aarch64s hbs key rcon := by
  refine reg_ext 8 (by decide) 16 _ _ (keygen_lt _ _ _ _ _) (keygen_lt _ _ _ _ _) ?_
  intro i hi
  rw [lane8_keygen_crypto _ _ _ _ i hi, lane8_keygen_soft _ _ _ _ i hi]

/-! ## CRC-32C accumulation -/

theorem crc_loop_step (c : Nat) :
    (if c &&& 1 ≠ 0 then (c >>> 1) ^^^ 0x82f63b78 else c >>> 1) = crc32c_step c := by
  unfold crc32c_step
  rw [Nat.and_one_is_mod]
  rcases Nat.mod_two_eq_zero_or_one c with h | h <;> simp [h]

theorem crc32_u8_eq (crc v : Nat) :
    _mm_crc32_u8 crc v = crc32c_byte (crc % 2 ^ 32) (v % 2 ^ 8) := by
  unfold _mm_crc32_u8 crc32c_byte
  rw [show List.range 8 = [0, 1, 2, 3, 4, 5, 6, 7] from rfl]
  simp only [List.foldl, crc_loop_step, Function.iterate_succ, Function.iterate_zero,
    Function.comp_apply, id_eq]

theorem crc32c_step_lt (R : Nat) (h : R < 2 ^ 32) : crc32c_step R < 2 ^ 32 := by
  unfold crc32c_step
  apply Nat.xor_lt_two_pow
  · rw [Nat.shiftRight_eq_div_pow]; omega
  · split_ifs <;> decide

theorem crc32_u8_lt (crc v : Nat) : _mm_crc32_u8 crc v < 2 ^ 32 := by
  rw [crc32_u8_eq, crc32c_byte]
  have h0 : crc % 2 ^ 32 ^^^ v % 2 ^ 8 < 2 ^ 32 :=
    Nat.xor_lt_two_pow (Nat.mod_lt _ (by decide))
      (lt_of_lt_of_le (Nat.mod_lt _ (by decide)) (by decide))
  simp only [Function.iterate_succ, Function.iterate_zero, Function.comp_apply, id_eq]
  exact crc32c_step_lt _ (crc32c_step_lt _ (crc32c_step_lt _ (crc32c_step_lt _
    (crc32c_step_lt _ (crc32c_step_lt _ (crc32c_step_lt _ (crc32c_step_lt _ h0)))))))

/-- `_mm_crc32_u8` reads only the low 32 bits of `crc` and the low byte of
`v`. -/
theorem crc32_u8_congr (c c' v v' : Nat) (hc : c % 2 ^ 32 = c' % 2 ^ 32)
    (hv : v % 2 ^ 8 = v' % 2 ^ 8) : _mm_crc32_u8 c v = _mm_crc32_u8 c' v' := by
  rw [crc32_u8_eq, crc32_u8_eq, hc, hv]

theorem and_ff (x : Nat) : x &&& 0xff = x % 2 ^ 8 := Nat.and_pow_two_sub_one_eq_mod x 8

theorem and_ffff (x : Nat) : x &&& 0xffff = x % 2 ^ 16 := Nat.and_pow_two_sub_one_eq_mod x 16

theorem and_ffffffff (x : Nat) : x &&& 0xffffffff = x % 2 ^ 32 :=
  Nat.and_pow_two_sub_one_eq_mod x 32

theorem lane8_mod_of_mod (v v' n k : Nat) (hk : 8 * (k + 1) ≤ n)
    (h : v % 2 ^ n = v' % 2 ^ n) : lane 8 v k % 2 ^ 8 = lane 8 v' k % 2 ^ 8 := by
  have e : ∀ x, lane 8 (x % 2 ^ n) k = lane 8 x k := by
    intro x
    apply Nat.eq_of_testBit_eq
    intro b
    rw [testBit_lane, testBit_lane, Nat.testBit_mod_two_pow]
    by_cases hb : b < 8
    · have : 8 * k + b < n := by
        have : 8 * k + 8 ≤ n := by rw [Nat.mul_add, Nat.mul_one] at hk; exact hk
        omega
      simp [hb, this]
    · simp [hb]
  rw [← e v, ← e v', h]

theorem crc32_u16_eq (crc v : Nat) :
    _mm_crc32_u16 crc v = _mm_crc32_u8 (_mm_crc32_u8 crc (lane 8 v 0)) (lane 8 v 1) := by
  unfold _mm_crc32_u16
  simp only [and_ff, Nat.shiftRight_eq_div_pow]
  have e1 : _mm_crc32_u8 (crc % 2 ^ 32) (v % 2 ^ 16 % 2 ^ 8) = _mm_crc32_u8 crc (lane 8 v 0) :=
    crc32_u8_congr _ _ _ _ (Nat.mod_mod _ _) (by unfold lane; omega)
  rw [e1]
  exact crc32_u8_congr _ _ _ _ rfl (by unfold lane; omega)

theorem crc32_u16_congr (c c' v v' : Nat) (hc : c % 2 ^ 32 = c' % 2 ^ 32)
    (hv : v % 2 ^ 16 = v' % 2 ^ 16) : _mm_crc32_u16 c v = _mm_crc32_u16 c' v' := by
  rw [crc32_u16_eq, crc32_u16_eq,
    crc32_u8_congr c c' (lane 8 v 0) (lane 8 v' 0) hc (lane8_mod_of_mod v v' 16 0 (by decide) hv)]
  exact crc32_u8_congr _ _ _ _ rfl (lane8_mod_of_mod v v' 16 1 (by decide) hv)

theorem crc32_u16_lt (crc v : Nat) : _mm_crc32_u16 crc v < 2 ^ 32 := by
  rw [crc32_u16_eq]; exact crc32_u8_lt _ _

theorem lane8_low16 (v k : Nat) (hk : k < 2) : lane 8 (v % 2 ^ 32 % 2 ^ 16) k = lane 8 v k := by
  interval_cases k <;> (unfold lane; omega)

theorem lane8_high16 (v k : Nat) (hk : k < 2) :
    lane 8 (v % 2 ^ 32 / 2 ^ 16 % 2 ^ 16) k = lane 8 v (k + 2) := by
  interval_cases k <;> (unfold lane; omega)

theorem crc32_u32_eq (crc v : Nat) :
    _mm_crc32_u32 crc v
      = _mm_crc32_u8 (_mm_crc32_u8 (_mm_crc32_u8 (_mm_crc32_u8 crc (lane 8 v 0)) (lane 8 v 1))
          (lane 8 v 2)) (lane 8 v 3) := by
  unfold _mm_crc32_u32
  simp only [and_ffff, Nat.shiftRight_eq_div_pow]
  rw [crc32_u16_eq, crc32_u16_eq, lane8_low16 v 0 (by decide), lane8_low16 v 1 (by decide),
    lane8_high16 v 0 (by decide), lane8_high16 v 1 (by decide),
    crc32_u8_congr (crc % 2 ^ 32) crc (lane 8 v 0) (lane 8 v 0) (Nat.mod_mod _ _) rfl]

theorem crc32_u32_lt (crc v : Nat) : _mm_crc32_u32 crc v < 2 ^ 32 := by
  rw [crc32_u32_eq]; exact crc32_u8_lt _ _

theorem lane8_low32 (v k : Nat) (hk : k < 4) : lane 8 (v % 2 ^ 64 % 2 ^ 32) k = lane 8 v k := by
  interval_cases k <;> (unfold lane; omega)

theorem lane8_high32 (v k : Nat) (hk : k < 4) :
    lane 8 (v % 2 ^ 64 / 2 ^ 32 % 2 ^ 32) k = lane 8 v (k + 4) := by
  interval_cases k <;> (unfold lane; omega)

theorem crc32_u64_eq (crc v : Nat) :
    _mm_crc32_u64 crc v
      = _mm_crc32_u8 (_mm_crc32_u8 (_mm_crc32_u8 (_mm_crc32_u8 (_mm_crc32_u8 (_mm_crc32_u8
          (_mm_crc32_u8 (_mm_crc32_u8 crc (lane 8 v 0)) (lane 8 v 1)) (lane 8 v 2)) (lane 8 v 3))
          (lane 8 v 4)) (lane 8 v 5)) (lane 8 v 6)) (lane 8 v 7) := by
  unfold _mm_crc32_u64
  simp only [and_ffffffff, Nat.shiftRight_eq_div_pow]
  rw [crc32_u32_eq, crc32_u32_eq, lane8_low32 v 0 (by decide), lane8_low32 v 1 (by decide),
    lane8_low32 v 2 (by decide), lane8_low32 v 3 (by decide), lane8_high32 v 0 (by decide),
    lane8_high32 v 1 (by decide), lane8_high32 v 2 (by decide), lane8_high32 v 3 (by decide),
    crc32_u8_congr (crc % 2 ^ 64 % 2 ^ 32) crc (lane 8 v 0) (lane 8 v 0) (by omega) rfl,
    crc32_u8_congr (_ % 2 ^ 32) _ (lane 8 v (0 + 4)) (lane 8 v 4) (Nat.mod_mod _ _) rfl]

theorem crc32_check_value :
    ([0x31, 0x32, 0x33, 0x34, 0x35, 0x36, 0x37, 0x38, 0x39].foldl _mm_crc32_u8 0xFFFFFFFF)
      ^^^ 0xFFFFFFFF = 0xE3069283 := by
  decide!

/-- C31: on the software path, for every `crc` and `v` (read as `uint32_t` and
`uint8_t`), `_mm_crc32_u8(crc, v)` is the CRC-32C update: eight times
`R := (R >> 1) ^ (0x82F63B78 if R is odd, else 0)` from `R = crc ^ v`, a 32-bit
value; `_mm_crc32_u16`, `_mm_crc32_u32` and `_mm_crc32_u64` fold the two, four
and eight bytes of `v`, least significant first, with `_mm_crc32_u8`; and
folding the bytes of "123456789" from `0xFFFFFFFF` and complementing gives
`0xE3069283`. -/
theorem crc32_software (crc v : Nat) :
    _mm_crc32_u8 crc v = crc32c_step^[8] ((crc % 2 ^ 32) ^^^ (v % 2 ^ 8)) ∧
    _mm_crc32_u8 crc v < 2 ^ 32 ∧
    _mm_crc32_u16 crc v = [lane 8 v 0, lane 8 v 1].foldl _mm_crc32_u8 crc ∧
    _mm_crc32_u32 crc v
      = [lane 8 v 0, lane 8 v 1, lane 8 v 2, lane 8 v 3].foldl _mm_crc32_u8 crc ∧
    _mm_crc32_u64 crc v
      = [lane 8 v 0, lane 8 v 1, lane 8 v 2, lane 8 v 3, lane 8 v 4, lane 8 v 5, lane 8 v 6,
          lane 8 v 7].foldl _mm_crc32_u8 crc ∧
    ([0x31, 0x32, 0x33, 0x34, 0x35, 0x36, 0x37, 0x38, 0x39].foldl _mm_crc32_u8 0xFFFFFFFF)
      ^^^ 0xFFFFFFFF = 0xE3069283 :=
  ⟨crc32_u8_eq crc v, crc32_u8_lt crc v, crc32_u16_eq crc v, crc32_u32_eq crc v,
    crc32_u64_eq crc v, crc32_check_value⟩

/-! ## Multiply unsigned by signed bytes and add pairs -/

theorem sint8_range (v : Nat) : -128 ≤ sint 8 v ∧ sint 8 v ≤ 127 := by
  have h : v % 2 ^ 8 < 2 ^ 8 := Nat.mod_lt _ (by decide)
  unfold sint
  split_ifs <;> omega

theorem sint8_emod16 (v : Nat) :
    (sint 8 v % 2 ^ 16).toNat = if v % 2 ^ 8 < 128 then v % 2 ^ 8 else v % 2 ^ 8 + 65280 := by
  have h : v % 2 ^ 8 < 2 ^ 8 := Nat.mod_lt _ (by decide)
  unfold sint
  split_ifs <;> omega

theorem sint8_cases (v : Nat) :
    sint 8 v = if v % 2 ^ 8 < 128 then ((v % 2 ^ 8 : Nat) : Int)
      else ((v % 2 ^ 8 : Nat) : Int) - 256 := by
  unfold sint
  rfl

/-- The 16-bit product of an unsigned byte and a sign-extended byte is the
exact product: it does not overflow. -/
theorem mul_u8_s8 (u vb : Nat) (hu : u < 256) :
    sint 16 ((u * (sint 8 vb % 2 ^ 16).toNat) % 2 ^ 16) = (u : Int) * sint 8 vb := by
  have h : vb % 2 ^ 8 < 2 ^ 8 := Nat.mod_lt _ (by decide)
  rw [sint8_emod16, sint8_cases]
  generalize vb % 2 ^ 8 = w at h ⊢
  by_cases hw : w < 128
  · simp only [hw, if_true]
    have hp : u * w ≤ 255 * 127 := Nat.mul_le_mul (by omega) (by omega)
    have e : ((u : Int) * (w : Int)) = ((u * w : Nat) : Int) := by push_cast; rfl
    rw [e]
    generalize u * w = p at hp ⊢
    unfold sint
    split_ifs <;> omega
  · simp only [hw, if_false]
    have hp1 : u * w ≤ u * 255 := Nat.mul_le_mul_left u (by omega)
    have hp2 : u * 128 ≤ u * w := Nat.mul_le_mul_left u (by omega)
    have e : (u : Int) * ((w : Int) - 256) = ((u * w : Nat) : Int) - 256 * (u : Int) := by
      push_cast; ring
    rw [e, Nat.mul_add]
    generalize u * w = p at hp1 hp2 ⊢
    unfold sint
    split_ifs <;> omega

theorem mul_u8_s8_range (u vb : Nat) (hu : u < 256) :
    -32768 ≤ (u : Int) * sint 8 vb ∧ (u : Int) * sint 8 vb ≤ 32767 := by
  have h : vb % 2 ^ 8 < 2 ^ 8 := Nat.mod_lt _ (by decide)
  rw [sint8_cases]
  generalize vb % 2 ^ 8 = w at h ⊢
  by_cases hw : w < 128
  · simp only [hw, if_true]
    have hp : u * w ≤ 255 * 127 := Nat.mul_le_mul (by omega) (by omega)
    have e : ((u : Int) * (w : Int)) = ((u * w : Nat) : Int) := by push_cast; rfl
    rw [e]
    omega
  · simp only [hw, if_false]
    have hp1 : u * w ≤ u * 255 := Nat.mul_le_mul_left u (by omega)
    have hp2 : u * 128 ≤ u * w := Nat.mul_le_mul_left u (by omega)
    have e : (u : Int) * ((w : Int) - 256) = ((u * w : Nat) : Int) - 256 * (u : Int) := by
      push_cast; ring
    rw [e]
    omega

theorem sint16_sat (v : Int) : sint 16 ((sat_s16 v % 2 ^ 16).toNat) = sat_s16 v := by
  unfold sat_s16 sint
  have h1 : (-32768 : Int) ≤ max (-32768) (min v 32767) := le_max_left _ _
  have h2 : max (-32768 : Int) (min v 32767) ≤ 32767 := max_le (by decide) (min_le_right _ _)
  generalize max (-32768 : Int) (min v 32767) = s at h1 h2
  split_ifs <;> omega

/-- Lane `j` of the saturating sum of two registers of products. -/
theorem lane16_vqaddq_s16 (a b j : Nat) (hj : j < 8) :
    sint 16 (lane 16 (vqaddq_s16 a b) j)
      = sat_s16 (sint 16 (lane 16 a j) + sint 16 (lane 16 b j)) := by
  rw [vqaddq_s16, lane16_pack _ _ _ hj]
  have h : ∀ z : Int, (z % 2 ^ 16).toNat % 2 ^ 16 = (z % 2 ^ 16).toNat :=
    fun z => Nat.mod_eq_of_lt (toNat_emod_lt z 16)
  rw [h, sint16_sat]

theorem lane16_vmulq_s16 (a b j : Nat) (hj : j < 8) :
    lane 16 (vmulq_s16 a b) j = (lane 16 a j * lane 16 b j) % 2 ^ 16 := by
  rw [vmulq_s16, lane16_pack _ _ _ hj]

/-! ### The aarch64 path -/

theorem lane16_widen_u8_low (a i : Nat) (hi : i < 8) :
    lane 16 (vmovl_u8 (vget_low_u8 a)) i = lane 8 a i := by
  rw [vmovl_u8, lane16_pack _ _ _ hi, lane8_vget_low_u8 _ _ hi]
  exact Nat.mod_eq_of_lt (lt_trans (lane8_lt a i) (by decide))

theorem lane16_widen_u8_high (a i : Nat) (hi : i < 8) :
    lane 16 (vmovl_u8 (vget_high_u8 a)) i = lane 8 a (i + 8) := by
  rw [vmovl_u8, lane16_pack _ _ _ hi, lane8_vget_high_u8 _ _ hi]
  exact Nat.mod_eq_of_lt (lt_trans (lane8_lt a _) (by decide))

theorem lane16_widen_s8_low (b i : Nat) (hi : i < 8) :
    lane 16 (vmovl_s8 (vget_low_s8 b)) i = (sint 8 (lane 8 b i) % 2 ^ 16).toNat := by
  rw [vmovl_s8, lane16_pack _ _ _ hi, lane8_vget_low_s8 _ _ hi]
  exact Nat.mod_eq_of_lt (toNat_emod_lt _ 16)

theorem lane16_widen_s8_high (b i : Nat) (hi : i < 8) :
    lane 16 (vmovl_s8 (vget_high_s8 b)) i = (sint 8 (lane 8 b (i + 8)) % 2 ^ 16).toNat := by
  rw [vmovl_s8, lane16_pack _ _ _ hi, lane8_vget_high_s8 _ _ hi]
  exact Nat.mod_eq_of_lt (toNat_emod_lt _ 16)

/-- The products of the aarch64 path: lane `i` of `tl` and of `th`. -/
theorem sint16_tl (a b i : Nat) (hi : i < 8) :
    sint 16 (lane 16 (vmulq_s16 (vmovl_u8 (vget_low_u8 a)) (vmovl_s8 (vget_low_s8 b))) i)
      = (lane 8 a i : Int) * sint 8 (lane 8 b i) := by
  rw [lane16_vmulq_s16 _ _ _ hi, lane16_widen_u8_low _ _ hi, lane16_widen_s8_low _ _ hi,
    mul_u8_s8 _ _ (lane8_lt a i)]

theorem sint16_th (a b i : Nat) (hi : i < 8) :
    sint 16 (lane 16 (vmulq_s16 (vmovl_u8 (vget_high_u8 a)) (vmovl_s8 (vget_high_s8 b))) i)
      = (lane 8 a (i + 8) : Int) * sint 8 (lane 8 b (i + 8)) := by
  rw [lane16_vmulq_s16 _ _ _ hi, lane16_widen_u8_high _ _ hi, lane16_widen_s8_high _ _ hi,
    mul_u8_s8 _ _ (lane8_lt a _)]

theorem lane16_vuzp1q_s16 (x y j : Nat) (hj : j < 8) :
    lane 16 (vuzp1q_s16 x y) j = if j < 4 then lane 16 x (2 * j) else lane 16 y (2 * (j - 4)) := by
  rw [vuzp1q_s16, lane16_pack _ _ _ hj]
  split_ifs <;> exact lane_mod 16 _ _

theorem lane16_vuzp2q_s16 (x y j : Nat) (hj : j < 8) :
    lane 16 (vuzp2q_s16 x y) j
      = if j < 4 then lane 16 x (2 * j + 1) else lane 16 y (2 * (j - 4) + 1) := by
  rw [vuzp2q_s16, lane16_pack _ _ _ hj]
  split_ifs <;> exact lane_mod 16 _ _

theorem lane16_maddubs_aarch64 (a b j : Nat) (hj : j < 8) :
    sint 16 (lane 16 (_mm_maddubs_epi16 true a b) j)
      = sat_s16 ((lane 8 a (2 * j) : Int) * sint 8 (lane 8 b (2 * j))
          + (lane 8 a (2 * j + 1) : Int) * sint 8 (lane 8 b (2 * j + 1))) := by
  rw [_mm_maddubs_epi16, if_pos rfl]
  simp only []
  rw [lane16_vqaddq_s16 _ _ _ hj, lane16_vuzp1q_s16 _ _ _ hj, lane16_vuzp2q_s16 _ _ _ hj]
  by_cases h4 : j < 4
  · rw [if_pos h4, if_pos h4, sint16_tl _ _ _ (by omega), sint16_tl _ _ _ (by omega)]
  · rw [if_neg h4, if_neg h4, sint16_th _ _ _ (by omega), sint16_th _ _ _ (by omega)]
    have e1 : 2 * (j - 4) + 8 = 2 * j := by omega
    have e2 : 2 * (j - 4) + 1 + 8 = 2 * j + 1 := by omega
    rw [e1, e2]

/-! ### The ARMv7 path -/

theorem lane16_a_odd (a j : Nat) (hj : j < 8) :
    lane 16 (vshrq_n_u16 a 8) j = lane 8 a (2 * j + 1) := by
  rw [vshrq_n_u16, lane16_pack _ _ _ hj, lane16_bytes a j, Nat.shiftRight_eq_div_pow]
  have h0 := lane8_lt a (2 * j)
  have h1 := lane8_lt a (2 * j + 1)
  omega

theorem lane16_a_even (a j : Nat) (hj : j < 8) :
    lane 16 (vbicq_u16 a (vdupq_n_u16 0xff00)) j = lane 8 a (2 * j) := by
  rw [vbicq_u16, lane16_pack _ _ _ hj, vdupq_n_u16, lane16_pack _ _ _ hj]
  have e : 0xff00 % 2 ^ 16 ^^^ 0xFFFF = 2 ^ 8 - 1 := by decide
  rw [e, Nat.and_pow_two_sub_one_eq_mod, lane16_bytes a j]
  have h0 := lane8_lt a (2 * j)
  have h1 := lane8_lt a (2 * j + 1)
  omega

theorem sint8_of_byte (v : Nat) (hv : v < 256) :
    sint 8 v = if v < 128 then (v : Int) else (v : Int) - 256 := by
  have hv' : v % 2 ^ 8 = v := Nat.mod_eq_of_lt hv
  rw [sint8_cases, hv']

theorem lane16_b_odd (b j : Nat) (hj : j < 8) :
    lane 16 (vshrq_n_s16 b 8) j = (sint 8 (lane 8 b (2 * j + 1)) % 2 ^ 16).toNat := by
  rw [vshrq_n_s16, lane16_pack _ _ _ hj, lane16_bytes b j,
    Nat.mod_eq_of_lt (toNat_emod_lt _ 16), Int.shiftRight_eq_div_pow,
    sint8_of_byte _ (lane8_lt b _)]
  have h0 := lane8_lt b (2 * j)
  have h1 := lane8_lt b (2 * j + 1)
  generalize lane 8 b (2 * j) = x0 at h0 ⊢
  generalize lane 8 b (2 * j + 1) = x1 at h1 ⊢
  unfold sint
  push_cast
  split_ifs <;> omega

theorem lane16_b_even (b j : Nat) (hj : j < 8) :
    lane 16 (vshrq_n_s16 (vshlq_n_s16 b 8) 8) j = (sint 8 (lane 8 b (2 * j)) % 2 ^ 16).toNat := by
  rw [vshrq_n_s16, lane16_pack _ _ _ hj, vshlq_n_s16, lane16_pack _ _ _ hj, lane16_bytes b j,
    Nat.mod_eq_of_lt (toNat_emod_lt _ 16), Int.shiftRight_eq_div_pow, Nat.shiftLeft_eq,
    sint8_of_byte _ (lane8_lt b _)]
  have h0 := lane8_lt b (2 * j)
  have h1 := lane8_lt b (2 * j + 1)
  generalize lane 8 b (2 * j) = x0 at h0 ⊢
  generalize lane 8 b (2 * j + 1) = x1 at h1 ⊢
  unfold sint
  push_cast
  split_ifs <;> omega

theorem lane16_maddubs_armv7 (a b j : Nat) (hj : j < 8) :
    sint 16 (lane 16 (_mm_maddubs_epi16 false a b) j)
      = sat_s16 ((lane 8 a (2 * j) : Int) * sint 8 (lane 8 b (2 * j))
          + (lane 8 a (2 * j + 1) : Int) * sint 8 (lane 8 b (2 * j + 1))) := by
  rw [_mm_maddubs_epi16, if_neg Bool.false_ne_true]
  simp only []
  rw [lane16_vqaddq_s16 _ _ _ hj, lane16_vmulq_s16 _ _ _ hj, lane16_vmulq_s16 _ _ _ hj,
    lane16_a_even _ _ hj, lane16_a_odd _ _ hj, lane16_b_even _ _ hj, lane16_b_odd _ _ hj,
    mul_u8_s8 _ _ (lane8_lt a _), mul_u8_s8 _ _ (lane8_lt a _)]

theorem sint_inj (w x y : Nat) (hx : x < 2 ^ w) (hy : y < 2 ^ w) (h : sint w x = sint w y) :
    x = y := by
  have h1 := sint_emod w x
  have h2 := sint_emod w y
  rw [h, h2, Nat.mod_eq_of_lt hx, Nat.mod_eq_of_lt hy] at h1
  exact h1.symm

theorem maddubs_lt (aarch64 : Bool) (a b : Nat) : _mm_maddubs_epi16 aarch64 a b < 2 ^ (16 * 8) := by
  cases aarch64
  · exact pack_lt 16 _ 8
  · exact pack_lt 16 _ 8

theorem maddubs_paths_agree (a b : Nat) :
    _mm_maddubs_epi16 true a b = _mm_maddubs_epi16 false a b := by
  refine reg_ext 16 (by decide) 8 _ _ (maddubs_lt _ a b) (maddubs_lt _ a b) ?_
  intro j hj
  apply sint_inj 16 _ _ (lane16_lt _ _) (lane16_lt _ _)
  rw [lane16_maddubs_aarch64 a b j hj, lane16_maddubs_armv7 a b j hj]

/-- C32: for all registers `a`, `b` and every 16-bit lane `j` in 0..7, on the
aarch64 path and on the ARMv7 path, the signed value of lane `j` of
`_mm_maddubs_epi16(a, b)` is the saturation to [-32768, 32767] of
`u(a[2j]) * s(b[2j]) + u(a[2j+1]) * s(b[2j+1])` (`u` unsigned, `s` signed
bytes); each product lies in [-32768, 32767], so the 16-bit products do not
overflow; and the two paths return the same register. -/
theorem maddubs_epi16_lanes (aarch64 : Bool) (a b j : Nat) (hj : j < 8) :
    sint 16 (lane 16 (_mm_maddubs_epi16 aarch64 a b) j)
      = sat_s16 ((lane 8 a (2 * j) : Int) * sint 8 (lane 8 b (2 * j))
          + (lane 8 a (2 * j + 1) : Int) * sint 8 (lane 8 b (2 * j + 1))) ∧
    (-32768 ≤ (lane 8 a (2 * j) : Int) * sint 8 (lane 8 b (2 * j)) ∧
      (lane 8 a (2 * j) : Int) * sint 8 (lane 8 b (2 * j)) ≤ 32767) ∧
    (-32768 ≤ (lane 8 a (2 * j + 1) : Int) * sint 8 (lane 8 b (2 * j + 1)) ∧
      (lane 8 a (2 * j + 1) : Int) * sint 8 (lane 8 b (2 * j + 1)) ≤ 32767) ∧
    _mm_maddubs_epi16 true a b = _mm_maddubs_epi16 false a b := by
  refine ⟨?_, mul_u8_s8_range _ _ (lane8_lt a _), mul_u8_s8_range _ _ (lane8_lt a _),
    maddubs_paths_agree a b⟩
  cases aarch64
  · exact lane16_maddubs_armv7 a b j hj
  · exact lane16_maddubs_aarch64 a b j hj

/-- Instance of `maddubs_epi16_lanes` at lane 6 of the ARMv7 path, where the
sum saturates. -/
theorem maddubs_epi16_lanes_witness :
    sint 16 (lane 16 (_mm_maddubs_epi16 false 0xFFFF80FF017F0203FF01FE02807F0A0B
        0x7F7F80807F8003FFFF7F80FE7F801405) 6)
      = sat_s16 ((lane 8 0xFFFF80FF017F0203FF01FE02807F0A0B (2 * 6) : Int)
            * sint 8 (lane 8 0x7F7F80807F8003FFFF7F80FE7F801405 (2 * 6))
          + (lane 8 0xFFFF80FF017F0203FF01FE02807F0A0B (2 * 6 + 1) : Int)
            * sint 8 (lane 8 0x7F7F80807F8003FFFF7F80FE7F801405 (2 * 6 + 1))) ∧
    (-32768 ≤ (lane 8 0xFFFF80FF017F0203FF01FE02807F0A0B (2 * 6) : Int)
        * sint 8 (lane 8 0x7F7F80807F8003FFFF7F80FE7F801405 (2 * 6)) ∧
      (lane 8 0xFFFF80FF017F0203FF01FE02807F0A0B (2 * 6) : Int)
        * sint 8 (lane 8 0x7F7F80807F8003FFFF7F80FE7F801405 (2 * 6)) ≤ 32767) ∧
    (-32768 ≤ (lane 8 0xFFFF80FF017F0203FF01FE02807F0A0B (2 * 6 + 1) : Int)
        * sint 8 (lane 8 0x7F7F80807F8003FFFF7F80FE7F801405 (2 * 6 + 1)) ∧
      (lane 8 0xFFFF80FF017F0203FF01FE02807F0A0B (2 * 6 + 1) : Int)
        * sint 8 (lane 8 0x7F7F80807F8003FFFF7F80FE7F801405 (2 * 6 + 1)) ≤ 32767) ∧
    _mm_maddubs_epi16 true 0xFFFF80FF017F0203FF01FE02807F0A0B 0x7F7F80807F8003FFFF7F80FE7F801405
      = _mm_maddubs_epi16 false 0xFFFF80FF017F0203FF01FE02807F0A0B
          0x7F7F80807F8003FFFF7F80FE7F801405 :=
  maddubs_epi16_lanes false 0xFFFF80FF017F0203FF01FE02807F0A0B
    0x7F7F80807F8003FFFF7F80FE7F801405 6 (by decide)

/-! ## Single-precision values: rounding and encoding facts -/

theorem ilog2Fuel_spec (fuel : Nat) : ∀ n, n ≤ fuel → 0 < n →
    2 ^ ilog2Fuel fuel n ≤ n ∧ n < 2 ^ (ilog2Fuel fuel n + 1) := by
  induction fuel with
  | zero => intro n h1 h2; omega
  | succ fuel ih =>
    intro n h1 h2
    unfold ilog2Fuel
    by_cases h : n < 2
    · rw [if_pos h]
      have : n = 1 := by omega
      subst this
      decide
    · rw [if_neg h]
      have := ih (n / 2) (by omega) (by omega)
      rw [pow_succ, pow_succ]
      generalize 2 ^ ilog2Fuel fuel (n / 2) = P at this ⊢
      rw [pow_succ] at this
      omega

theorem ilog2_spec (n : Nat) (hn : 0 < n) : 2 ^ ilog2 n ≤ n ∧ n < 2 ^ (ilog2 n + 1) :=
  ilog2Fuel_spec n n (le_refl n) hn

theorem ilog2_lt (n t : Nat) (hn : 0 < n) (h : n < 2 ^ t) : ilog2 n < t := by
  have h1 := (ilog2_spec n hn).1
  exact (Nat.pow_lt_pow_iff_right (by decide : 1 < 2)).1 (lt_of_le_of_lt h1 h)

theorem le_ilog2 (n t : Nat) (h : 2 ^ t ≤ n) : t ≤ ilog2 n := by
  have hn : 0 < n := lt_of_lt_of_le (Nat.two_pow_pos _) h
  have h1 := (ilog2_spec n hn).2
  have := (Nat.pow_lt_pow_iff_right (by decide : 1 < 2)).1 (lt_of_le_of_lt h h1)
  omega

/-- A value with at most `p` significant bits is not changed by rounding to
`p` bits. -/
theorem roundSig_exact (p k s : Nat) (hk : k < 2 ^ p) : roundSig p (k * 2 ^ s) = k * 2 ^ s := by
  unfold roundSig
  by_cases h : k * 2 ^ s < 2 ^ p
  · rw [if_pos h]
  · rw [if_neg h]
    simp only []
    have hpos : 0 < k * 2 ^ s := lt_of_lt_of_le (Nat.two_pow_pos _) (not_lt.1 h)
    have hlt : k * 2 ^ s < 2 ^ (p + s) := by
      rw [pow_add]
      exact Nat.mul_lt_mul_of_pos_right hk (Nat.two_pow_pos _)
    have hl := ilog2_lt _ _ hpos hlt
    have hsh : ilog2 (k * 2 ^ s) + 1 - p ≤ s := by omega
    generalize ilog2 (k * 2 ^ s) + 1 - p = sh at hsh
    obtain ⟨d, rfl⟩ : ∃ d, s = sh + d := ⟨s - sh, by omega⟩
    have e : k * 2 ^ (sh + d) = k * 2 ^ d * 2 ^ sh := by rw [pow_add]; ring
    rw [e, Nat.mul_mod_left, Nat.mul_div_cancel _ (Nat.two_pow_pos _)]
    have hp : 0 < 2 ^ (sh - 1) := Nat.two_pow_pos _
    rw [if_neg]
    omega

/-- Rounding to `p >= 1` bits does not go below a power of two that the value
reaches. -/
theorem roundSig_ge (p mag t : Nat) (hp : 0 < p) (h : 2 ^ t ≤ mag) : 2 ^ t ≤ roundSig p mag := by
  unfold roundSig
  by_cases h1 : mag < 2 ^ p
  · rw [if_pos h1]; exact h
  · rw [if_neg h1]
    simp only []
    have hpos : 0 < mag := lt_of_lt_of_le (Nat.two_pow_pos _) h
    have hs := ilog2_spec mag hpos
    have hpl : p ≤ ilog2 mag := le_ilog2 mag p (not_lt.1 h1)
    have ht : t ≤ ilog2 mag := le_ilog2 mag t h
    obtain ⟨sh, hsh⟩ : ∃ sh, ilog2 mag + 1 - p = sh := ⟨_, rfl⟩
    rw [hsh]
    have e : ilog2 mag = (p - 1) + sh := by omega
    have hq : 2 ^ (p - 1) ≤ mag / 2 ^ sh := by
      rw [Nat.le_div_iff_mul_le (Nat.two_pow_pos _), ← pow_add, ← e]
      exact hs.1
    have hq2 : 2 ^ (p - 1) * 2 ^ sh
        ≤ (if mag % 2 ^ sh > 2 ^ (sh - 1) ∨ mag % 2 ^ sh = 2 ^ (sh - 1) ∧ mag / 2 ^ sh % 2 = 1
            then mag / 2 ^ sh + 1 else mag / 2 ^ sh) * 2 ^ sh := by
      apply Nat.mul_le_mul_right
      split_ifs <;> omega
    refine le_trans ?_ hq2
    rw [← pow_add, ← e]
    exact Nat.pow_le_pow_right (by decide) ht

theorem f32_decode_form (bits : Nat) (x : Fp) (h : f32_decode bits = some x) :
    ∃ k s, x.mag = k * 2 ^ s ∧ k < 2 ^ 24 := by
  unfold f32_decode at h
  simp only [] at h
  split_ifs at h with h1 h2
  · injection h with h
    subst h
    exact ⟨bits % 2 ^ 23, 0, by simp, lt_trans (Nat.mod_lt _ (by decide)) (by decide)⟩
  · injection h with h
    subst h
    refine ⟨2 ^ 23 + bits % 2 ^ 23, _, rfl, ?_⟩
    have := Nat.mod_lt bits (show 0 < 2 ^ 23 by decide)
    omega

theorem diff_exact (c s : Nat) (hc : c < 2 ^ 24) :
    f32_round (f64_round ⟨false, c * 2 ^ s⟩) = ⟨false, c * 2 ^ s⟩ := by
  unfold f32_round f64_round
  simp only []
  rw [roundSig_exact 53 c s (lt_trans hc (by decide)), roundSig_exact 24 c s hc]

theorem diff_ge_half (D : Nat) (h : 2 ^ 148 ≤ D) :
    (2 : Int) ^ 148 ≤ (f32_round (f64_round ⟨false, D⟩)).toInt := by
  unfold f32_round f64_round Fp.toInt
  simp only [Bool.false_eq_true, if_false]
  have := roundSig_ge 24 _ 148 (by decide) (roundSig_ge 53 D 148 (by decide) h)
  exact_mod_cast this

/-! ## The scalar conversion: floor, ceiling and the rounded difference -/

theorem Fp_one_pos : 0 < Fp.one := Nat.two_pow_pos _

theorem intValue_int (neg : Bool) (n : Nat) :
    (Fp.mk neg (n * Fp.one)).intValue = if neg then -(n : Int) else (n : Int) := by
  have hU : ((Fp.one : Nat) : Int) ≠ 0 := by
    have := Fp_one_pos
    omega
  unfold Fp.intValue Fp.toInt
  cases neg
  · simp only [Bool.false_eq_true, if_false]
    push_cast
    exact Int.mul_ediv_cancel _ hU
  · simp only [if_true]
    push_cast
    rw [← Int.neg_mul]
    exact Int.mul_ediv_cancel _ hU

theorem trunc_int (neg : Bool) (n : Nat) :
    (Fp.mk neg (n * Fp.one)).trunc = ⟨neg, n * Fp.one⟩ := by
  unfold Fp.trunc
  simp only []
  rw [Nat.mul_div_cancel _ Fp_one_pos]

theorem c_cast_int_int (neg : Bool) (n : Nat) (v : Int)
    (hv : v = if neg then -(n : Int) else (n : Int))
    (h1 : -(2 : Int) ^ 31 ≤ v) (h2 : v < (2 : Int) ^ 31) :
    c_cast_int 32 ⟨neg, n * Fp.one⟩ = some v := by
  unfold c_cast_int
  simp only []
  rw [trunc_int, intValue_int, ← hv]
  rw [if_pos ⟨h1, h2⟩]

theorem floor_of_integral (x : Fp) (h : x.mag % Fp.one = 0) : x.floor = x := by
  unfold Fp.floor; rw [if_pos h]

theorem ceil_of_integral (x : Fp) (h : x.mag % Fp.one = 0) : x.ceil = x := by
  unfold Fp.ceil; rw [if_pos h]

theorem sub_self_eq (x : Fp) : x.sub x = ⟨false, 0⟩ := by
  unfold Fp.sub Fp.add Fp.negate Fp.toInt
  obtain ⟨neg, M⟩ := x
  cases neg <;> simp

theorem floor_pos (M : Nat) (h : M % Fp.one ≠ 0) :
    Fp.floor ⟨false, M⟩ = ⟨false, M / Fp.one * Fp.one⟩ := by
  unfold Fp.floor; rw [if_neg h]; rfl

theorem ceil_pos (M : Nat) (h : M % Fp.one ≠ 0) :
    Fp.ceil ⟨false, M⟩ = ⟨false, (M / Fp.one + 1) * Fp.one⟩ := by
  unfold Fp.ceil; rw [if_neg h]; rfl

theorem floor_neg (M : Nat) (h : M % Fp.one ≠ 0) :
    Fp.floor ⟨true, M⟩ = ⟨true, (M / Fp.one + 1) * Fp.one⟩ := by
  unfold Fp.floor; rw [if_neg h]; rfl

theorem ceil_neg (M : Nat) (h : M % Fp.one ≠ 0) :
    Fp.ceil ⟨true, M⟩ = ⟨true, M / Fp.one * Fp.one⟩ := by
  unfold Fp.ceil; rw [if_neg h]; rfl

theorem sub_floor_pos (M : Nat) (h : M % Fp.one ≠ 0) :
    Fp.sub ⟨false, M⟩ ⟨false, M / Fp.one * Fp.one⟩ = ⟨false, M % Fp.one⟩ := by
  have hd := Nat.div_add_mod M Fp.one
  have hc : Fp.one * (M / Fp.one) = M / Fp.one * Fp.one := Nat.mul_comm _ _
  unfold Fp.sub Fp.add Fp.negate Fp.toInt
  simp only [Bool.not_false, Bool.false_eq_true, if_false, if_true]
  generalize M / Fp.one * Fp.one = A at hc ⊢
  generalize Fp.one * (M / Fp.one) = B at hc hd
  generalize M % Fp.one = R at h hd ⊢
  have e : (M : Int) + -(A : Int) = (R : Int) := by omega
  rw [e, if_neg (by omega)]
  congr 1
  
theorem sub_floor_neg (M : Nat) :
    Fp.sub ⟨true, M⟩ ⟨true, (M / Fp.one + 1) * Fp.one⟩ = ⟨false, Fp.one - M % Fp.one⟩ := by
  have hd := Nat.div_add_mod M Fp.one
  have hl := Nat.mod_lt M Fp_one_pos
  have hc : (M / Fp.one + 1) * Fp.one = Fp.one * (M / Fp.one) + Fp.one := by ring
  unfold Fp.sub Fp.add Fp.negate Fp.toInt
  simp only [Bool.not_true, Bool.false_eq_true, if_false, if_true]
  generalize (M / Fp.one + 1) * Fp.one = A at hc ⊢
  generalize Fp.one * (M / Fp.one) = B at hc hd
  generalize M % Fp.one = R at hd hl ⊢
  generalize Fp.one = U at *
  have e : -(M : Int) + (A : Int) = ((U - R : Nat) : Int) := by omega
  rw [e, if_neg (by omega)]
  congr 1

theorem cvt_ss2si_unfold (a : Nat) (x : Fp) (hx : f32_decode (vgetq_lane_f32 a 0) = some x) :
    _mm_cvt_ss2si false a =
      if (f32_round (f64_round (x.sub x.floor))).toInt > Fp.half.toInt then
        c_cast_int 32 x.ceil
      else if (f32_round (f64_round (x.sub x.floor))).toInt = Fp.half.toInt then
        (c_cast_int 32 x.floor).bind fun f =>
          (c_cast_int 32 x.ceil).bind fun c => some (if c % 2 ≠ 0 then f else c)
      else
        c_cast_int 32 x.floor := by
  rw [_mm_cvt_ss2si, if_neg Bool.false_ne_true, hx]
  rfl

theorem half_toInt : Fp.half.toInt = (2 : Int) ^ 148 := by
  unfold Fp.half Fp.toInt Fp.one
  norm_num

theorem toInt_pos (n : Nat) : (Fp.mk false n).toInt = (n : Int) := rfl

theorem toInt_neg (n : Nat) : (Fp.mk true n).toInt = -(n : Int) := rfl

theorem frac_small (k s : Nat) (hk : k < 2 ^ 24) (h : (k * 2 ^ s) % 2 ^ 149 ≠ 0) :
    s < 149 ∧ k * 2 ^ s / 2 ^ 149 < 2 ^ 23 := by
  have hs : s < 149 := by
    by_contra hc
    obtain ⟨d, rfl⟩ : ∃ d, s = 149 + d := ⟨s - 149, by omega⟩
    apply h
    rw [pow_add, ← Nat.mul_assoc, Nat.mul_right_comm]
    exact Nat.mul_mod_left _ _
  refine ⟨hs, ?_⟩
  rw [Nat.div_lt_iff_lt_mul (Nat.two_pow_pos _), ← pow_add]
  calc k * 2 ^ s < 2 ^ 24 * 2 ^ s := Nat.mul_lt_mul_of_pos_right hk (Nat.two_pow_pos _)
    _ = 2 ^ (24 + s) := by rw [pow_add]
    _ ≤ 2 ^ (23 + 149) := Nat.pow_le_pow_right (by decide) (by omega)

theorem mod_repr (k s : Nat) (hs : s < 149) :
    (k * 2 ^ s) % 2 ^ 149 = (k % 2 ^ (149 - s)) * 2 ^ s := by
  have e : (2 : Nat) ^ 149 = 2 ^ (149 - s) * 2 ^ s := by
    rw [← pow_add]; congr 1; omega
  rw [e, Nat.mul_mod_mul_right]

theorem c_cast_int_pos (n : Nat) (h : (n : Int) < 2 ^ 31) :
    c_cast_int 32 ⟨false, n * Fp.one⟩ = some (n : Int) :=
  c_cast_int_int false n n rfl (by omega) h

theorem c_cast_int_neg (n : Nat) (h : -(2 : Int) ^ 31 ≤ -(n : Int)) :
    c_cast_int 32 ⟨true, n * Fp.one⟩ = some (-(n : Int)) :=
  c_cast_int_int true n (-(n : Int)) rfl h (by omega)

/-- The branches of the software path once the rounded `diff` and the two
casts are known. -/
theorem cvt_code_eval (dv F C : Fp) (D fl cl : Int)
    (hd : (f32_round (f64_round dv)).toInt = D)
    (hf : c_cast_int 32 F = some fl) (hc : c_cast_int 32 C = some cl) :
    (if (f32_round (f64_round dv)).toInt > Fp.half.toInt then c_cast_int 32 C
      else if (f32_round (f64_round dv)).toInt = Fp.half.toInt then
        (c_cast_int 32 F).bind fun f =>
          (c_cast_int 32 C).bind fun c => some (if c % 2 ≠ 0 then f else c)
      else c_cast_int 32 F)
      = some (if D > 2 ^ 148 then cl else if D = 2 ^ 148 then (if cl % 2 ≠ 0 then fl else cl)
          else fl) := by
  rw [hd, hf, hc, half_toInt]
  simp only [Option.some_bind]
  split_ifs <;> rfl

set_option maxRecDepth 100000 in
/-- A non-integral value whose difference to its floor is not changed by the
two roundings, or which lies in `(-0.5, 0)`: the software path returns the
rounding of the specification. -/
theorem cvt_ss2si_frac_core (neg : Bool) (M : Nat)
    (hR : M % Fp.one ≠ 0) (hq : M / Fp.one < 2 ^ 23)
    (hexP : neg = false →
      f32_round (f64_round ⟨false, M % Fp.one⟩) = ⟨false, M % Fp.one⟩)
    (hexN : neg = true → 2 ^ 148 ≤ M →
      f32_round (f64_round ⟨false, Fp.one - M % Fp.one⟩) = ⟨false, Fp.one - M % Fp.one⟩) :
    (if (f32_round (f64_round ((Fp.mk neg M).sub (Fp.mk neg M).floor))).toInt > Fp.half.toInt then
        c_cast_int 32 (Fp.mk neg M).ceil
      else if (f32_round (f64_round ((Fp.mk neg M).sub (Fp.mk neg M).floor))).toInt
          = Fp.half.toInt then
        (c_cast_int 32 (Fp.mk neg M).floor).bind fun f =>
          (c_cast_int 32 (Fp.mk neg M).ceil).bind fun c =>
            some (if c % 2 ≠ 0 then f else c)
      else
        c_cast_int 32 (Fp.mk neg M).floor)
      = some (toNearestEvenInt (Fp.mk neg M)) := by
  have hU : Fp.one = 2 ^ 149 := rfl
  have hrl := Nat.mod_lt M Fp_one_pos
  have hdm := Nat.div_add_mod M Fp.one
  unfold toNearestEvenInt
  simp only []
  cases neg
  · -- positive
    rw [floor_pos _ hR, ceil_pos _ hR, sub_floor_pos _ hR, intValue_int, intValue_int,
      toInt_pos]
    have hdiff := hexP rfl
    generalize M % Fp.one = R at *
    generalize M / Fp.one = q at *
    have h1 : (f32_round (f64_round ⟨false, R⟩)).toInt = (R : Int) := by rw [hdiff, toInt_pos]
    have h2 := c_cast_int_pos q (by omega)
    have h3 := c_cast_int_pos (q + 1) (by omega)
    have hcode := cvt_code_eval _ _ _ (R : Int) (q : Int) ((q + 1 : Nat) : Int) h1 h2 h3
    rewrite [hcode]
    rewrite [half_toInt]
    refine congrArg some ?_
    simp only [Bool.false_eq_true, if_false]
    push_cast
    split_ifs <;> omega
  · -- negative
    rw [floor_neg _ hR, ceil_neg _ hR, sub_floor_neg, intValue_int, intValue_int,
      toInt_pos]
    by_cases hbig : 2 ^ 148 ≤ M
    · have hdiff := hexN rfl hbig
      generalize M % Fp.one = R at *
      generalize M / Fp.one = q at *
      rewrite [cvt_code_eval _ _ _ ((Fp.one - R : Nat) : Int)
          (-((q + 1 : Nat) : Int)) (-(q : Int))
          (by rw [hdiff, toInt_pos])
          (c_cast_int_neg (q + 1) (by omega))
          (c_cast_int_neg q (by omega)), half_toInt]
      refine congrArg some ?_
      simp only [if_true]
      rw [hU] at hrl ⊢
      push_cast
      split_ifs <;> omega
    · have hlt : M < 2 ^ 148 := not_le.1 hbig
      have hq0 : M / Fp.one = 0 := Nat.div_eq_of_lt (by rw [hU]; omega)
      have hr0 : M % Fp.one = M := Nat.mod_eq_of_lt (by rw [hU]; omega)
      have hge := diff_ge_half (Fp.one - M % Fp.one) (by rw [hr0, hU]; omega)
      rewrite [cvt_code_eval _ _ _ _
          (-((M / Fp.one + 1 : Nat) : Int)) (-((M / Fp.one : Nat) : Int)) rfl
          (c_cast_int_neg _ (by omega))
          (c_cast_int_neg _ (by omega)), half_toInt]
      refine congrArg some ?_
      generalize (f32_round (f64_round ⟨false, Fp.one - M % Fp.one⟩)).toInt = D' at hge ⊢
      simp only [if_true]
      rw [hq0, hr0, hU]
      push_cast
      split_ifs <;> omega

set_option maxRecDepth 100000 in
/-- An integral value: the software path returns it, when it fits. -/
theorem cvt_ss2si_integral_core (neg : Bool) (M : Nat) (hR : M % Fp.one = 0)
    (hlo : -(2 : Int) ^ 31 ≤ toNearestEvenInt (Fp.mk neg M))
    (hhi : toNearestEvenInt (Fp.mk neg M) < (2 : Int) ^ 31) :
    (if (f32_round (f64_round ((Fp.mk neg M).sub (Fp.mk neg M).floor))).toInt > Fp.half.toInt then
        c_cast_int 32 (Fp.mk neg M).ceil
      else if (f32_round (f64_round ((Fp.mk neg M).sub (Fp.mk neg M).floor))).toInt
          = Fp.half.toInt then
        (c_cast_int 32 (Fp.mk neg M).floor).bind fun f =>
          (c_cast_int 32 (Fp.mk neg M).ceil).bind fun c =>
            some (if c % 2 ≠ 0 then f else c)
      else
        c_cast_int 32 (Fp.mk neg M).floor)
      = some (toNearestEvenInt (Fp.mk neg M)) := by
  have hspec : toNearestEvenInt (Fp.mk neg M) = (Fp.mk neg M).intValue := by
    unfold toNearestEvenInt
    simp only []
    rw [floor_of_integral _ hR, ceil_of_integral _ hR, sub_self_eq, half_toInt, toInt_pos]
    rw [if_neg (by norm_num), if_pos (by norm_num)]
  rw [hspec] at hlo hhi ⊢
  have hd : (f32_round (f64_round ⟨false, 0⟩)).toInt = 0 := by
    have := diff_exact 0 0 (by decide)
    rw [Nat.zero_mul] at this
    rw [this]
    rfl
  rw [floor_of_integral _ hR, ceil_of_integral _ hR, sub_self_eq, hd, half_toInt]
  rw [if_neg (by norm_num), if_neg (by norm_num)]
  obtain ⟨q, rfl⟩ : ∃ q, M = q * Fp.one := ⟨M / Fp.one, (Nat.div_mul_cancel
    (Nat.dvd_of_mod_eq_zero hR)).symm⟩
  exact c_cast_int_int neg q _ (intValue_int neg q) hlo hhi

/-- The software path on a finite lane: the rounding of the specification,
when that fits `int32_t`. -/
theorem cvt_ss2si_soft (a : Nat) (x : Fp) (hx : f32_decode (vgetq_lane_f32 a 0) = some x)
    (hlo : -(2 : Int) ^ 31 ≤ toNearestEvenInt x) (hhi : toNearestEvenInt x < (2 : Int) ^ 31) :
    _mm_cvt_ss2si false a = some (toNearestEvenInt x) := by
  rw [cvt_ss2si_unfold a x hx]
  obtain ⟨k, s, hM, hk⟩ := f32_decode_form _ x hx
  obtain ⟨neg, M⟩ := x
  simp only [] at hM
  by_cases hR : M % Fp.one = 0
  · exact cvt_ss2si_integral_core neg M hR hlo hhi
  · have hU : Fp.one = 2 ^ 149 := rfl
    subst hM
    obtain ⟨hs, hq⟩ := frac_small k s hk (by rw [← hU]; exact hR)
    have hmr := mod_repr k s hs
    rw [← hU] at hq hmr
    refine cvt_ss2si_frac_core neg _ hR hq ?_ ?_
    · intro _
      rw [hmr]
      exact diff_exact _ s (lt_of_le_of_lt (Nat.mod_le _ _) hk)
    · intro _ hbig
      have hs2 : 125 ≤ s := by
        by_contra hc
        have : k * 2 ^ s < 2 ^ 24 * 2 ^ 124 :=
          lt_of_lt_of_le (Nat.mul_lt_mul_of_pos_right hk (Nat.two_pow_pos _))
            (Nat.mul_le_mul_left _ (Nat.pow_le_pow_right (by decide) (by omega)))
        omega
      have e : Fp.one - (k * 2 ^ s) % Fp.one
          = (2 ^ (149 - s) - k % 2 ^ (149 - s)) * 2 ^ s := by
        rw [hmr, Nat.sub_mul, ← pow_add, hU]
        congr 2
        omega
      rw [e]
      apply diff_exact
      have h0 : k % 2 ^ (149 - s) ≠ 0 := by
        intro h0
        apply hR
        rw [hmr, h0, Nat.zero_mul]
      have h24 : 2 ^ (149 - s) ≤ 2 ^ 24 := Nat.pow_le_pow_right (by decide) (by omega)
      omega

theorem abs_half_bound (U v r : Int)
    (h1 : -U ≤ 2 * (v - r * U) ∧ 2 * (v - r * U) ≤ U)
    (h2 : 2 * (v - r * U) = U ∨ 2 * (v - r * U) = -U → r % 2 = 0) :
    2 * |v - r * U| ≤ U ∧ (2 * |v - r * U| = U → r % 2 = 0) := by
  generalize v - r * U = w at h1 h2 ⊢
  rcases abs_cases w with ⟨ha, _⟩ | ⟨ha, _⟩
  · rw [ha]
    exact ⟨h1.2, fun h => h2 (Or.inl h)⟩
  · rw [ha]
    exact ⟨by omega, fun h => h2 (Or.inr (by omega))⟩

set_option maxRecDepth 100000 in
/-- The rounding of the specification is an integer nearest to the value, and
it is even when the value is halfway between two integers. -/
theorem toNearestEvenInt_nearest (x : Fp) :
    2 * |x.toInt - toNearestEvenInt x * (Fp.one : Int)| ≤ (Fp.one : Int) ∧
    (2 * |x.toInt - toNearestEvenInt x * (Fp.one : Int)| = (Fp.one : Int) →
      toNearestEvenInt x % 2 = 0) := by
  obtain ⟨neg, M⟩ := x
  have hU : Fp.one = 2 ^ 149 := rfl
  have hrl := Nat.mod_lt M Fp_one_pos
  have hdm := Nat.div_add_mod M Fp.one
  apply abs_half_bound
  all_goals
    unfold toNearestEvenInt
    simp only []
    rw [half_toInt]
  all_goals
    by_cases hR : M % Fp.one = 0
    · rw [floor_of_integral _ hR, ceil_of_integral _ hR, sub_self_eq, toInt_pos]
      obtain ⟨q, rfl⟩ : ∃ q, M = q * Fp.one := ⟨M / Fp.one, (Nat.div_mul_cancel
        (Nat.dvd_of_mod_eq_zero hR)).symm⟩
      rw [intValue_int]
      rw [hU]
      cases neg
      · rw [toInt_pos]
        simp only [Bool.false_eq_true, if_false]
        push_cast
        omega
      · rw [toInt_neg]
        simp only [if_true]
        push_cast
        omega
    · cases neg
      · rw [floor_pos _ hR, ceil_pos _ hR, sub_floor_pos _ hR, intValue_int, intValue_int,
          toInt_pos, toInt_pos]
        simp only [Bool.false_eq_true, if_false]
        rw [hU] at hrl hdm ⊢
        generalize M % 2 ^ 149 = R at *
        generalize M / 2 ^ 149 = q at *
        subst hdm
        push_cast
        split_ifs <;> omega
      · rw [floor_neg _ hR, ceil_neg _ hR, sub_floor_neg, intValue_int, intValue_int,
          toInt_pos, toInt_neg]
        simp only [if_true]
        rw [hU] at hrl hdm ⊢
        generalize M % 2 ^ 149 = R at *
        generalize M / 2 ^ 149 = q at *
        subst hdm
        push_cast
        split_ifs <;> omega

/-- C19: for every register `a` whose lane 0 holds a finite single-precision
value `x` (any bit pattern that is not an infinity or a NaN) and whose rounded
value fits in a signed 32-bit integer, the non-aarch64 path of
`_mm_cvt_ss2si` returns `toNearestEvenInt x`, the rule in the words of the
specification: with `f = floor(x)`, `c = ceil(x)`, `diff = x - f`, it is `c`
if `diff > 0.5`, `f` if `diff < 0.5`, and whichever of `f` and `c` is even if
`diff = 0.5`.  That integer is nearest to `x` (`2 * |x - r| <= 1`, in units of
`2^-149`), and it is even when `x` is exactly halfway between two integers. -/
theorem cvt_ss2si_nearest_even (a : Nat) (x : Fp)
    (hx : f32_decode (vgetq_lane_f32 a 0) = some x)
    (hlo : -(2 : Int) ^ 31 ≤ toNearestEvenInt x) (hhi : toNearestEvenInt x < (2 : Int) ^ 31) :
    _mm_cvt_ss2si false a = some (toNearestEvenInt x) ∧
    2 * |x.toInt - toNearestEvenInt x * (Fp.one : Int)| ≤ (Fp.one : Int) ∧
    (2 * |x.toInt - toNearestEvenInt x * (Fp.one : Int)| = (Fp.one : Int) →
      toNearestEvenInt x % 2 = 0) :=
  ⟨cvt_ss2si_soft a x hx hlo hhi, toNearestEvenInt_nearest x⟩

/-- Instance of `cvt_ss2si_nearest_even` at lane 0 equal to `2.5f` (bit
pattern `0x40200000`, the value `5 * 2^148` in units of `2^-149`), which is
converted to 2. -/
theorem cvt_ss2si_nearest_even_witness :
    (f32_decode (vgetq_lane_f32 0x40200000 0) = some ⟨false, 5 * 2 ^ 148⟩ ∧
      toNearestEvenInt ⟨false, 5 * 2 ^ 148⟩ = 2) ∧
    _mm_cvt_ss2si false 0x40200000 = some (toNearestEvenInt ⟨false, 5 * 2 ^ 148⟩) ∧
    2 * |(Fp.mk false (5 * 2 ^ 148)).toInt
        - toNearestEvenInt ⟨false, 5 * 2 ^ 148⟩ * (Fp.one : Int)| ≤ (Fp.one : Int) ∧
    (2 * |(Fp.mk false (5 * 2 ^ 148)).toInt
        - toNearestEvenInt ⟨false, 5 * 2 ^ 148⟩ * (Fp.one : Int)| = (Fp.one : Int) →
      toNearestEvenInt ⟨false, 5 * 2 ^ 148⟩ % 2 = 0) :=
  ⟨⟨rfl, by decide!⟩,
    cvt_ss2si_nearest_even 0x40200000 ⟨false, 5 * 2 ^ 148⟩ rfl (by decide!) (by decide!)⟩

/-! ## The packed conversion: the vector primitives lane by lane -/

end Sse2neon
